import Mathlib

/-!
# Tablet write manager

A shallow embedding of `TTabletWriteManager`
(`yt/yt/server/node/tablet_node/tablet_write_manager.cpp`) and theorems about it.

Conventions of the embedding.

* A `TTablet*` is a tablet id; the host's tablet map is a function from ids to tablets.
  A `TTransaction*` handed to a lifecycle hook is the transaction value, returned updated.
* Counters (`int`, `i64`) are unbounded integers: no claim here depends on wrap-around.
  `TTransactionSignature` is a 32-bit unsigned integer and is added modulo `2^32`.
* A thrown `TErrorException` and a failed `YT_VERIFY`/`YT_ABORT`/`YT_ASSERT` are both values
  of `TError`; the latter is `TError.Fatal`.
* Collaborators whose code is outside the file (store manager, lock manager, codecs,
  transaction-id helpers, configuration) are fields of `TCollaborators`; every definition is
  parametric in them.  Calls to the store manager and to host callbacks without a modelled
  effect are appended to `TState.Trace`, and the collaborators may answer depending on it.
* Logging and profiling counters are left out.
-/

namespace NTabletNode

/-! ## Data model -/

abbrev TTabletId := Nat
abbrev TTransactionId := Nat
abbrev TTableReplicaId := Nat
abbrev TTimestamp := Nat
abbrev TRevision := Nat
abbrev TSharedRef := List Nat
abbrev TSyncReplicaIdList := List TTableReplicaId
abbrev TTransactionSignature := Nat

inductive EAtomicity where
  | Full
  | None
  deriving DecidableEq, Repr

inductive ECommitOrdering where
  | Weak
  | Strong
  deriving DecidableEq, Repr

inductive EWritePhase where
  | Prelock
  | Lock
  | Commit
  deriving DecidableEq, Repr

inductive ETableReplicaMode where
  | Sync
  | Async
  deriving DecidableEq, Repr

inductive ETableReplicaState where
  | None
  | Disabling
  | Disabled
  | Enabling
  | Enabled
  deriving DecidableEq, Repr

inductive ETabletState where
  | Mounting
  | Mounted
  | Unmounting
  | Unmounted
  | Orphaned
  deriving DecidableEq, Repr

inductive ETransactionState where
  | Active
  | Prepared
  | Committed
  | Aborted
  deriving DecidableEq, Repr

/-- Errors: the error codes thrown by the write manager, and `Fatal` for a failed
`YT_VERIFY`, `YT_ASSERT` or `YT_ABORT`. -/
inductive TError where
  | Fatal
  | NoSuchTablet
  | InvalidMountRevision
  | TabletNotMounted
  | TimestampOffLimits
  | AllWritesDisabledStores
  | AllWritesDisabledOverlappingStores
  | AllWritesDisabledEdenStores
  | AllWritesDisabledOverflow
  | MemoryLimitExceeded
  | ReplicatorWriteBlockedByUser
  | UserWriteBlockedByReplicator
  | TransactionConflict
  | InvalidTransactionState
  | SyncReplicaIsNotKnown
  | SyncReplicaIsNotInSyncMode
  | SyncReplicaIsNotWritten
  | ReplicaNotWritable
  | StoreError
  deriving DecidableEq, Repr

structure TAuthenticationIdentity where
  User : String
  UserTag : String
  deriving DecidableEq, Repr

/-- Modelled from the spec: `TTransactionWriteRecord` (declared in `transaction.h`): tablet
id, raw encoded row batch, row count, data weight, synchronous replica ids. -/
structure TTransactionWriteRecord where
  TabletId : TTabletId
  Data : TSharedRef
  RowCount : Int
  DataWeight : Int
  SyncReplicaIds : TSyncReplicaIdList
  deriving DecidableEq, Repr

/-- Modelled from the spec: `TSortedDynamicRowRef`, an opaque reference into a store's lock
table; `Tablet` stands for `Store->GetTablet()`. -/
structure TSortedDynamicRowRef where
  Store : Nat
  Row : Nat
  Tablet : TTabletId
  deriving DecidableEq, Repr

/-- Modelled from the spec: `TTableReplicaInfo` (declared in `tablet.h`). -/
structure TTableReplicaInfo where
  Id : TTableReplicaId
  Mode : ETableReplicaMode
  State : ETableReplicaState
  CurrentReplicationRowIndex : Int
  CurrentReplicationTimestamp : TTimestamp
  PreparedReplicationTransactionId : Option TTransactionId
  deriving DecidableEq, Repr

/-- Modelled from the spec: `TTablet` (declared in `tablet.h`), restricted to the attributes
the write manager reads or writes.  The tablet id is the key of the host's tablet map. -/
structure TTablet where
  MountRevision : TRevision
  State : ETabletState
  Atomicity : EAtomicity
  CommitOrdering : ECommitOrdering
  PhysicallyOrdered : Bool
  Replicated : Bool
  Replicas : List TTableReplicaInfo
  InFlightUserMutationCount : Int
  InFlightReplicatorMutationCount : Int
  PendingUserWriteRecordCount : Int
  PendingReplicatorWriteRecordCount : Int
  DelayedLocklessRowCount : Int
  TotalRowCount : Int
  TabletLockCount : Int
  LastCommitTimestamp : TTimestamp
  LastWriteTimestamp : TTimestamp
  UnflushedTimestamp : TTimestamp
  StoreCount : Int
  OverlappingStoreCount : Int
  EdenStoreCount : Int
  MaxStoresPerTablet : Int
  MaxOverlappingStoreCount : Int
  MaxEdenStoresPerTablet : Int
  PoolTag : Option String
  deriving DecidableEq, Repr

/-- Modelled from the spec: `TTransaction` (declared in `transaction.h`). -/
structure TTransaction where
  Id : TTransactionId
  StartTimestamp : TTimestamp
  Timeout : Nat
  PrepareTimestamp : TTimestamp
  CommitTimestamp : TTimestamp
  State : ETransactionState
  Transient : Bool
  Foreign : Bool
  TransientSignature : TTransactionSignature
  PersistentSignature : TTransactionSignature
  ImmediateLockedWriteLog : List TTransactionWriteRecord
  ImmediateLocklessWriteLog : List TTransactionWriteRecord
  DelayedLocklessWriteLog : List TTransactionWriteRecord
  PrelockedRows : List TSortedDynamicRowRef
  LockedRows : List TSortedDynamicRowRef
  LockedTablets : List TTabletId
  RowsPrepared : Bool
  AuthenticationIdentity : TAuthenticationIdentity
  deriving DecidableEq, Repr

/-- The three write logs of a transaction; a `TTransactionWriteLog*` into a transaction is
one of these. -/
inductive EWriteLog where
  | ImmediateLocked
  | ImmediateLockless
  | DelayedLockless
  deriving DecidableEq, Repr

/-- The cursor over an encoded row batch (`TWireProtocolReader`). -/
structure TWireProtocolReader where
  Data : TSharedRef
  Current : Nat
  deriving DecidableEq, Repr

/-- The fields of `TWriteContext` the write manager sets or reads. -/
structure TWriteContext where
  Phase : EWritePhase
  Transaction : Option TTransactionId
  CommitTimestamp : TTimestamp
  RowCount : Int
  DataWeight : Int
  BlockedStore : Bool
  Error : Bool
  deriving DecidableEq, Repr

/-- Calls to collaborators that have no effect on the modelled state. -/
inductive TEvent where
  | ExecuteWrites (tablet : TTabletId) (context : TWriteContext) (reader : TWireProtocolReader)
  | ConfirmRow (transaction : TTransactionId) (rowRef : TSortedDynamicRowRef)
  | PrepareRow (transaction : TTransactionId) (rowRef : TSortedDynamicRowRef)
  | CommitRow (transaction : TTransactionId) (rowRef : TSortedDynamicRowRef)
  | AbortRow (transaction : TTransactionId) (rowRef : TSortedDynamicRowRef)
  | ValidateAndDiscardRowRef (rowRef : TSortedDynamicRowRef)
  | WaitOnBlockedRow (tablet : TTabletId)
  | CheckIfTabletFullyUnlocked (tablet : TTabletId)
  | AdvanceReplicatedTrimmedRowCount (tablet : TTabletId) (transaction : TTransactionId)
  deriving DecidableEq, Repr

/-- What one call of `IStoreManager::ExecuteWrites` does: how many bytes of the reader it
consumes, the counters and blocking information it leaves in the context, and the rows it
prelocks or locks for the transaction. -/
structure TExecuteWritesOutcome where
  Consumed : Nat
  RowCount : Int
  DataWeight : Int
  BlockedStore : Bool
  Error : Bool
  RowRefs : List TSortedDynamicRowRef
  deriving DecidableEq, Repr

/-- The request of the `WriteRows` mutation (`TReqWriteRows`). -/
structure TReqWriteRows where
  transaction_id : TTransactionId
  transaction_start_timestamp : TTimestamp
  transaction_timeout : Nat
  tablet_id : TTabletId
  mount_revision : TRevision
  codec : Nat
  compressed_data : TSharedRef
  signature : TTransactionSignature
  lockless : Bool
  row_count : Int
  data_weight : Int
  sync_replica_ids : TSyncReplicaIdList
  identity : TAuthenticationIdentity
  deriving DecidableEq, Repr

/-- The arguments bound to the leader handler `HydraLeaderWriteRows` of a mutation. -/
structure TLeaderWriteRows where
  TransactionId : TTransactionId
  MountRevision : TRevision
  Signature : TTransactionSignature
  Lockless : Bool
  WriteRecord : TTransactionWriteRecord
  Identity : TAuthenticationIdentity
  deriving DecidableEq, Repr

/-- A mutation submitted by `Write`: the serialized request delivered to followers and the
handler run on the leader. -/
structure TMutation where
  Request : TReqWriteRows
  Handler : TLeaderWriteRows
  deriving DecidableEq, Repr

/-- Declarations and collaborators that live outside `tablet_write_manager.cpp`. -/
structure TCollaborators where
  AtomicityFromTransactionId : TTransactionId → EAtomicity
  TimestampFromTransactionId : TTransactionId → TTimestamp
  TimestampToInstant : TTimestamp → Int
  LatestTimestamp : TTimestamp
  ClientTimestampThreshold : Int
  ReplicatorUserName : String
  InitialTransactionSignature : TTransactionSignature
  GetByteSize : TTransactionWriteRecord → Int
  ChangelogCodec : Nat
  Compress : Nat → TSharedRef → TSharedRef
  Decompress : Nat → TSharedRef → TSharedRef
  EnableTabletDynamicMemoryLimit : Bool
  Reign : Nat
  ReplicationBarrier_YT_14346 : Nat
  Leading : Bool
  ExecuteWrites : List TEvent → TTabletId → TWireProtocolReader → TWriteContext →
    TExecuteWritesOutcome
  ValidateAndDiscardRowRef : List TEvent → TSortedDynamicRowRef → Bool
  StoreOrphaned : List TEvent → TSortedDynamicRowRef → Bool
  CheckOverflow : List TEvent → TTabletId → Bool
  ValidateMemoryLimit : List TEvent → Option String → Bool
  ValidateTransactionConflict : List TEvent → TTabletId → TTimestamp → Bool
  ComputeTotalRowCount : List TEvent → TTabletId → Int

/-- The state of the write manager and of the host it borrows tablets from. -/
structure TState where
  Tablets : TTabletId → Option TTablet
  PrelockedTablets : List TTabletId
  WriteLogsMemoryTrackerGuard : Int
  Mutations : List TMutation
  Trace : List TEvent

/-- The transactions held by the transaction manager. -/
abbrev TTransactionManager := List TTransaction

/-! ## Host, tablet and transaction-manager helpers -/

/-- The constant `NullTimestamp`. -/
def NullTimestamp : TTimestamp := 0

/-- Addition of transaction signatures (32-bit unsigned). -/
def AddSignature (a b : TTransactionSignature) : TTransactionSignature := (a + b) % 2 ^ 32

def TState.FindTablet (s : TState) (tabletId : TTabletId) : Option TTablet :=
  s.Tablets tabletId

def TState.GetTabletOrThrow (s : TState) (tabletId : TTabletId) : Except TError TTablet :=
  match s.Tablets tabletId with
  | some tablet => .ok tablet
  | none => .error .NoSuchTablet

/-- Applies a setter to the tablet behind a `TTablet*`. -/
def TState.UpdateTablet (s : TState) (tabletId : TTabletId) (f : TTablet → TTablet) : TState :=
  { s with Tablets := fun i => if i = tabletId then (s.Tablets i).map f else s.Tablets i }

def TState.Record (s : TState) (event : TEvent) : TState :=
  { s with Trace := s.Trace ++ [event] }

/-- Modelled from the spec: `Host_->LockTablet`; the tablet lock count is a reference
count. -/
def LockTablet (s : TState) (tabletId : TTabletId) : TState :=
  s.UpdateTablet tabletId (fun t => { t with TabletLockCount := t.TabletLockCount + 1 })

/-- Modelled from the spec: `Host_->UnlockTablet`. -/
def UnlockTablet (s : TState) (tabletId : TTabletId) : TState :=
  s.UpdateTablet tabletId (fun t => { t with TabletLockCount := t.TabletLockCount - 1 })

/-- Modelled from the spec: `Host_->UnlockLockedTablets` releases all tablet locks held by
the transaction. -/
def UnlockLockedTablets (s : TState) (transaction : TTransaction) : TState × TTransaction :=
  (transaction.LockedTablets.foldl UnlockTablet s, { transaction with LockedTablets := [] })

/-- Modelled from the spec: `TTablet::UpdateLastCommitTimestamp`. -/
def TTablet.UpdateLastCommitTimestamp (tablet : TTablet) (timestamp : TTimestamp) : TTablet :=
  { tablet with LastCommitTimestamp := timestamp }

/-- Modelled from the spec: `TTablet::UpdateLastWriteTimestamp`. -/
def TTablet.UpdateLastWriteTimestamp (tablet : TTablet) (timestamp : TTimestamp) : TTablet :=
  { tablet with LastWriteTimestamp := timestamp }

def TTablet.FindReplicaInfo (tablet : TTablet) (replicaId : TTableReplicaId) :
    Option TTableReplicaInfo :=
  tablet.Replicas.find? (fun r => r.Id == replicaId)

/-- Applies a setter to the replica behind a `TTableReplicaInfo*`. -/
def TTablet.UpdateReplica (tablet : TTablet) (replicaId : TTableReplicaId)
    (f : TTableReplicaInfo → TTableReplicaInfo) : TTablet :=
  { tablet with Replicas := tablet.Replicas.map (fun r => if r.Id = replicaId then f r else r) }

def TTransaction.WriteLog (transaction : TTransaction) : EWriteLog → List TTransactionWriteRecord
  | .ImmediateLocked => transaction.ImmediateLockedWriteLog
  | .ImmediateLockless => transaction.ImmediateLocklessWriteLog
  | .DelayedLockless => transaction.DelayedLocklessWriteLog

def TTransaction.SetWriteLog (transaction : TTransaction) (writeLog : EWriteLog)
    (records : List TTransactionWriteRecord) : TTransaction :=
  match writeLog with
  | .ImmediateLocked => { transaction with ImmediateLockedWriteLog := records }
  | .ImmediateLockless => { transaction with ImmediateLocklessWriteLog := records }
  | .DelayedLockless => { transaction with DelayedLocklessWriteLog := records }

def TTransactionManager.Find (tm : TTransactionManager) (transactionId : TTransactionId) :
    Option TTransaction :=
  List.find? (fun t => t.Id == transactionId) tm

/-- Writes back the transaction behind a `TTransaction*`. -/
def TTransactionManager.Store (tm : TTransactionManager) (transaction : TTransaction) :
    TTransactionManager :=
  List.map (fun t => if t.Id = transaction.Id then transaction else t) tm

/-- Modelled from the spec: `TTransactionManager::GetOrCreateTransaction`; a created
transaction is active, has empty logs and carries the current authentication identity.  The
result is the manager, the transaction and the `fresh` flag. -/
def GetOrCreateTransaction (env : TCollaborators) (tm : TTransactionManager)
    (transactionId : TTransactionId) (startTimestamp : TTimestamp) (timeout : Nat)
    (transient : Bool) (identity : TAuthenticationIdentity) :
    TTransactionManager × TTransaction × Bool :=
  match tm.Find transactionId with
  | some transaction => (tm, transaction, false)
  | none =>
    let transaction : TTransaction :=
      { Id := transactionId
        StartTimestamp := startTimestamp
        Timeout := timeout
        PrepareTimestamp := NullTimestamp
        CommitTimestamp := NullTimestamp
        State := .Active
        Transient := transient
        Foreign := false
        TransientSignature := env.InitialTransactionSignature
        PersistentSignature := env.InitialTransactionSignature
        ImmediateLockedWriteLog := []
        ImmediateLocklessWriteLog := []
        DelayedLocklessWriteLog := []
        PrelockedRows := []
        LockedRows := []
        LockedTablets := []
        RowsPrepared := false
        AuthenticationIdentity := identity }
    (tm ++ [transaction], transaction, true)

/-- Modelled from the spec: `TTransactionManager::MakeTransactionPersistent`; the
transaction must exist. -/
def MakeTransactionPersistent (tm : TTransactionManager) (transactionId : TTransactionId) :
    Except TError TTransaction :=
  match tm.Find transactionId with
  | some transaction => .ok { transaction with Transient := false }
  | none => .error .Fatal

/-- Modelled from the spec: `TTransactionManager::DropTransaction`. -/
def DropTransaction (tm : TTransactionManager) (transaction : TTransaction) :
    TTransactionManager :=
  List.filter (fun t => t.Id != transaction.Id) tm

/-! ## The reader and the store manager -/

def TWireProtocolReader.IsFinished (reader : TWireProtocolReader) : Bool :=
  reader.Current == reader.Data.length

def TWireProtocolReader.GetEnd (reader : TWireProtocolReader) : Nat :=
  reader.Data.length

def TWireProtocolReader.Slice (reader : TWireProtocolReader) (first last : Nat) : TSharedRef :=
  (reader.Data.drop first).take (last - first)

structure TExecuteWritesResult where
  State : TState
  Reader : TWireProtocolReader
  Context : TWriteContext
  RowRefs : List TSortedDynamicRowRef
  Drained : Bool

/-- Modelled from the spec: `IStoreManager::ExecuteWrites(reader, context) -> bool` consumes
part of the reader, sets `RowCount`, `DataWeight`, `BlockedStore` and `Error` in the context
and returns whether the whole reader was drained.  `RowRefs` are the rows it prelocked
(phase `Prelock`) or locked (phase `Lock`) for the transaction. -/
def ExecuteWrites (env : TCollaborators) (s : TState) (tabletId : TTabletId)
    (reader : TWireProtocolReader) (context : TWriteContext) : TExecuteWritesResult :=
  let outcome := env.ExecuteWrites s.Trace tabletId reader context
  let readerAfter : TWireProtocolReader :=
    { reader with Current := min (reader.Current + outcome.Consumed) reader.Data.length }
  { State := s.Record (.ExecuteWrites tabletId context reader)
    Reader := readerAfter
    Context :=
      { context with
        RowCount := outcome.RowCount
        DataWeight := outcome.DataWeight
        BlockedStore := outcome.BlockedStore
        Error := outcome.Error }
    RowRefs := outcome.RowRefs
    Drained := readerAfter.IsFinished }

/-- Modelled from the spec: `Host_->ValidateAndDiscardRowRef(rowRef) -> bool`. -/
def ValidateAndDiscardRowRef (env : TCollaborators) (s : TState)
    (rowRef : TSortedDynamicRowRef) : TState × Bool :=
  (s.Record (.ValidateAndDiscardRowRef rowRef), env.ValidateAndDiscardRowRef s.Trace rowRef)

/-- Modelled from the spec: `IStoreManager::ConfirmRow` turns a prelocked row into a locked
row of the transaction. -/
def ConfirmRow (s : TState) (transaction : TTransaction) (rowRef : TSortedDynamicRowRef) :
    TState × TTransaction :=
  (s.Record (.ConfirmRow transaction.Id rowRef),
    { transaction with LockedRows := transaction.LockedRows ++ [rowRef] })

/-! ## Counters -/

def IsReplicatorWrite (env : TCollaborators) (identity : TAuthenticationIdentity) : Bool :=
  identity.User == env.ReplicatorUserName

def IncrementTabletInFlightMutationCount (tablet : TTablet) (replicatorWrite : Bool)
    (delta : Int) : TTablet :=
  if replicatorWrite then
    { tablet with
      InFlightReplicatorMutationCount := tablet.InFlightReplicatorMutationCount + delta }
  else
    { tablet with InFlightUserMutationCount := tablet.InFlightUserMutationCount + delta }

def IncrementTabletPendingWriteRecordCount (tablet : TTablet) (replicatorWrite : Bool)
    (delta : Int) : TTablet :=
  if replicatorWrite then
    { tablet with
      PendingReplicatorWriteRecordCount := tablet.PendingReplicatorWriteRecordCount + delta }
  else
    { tablet with PendingUserWriteRecordCount := tablet.PendingUserWriteRecordCount + delta }

def FinishTabletCommit (env : TCollaborators) (s : TState) (tabletId : TTabletId)
    (transaction : Option TTransaction) (timestamp : TTimestamp) : Except TError TState :=
  match s.Tablets tabletId with
  | none => .ok s
  | some tablet =>
    let checked : Bool :=
      match transaction with
      | some t =>
        !t.Foreign && t.PrepareTimestamp != NullTimestamp &&
          tablet.Atomicity == EAtomicity.Full && env.Leading
      | none => false
    if checked && !(decide (tablet.UnflushedTimestamp ≤ timestamp)) then
      .error .Fatal
    else
      let s1 := s.UpdateTablet tabletId (fun t => t.UpdateLastCommitTimestamp timestamp)
      if tablet.PhysicallyOrdered then
        .ok (s1.UpdateTablet tabletId
          (fun t => { t with TotalRowCount := env.ComputeTotalRowCount s.Trace tabletId }))
      else
        .ok s1

def EnqueueTransactionWriteRecord (env : TCollaborators) (s : TState)
    (transaction : TTransaction) (tabletId : TTabletId) (writeLog : EWriteLog)
    (record : TTransactionWriteRecord) (signature : TTransactionSignature) :
    TState × TTransaction :=
  let s1 : TState :=
    { s with
      WriteLogsMemoryTrackerGuard := s.WriteLogsMemoryTrackerGuard + env.GetByteSize record }
  let t1 := transaction.SetWriteLog writeLog (transaction.WriteLog writeLog ++ [record])
  let t2 : TTransaction :=
    { t1 with PersistentSignature := AddSignature t1.PersistentSignature signature }
  let replicatorWrite := IsReplicatorWrite env t2.AuthenticationIdentity
  (s1.UpdateTablet tabletId
    (fun t => IncrementTabletPendingWriteRecordCount t replicatorWrite 1), t2)

/-- The loop of `DropTransactionWriteLog`, returning the state and the accumulated
`byteSize`. -/
def DropTransactionWriteLogLoop (env : TCollaborators) (replicatorWrite : Bool) :
    List TTransactionWriteRecord → TState → Int → TState × Int
  | [], s, byteSize => (s, byteSize)
  | record :: rest, s, byteSize =>
    let byteSize1 := byteSize + env.GetByteSize record
    match s.FindTablet record.TabletId with
    | none => DropTransactionWriteLogLoop env replicatorWrite rest s byteSize1
    | some _ =>
      DropTransactionWriteLogLoop env replicatorWrite rest
        (s.UpdateTablet record.TabletId
          (fun t => IncrementTabletPendingWriteRecordCount t replicatorWrite (-1)))
        byteSize1

def DropTransactionWriteLog (env : TCollaborators) (s : TState) (transaction : TTransaction)
    (writeLog : EWriteLog) : TState × TTransaction :=
  let replicatorWrite := IsReplicatorWrite env transaction.AuthenticationIdentity
  let (s1, byteSize) :=
    DropTransactionWriteLogLoop env replicatorWrite (transaction.WriteLog writeLog) s 0
  ({ s1 with WriteLogsMemoryTrackerGuard := s1.WriteLogsMemoryTrackerGuard + (-byteSize) },
    transaction.SetWriteLog writeLog [])

/-! ## Mutation apply -/

/-- The loop of `HydraLeaderWriteRows` that confirms the first `rowCount` prelocked rows. -/
def ConfirmPrelockedRows (env : TCollaborators) :
    Nat → TState → TTransaction → Except TError (TState × TTransaction)
  | 0, s, transaction => .ok (s, transaction)
  | rowCount + 1, s, transaction =>
    match transaction.PrelockedRows with
    | [] => .error .Fatal
    | rowRef :: rest =>
      let t1 : TTransaction := { transaction with PrelockedRows := rest }
      let (s1, valid) := ValidateAndDiscardRowRef env s rowRef
      if valid then
        let (s2, t2) := ConfirmRow s1 t1 rowRef
        ConfirmPrelockedRows env rowCount s2 t2
      else
        ConfirmPrelockedRows env rowCount s1 t1

def HydraLeaderWriteRows (env : TCollaborators) (s : TState) (tm : TTransactionManager)
    (transactionId : TTransactionId) (mountRevision : TRevision)
    (signature : TTransactionSignature) (lockless : Bool)
    (writeRecord : TTransactionWriteRecord) (identity : TAuthenticationIdentity) :
    Except TError (TState × TTransactionManager) :=
  let replicatorWrite := IsReplicatorWrite env identity
  let atomicity := env.AtomicityFromTransactionId transactionId
  match s.PrelockedTablets with
  | [] => .error .Fatal
  | tabletId :: queue =>
    match s.Tablets tabletId with
    | none => .error .Fatal
    | some tablet =>
      let s0 : TState := { s with PrelockedTablets := queue }
      if tabletId ≠ writeRecord.TabletId then
        .error .Fatal
      else
        let s1 := s0.UpdateTablet tabletId
          (fun t => IncrementTabletInFlightMutationCount t replicatorWrite (-1))
        if mountRevision ≠ tablet.MountRevision then
          .ok (UnlockTablet s1 tabletId, tm)
        else
          match atomicity with
          | .Full =>
            match MakeTransactionPersistent tm transactionId with
            | .error e => .error e
            | .ok transaction =>
              let confirmed : Except TError (TState × TTransaction) :=
                if lockless then
                  .ok (LockTablet s1 tabletId,
                    { transaction with LockedTablets := transaction.LockedTablets ++ [tabletId] })
                else
                  ConfirmPrelockedRows env writeRecord.RowCount.toNat s1 transaction
              match confirmed with
              | .error e => .error e
              | .ok (s2, t2) =>
                let immediate := tablet.CommitOrdering == ECommitOrdering.Weak
                let writeLog :=
                  if immediate then
                    (if lockless then EWriteLog.ImmediateLockless else EWriteLog.ImmediateLocked)
                  else
                    EWriteLog.DelayedLockless
                let (s3, t3) :=
                  EnqueueTransactionWriteRecord env s2 t2 tabletId writeLog writeRecord signature
                .ok (UnlockTablet s3 tabletId, tm.Store t3)
          | .None =>
            if tablet.State = ETabletState.Orphaned then
              .ok (UnlockTablet s1 tabletId, tm)
            else
              let reader : TWireProtocolReader := { Data := writeRecord.Data, Current := 0 }
              let context : TWriteContext :=
                { Phase := .Commit
                  Transaction := none
                  CommitTimestamp := env.TimestampFromTransactionId transactionId
                  RowCount := 0
                  DataWeight := 0
                  BlockedStore := false
                  Error := false }
              let r := ExecuteWrites env s1 tabletId reader context
              if !r.Drained then
                .error .Fatal
              else if writeRecord.RowCount ≠ r.Context.RowCount then
                .error .Fatal
              else
                match FinishTabletCommit env r.State tabletId none context.CommitTimestamp with
                | .error e => .error e
                | .ok s2 => .ok (UnlockTablet s2 tabletId, tm)

def HydraFollowerWriteRows (env : TCollaborators) (s : TState) (tm : TTransactionManager)
    (request : TReqWriteRows) : Except TError (TState × TTransactionManager) :=
  let transactionId := request.transaction_id
  let atomicity := env.AtomicityFromTransactionId transactionId
  let transactionStartTimestamp := request.transaction_start_timestamp
  let transactionTimeout := request.transaction_timeout
  let signature := request.signature
  let lockless := request.lockless
  let rowCount := request.row_count
  let dataWeight := request.data_weight
  let syncReplicaIds := request.sync_replica_ids
  let tabletId := request.tablet_id
  match s.FindTablet tabletId with
  | none => .ok (s, tm)
  | some tablet =>
    let mountRevision := request.mount_revision
    if mountRevision ≠ tablet.MountRevision then
      .ok (s, tm)
    else
      let identity := request.identity
      let recordData := env.Decompress request.codec request.compressed_data
      let writeRecord : TTransactionWriteRecord :=
        { TabletId := tabletId
          Data := recordData
          RowCount := rowCount
          DataWeight := dataWeight
          SyncReplicaIds := syncReplicaIds }
      let reader : TWireProtocolReader := { Data := recordData, Current := 0 }
      match atomicity with
      | .Full =>
        let (tm1, transaction, _) :=
          GetOrCreateTransaction env tm transactionId transactionStartTimestamp
            transactionTimeout false identity
        let immediate := tablet.CommitOrdering == ECommitOrdering.Weak
        let writeLog :=
          if immediate then
            (if lockless then EWriteLog.ImmediateLockless else EWriteLog.ImmediateLocked)
          else
            EWriteLog.DelayedLockless
        let (s1, t1) :=
          EnqueueTransactionWriteRecord env s transaction tabletId writeLog writeRecord signature
        if immediate && !lockless then
          let context : TWriteContext :=
            { Phase := .Lock
              Transaction := some transactionId
              CommitTimestamp := NullTimestamp
              RowCount := 0
              DataWeight := 0
              BlockedStore := false
              Error := false }
          let r := ExecuteWrites env s1 tabletId reader context
          if !r.Drained then
            .error .Fatal
          else
            .ok (r.State, tm1.Store { t1 with LockedRows := t1.LockedRows ++ r.RowRefs })
        else
          .ok (LockTablet s1 tabletId,
            tm1.Store { t1 with LockedTablets := t1.LockedTablets ++ [tabletId] })
      | .None =>
        let context : TWriteContext :=
          { Phase := .Commit
            Transaction := none
            CommitTimestamp := env.TimestampFromTransactionId transactionId
            RowCount := 0
            DataWeight := 0
            BlockedStore := false
            Error := false }
        let r := ExecuteWrites env s tabletId reader context
        if !r.Drained then
          .error .Fatal
        else
          match FinishTabletCommit env r.State tabletId none context.CommitTimestamp with
          | .error e => .error e
          | .ok s2 => .ok (s2, tm)

/-! ## Write intake -/

/-- The fields of `TTabletSnapshot` read by `Write`. -/
structure TTabletSnapshot where
  TabletId : TTabletId
  MountRevision : TRevision
  deriving DecidableEq, Repr

def ValidateClientTimestamp (env : TCollaborators) (transactionId : TTransactionId) :
    Except TError Unit :=
  let clientTimestamp := env.TimestampFromTransactionId transactionId
  let serverTimestamp := env.LatestTimestamp
  let clientInstant := env.TimestampToInstant clientTimestamp
  let serverInstant := env.TimestampToInstant serverTimestamp
  let clientTimestampThreshold := env.ClientTimestampThreshold
  if clientInstant > serverInstant + clientTimestampThreshold ∨
      clientInstant < serverInstant - clientTimestampThreshold then
    .error .TimestampOffLimits
  else
    .ok ()

def ValidateTabletStoreLimit (env : TCollaborators) (s : TState) (tabletId : TTabletId)
    (tablet : TTablet) : Except TError Unit :=
  if tablet.StoreCount ≥ tablet.MaxStoresPerTablet then
    .error .AllWritesDisabledStores
  else if tablet.OverlappingStoreCount ≥ tablet.MaxOverlappingStoreCount then
    .error .AllWritesDisabledOverlappingStores
  else if tablet.EdenStoreCount ≥ tablet.MaxEdenStoresPerTablet then
    .error .AllWritesDisabledEdenStores
  else if !env.CheckOverflow s.Trace tabletId then
    .error .AllWritesDisabledOverflow
  else
    .ok ()

def ValidateWriteBarrier (replicatorWrite : Bool) (tablet : TTablet) : Except TError Unit :=
  if replicatorWrite then
    if tablet.InFlightUserMutationCount > 0 then
      .error .ReplicatorWriteBlockedByUser
    else if tablet.PendingUserWriteRecordCount > 0 then
      .error .ReplicatorWriteBlockedByUser
    else
      .ok ()
  else
    if tablet.InFlightReplicatorMutationCount > 0 then
      .error .UserWriteBlockedByReplicator
    else if tablet.PendingReplicatorWriteRecordCount > 0 then
      .error .UserWriteBlockedByReplicator
    else
      .ok ()

def ValidateTransactionActive (transaction : TTransaction) : Except TError Unit :=
  if transaction.State ≠ ETransactionState.Active then
    .error .InvalidTransactionState
  else
    .ok ()

/-- The lambda `actualizeTablet` of `Write`; `ValidateMountRevision` and
`ValidateTabletMounted` are modelled from the spec. -/
def ActualizeTablet (s : TState) (tabletSnapshot : TTabletSnapshot) (tablet : Option TTabletId) :
    Except TError TTabletId :=
  match tablet with
  | some tabletId => .ok tabletId
  | none =>
    match s.GetTabletOrThrow tabletSnapshot.TabletId with
    | .error e => .error e
    | .ok found =>
      if found.MountRevision ≠ tabletSnapshot.MountRevision then
        .error .InvalidMountRevision
      else if found.State ≠ ETabletState.Mounted then
        .error .TabletNotMounted
      else
        .ok tabletSnapshot.TabletId

/-- The arguments of `Write` that stay fixed over the loop. -/
structure TWriteArgs where
  TabletSnapshot : TTabletSnapshot
  TransactionId : TTransactionId
  TransactionStartTimestamp : TTimestamp
  TransactionTimeout : Nat
  Signature : TTransactionSignature
  RowCount : Int
  DataWeight : Int
  Versioned : Bool
  SyncReplicaIds : TSyncReplicaIdList
  Identity : TAuthenticationIdentity
  deriving DecidableEq, Repr

/-- The variables of `Write` that change over the loop. -/
structure TWriteLoop where
  State : TState
  Transactions : TTransactionManager
  Reader : TWireProtocolReader
  Tablet : Option TTabletId

/-- The mutation built by `Write` for a consumed slice. -/
def MakeWriteRowsMutation (env : TCollaborators) (args : TWriteArgs) (tabletId : TTabletId)
    (mountRevision : TRevision) (adjustedSignature : TTransactionSignature) (lockless : Bool)
    (recordData : TSharedRef) (context : TWriteContext) : TMutation :=
  let compressedRecordData := env.Compress env.ChangelogCodec recordData
  let writeRecord : TTransactionWriteRecord :=
    { TabletId := tabletId
      Data := recordData
      RowCount := context.RowCount
      DataWeight := context.DataWeight
      SyncReplicaIds := args.SyncReplicaIds }
  { Request :=
      { transaction_id := args.TransactionId
        transaction_start_timestamp := args.TransactionStartTimestamp
        transaction_timeout := args.TransactionTimeout
        tablet_id := tabletId
        mount_revision := mountRevision
        codec := env.ChangelogCodec
        compressed_data := compressedRecordData
        signature := adjustedSignature
        lockless := lockless
        row_count := writeRecord.RowCount
        data_weight := writeRecord.DataWeight
        sync_replica_ids := args.SyncReplicaIds
        identity := args.Identity }
    Handler :=
      { TransactionId := args.TransactionId
        MountRevision := mountRevision
        Signature := adjustedSignature
        Lockless := lockless
        WriteRecord := writeRecord
        Identity := args.Identity } }

/-- The part of an iteration of `Write` that consumes the reader: the whole message is
skipped for a lockless write, otherwise the store manager prelocks rows. -/
def WriteExecute (env : TCollaborators) (args : TWriteArgs) (l : TWriteLoop)
    (tabletId : TTabletId) (lockless : Bool) (context : TWriteContext) : TExecuteWritesResult :=
  if lockless then
    { State := l.State
      Reader := { l.Reader with Current := l.Reader.GetEnd }
      Context := { context with RowCount := args.RowCount, DataWeight := args.DataWeight }
      RowRefs := []
      Drained := true }
  else
    ExecuteWrites env l.State tabletId l.Reader context

/-- The part of an iteration of `Write` that submits the mutation for a consumed slice. -/
def WriteSubmit (env : TCollaborators) (args : TWriteArgs) (tabletId : TTabletId)
    (tablet : TTablet) (lockless : Bool) (adjustedSignature : TTransactionSignature)
    (readerBefore : Nat) (executed : TExecuteWritesResult) : TState :=
  let replicatorWrite := IsReplicatorWrite env args.Identity
  let readerAfter := executed.Reader.Current
  let recordData := executed.Reader.Slice readerBefore readerAfter
  let mutation :=
    MakeWriteRowsMutation env args tabletId tablet.MountRevision adjustedSignature lockless
      recordData executed.Context
  let s1 : TState :=
    { executed.State with PrelockedTablets := executed.State.PrelockedTablets ++ [tabletId] }
  let s2 := LockTablet s1 tabletId
  let s3 := s2.UpdateTablet tabletId
    (fun t => IncrementTabletInFlightMutationCount t replicatorWrite 1)
  { s3 with Mutations := s3.Mutations ++ [mutation] }

/-- The part of an iteration of `Write` after the validations: the transaction is obtained,
the reader is consumed, the signature is adjusted and added to the transient signature, the
mutation is submitted (or a fresh transaction is dropped), and the call waits on a blocked
row. -/
def WritePrelockAndSubmit (env : TCollaborators) (args : TWriteArgs) (l : TWriteLoop)
    (tabletId : TTabletId) (tablet : TTablet) : Except TError TWriteLoop :=
  let atomicity := env.AtomicityFromTransactionId args.TransactionId
  let created : TTransactionManager × Option TTransaction × Bool :=
    match atomicity with
    | .Full =>
      let (tm1, transaction, fresh) :=
        GetOrCreateTransaction env l.Transactions args.TransactionId
          args.TransactionStartTimestamp args.TransactionTimeout true args.Identity
      (tm1, some transaction, fresh)
    | .None => (l.Transactions, none, false)
  let active : Except TError Unit :=
    match created.2.1 with
    | some transaction => ValidateTransactionActive transaction
    | none => .ok ()
  match active with
  | .error e => .error e
  | .ok _ =>
    let context : TWriteContext :=
      { Phase := .Prelock
        Transaction := created.2.1.map (fun t => t.Id)
        CommitTimestamp := NullTimestamp
        RowCount := 0
        DataWeight := 0
        BlockedStore := false
        Error := false }
    let readerBefore := l.Reader.Current
    let lockless :=
      atomicity == EAtomicity.None || tablet.PhysicallyOrdered || tablet.Replicated ||
        args.Versioned
    let executed := WriteExecute env args l tabletId lockless context
    let adjustedSignature : TTransactionSignature :=
      if !lockless && !executed.Reader.IsFinished then 0 else args.Signature
    let readerAfter := executed.Reader.Current
    let transaction1 : Option TTransaction :=
      created.2.1.map (fun t =>
        { t with
          PrelockedRows := t.PrelockedRows ++ executed.RowRefs
          TransientSignature := AddSignature t.TransientSignature adjustedSignature })
    let tm2 : TTransactionManager :=
      match transaction1 with
      | some t => created.1.Store t
      | none => created.1
    let submitted : TState × TTransactionManager :=
      if readerBefore ≠ readerAfter then
        (WriteSubmit env args tabletId tablet lockless adjustedSignature readerBefore executed,
          tm2)
      else if created.2.2 then
        match transaction1 with
        | some t => (executed.State, DropTransaction tm2 t)
        | none => (executed.State, tm2)
      else
        (executed.State, tm2)
    let waited : TState × Option TTabletId :=
      if executed.Context.BlockedStore then
        (submitted.1.Record (.WaitOnBlockedRow tabletId), none)
      else
        (submitted.1, some tabletId)
    if executed.Context.Error then
      .error .StoreError
    else
      .ok
        { State := waited.1
          Transactions := submitted.2
          Reader := executed.Reader
          Tablet := waited.2 }

/-- One iteration of the `while (!reader->IsFinished())` loop of `Write`. -/
def WriteIteration (env : TCollaborators) (args : TWriteArgs) (l : TWriteLoop) :
    Except TError TWriteLoop :=
  let replicatorWrite := IsReplicatorWrite env args.Identity
  match ActualizeTablet l.State args.TabletSnapshot l.Tablet with
  | .error e => .error e
  | .ok tabletId =>
    match l.State.Tablets tabletId with
    | none => .error .Fatal
    | some tablet =>
      match ValidateTabletStoreLimit env l.State tabletId tablet with
      | .error e => .error e
      | .ok _ =>
        let poolTag := if env.EnableTabletDynamicMemoryLimit then tablet.PoolTag else none
        if !env.ValidateMemoryLimit l.State.Trace poolTag then
          .error .MemoryLimitExceeded
        else
          match ValidateWriteBarrier replicatorWrite tablet with
          | .error e => .error e
          | .ok _ => WritePrelockAndSubmit env args l tabletId tablet

/-- The loop of `Write`; `none` when the fuel runs out before the reader is finished. -/
def WriteLoop (env : TCollaborators) (args : TWriteArgs) :
    Nat → TWriteLoop → Option (Except TError TWriteLoop)
  | 0, l => if l.Reader.IsFinished then some (.ok l) else none
  | fuel + 1, l =>
    if l.Reader.IsFinished then
      some (.ok l)
    else
      match WriteIteration env args l with
      | .error e => some (.error e)
      | .ok l1 => WriteLoop env args fuel l1

def Write (env : TCollaborators) (fuel : Nat) (s : TState) (tm : TTransactionManager)
    (args : TWriteArgs) (reader : TWireProtocolReader) : Option (Except TError TWriteLoop) :=
  let atomicity := env.AtomicityFromTransactionId args.TransactionId
  let validated : Except TError Unit :=
    if atomicity = EAtomicity.None then ValidateClientTimestamp env args.TransactionId else .ok ()
  match validated with
  | .error e => some (.error e)
  | .ok _ =>
    match ActualizeTablet s args.TabletSnapshot none with
    | .error e => some (.error e)
    | .ok tabletId =>
      if atomicity = EAtomicity.Full ∧
          !env.ValidateTransactionConflict s.Trace tabletId args.TransactionStartTimestamp then
        some (.error .TransactionConflict)
      else
        WriteLoop env args fuel
          { State := s, Transactions := tm, Reader := reader, Tablet := some tabletId }

/-! ## Transaction lifecycle hooks -/

/-- The statement `map[key] += value` on a `TSmallFlatMap<K, int>`.  Keys are pointers in the
source; the iteration order of the map is immaterial because each entry updates the object
behind its own key. -/
def FlatMapAdd {K : Type} [DecidableEq K] : List (K × Int) → K → Int → List (K × Int)
  | [], key, value => [(key, 0 + value)]
  | (k, v) :: rest, key, value =>
    if k = key then (k, v + value) :: rest else (k, v) :: FlatMapAdd rest key value

def ValidateReplicaWritable (env : TCollaborators) (tablet : TTablet)
    (replicaInfo : TTableReplicaInfo) : Except TError Unit :=
  let currentReplicationRowIndex := replicaInfo.CurrentReplicationRowIndex
  let totalRowCount := tablet.TotalRowCount
  let delayedLocklessRowCount := tablet.DelayedLocklessRowCount
  match replicaInfo.Mode with
  | .Sync =>
    let reign := env.Reign
    let barrier : Except TError Unit :=
      if reign < env.ReplicationBarrier_YT_14346 then
        if currentReplicationRowIndex < totalRowCount then .error .ReplicaNotWritable else .ok ()
      else
        if currentReplicationRowIndex < totalRowCount + delayedLocklessRowCount then
          .error .ReplicaNotWritable
        else
          .ok ()
    match barrier with
    | .error e => .error e
    | .ok _ =>
      if replicaInfo.State ≠ ETableReplicaState.Enabled then
        .error .ReplicaNotWritable
      else if replicaInfo.PreparedReplicationTransactionId.isSome then
        .error .Fatal
      else
        .ok ()
  | .Async =>
    if currentReplicationRowIndex > totalRowCount then .error .ReplicaNotWritable else .ok ()

/-- The first loop of `ValidateSyncReplicaSet`, over the declared ids. -/
def ValidateSyncReplicaSetDeclared (tablet : TTablet) : TSyncReplicaIdList → Except TError Unit
  | [] => .ok ()
  | replicaId :: rest =>
    match tablet.FindReplicaInfo replicaId with
    | none => .error .SyncReplicaIsNotKnown
    | some replicaInfo =>
      if replicaInfo.Mode ≠ ETableReplicaMode.Sync then
        .error .SyncReplicaIsNotInSyncMode
      else
        ValidateSyncReplicaSetDeclared tablet rest

/-- The second loop of `ValidateSyncReplicaSet`, over the replicas of the tablet. -/
def ValidateSyncReplicaSetWritten (syncReplicaIds : TSyncReplicaIdList) :
    List TTableReplicaInfo → Except TError Unit
  | [] => .ok ()
  | replicaInfo :: rest =>
    if replicaInfo.Mode = ETableReplicaMode.Sync ∧ replicaInfo.Id ∉ syncReplicaIds then
      .error .SyncReplicaIsNotWritten
    else
      ValidateSyncReplicaSetWritten syncReplicaIds rest

def ValidateSyncReplicaSet (tablet : TTablet) (syncReplicaIds : TSyncReplicaIdList) :
    Except TError Unit :=
  match ValidateSyncReplicaSetDeclared tablet syncReplicaIds with
  | .error e => .error e
  | .ok _ => ValidateSyncReplicaSetWritten syncReplicaIds tablet.Replicas

/-- The lambda `prepareRow` of `PrepareLockedRows`. -/
def PrepareRow (env : TCollaborators) (transaction : TTransaction) (s : TState)
    (rowRef : TSortedDynamicRowRef) : TState :=
  if !env.StoreOrphaned s.Trace rowRef then s.Record (.PrepareRow transaction.Id rowRef) else s

def PrepareLockedRows (env : TCollaborators) (s : TState) (transaction : TTransaction) : TState :=
  let s1 := transaction.LockedRows.foldl (PrepareRow env transaction) s
  transaction.PrelockedRows.foldl (PrepareRow env transaction) s1

def CheckIfImmediateLockedTabletsFullyUnlocked (s : TState) (transaction : TTransaction) :
    TState :=
  transaction.ImmediateLockedWriteLog.foldl
    (fun s1 record =>
      match s1.FindTablet record.TabletId with
      | none => s1
      | some _ => s1.Record (.CheckIfTabletFullyUnlocked record.TabletId))
    s

/-- The loop of `OnTransactionPrepared` over the replicas of one tablet. -/
def PrepareReplicas (env : TCollaborators) (tabletId : TTabletId) (tablet : TTablet)
    (rowCount : Int) :
    List TTableReplicaInfo → List ((TTabletId × TTableReplicaId) × Int) →
      Except TError (List ((TTabletId × TTableReplicaId) × Int))
  | [], replicaToRowCount => .ok replicaToRowCount
  | replicaInfo :: rest, replicaToRowCount =>
    match ValidateReplicaWritable env tablet replicaInfo with
    | .error e => .error e
    | .ok _ =>
      if replicaInfo.Mode = ETableReplicaMode.Sync then
        PrepareReplicas env tabletId tablet rowCount rest
          (FlatMapAdd replicaToRowCount (tabletId, replicaInfo.Id) rowCount)
      else
        PrepareReplicas env tabletId tablet rowCount rest replicaToRowCount

/-- The loop of `OnTransactionPrepared` over the delayed lockless write log. -/
def PrepareRecords (env : TCollaborators) (s : TState) (transaction : TTransaction) :
    List TTransactionWriteRecord → List ((TTabletId × TTableReplicaId) × Int) →
      List (TTabletId × Int) →
      Except TError (List ((TTabletId × TTableReplicaId) × Int) × List (TTabletId × Int))
  | [], replicaToRowCount, tabletToRowCount => .ok (replicaToRowCount, tabletToRowCount)
  | writeRecord :: rest, replicaToRowCount, tabletToRowCount =>
    match s.GetTabletOrThrow writeRecord.TabletId with
    | .error e => .error e
    | .ok tablet =>
      if !tablet.Replicated then
        PrepareRecords env s transaction rest replicaToRowCount tabletToRowCount
      else if !env.ValidateTransactionConflict s.Trace writeRecord.TabletId
          transaction.StartTimestamp then
        .error .TransactionConflict
      else
        match ValidateSyncReplicaSet tablet writeRecord.SyncReplicaIds with
        | .error e => .error e
        | .ok _ =>
          match PrepareReplicas env writeRecord.TabletId tablet writeRecord.RowCount
              tablet.Replicas replicaToRowCount with
          | .error e => .error e
          | .ok replicaToRowCount1 =>
            PrepareRecords env s transaction rest replicaToRowCount1
              (FlatMapAdd tabletToRowCount writeRecord.TabletId writeRecord.RowCount)

/-- Adds `delta` to the current replication row index of a replica. -/
def AddCurrentReplicationRowIndex (s : TState) (tabletId : TTabletId)
    (replicaId : TTableReplicaId) (delta : Int) : TState :=
  s.UpdateTablet tabletId (fun t => t.UpdateReplica replicaId (fun r =>
    { r with CurrentReplicationRowIndex := r.CurrentReplicationRowIndex + delta }))

/-- Adds `delta` to the delayed lockless row count of a tablet. -/
def AddDelayedLocklessRowCount (s : TState) (tabletId : TTabletId) (delta : Int) : TState :=
  s.UpdateTablet tabletId (fun t =>
    { t with DelayedLocklessRowCount := t.DelayedLocklessRowCount + delta })

def OnTransactionPrepared (env : TCollaborators) (s : TState) (transaction : TTransaction)
    (persistent : Bool) : Except TError (TState × TTransaction) :=
  let s1 := PrepareLockedRows env s transaction
  if !persistent then
    .ok (s1, transaction)
  else
    match PrepareRecords env s1 transaction transaction.DelayedLocklessWriteLog [] [] with
    | .error e => .error e
    | .ok (replicaToRowCount, tabletToRowCount) =>
      let s2 := replicaToRowCount.foldl
        (fun st entry => AddCurrentReplicationRowIndex st entry.1.1 entry.1.2 entry.2) s1
      let s3 := tabletToRowCount.foldl
        (fun st entry => AddDelayedLocklessRowCount st entry.1 entry.2) s2
      if transaction.RowsPrepared then
        .error .Fatal
      else
        .ok (s3, { transaction with RowsPrepared := true })

/-- The loop of `OnTransactionCommitted` over the locked rows. -/
def CommitLockedRows (env : TCollaborators) (transaction : TTransaction)
    (commitTimestamp : TTimestamp) : List TSortedDynamicRowRef → TState → Except TError TState
  | [], s => .ok s
  | rowRef :: rest, s =>
    let (s1, valid) := ValidateAndDiscardRowRef env s rowRef
    if !valid then
      CommitLockedRows env transaction commitTimestamp rest s1
    else
      match FinishTabletCommit env s1 rowRef.Tablet (some transaction) commitTimestamp with
      | .error e => .error e
      | .ok s2 =>
        CommitLockedRows env transaction commitTimestamp rest
          (s2.Record (.CommitRow transaction.Id rowRef))

/-- The loops of `OnTransactionCommitted` and `OnTransactionSerialized` that execute the
records of a lockless log in `Commit` phase; returns the tablets found, in order. -/
def CommitLocklessRecords (env : TCollaborators) (transaction : TTransaction)
    (commitTimestamp : TTimestamp) :
    List TTransactionWriteRecord → TState → List TTabletId →
      Except TError (TState × List TTabletId)
  | [], s, tablets => .ok (s, tablets)
  | record :: rest, s, tablets =>
    match s.FindTablet record.TabletId with
    | none => CommitLocklessRecords env transaction commitTimestamp rest s tablets
    | some _ =>
      let context : TWriteContext :=
        { Phase := .Commit
          Transaction := some transaction.Id
          CommitTimestamp := commitTimestamp
          RowCount := 0
          DataWeight := 0
          BlockedStore := false
          Error := false }
      let r := ExecuteWrites env s record.TabletId { Data := record.Data, Current := 0 } context
      if !r.Drained then
        .error .Fatal
      else if r.Context.RowCount ≠ record.RowCount then
        .error .Fatal
      else
        CommitLocklessRecords env transaction commitTimestamp rest r.State
          (tablets ++ [record.TabletId])

/-- A sequence of `FinishTabletCommit` calls. -/
def FinishTabletCommits (env : TCollaborators) (transaction : TTransaction)
    (commitTimestamp : TTimestamp) : List TTabletId → TState → Except TError TState
  | [], s => .ok s
  | tabletId :: rest, s =>
    match FinishTabletCommit env s tabletId (some transaction) commitTimestamp with
    | .error e => .error e
    | .ok s1 => FinishTabletCommits env transaction commitTimestamp rest s1

/-- The loop of `OnTransactionCommitted` over the delayed lockless write log; collects
`syncReplicas` and `syncReplicaTablets`. -/
def CollectSyncReplicas (commitTimestamp : TTimestamp) :
    List TTransactionWriteRecord → TState → List (TTabletId × TTableReplicaId) →
      List TTabletId → TState × List (TTabletId × TTableReplicaId) × List TTabletId
  | [], s, syncReplicas, syncReplicaTablets => (s, syncReplicas, syncReplicaTablets)
  | writeRecord :: rest, s, syncReplicas, syncReplicaTablets =>
    match s.FindTablet writeRecord.TabletId with
    | none => CollectSyncReplicas commitTimestamp rest s syncReplicas syncReplicaTablets
    | some tablet =>
      let s1 := s.UpdateTablet writeRecord.TabletId
        (fun t => t.UpdateLastWriteTimestamp commitTimestamp)
      let syncReplicaTablets1 :=
        if writeRecord.SyncReplicaIds ≠ [] then syncReplicaTablets ++ [writeRecord.TabletId]
        else syncReplicaTablets
      let found := writeRecord.SyncReplicaIds.filter
        (fun replicaId => (tablet.FindReplicaInfo replicaId).isSome)
      CollectSyncReplicas commitTimestamp rest s1
        (syncReplicas ++ found.map (fun replicaId => (writeRecord.TabletId, replicaId)))
        syncReplicaTablets1

def OnTransactionCommitted (env : TCollaborators) (s : TState) (transaction : TTransaction) :
    Except TError (TState × TTransaction) :=
  let commitTimestamp := transaction.CommitTimestamp
  if transaction.PrelockedRows ≠ [] then
    .error .Fatal
  else
    match CommitLockedRows env transaction commitTimestamp transaction.LockedRows s with
    | .error e => .error e
    | .ok s1 =>
      let t1 : TTransaction := { transaction with LockedRows := [] }
      let s2 := CheckIfImmediateLockedTabletsFullyUnlocked s1 t1
      match CommitLocklessRecords env t1 commitTimestamp t1.ImmediateLocklessWriteLog s2 [] with
      | .error e => .error e
      | .ok (s3, locklessTablets) =>
        match FinishTabletCommits env t1 commitTimestamp locklessTablets s3 with
        | .error e => .error e
        | .ok s4 =>
          let (s5, syncReplicas, syncReplicaTablets) :=
            CollectSyncReplicas commitTimestamp t1.DelayedLocklessWriteLog s4 [] []
          let s6 := syncReplicas.dedup.foldl
            (fun st entry => st.UpdateTablet entry.1 (fun t => t.UpdateReplica entry.2 (fun r =>
              { r with
                CurrentReplicationTimestamp :=
                  max r.CurrentReplicationTimestamp commitTimestamp })))
            s5
          let s7 := syncReplicaTablets.dedup.foldl
            (fun st tabletId => st.Record (.AdvanceReplicatedTrimmedRowCount tabletId t1.Id)) s6
          let (s8, t2) :=
            if t1.DelayedLocklessWriteLog = [] then UnlockLockedTablets s7 t1 else (s7, t1)
          let (s9, t3) := DropTransactionWriteLog env s8 t2 .ImmediateLocked
          .ok (DropTransactionWriteLog env s9 t3 .ImmediateLockless)

/-- The loop of `OnTransactionSerialized` over the delayed lockless write log. -/
def SerializeRecords (env : TCollaborators) (transaction : TTransaction)
    (commitTimestamp : TTimestamp) :
    List TTransactionWriteRecord → TState → List (TTabletId × Int) →
      Except TError (TState × List (TTabletId × Int))
  | [], s, tabletToRowCount => .ok (s, tabletToRowCount)
  | record :: rest, s, tabletToRowCount =>
    match s.FindTablet record.TabletId with
    | none => SerializeRecords env transaction commitTimestamp rest s tabletToRowCount
    | some _ =>
      let context : TWriteContext :=
        { Phase := .Commit
          Transaction := some transaction.Id
          CommitTimestamp := commitTimestamp
          RowCount := 0
          DataWeight := 0
          BlockedStore := false
          Error := false }
      let r := ExecuteWrites env s record.TabletId { Data := record.Data, Current := 0 } context
      if !r.Drained then
        .error .Fatal
      else if r.Context.RowCount ≠ record.RowCount then
        .error .Fatal
      else
        SerializeRecords env transaction commitTimestamp rest r.State
          (FlatMapAdd tabletToRowCount record.TabletId record.RowCount)

/-- The loop of `OnTransactionSerialized` over `tabletToRowCount`. -/
def SerializeTablets (env : TCollaborators) (transaction : TTransaction)
    (commitTimestamp : TTimestamp) : List (TTabletId × Int) → TState → Except TError TState
  | [], s => .ok s
  | (tabletId, rowCount) :: rest, s =>
    match FinishTabletCommit env s tabletId (some transaction) commitTimestamp with
    | .error e => .error e
    | .ok s1 =>
      match s1.Tablets tabletId with
      | none => SerializeTablets env transaction commitTimestamp rest s1
      | some tablet =>
        if !tablet.Replicated then
          SerializeTablets env transaction commitTimestamp rest s1
        else
          SerializeTablets env transaction commitTimestamp rest
            (s1.UpdateTablet tabletId (fun t =>
              { t with DelayedLocklessRowCount := t.DelayedLocklessRowCount - rowCount }))

def OnTransactionSerialized (env : TCollaborators) (s : TState) (transaction : TTransaction) :
    Except TError (TState × TTransaction) :=
  if transaction.PrelockedRows ≠ [] then
    .error .Fatal
  else if transaction.LockedRows ≠ [] then
    .error .Fatal
  else if transaction.DelayedLocklessWriteLog = [] then
    .ok (s, transaction)
  else
    let commitTimestamp := transaction.CommitTimestamp
    match SerializeRecords env transaction commitTimestamp
        transaction.DelayedLocklessWriteLog s [] with
    | .error e => .error e
    | .ok (s1, tabletToRowCount) =>
      match SerializeTablets env transaction commitTimestamp tabletToRowCount s1 with
      | .error e => .error e
      | .ok s2 =>
        let (s3, t1) := UnlockLockedTablets s2 transaction
        .ok (DropTransactionWriteLog env s3 t1 .DelayedLockless)

/-- The loop of `OnTransactionAborted` over the locked rows, last to first. -/
def AbortLockedRows (env : TCollaborators) (transaction : TTransaction) :
    List TSortedDynamicRowRef → TState → TState
  | [], s => s
  | rowRef :: rest, s =>
    let (s1, valid) := ValidateAndDiscardRowRef env s rowRef
    if valid then
      AbortLockedRows env transaction rest (s1.Record (.AbortRow transaction.Id rowRef))
    else
      AbortLockedRows env transaction rest s1

/-- The loop of `OnTransactionAborted` over the delayed lockless write log. -/
def AbortRecords (s : TState) :
    List TTransactionWriteRecord → List ((TTabletId × TTableReplicaId) × Int) →
      List (TTabletId × Int) →
      List ((TTabletId × TTableReplicaId) × Int) × List (TTabletId × Int)
  | [], replicaToRowCount, tabletToRowCount => (replicaToRowCount, tabletToRowCount)
  | writeRecord :: rest, replicaToRowCount, tabletToRowCount =>
    match s.FindTablet writeRecord.TabletId with
    | none => AbortRecords s rest replicaToRowCount tabletToRowCount
    | some tablet =>
      if !tablet.Replicated then
        AbortRecords s rest replicaToRowCount tabletToRowCount
      else
        let replicaToRowCount1 := writeRecord.SyncReplicaIds.foldl
          (fun m replicaId =>
            match tablet.FindReplicaInfo replicaId with
            | none => m
            | some _ => FlatMapAdd m (writeRecord.TabletId, replicaId) writeRecord.RowCount)
          replicaToRowCount
        AbortRecords s rest replicaToRowCount1
          (FlatMapAdd tabletToRowCount writeRecord.TabletId writeRecord.RowCount)

def OnTransactionAborted (env : TCollaborators) (s : TState) (transaction : TTransaction) :
    Except TError (TState × TTransaction) :=
  if transaction.PrelockedRows ≠ [] then
    .error .Fatal
  else
    let s1 := AbortLockedRows env transaction transaction.LockedRows.reverse s
    let t1 : TTransaction := { transaction with LockedRows := [] }
    let s2 := CheckIfImmediateLockedTabletsFullyUnlocked s1 t1
    let (s3, t2) := UnlockLockedTablets s2 t1
    let s4 :=
      if t2.RowsPrepared then
        let (replicaToRowCount, tabletToRowCount) :=
          AbortRecords s3 t2.DelayedLocklessWriteLog [] []
        let s31 := replicaToRowCount.foldl
          (fun st entry => AddCurrentReplicationRowIndex st entry.1.1 entry.1.2 (-entry.2)) s3
        tabletToRowCount.foldl
          (fun st entry => AddDelayedLocklessRowCount st entry.1 (-entry.2)) s31
      else
        s3
    let (s5, t3) := DropTransactionWriteLog env s4 t2 .ImmediateLocked
    let (s6, t4) := DropTransactionWriteLog env s5 t3 .ImmediateLockless
    .ok (DropTransactionWriteLog env s6 t4 .DelayedLockless)

def OnTransactionTransientReset (env : TCollaborators) (s : TState)
    (transaction : TTransaction) : TState × TTransaction :=
  (AbortLockedRows env transaction transaction.PrelockedRows s,
    { transaction with PrelockedRows := [] })

/-! ## Automaton part overrides -/

def OnStopLeading (s : TState) : TState :=
  { s.PrelockedTablets.foldl UnlockTablet s with PrelockedTablets := [] }

def Clear (s : TState) : TState :=
  { s with WriteLogsMemoryTrackerGuard := 0 }

/-- Modelled from the spec: `TTransaction::IsPrepared`, the persisted state shows the
transaction was prepared. -/
def TTransaction.IsPrepared (transaction : TTransaction) : Bool :=
  transaction.State == ETransactionState.Prepared

/-- The loop of `OnAfterSnapshotLoaded` over the immediate locked write log. -/
def ReplayImmediateLocked (env : TCollaborators) (replicatorWrite : Bool) :
    List TTransactionWriteRecord → TState → TTransaction → Except TError (TState × TTransaction)
  | [], s, transaction => .ok (s, transaction)
  | record :: rest, s, transaction =>
    match s.FindTablet record.TabletId with
    | none => ReplayImmediateLocked env replicatorWrite rest s transaction
    | some _ =>
      let s1 : TState :=
        { s with
          WriteLogsMemoryTrackerGuard := s.WriteLogsMemoryTrackerGuard + env.GetByteSize record }
      let s2 := s1.UpdateTablet record.TabletId
        (fun t => IncrementTabletPendingWriteRecordCount t replicatorWrite 1)
      let context : TWriteContext :=
        { Phase := .Lock
          Transaction := some transaction.Id
          CommitTimestamp := NullTimestamp
          RowCount := 0
          DataWeight := 0
          BlockedStore := false
          Error := false }
      let r := ExecuteWrites env s2 record.TabletId { Data := record.Data, Current := 0 } context
      if !r.Drained then
        .error .Fatal
      else
        ReplayImmediateLocked env replicatorWrite rest r.State
          { transaction with LockedRows := transaction.LockedRows ++ r.RowRefs }

/-- The loop of `OnAfterSnapshotLoaded` over the immediate lockless write log. -/
def ReplayImmediateLockless (env : TCollaborators) (replicatorWrite : Bool) :
    List TTransactionWriteRecord → TState → TTransaction → TState × TTransaction
  | [], s, transaction => (s, transaction)
  | record :: rest, s, transaction =>
    match s.FindTablet record.TabletId with
    | none => ReplayImmediateLockless env replicatorWrite rest s transaction
    | some _ =>
      let s1 : TState :=
        { s with
          WriteLogsMemoryTrackerGuard := s.WriteLogsMemoryTrackerGuard + env.GetByteSize record }
      let s2 := s1.UpdateTablet record.TabletId
        (fun t => IncrementTabletPendingWriteRecordCount t replicatorWrite 1)
      ReplayImmediateLockless env replicatorWrite rest (LockTablet s2 record.TabletId)
        { transaction with LockedTablets := transaction.LockedTablets ++ [record.TabletId] }

/-- The loop of `OnAfterSnapshotLoaded` over the delayed lockless write log. -/
def ReplayDelayedLockless (env : TCollaborators) (replicatorWrite : Bool) :
    List TTransactionWriteRecord → TState → TTransaction → TState × TTransaction
  | [], s, transaction => (s, transaction)
  | record :: rest, s, transaction =>
    match s.FindTablet record.TabletId with
    | none => ReplayDelayedLockless env replicatorWrite rest s transaction
    | some tablet =>
      let s1 : TState :=
        { s with
          WriteLogsMemoryTrackerGuard := s.WriteLogsMemoryTrackerGuard + env.GetByteSize record }
      let s2 := s1.UpdateTablet record.TabletId
        (fun t => IncrementTabletPendingWriteRecordCount t replicatorWrite 1)
      let s3 := LockTablet s2 record.TabletId
      let t1 : TTransaction :=
        { transaction with LockedTablets := transaction.LockedTablets ++ [record.TabletId] }
      let s4 :=
        if tablet.Replicated && t1.RowsPrepared then
          s3.UpdateTablet record.TabletId (fun t =>
            { t with DelayedLocklessRowCount := t.DelayedLocklessRowCount + record.RowCount })
        else
          s3
      ReplayDelayedLockless env replicatorWrite rest s4 t1

/-- The body of the loop of `OnAfterSnapshotLoaded` over the transactions. -/
def ReplayTransaction (env : TCollaborators) (s : TState) (transaction : TTransaction) :
    Except TError (TState × TTransaction) :=
  if transaction.Transient then
    .error .Fatal
  else
    let replicatorWrite := IsReplicatorWrite env transaction.AuthenticationIdentity
    match ReplayImmediateLocked env replicatorWrite transaction.ImmediateLockedWriteLog
        s transaction with
    | .error e => .error e
    | .ok (s1, t1) =>
      let (s2, t2) :=
        ReplayImmediateLockless env replicatorWrite t1.ImmediateLocklessWriteLog s1 t1
      let (s3, t3) := ReplayDelayedLockless env replicatorWrite t2.DelayedLocklessWriteLog s2 t2
      if t3.IsPrepared then
        .ok (PrepareLockedRows env s3 t3, t3)
      else
        .ok (s3, t3)

/-- The loop of `OnAfterSnapshotLoaded` over the transactions. -/
def ReplayTransactions (env : TCollaborators) :
    List TTransaction → TState → Except TError (TState × List TTransaction)
  | [], s => .ok (s, [])
  | transaction :: rest, s =>
    match ReplayTransaction env s transaction with
    | .error e => .error e
    | .ok (s1, t1) =>
      match ReplayTransactions env rest s1 with
      | .error e => .error e
      | .ok (s2, rest1) => .ok (s2, t1 :: rest1)

def OnAfterSnapshotLoaded (env : TCollaborators) (s : TState) (tm : TTransactionManager) :
    Except TError (TState × TTransactionManager) :=
  ReplayTransactions env tm s

/-! ## Specification-side definitions and sample data -/

/-- The destination write log in the words of the specification: `ImmediateLocked` if the
commit ordering is `Weak` and the write is not lockless, `ImmediateLockless` if it is `Weak`
and lockless, `DelayedLockless` otherwise. -/
def SpecWriteLog (commitOrdering : ECommitOrdering) (lockless : Bool) : EWriteLog :=
  match commitOrdering, lockless with
  | .Weak, false => .ImmediateLocked
  | .Weak, true => .ImmediateLockless
  | .Strong, _ => .DelayedLockless

/-- A store manager that drains every reader, a pass-through codec, and transaction ids
whose parity encodes the atomicity. -/
def SampleCollaborators : TCollaborators where
  AtomicityFromTransactionId := fun id => if id % 2 = 0 then EAtomicity.Full else EAtomicity.None
  TimestampFromTransactionId := fun id => id
  TimestampToInstant := fun timestamp => timestamp
  LatestTimestamp := 100
  ClientTimestampThreshold := 1000
  ReplicatorUserName := "replicator"
  InitialTransactionSignature := 0
  GetByteSize := fun record => record.Data.length + 1
  ChangelogCodec := 0
  Compress := fun _ data => data
  Decompress := fun _ data => data
  EnableTabletDynamicMemoryLimit := false
  Reign := 1
  ReplicationBarrier_YT_14346 := 0
  Leading := true
  ExecuteWrites := fun _ _ reader _ =>
    { Consumed := reader.Data.length - reader.Current
      RowCount := 1
      DataWeight := 1
      BlockedStore := false
      Error := false
      RowRefs := [] }
  ValidateAndDiscardRowRef := fun _ _ => true
  StoreOrphaned := fun _ _ => false
  CheckOverflow := fun _ _ => true
  ValidateMemoryLimit := fun _ _ => true
  ValidateTransactionConflict := fun _ _ _ => true
  ComputeTotalRowCount := fun _ _ => 0

/-- A mounted sorted tablet with mount revision `1`, locked once, with one user mutation in
flight. -/
def SampleTablet : TTablet where
  MountRevision := 1
  State := .Mounted
  Atomicity := .Full
  CommitOrdering := .Weak
  PhysicallyOrdered := false
  Replicated := false
  Replicas := []
  InFlightUserMutationCount := 1
  InFlightReplicatorMutationCount := 0
  PendingUserWriteRecordCount := 0
  PendingReplicatorWriteRecordCount := 0
  DelayedLocklessRowCount := 0
  TotalRowCount := 0
  TabletLockCount := 1
  LastCommitTimestamp := 0
  LastWriteTimestamp := 0
  UnflushedTimestamp := 0
  StoreCount := 0
  OverlappingStoreCount := 0
  EdenStoreCount := 0
  MaxStoresPerTablet := 10
  MaxOverlappingStoreCount := 10
  MaxEdenStoresPerTablet := 10
  PoolTag := none

/-- A state whose only tablet is `SampleTablet` under id `7`, pinned once. -/
def SampleState : TState where
  Tablets := fun id => if id = 7 then some SampleTablet else none
  PrelockedTablets := [7]
  WriteLogsMemoryTrackerGuard := 0
  Mutations := []
  Trace := []

def SampleRecord : TTransactionWriteRecord where
  TabletId := 7
  Data := [1, 2, 3]
  RowCount := 1
  DataWeight := 3
  SyncReplicaIds := []

def SampleIdentity : TAuthenticationIdentity := { User := "root", UserTag := "root" }

/-- An active transaction with id `2` (full atomicity under `SampleCollaborators`), empty
logs and one prelocked row. -/
def SampleTransaction : TTransaction where
  Id := 2
  StartTimestamp := 2
  Timeout := 10
  PrepareTimestamp := 0
  CommitTimestamp := 0
  State := .Active
  Transient := true
  Foreign := false
  TransientSignature := 0
  PersistentSignature := 0
  ImmediateLockedWriteLog := []
  ImmediateLocklessWriteLog := []
  DelayedLocklessWriteLog := []
  PrelockedRows := [{ Store := 1, Row := 1, Tablet := 7 }]
  LockedRows := []
  LockedTablets := []
  RowsPrepared := false
  AuthenticationIdentity := SampleIdentity

def SampleWriteArgs : TWriteArgs where
  TabletSnapshot := { TabletId := 7, MountRevision := 1 }
  TransactionId := 2
  TransactionStartTimestamp := 2
  TransactionTimeout := 10
  Signature := 1
  RowCount := 1
  DataWeight := 3
  Versioned := false
  SyncReplicaIds := []
  Identity := SampleIdentity

/-- Enqueues a sequence of records into one log of a transaction, each against the tablet
it names, by successive calls of `EnqueueTransactionWriteRecord`. -/
def EnqueueRecords (env : TCollaborators) (writeLog : EWriteLog) :
    List (TTransactionWriteRecord × TTransactionSignature) → TState → TTransaction →
      TState × TTransaction
  | [], s, transaction => (s, transaction)
  | (record, signature) :: rest, s, transaction =>
    EnqueueRecords env writeLog rest
      (EnqueueTransactionWriteRecord env s transaction record.TabletId writeLog record
        signature).1
      (EnqueueTransactionWriteRecord env s transaction record.TabletId writeLog record
        signature).2

/-- The number of records of a log that name a tablet. -/
def RecordCount (tabletId : TTabletId) (records : List TTransactionWriteRecord) : Int :=
  (records.filter (fun record => record.TabletId = tabletId)).length

/-- The byte size of the records of a log whose tablet is found. -/
def FoundByteSize (env : TCollaborators) (found : TTabletId → Bool) :
    List TTransactionWriteRecord → Int
  | [] => 0
  | record :: rest =>
    (if found record.TabletId then env.GetByteSize record else 0) + FoundByteSize env found rest

/-- The pending user and replicator write-record counters of a tablet. -/
def TTablet.Pending (tablet : TTablet) : Int × Int :=
  (tablet.PendingUserWriteRecordCount, tablet.PendingReplicatorWriteRecordCount)

/-- Adds `count` to the pending counter of the given kind. -/
def AddPending (replicatorWrite : Bool) (count : Int) (pending : Int × Int) : Int × Int :=
  if replicatorWrite then (pending.1, pending.2 + count) else (pending.1 + count, pending.2)

/-- Two states have the same tablets up to fields other than the pending counters, with the
pending counters of the second shifted by `count id`. -/
def PendingShift (k : Bool) (count : TTabletId → Int) (s s' : TState) : Prop :=
  ∀ id, (s'.Tablets id).map TTablet.Pending =
    (s.Tablets id).map (fun tablet => AddPending k (count id) tablet.Pending)

/-- The part of a transaction that snapshot replay reads. -/
def SameLogs (t t' : TTransaction) : Prop :=
  t'.ImmediateLockedWriteLog = t.ImmediateLockedWriteLog ∧
    t'.ImmediateLocklessWriteLog = t.ImmediateLocklessWriteLog ∧
    t'.DelayedLocklessWriteLog = t.DelayedLocklessWriteLog ∧
    t'.AuthenticationIdentity = t.AuthenticationIdentity ∧
    t'.Transient = t.Transient

/-- The byte size of the records in the three logs of a transaction whose tablet is found. -/
def TransactionFoundByteSize (env : TCollaborators) (found : TTabletId → Bool)
    (t : TTransaction) : Int :=
  FoundByteSize env found t.ImmediateLockedWriteLog +
    FoundByteSize env found t.ImmediateLocklessWriteLog +
    FoundByteSize env found t.DelayedLocklessWriteLog

/-- The number of records in the three logs of a transaction that name a tablet. -/
def TransactionRecordCount (tabletId : TTabletId) (t : TTransaction) : Int :=
  RecordCount tabletId t.ImmediateLockedWriteLog +
    RecordCount tabletId t.ImmediateLocklessWriteLog +
    RecordCount tabletId t.DelayedLocklessWriteLog

/-- The byte size of all records, over all transactions, whose tablet is found. -/
def ReplayedByteSize (env : TCollaborators) (found : TTabletId → Bool) :
    List TTransaction → Int
  | [] => 0
  | t :: rest => TransactionFoundByteSize env found t + ReplayedByteSize env found rest

/-- The number of records naming a tablet, over the transactions of one kind (replicator or
user, by their authentication identity). -/
def ReplayedRecordCount (env : TCollaborators) (replicatorWrite : Bool) (tabletId : TTabletId) :
    List TTransaction → Int
  | [] => 0
  | t :: rest =>
    (if IsReplicatorWrite env t.AuthenticationIdentity = replicatorWrite then
      TransactionRecordCount tabletId t else 0) +
      ReplayedRecordCount env replicatorWrite tabletId rest

/-- The pending counters of every tablet of the second state are those of the first shifted
by `user id` and `replicator id`. -/
def PendingShift2 (user replicator : TTabletId → Int) (s s' : TState) : Prop :=
  ∀ id, (s'.Tablets id).map TTablet.Pending =
    (s.Tablets id).map (fun tablet =>
      (tablet.PendingUserWriteRecordCount + user id,
        tablet.PendingReplicatorWriteRecordCount + replicator id))

/-- The byte size of the records of a log. -/
def LogByteSize (env : TCollaborators) : List TTransactionWriteRecord → Int
  | [] => 0
  | record :: rest => env.GetByteSize record + LogByteSize env rest

/-- The byte size of the three write logs of a transaction. -/
def TransactionByteSize (env : TCollaborators) (t : TTransaction) : Int :=
  LogByteSize env t.ImmediateLockedWriteLog + LogByteSize env t.ImmediateLocklessWriteLog +
    LogByteSize env t.DelayedLocklessWriteLog

/-- The aggregate byte size of all write logs of all transactions. -/
def WriteLogsByteSize (env : TCollaborators) : List TTransaction → Int
  | [] => 0
  | t :: rest => TransactionByteSize env t + WriteLogsByteSize env rest

/-- A record that names tablet `9`, which `SampleState` does not hold. -/
def SampleOrphanRecord : TTransactionWriteRecord where
  TabletId := 9
  Data := [1, 2, 3]
  RowCount := 1
  DataWeight := 3
  SyncReplicaIds := []

/-- A persistent transaction restored from a snapshot whose immediate lockless log holds
`SampleRecord`. -/
def SampleSnapshotTransaction : TTransaction :=
  { SampleTransaction with
    Transient := false
    PrelockedRows := []
    ImmediateLocklessWriteLog := [SampleRecord] }

/-- A persistent transaction restored from a snapshot whose immediate lockless log holds a
record of a tablet that was removed. -/
def SampleOrphanTransaction : TTransaction :=
  { SampleTransaction with
    Transient := false
    PrelockedRows := []
    ImmediateLocklessWriteLog := [SampleOrphanRecord] }

/-- The delayed lockless row count and the replicated flag of a tablet. -/
def TTablet.Delayed (tablet : TTablet) : Int × Bool :=
  (tablet.DelayedLocklessRowCount, tablet.Replicated)

/-- The tablets of the second state exist exactly when those of the first do and have the
same delayed lockless row count and replicated flag. -/
def SameDelayed (s s' : TState) : Prop :=
  ∀ id, (s'.Tablets id).map TTablet.Delayed = (s.Tablets id).map TTablet.Delayed

/-- The sum of the row counts of the records of a log that name a tablet. -/
def RowSum (tabletId : TTabletId) : List TTransactionWriteRecord → Int
  | [] => 0
  | record :: rest =>
    (if record.TabletId = tabletId then record.RowCount else 0) + RowSum tabletId rest

/-- The sum of the values stored under a key of a flat map. -/
def FlatMapSum {K : Type} [DecidableEq K] (key : K) : List (K × Int) → Int
  | [] => 0
  | (k, v) :: rest => (if k = key then v else 0) + FlatMapSum key rest

/-- Shifts the delayed lockless row count of a replicated tablet. -/
def ShiftDelayed (delta : Int) (p : Int × Bool) : Int × Bool :=
  (p.1 + (if p.2 then delta else 0), p.2)

/-- A synchronous replica with id `1`, enabled and caught up. -/
def SampleReplica : TTableReplicaInfo where
  Id := 1
  Mode := .Sync
  State := .Enabled
  CurrentReplicationRowIndex := 0
  CurrentReplicationTimestamp := 0
  PreparedReplicationTransactionId := none

/-- A replicated tablet with `Strong` commit ordering and the synchronous replica
`SampleReplica`. -/
def SampleReplicatedTablet : TTablet :=
  { SampleTablet with
    CommitOrdering := .Strong
    Replicated := true
    Replicas := [SampleReplica] }

/-- A state whose only tablet is `SampleReplicatedTablet` under id `8`, pinned once. -/
def SampleReplicatedState : TState where
  Tablets := fun id => if id = 8 then some SampleReplicatedTablet else none
  PrelockedTablets := [8]
  WriteLogsMemoryTrackerGuard := 0
  Mutations := []
  Trace := []

/-- A record of one row for tablet `8` that declares the synchronous replica `1`. -/
def SampleReplicatedRecord : TTransactionWriteRecord where
  TabletId := 8
  Data := [1, 2, 3]
  RowCount := 1
  DataWeight := 3
  SyncReplicaIds := [1]

/-- The record `SampleReplicatedRecord` with the synchronous replica `1` declared twice. -/
def SampleDuplicateRecord : TTransactionWriteRecord :=
  { SampleReplicatedRecord with SyncReplicaIds := [1, 1] }

/-- The transaction `SampleTransaction` without prelocked rows. -/
def SamplePlainTransaction : TTransaction :=
  { SampleTransaction with PrelockedRows := [] }

/-- The invariant of the loop of `Write` on the prelocking path: the tablet of the snapshot
is neither physically ordered nor replicated, and a retained tablet pointer is that tablet. -/
def PrelockPath (args : TWriteArgs) (l : TWriteLoop) : Prop :=
  (∀ tablet, l.State.Tablets args.TabletSnapshot.TabletId = some tablet →
      tablet.PhysicallyOrdered = false ∧ tablet.Replicated = false) ∧
    ∀ tabletId, l.Tablet = some tabletId → tabletId = args.TabletSnapshot.TabletId

/-- The transient signature of a transaction of the manager, or the initial signature if the
transaction does not exist yet. -/
def CurrentTransientSignature (env : TCollaborators) (tm : TTransactionManager)
    (transactionId : TTransactionId) : TTransactionSignature :=
  ((tm.Find transactionId).map (fun t => t.TransientSignature)).getD
    env.InitialTransactionSignature

/-- The physically ordered and replicated flags of a tablet. -/
def TTablet.Flags (tablet : TTablet) : Bool × Bool :=
  (tablet.PhysicallyOrdered, tablet.Replicated)

/-- Every mutation of the list carries signature zero, in the request and in the arguments
of the leader handler. -/
def ZeroSignatures (mutations : List TMutation) : Prop :=
  ∀ m ∈ mutations, m.Request.signature = 0 ∧ m.Handler.Signature = 0

/-- The collaborators of `SampleCollaborators` with a store manager that, until the caller
has waited on a blocked row, consumes one byte and reports a blocked row, and afterwards
drains the reader. -/
def SampleBlockingCollaborators : TCollaborators :=
  { SampleCollaborators with
    ExecuteWrites := fun trace tabletId reader _ =>
      if TEvent.WaitOnBlockedRow tabletId ∈ trace then
        { Consumed := reader.Data.length - reader.Current
          RowCount := 1
          DataWeight := 1
          BlockedStore := false
          Error := false
          RowRefs := [{ Store := 1, Row := 2, Tablet := tabletId }] }
      else
        { Consumed := 1
          RowCount := 1
          DataWeight := 1
          BlockedStore := true
          Error := false
          RowRefs := [{ Store := 1, Row := 1, Tablet := tabletId }] } }

/-! ## Validators and hooks: specification-side definitions -/

/-- The write context with which a non-atomic batch is executed: phase `Commit`, no
transaction, and the timestamp embedded in the transaction id as commit timestamp. -/
def NonAtomicCommitContext (env : TCollaborators) (transactionId : TTransactionId) :
    TWriteContext :=
  { Phase := .Commit
    Transaction := none
    CommitTimestamp := env.TimestampFromTransactionId transactionId
    RowCount := 0
    DataWeight := 0
    BlockedStore := false
    Error := false }

/-- The commit bookkeeping that `FinishTabletCommit` applies to a tablet: the last commit
timestamp is updated, and the total row count is refreshed if the tablet is physically
ordered.  `trace` is the history on which the refreshed count depends. -/
def CommitBookkeeping (env : TCollaborators) (trace : List TEvent) (tabletId : TTabletId)
    (timestamp : TTimestamp) (tablet : TTablet) : TTablet :=
  if tablet.PhysicallyOrdered then
    { tablet.UpdateLastCommitTimestamp timestamp with
      TotalRowCount := env.ComputeTotalRowCount trace tabletId }
  else
    tablet.UpdateLastCommitTimestamp timestamp

/-- The leader handler of a mutation, applied. -/
def ApplyLeader (env : TCollaborators) (s : TState) (tm : TTransactionManager)
    (mutation : TMutation) : Except TError (TState × TTransactionManager) :=
  HydraLeaderWriteRows env s tm mutation.Handler.TransactionId mutation.Handler.MountRevision
    mutation.Handler.Signature mutation.Handler.Lockless mutation.Handler.WriteRecord
    mutation.Handler.Identity

/-- Whether a declared id names a replica of the tablet that is in `Sync` mode. -/
def DeclaredSync (tablet : TTablet) (replicaId : TTableReplicaId) : Bool :=
  match tablet.FindReplicaInfo replicaId with
  | some replicaInfo => replicaInfo.Mode == ETableReplicaMode.Sync
  | none => false

/-- The outcome of `ValidateSyncReplicaSet` in the words of the specification: the first
declared id that is unknown or not in `Sync` mode decides the error; if there is none, an
omitted `Sync` replica of the tablet gives `SyncReplicaIsNotWritten`. -/
def SpecValidateSyncReplicaSet (tablet : TTablet) (syncReplicaIds : TSyncReplicaIdList) :
    Except TError Unit :=
  match syncReplicaIds.find? (fun replicaId => !DeclaredSync tablet replicaId) with
  | some replicaId =>
    if (tablet.FindReplicaInfo replicaId).isNone then
      .error .SyncReplicaIsNotKnown
    else
      .error .SyncReplicaIsNotInSyncMode
  | none =>
    if tablet.Replicas.any
        (fun r => r.Mode == ETableReplicaMode.Sync && !syncReplicaIds.contains r.Id) then
      .error .SyncReplicaIsNotWritten
    else
      .ok ()

/-- The error code `AllWritesDisabled`, which the four errors of `ValidateTabletStoreLimit`
share; they differ in the message. -/
def TError.IsAllWritesDisabled : TError → Bool
  | .AllWritesDisabledStores => true
  | .AllWritesDisabledOverlappingStores => true
  | .AllWritesDisabledEdenStores => true
  | .AllWritesDisabledOverflow => true
  | _ => false

/-- A write with a transaction id of atomicity `None` whose embedded timestamp `2001` is
beyond the clock-skew threshold, against a snapshot with the stale mount revision `5`. -/
def SampleSkewedStaleArgs : TWriteArgs :=
  { SampleWriteArgs with
    TransactionId := 2001
    TabletSnapshot := { TabletId := 7, MountRevision := 5 } }

/-- A state whose only tablet, under id `7`, is unmounted. -/
def SampleUnmountedState : TState :=
  { SampleState with
    Tablets := fun id => if id = 7 then some { SampleTablet with State := .Unmounted } else none }

/-- The tablets of the second state exist exactly when those of the first do and agree with
them under the view `f`. -/
def SameOn {α : Type} (f : TTablet → α) (s s' : TState) : Prop :=
  ∀ id, (s'.Tablets id).map f = (s.Tablets id).map f

/-- Whether some record of a log targets the tablet and lists the replica id among its
`SyncReplicaIds`. -/
def DeclaredIn (log : List TTransactionWriteRecord) (tabletId : TTabletId)
    (replicaId : TTableReplicaId) : Bool :=
  log.any (fun record => record.TabletId == tabletId && record.SyncReplicaIds.contains replicaId)

/-- The replica with its current replication timestamp advanced to the maximum of its old
value and the commit timestamp. -/
def AdvanceReplicationTimestamp (commitTimestamp : TTimestamp) (r : TTableReplicaInfo) :
    TTableReplicaInfo :=
  { r with CurrentReplicationTimestamp := max r.CurrentReplicationTimestamp commitTimestamp }

/-- The loops of `OnTransactionCommitted` over the delayed lockless write log, the collected
synchronous replicas and the collected tablets: last write timestamps are updated, the
current replication timestamp of every collected replica is advanced, and the trimmed row
count of every collected tablet is advanced. -/
def AdvanceSyncReplicas (t1 : TTransaction) (s4 : TState) : TState :=
  let commitTimestamp := t1.CommitTimestamp
  let collected := CollectSyncReplicas commitTimestamp t1.DelayedLocklessWriteLog s4 [] []
  let s6 := collected.2.1.dedup.foldl
    (fun st entry => st.UpdateTablet entry.1 (fun t => t.UpdateReplica entry.2 (fun r =>
      { r with
        CurrentReplicationTimestamp :=
          max r.CurrentReplicationTimestamp commitTimestamp })))
    collected.1
  collected.2.2.dedup.foldl
    (fun st tabletId => st.Record (.AdvanceReplicatedTrimmedRowCount tabletId t1.Id)) s6

/-- The tail of `OnTransactionCommitted` after `AdvanceSyncReplicas`: the tablet locks are
released if the delayed lockless log is empty. -/
def CommitUnlock (t1 : TTransaction) (s7 : TState) : TState × TTransaction :=
  if t1.DelayedLocklessWriteLog = [] then UnlockLockedTablets s7 t1 else (s7, t1)

/-- The part of `OnTransactionCommitted` that follows the loops committing locked rows and
immediate lockless records, as a function of the state those loops leave:
`AdvanceSyncReplicas`, then `CommitUnlock`, then the two immediate logs are dropped. -/
def CommitEpilogue (env : TCollaborators) (t1 : TTransaction) (s4 : TState) :
    TState × TTransaction :=
  let unlocked := CommitUnlock t1 (AdvanceSyncReplicas t1 s4)
  let dropped := DropTransactionWriteLog env unlocked.1 unlocked.2 .ImmediateLocked
  DropTransactionWriteLog env dropped.1 dropped.2 .ImmediateLockless

/-- The tablet is found in the state and knows the replica. -/
def ReplicaFound (s : TState) (tabletId : TTabletId) (replicaId : TTableReplicaId) : Prop :=
  ∃ tablet, s.Tablets tabletId = some tablet ∧ (tablet.FindReplicaInfo replicaId).isSome = true

/-- A committed transaction whose delayed lockless log holds `SampleReplicatedRecord`, with
commit timestamp `5`. -/
def SampleCommittedTransaction : TTransaction :=
  { SamplePlainTransaction with
    State := .Committed
    CommitTimestamp := 5
    DelayedLocklessWriteLog := [SampleReplicatedRecord, SampleDuplicateRecord] }

/-- The calls of `AbortRow` recorded in a trace, in call order. -/
def AbortedRows (trace : List TEvent) : List (TTransactionId × TSortedDynamicRowRef) :=
  trace.filterMap (fun event =>
    match event with
    | .AbortRow transaction rowRef => some (transaction, rowRef)
    | _ => none)

/-- The transaction `SamplePlainTransaction` with the rows-prepared flag already set. -/
def SamplePreparedTransaction : TTransaction :=
  { SamplePlainTransaction with RowsPrepared := true }

/-- The delayed lockless row count of a tablet and the current replication row indexes of
its replicas. -/
def TTablet.Provisional (tablet : TTablet) : Int × List Int :=
  (tablet.DelayedLocklessRowCount,
    tablet.Replicas.map (fun r => r.CurrentReplicationRowIndex))

/-- The tablet `SampleTablet` locked three times and with two pending user write records. -/
def SampleLoggedTablet : TTablet :=
  { SampleTablet with
    PendingUserWriteRecordCount := 2
    TabletLockCount := 3 }

/-- A state whose only tablet is `SampleLoggedTablet` under id `7`, with a memory guard of
`8`, which is the byte size of two records `SampleRecord` under `SampleCollaborators`. -/
def SampleLoggedState : TState where
  Tablets := fun id => if id = 7 then some SampleLoggedTablet else none
  PrelockedTablets := []
  WriteLogsMemoryTrackerGuard := 8
  Mutations := []
  Trace := []

/-- A committed transaction with commit timestamp `5` that holds one lock of tablet `7`
and has `SampleRecord` in its immediate locked log and in its immediate lockless log; its
delayed lockless log is empty. -/
def SampleLoggedTransaction : TTransaction :=
  { SamplePlainTransaction with
    State := .Committed
    CommitTimestamp := 5
    ImmediateLockedWriteLog := [SampleRecord]
    ImmediateLocklessWriteLog := [SampleRecord]
    LockedTablets := [7] }

/-- The write context with which `Write` asks the store manager to prelock rows. -/
def PrelockContext (transactionId : TTransactionId) : TWriteContext :=
  { Phase := .Prelock
    Transaction := some transactionId
    CommitTimestamp := NullTimestamp
    RowCount := 0
    DataWeight := 0
    BlockedStore := false
    Error := false }

/-- The transaction `GetOrCreateTransaction` creates for `Write`. -/
def FreshTransaction (env : TCollaborators) (args : TWriteArgs) : TTransaction :=
  { Id := args.TransactionId
    StartTimestamp := args.TransactionStartTimestamp
    Timeout := args.TransactionTimeout
    PrepareTimestamp := NullTimestamp
    CommitTimestamp := NullTimestamp
    State := .Active
    Transient := true
    Foreign := false
    TransientSignature := env.InitialTransactionSignature
    PersistentSignature := env.InitialTransactionSignature
    ImmediateLockedWriteLog := []
    ImmediateLocklessWriteLog := []
    DelayedLocklessWriteLog := []
    PrelockedRows := []
    LockedRows := []
    LockedTablets := []
    RowsPrepared := false
    AuthenticationIdentity := args.Identity }

/-- The write log `HydraLeaderWriteRows` and `HydraFollowerWriteRows` select. -/
def SelectWriteLog (tablet : TTablet) (lockless : Bool) : EWriteLog :=
  if tablet.CommitOrdering == ECommitOrdering.Weak then
    (if lockless then EWriteLog.ImmediateLockless else EWriteLog.ImmediateLocked)
  else
    EWriteLog.DelayedLockless

/-- The state in which `HydraLeaderWriteRows` continues after popping the pinned tablet and
decrementing its in-flight mutation count. -/
def LeaderPopped (env : TCollaborators) (s : TState) (queue : List TTabletId)
    (tabletId : TTabletId) (identity : TAuthenticationIdentity) : TState :=
  ({ s with PrelockedTablets := queue } : TState).UpdateTablet tabletId
    (fun t => IncrementTabletInFlightMutationCount t (IsReplicatorWrite env identity) (-1))

/-- What the leader apply of a full-atomicity, non-lockless write does to the tablet: the
in-flight mutation count of the writer's kind goes down by one, the pending write record
count of the transaction's kind goes up by one, and the pin taken by `Write` is released. -/
def LeaderLockedEffect (env : TCollaborators) (identity : TAuthenticationIdentity)
    (transaction : TTransaction) (tablet : TTablet) : TTablet :=
  (fun t : TTablet => { t with TabletLockCount := t.TabletLockCount - 1 })
    (IncrementTabletPendingWriteRecordCount
      (IncrementTabletInFlightMutationCount tablet (IsReplicatorWrite env identity) (-1))
      (IsReplicatorWrite env transaction.AuthenticationIdentity) 1)

/-- The collaborators `SampleCollaborators` with a store manager that prelocks one row per
call and drains the reader. -/
def SamplePrelockingCollaborators : TCollaborators :=
  { SampleCollaborators with
    ExecuteWrites := fun _ tabletId reader _ =>
      { Consumed := reader.Data.length - reader.Current
        RowCount := 1
        DataWeight := 1
        BlockedStore := false
        Error := false
        RowRefs := [{ Store := 1, Row := 1, Tablet := tabletId }] } }

/-- The tablet `SampleTablet` with no lock and no mutation in flight. -/
def SampleIdleTablet : TTablet :=
  { SampleTablet with InFlightUserMutationCount := 0, TabletLockCount := 0 }

/-- A state whose only tablet is `SampleIdleTablet` under id `7`, with no tablet pinned. -/
def SampleIdleState : TState :=
  { SampleState with
    Tablets := fun id => if id = 7 then some SampleIdleTablet else none
    PrelockedTablets := [] }

/-- The number of synchronous replicas of a list that carry a replica id. -/
def SyncCount (replicaId : TTableReplicaId) : List TTableReplicaInfo → Int
  | [] => 0
  | r :: rest =>
    (if r.Mode = ETableReplicaMode.Sync ∧ r.Id = replicaId then 1 else 0) +
      SyncCount replicaId rest

/-- The tablet after a persistent prepare whose delayed lockless records bring `n` rows to
it: a replicated tablet has its delayed lockless row count and the current replication row
index of each of its synchronous replicas raised by `n`. -/
def TTablet.Prepared (tablet : TTablet) (n : Int) : TTablet :=
  { tablet with
    DelayedLocklessRowCount :=
      tablet.DelayedLocklessRowCount + (if tablet.Replicated then n else 0)
    Replicas := tablet.Replicas.map (fun r =>
      if tablet.Replicated ∧ r.Mode = ETableReplicaMode.Sync then
        { r with CurrentReplicationRowIndex := r.CurrentReplicationRowIndex + n }
      else r) }

/-- A replicated tablet with the synchronous replica `1` and an asynchronous replica `2`. -/
def SampleMixedTablet : TTablet :=
  { SampleReplicatedTablet with
    Replicas := [SampleReplica, { SampleReplica with Id := 2, Mode := .Async }] }

/-- A state with the replicated tablet `SampleMixedTablet` under id `8` and the plain tablet
`SampleTablet` under id `7`. -/
def SampleMixedState : TState :=
  { SampleReplicatedState with
    Tablets := fun id =>
      if id = 8 then some SampleMixedTablet else if id = 7 then some SampleTablet else none }

/-- A transaction with two delayed lockless records of one row for tablet `8`, the second
declaring the synchronous replica twice. -/
def SampleDelayedTransaction : TTransaction :=
  { SamplePlainTransaction with
    DelayedLocklessWriteLog := [SampleReplicatedRecord, SampleDuplicateRecord] }

/-- The body of `OnTransactionPrepared` together with what it leaves behind: the first
component is the state and the transaction at the moment the call exits, be it by `return`,
by an exception or by a failed `YT_VERIFY`; the second is how it exits.  The loop over the
delayed lockless write log only reads tablets and fills the two local maps, so an exception
thrown inside it leaves the state reached after `PrepareLockedRows`. -/
def OnTransactionPreparedEffects (env : TCollaborators) (s : TState)
    (transaction : TTransaction) (persistent : Bool) :
    (TState × TTransaction) × Except TError Unit :=
  let s1 := PrepareLockedRows env s transaction
  if !persistent then
    ((s1, transaction), .ok ())
  else
    match PrepareRecords env s1 transaction transaction.DelayedLocklessWriteLog [] [] with
    | .error e => ((s1, transaction), .error e)
    | .ok (replicaToRowCount, tabletToRowCount) =>
      let s2 := replicaToRowCount.foldl
        (fun st entry => AddCurrentReplicationRowIndex st entry.1.1 entry.1.2 entry.2) s1
      let s3 := tabletToRowCount.foldl
        (fun st entry => AddDelayedLocklessRowCount st entry.1 entry.2) s2
      if transaction.RowsPrepared then
        ((s3, transaction), .error .Fatal)
      else
        ((s3, { transaction with RowsPrepared := true }), .ok ())

/-- A transaction whose second delayed lockless record targets the missing tablet `9`. -/
def SampleHalfValidTransaction : TTransaction :=
  { SamplePlainTransaction with
    DelayedLocklessWriteLog :=
      [SampleReplicatedRecord, { SampleReplicatedRecord with TabletId := 9 }] }

/-- The sum of the row counts of the delayed lockless records that target a tablet, over the
transactions whose rows-prepared flag is set. -/
def PreparedRowSum (tabletId : TTabletId) : List TTransaction → Int
  | [] => 0
  | t :: rest =>
    (if t.RowsPrepared then RowSum tabletId t.DelayedLocklessWriteLog else 0) +
      PreparedRowSum tabletId rest

/-- A committed transaction that was never persistently prepared and whose delayed lockless
log holds the one-row record `SampleReplicatedRecord` of the replicated tablet `8`. -/
def SampleUnpreparedTransaction : TTransaction :=
  { SamplePlainTransaction with
    State := .Committed
    CommitTimestamp := 5
    DelayedLocklessWriteLog := [SampleReplicatedRecord]
    RowsPrepared := false }

/-- The delayed lockless row count of each replicated tablet `id` of the second state is that
of the first shifted by `delta id`; nothing else about the delayed counts and the replicated
flags differs. -/
def DelayedShift (delta : TTabletId → Int) (s s' : TState) : Prop :=
  ∀ id, (s'.Tablets id).map TTablet.Delayed =
    ((s.Tablets id).map TTablet.Delayed).map (ShiftDelayed (delta id))

/-- The delayed lockless row count of every replicated tablet equals the sum of the row counts
of the delayed lockless records that target it, over the transactions whose rows-prepared
flag is set. -/
def DelayedCountInvariant (s : TState) (tm : List TTransaction) : Prop :=
  ∀ id tablet, s.Tablets id = some tablet → tablet.Replicated = true →
    tablet.DelayedLocklessRowCount = PreparedRowSum id tm

/-- The part of `OnTransactionAborted` under `if (transaction->GetRowsPrepared())`: the row
counts collected by `AbortRecords` are subtracted from the replicas and from the tablets. -/
def AbortPrepared (s3 : TState) (t2 : TTransaction) : TState :=
  if t2.RowsPrepared then
    (AbortRecords s3 t2.DelayedLocklessWriteLog [] []).2.foldl
      (fun st entry => AddDelayedLocklessRowCount st entry.1 (-entry.2))
      ((AbortRecords s3 t2.DelayedLocklessWriteLog [] []).1.foldl
        (fun st entry => AddCurrentReplicationRowIndex st entry.1.1 entry.1.2 (-entry.2)) s3)
  else
    s3

/-- Whether `ValidateReplicaWritable` reaches its `YT_LOG_ALERT_IF` statement ("Current
replication row index is too high"): the replica is synchronous, the reign is not older than
`ReplicationBarrier_YT_14346`, the preceding check did not throw and the index exceeds the
total row count plus the delayed lockless row count. -/
def ReplicationRowIndexAlert (env : TCollaborators) (tablet : TTablet)
    (replicaInfo : TTableReplicaInfo) : Bool :=
  let currentReplicationRowIndex := replicaInfo.CurrentReplicationRowIndex
  let totalRowCount := tablet.TotalRowCount
  let delayedLocklessRowCount := tablet.DelayedLocklessRowCount
  match replicaInfo.Mode with
  | .Sync =>
    if env.Reign < env.ReplicationBarrier_YT_14346 then
      false
    else if currentReplicationRowIndex < totalRowCount + delayedLocklessRowCount then
      false
    else
      decide (currentReplicationRowIndex > totalRowCount + delayedLocklessRowCount)
  | .Async => false

/-- The calls the confirmation loop of `HydraLeaderWriteRows` makes for a list of row
references popped in this order, when `ValidateAndDiscardRowRef` answers `valid`: one
`ValidateAndDiscardRowRef` per reference, followed by `ConfirmRow` if the answer is true. -/
def ConfirmEvents (valid : TSortedDynamicRowRef → Bool) (transactionId : TTransactionId) :
    List TSortedDynamicRowRef → List TEvent
  | [] => []
  | rowRef :: rest =>
    (TEvent.ValidateAndDiscardRowRef rowRef ::
      (if valid rowRef then [TEvent.ConfirmRow transactionId rowRef] else [])) ++
      ConfirmEvents valid transactionId rest

/-- The calls of `ConfirmRow` recorded in a trace, in call order. -/
def ConfirmedRows (trace : List TEvent) : List (TTransactionId × TSortedDynamicRowRef) :=
  trace.filterMap (fun event =>
    match event with
    | .ConfirmRow transaction rowRef => some (transaction, rowRef)
    | _ => none)

/-- The calls of `ValidateAndDiscardRowRef` recorded in a trace, in call order. -/
def ValidatedRows (trace : List TEvent) : List TSortedDynamicRowRef :=
  trace.filterMap (fun event =>
    match event with
    | .ValidateAndDiscardRowRef rowRef => some rowRef
    | _ => none)

/-- Collaborators like `SampleCollaborators` for which the rows of store `2` are discarded. -/
def SampleDiscardingCollaborators : TCollaborators :=
  { SampleCollaborators with
    ValidateAndDiscardRowRef := fun _ rowRef => decide (rowRef.Store ≠ 2) }

/-- A transaction with id `2` and three prelocked rows of tablet `7`, the second one in the
discarded store `2`. -/
def SampleQueuedTransaction : TTransaction :=
  { SampleTransaction with
    PrelockedRows :=
      [{ Store := 1, Row := 1, Tablet := 7 }, { Store := 2, Row := 2, Tablet := 7 },
        { Store := 1, Row := 3, Tablet := 7 }] }

/-- A record of two rows for tablet `7`. -/
def SampleTwoRowRecord : TTransactionWriteRecord :=
  { SampleRecord with RowCount := 2 }

/-- The tablets of the second state are those of the first with the lock count of each
tablet `id` shifted by `delta id`, as far as the lock count is concerned. -/
def LockShift (delta : TTabletId → Int) (s s' : TState) : Prop :=
  ∀ id, (s'.Tablets id).map (fun tablet => tablet.TabletLockCount) =
    (s.Tablets id).map (fun tablet => tablet.TabletLockCount + delta id)

/-- The sum of the in-flight user and in-flight replicator mutation counts of a tablet. -/
def TTablet.InFlightMutationCount (tablet : TTablet) : Int :=
  tablet.InFlightUserMutationCount + tablet.InFlightReplicatorMutationCount

/-- The number of entries of the queue of pinned tablets that name a tablet. -/
def TState.PinnedCount (s : TState) (tabletId : TTabletId) : Int :=
  (s.PrelockedTablets.count tabletId : Int)

/-- The invariant of the in-flight mutation counts: for every tablet, the sum of its
in-flight user and replicator mutation counts is the number of entries of the queue of
pinned tablets that name it. -/
def InFlightInvariant (s : TState) : Prop :=
  ∀ id tablet, s.Tablets id = some tablet → tablet.InFlightMutationCount = s.PinnedCount id

/-- The record data carried by a list of mutations, concatenated in order. -/
def RecordData : List TMutation → TSharedRef
  | [] => []
  | m :: rest => m.Handler.WriteRecord.Data ++ RecordData rest

/-- Whether `Write` treats a write to the tablet as lockless. -/
def IsLockless (env : TCollaborators) (args : TWriteArgs) (tablet : TTablet) : Bool :=
  env.AtomicityFromTransactionId args.TransactionId == EAtomicity.None ||
    tablet.PhysicallyOrdered || tablet.Replicated || args.Versioned

/-! ## Auxiliary lemmas -/

@[simp] theorem UpdateTablet_Tablets (s : TState) (id : TTabletId) (f : TTablet → TTablet)
    (i : TTabletId) :
    (s.UpdateTablet id f).Tablets i = if i = id then (s.Tablets i).map f else s.Tablets i := rfl

@[simp] theorem UpdateTablet_Guard (s : TState) (id : TTabletId) (f : TTablet → TTablet) :
    (s.UpdateTablet id f).WriteLogsMemoryTrackerGuard = s.WriteLogsMemoryTrackerGuard := rfl

@[simp] theorem UpdateTablet_PrelockedTablets (s : TState) (id : TTabletId)
    (f : TTablet → TTablet) :
    (s.UpdateTablet id f).PrelockedTablets = s.PrelockedTablets := rfl

@[simp] theorem UpdateTablet_Mutations (s : TState) (id : TTabletId) (f : TTablet → TTablet) :
    (s.UpdateTablet id f).Mutations = s.Mutations := rfl

@[simp] theorem UpdateTablet_Trace (s : TState) (id : TTabletId) (f : TTablet → TTablet) :
    (s.UpdateTablet id f).Trace = s.Trace := rfl

theorem ConfirmPrelockedRows_ok (env : TCollaborators) :
    ∀ (n : Nat) (s : TState) (t : TTransaction), n ≤ t.PrelockedRows.length →
      ∃ events confirmed,
        ConfirmPrelockedRows env n s t =
          .ok ({ s with Trace := s.Trace ++ events },
            { t with
              PrelockedRows := t.PrelockedRows.drop n
              LockedRows := t.LockedRows ++ confirmed })
  | 0, s, t, _ => ⟨[], [], by simp [ConfirmPrelockedRows]⟩
  | n + 1, s, t, h => by
    cases hp : t.PrelockedRows with
    | nil => simp [hp] at h
    | cons rowRef rest =>
      have hlen : n ≤ rest.length := by simpa [hp] using h
      simp only [ConfirmPrelockedRows, hp, ValidateAndDiscardRowRef, ConfirmRow, TState.Record]
      by_cases hv : env.ValidateAndDiscardRowRef s.Trace rowRef = true
      · obtain ⟨ev, cf, hrec⟩ := ConfirmPrelockedRows_ok env n
          { s with Trace := s.Trace ++ [TEvent.ValidateAndDiscardRowRef rowRef] ++
              [TEvent.ConfirmRow t.Id rowRef] }
          { t with PrelockedRows := rest, LockedRows := t.LockedRows ++ [rowRef] } hlen
        refine ⟨[TEvent.ValidateAndDiscardRowRef rowRef, TEvent.ConfirmRow t.Id rowRef] ++ ev,
          rowRef :: cf, ?_⟩
        simp [hv] at hrec ⊢
        simpa using hrec
      · obtain ⟨ev, cf, hrec⟩ := ConfirmPrelockedRows_ok env n
          { s with Trace := s.Trace ++ [TEvent.ValidateAndDiscardRowRef rowRef] }
          { t with PrelockedRows := rest } hlen
        refine ⟨[TEvent.ValidateAndDiscardRowRef rowRef] ++ ev, cf, ?_⟩
        simp [hv] at hrec ⊢
        simpa using hrec

theorem Find_Id {tm : TTransactionManager} {id : TTransactionId} {t : TTransaction}
    (h : tm.Find id = some t) : t.Id = id := by
  have := List.find?_some h
  simpa using this

theorem Find_Store {tm : TTransactionManager} {id : TTransactionId} {t : TTransaction}
    (t' : TTransaction) (h : tm.Find id = some t) (hid : t'.Id = id) :
    (tm.Store t').Find id = some t' := by
  induction tm with
  | nil => simp [TTransactionManager.Find] at h
  | cons x rest ih =>
    simp only [TTransactionManager.Find, TTransactionManager.Store, List.map_cons,
      List.find?_cons] at h ⊢
    by_cases hx : x.Id = id
    · simp [hx, hid]
    · have hx' : (x.Id == id) = false := by simpa using hx
      rw [hx'] at h
      have hne : ¬ x.Id = t'.Id := by rw [hid]; exact hx
      simp only [hne, if_false, hx']
      exact ih h

theorem Enqueue_WriteLog (env : TCollaborators) (s : TState) (t : TTransaction)
    (tabletId : TTabletId) (log : EWriteLog) (record : TTransactionWriteRecord)
    (signature : TTransactionSignature) :
    (EnqueueTransactionWriteRecord env s t tabletId log record signature).2.WriteLog log =
        t.WriteLog log ++ [record] ∧
      ∀ other, other ≠ log →
        (EnqueueTransactionWriteRecord env s t tabletId log record signature).2.WriteLog other =
          t.WriteLog other := by
  cases log <;> refine ⟨rfl, fun other h => ?_⟩ <;> cases other <;> first | rfl | exact absurd rfl h

theorem Enqueue_Id (env : TCollaborators) (s : TState) (t : TTransaction)
    (tabletId : TTabletId) (log : EWriteLog) (record : TTransactionWriteRecord)
    (signature : TTransactionSignature) :
    (EnqueueTransactionWriteRecord env s t tabletId log record signature).2.Id = t.Id := by
  cases log <;> rfl

theorem GetOrCreateTransaction_Find (env : TCollaborators) (tm : TTransactionManager)
    (id : TTransactionId) (startTimestamp : TTimestamp) (timeout : Nat) (transient : Bool)
    (identity : TAuthenticationIdentity) :
    (GetOrCreateTransaction env tm id startTimestamp timeout transient identity).1.Find id =
      some (GetOrCreateTransaction env tm id startTimestamp timeout transient identity).2.1 := by
  unfold GetOrCreateTransaction
  cases h : tm.Find id with
  | some t => simpa using h
  | none =>
    simp only [TTransactionManager.Find] at h ⊢
    simp [List.find?_append, h]

theorem GetOrCreateTransaction_WriteLog (env : TCollaborators) (tm : TTransactionManager)
    (id : TTransactionId) (startTimestamp : TTimestamp) (timeout : Nat) (transient : Bool)
    (identity : TAuthenticationIdentity) (log : EWriteLog) :
    (GetOrCreateTransaction env tm id startTimestamp timeout transient identity).2.1.WriteLog log =
      ((tm.Find id).map (fun t => t.WriteLog log)).getD [] := by
  unfold GetOrCreateTransaction
  cases h : tm.Find id with
  | some t => simp
  | none => cases log <;> simp [TTransaction.WriteLog]


theorem IncrementPending_add (tablet : TTablet) (k : Bool) (a b : Int) :
    IncrementTabletPendingWriteRecordCount
        (IncrementTabletPendingWriteRecordCount tablet k a) k b =
      IncrementTabletPendingWriteRecordCount tablet k (a + b) := by
  cases k <;> simp [IncrementTabletPendingWriteRecordCount, add_assoc]

theorem IncrementPending_zero (tablet : TTablet) (k : Bool) :
    IncrementTabletPendingWriteRecordCount tablet k 0 = tablet := by
  cases k <;> simp [IncrementTabletPendingWriteRecordCount]

theorem Enqueue_Identity (env : TCollaborators) (s : TState) (t : TTransaction)
    (tabletId : TTabletId) (log : EWriteLog) (record : TTransactionWriteRecord)
    (signature : TTransactionSignature) :
    (EnqueueTransactionWriteRecord env s t tabletId log record signature).2.AuthenticationIdentity
      = t.AuthenticationIdentity := by
  cases log <;> rfl

theorem Enqueue_Tablets (env : TCollaborators) (s : TState) (t : TTransaction)
    (tabletId : TTabletId) (log : EWriteLog) (record : TTransactionWriteRecord)
    (signature : TTransactionSignature) (id : TTabletId) :
    (EnqueueTransactionWriteRecord env s t tabletId log record signature).1.Tablets id =
      if id = tabletId then
        (s.Tablets id).map (fun tablet => IncrementTabletPendingWriteRecordCount tablet
          (IsReplicatorWrite env t.AuthenticationIdentity) 1)
      else s.Tablets id := by
  cases log <;> rfl

theorem RecordCount_cons (id : TTabletId) (record : TTransactionWriteRecord)
    (rest : List TTransactionWriteRecord) :
    RecordCount id (record :: rest) =
      (if record.TabletId = id then 1 else 0) + RecordCount id rest := by
  unfold RecordCount
  by_cases h : record.TabletId = id
  · simp [h]; ring
  · simp [h]

theorem EnqueueRecords_spec (env : TCollaborators) (log : EWriteLog) :
    ∀ (records : List (TTransactionWriteRecord × TTransactionSignature)) (s : TState)
      (t : TTransaction),
      (EnqueueRecords env log records s t).2.WriteLog log =
          t.WriteLog log ++ records.map Prod.fst ∧
        (EnqueueRecords env log records s t).2.AuthenticationIdentity =
          t.AuthenticationIdentity ∧
        ∀ id, (EnqueueRecords env log records s t).1.Tablets id =
          (s.Tablets id).map (fun tablet => IncrementTabletPendingWriteRecordCount tablet
            (IsReplicatorWrite env t.AuthenticationIdentity)
            (RecordCount id (records.map Prod.fst)))
  | [], s, t => by
    refine ⟨by simp [EnqueueRecords], rfl, fun id => ?_⟩
    simp [EnqueueRecords, RecordCount, IncrementPending_zero]
  | (record, signature) :: rest, s, t => by
    obtain ⟨h1, h2, h3⟩ := EnqueueRecords_spec env log rest
      (EnqueueTransactionWriteRecord env s t record.TabletId log record signature).1
      (EnqueueTransactionWriteRecord env s t record.TabletId log record signature).2
    simp only [EnqueueRecords]
    refine ⟨?_, ?_, fun id => ?_⟩
    · rw [h1, (Enqueue_WriteLog env s t record.TabletId log record signature).1]
      simp
    · rw [h2, Enqueue_Identity]
    · rw [h3 id, Enqueue_Identity, Enqueue_Tablets, List.map_cons, RecordCount_cons]
      by_cases hid : id = record.TabletId
      · subst hid
        cases hs : s.Tablets record.TabletId <;> simp [IncrementPending_add]
      · have hid' : ¬ record.TabletId = id := fun h => hid h.symm
        simp [hid, hid']

theorem DropLoop_spec (env : TCollaborators) (k : Bool) :
    ∀ (records : List TTransactionWriteRecord) (s : TState) (byteSize : Int) (id : TTabletId),
      (DropTransactionWriteLogLoop env k records s byteSize).1.Tablets id =
        (s.Tablets id).map (fun tablet => IncrementTabletPendingWriteRecordCount tablet k
          (-RecordCount id records))
  | [], s, byteSize, id => by
    simp [DropTransactionWriteLogLoop, RecordCount, IncrementPending_zero]
  | record :: rest, s, byteSize, id => by
    simp only [DropTransactionWriteLogLoop, TState.FindTablet]
    cases hs : s.Tablets record.TabletId with
    | none =>
      simp only [DropLoop_spec env k rest, RecordCount_cons]
      by_cases hid : record.TabletId = id
      · subst hid; simp [hs]
      · simp [hid]
    | some tablet =>
      simp only [DropLoop_spec env k rest, RecordCount_cons, UpdateTablet_Tablets]
      by_cases hid : record.TabletId = id
      · subst hid
        simp [hs, IncrementPending_add]
        congr 1; ring
      · have hid' : ¬ id = record.TabletId := fun h => hid h.symm
        simp [hid, hid']

theorem IncrementPending_counts (tablet : TTablet) (k : Bool) (delta : Int) :
    (IncrementTabletPendingWriteRecordCount tablet k delta).PendingReplicatorWriteRecordCount =
        tablet.PendingReplicatorWriteRecordCount + (if k then delta else 0) ∧
      (IncrementTabletPendingWriteRecordCount tablet k delta).PendingUserWriteRecordCount =
        tablet.PendingUserWriteRecordCount + (if k then 0 else delta) := by
  cases k <;> simp [IncrementTabletPendingWriteRecordCount]

theorem Drop_Tablets (env : TCollaborators) (s : TState) (t : TTransaction) (log : EWriteLog)
    (id : TTabletId) :
    (DropTransactionWriteLog env s t log).1.Tablets id =
      (s.Tablets id).map (fun tablet => IncrementTabletPendingWriteRecordCount tablet
        (IsReplicatorWrite env t.AuthenticationIdentity) (-RecordCount id (t.WriteLog log))) := by
  simp only [DropTransactionWriteLog]
  exact DropLoop_spec env _ _ s 0 id

theorem Drop_WriteLog (env : TCollaborators) (s : TState) (t : TTransaction) (log : EWriteLog) :
    (DropTransactionWriteLog env s t log).2.WriteLog log = [] ∧
      ∀ other, other ≠ log →
        (DropTransactionWriteLog env s t log).2.WriteLog other = t.WriteLog other := by
  cases log <;> refine ⟨rfl, fun other h => ?_⟩ <;> cases other <;> first | rfl | exact absurd rfl h

theorem AddPending_add (k : Bool) (a b : Int) (p : Int × Int) :
    AddPending k b (AddPending k a p) = AddPending k (a + b) p := by
  cases k <;> simp [AddPending, add_assoc]

theorem AddPending_zero (k : Bool) (p : Int × Int) : AddPending k 0 p = p := by
  cases k <;> simp [AddPending]

theorem Pending_Increment (tablet : TTablet) (k : Bool) (delta : Int) :
    (IncrementTabletPendingWriteRecordCount tablet k delta).Pending =
      AddPending k delta tablet.Pending := by
  cases k <;> rfl

theorem PendingShift_isSome {k : Bool} {count : TTabletId → Int} {s s' : TState}
    (h : PendingShift k count s s') (id : TTabletId) :
    (s'.Tablets id).isSome = (s.Tablets id).isSome := by
  have := congrArg Option.isSome (h id)
  simpa using this

theorem PendingShift_step {k : Bool} {s s1 s' : TState} {record : TTransactionWriteRecord}
    {rest : List TTransactionWriteRecord}
    (h1 : ∀ id, (s1.Tablets id).map TTablet.Pending =
      ((s.UpdateTablet record.TabletId
        (fun t => IncrementTabletPendingWriteRecordCount t k 1)).Tablets id).map TTablet.Pending)
    (h : PendingShift k (fun id => RecordCount id rest) s1 s') :
    PendingShift k (fun id => RecordCount id (record :: rest)) s s' := by
  intro id
  have e1 : (s'.Tablets id).map TTablet.Pending =
      ((s1.Tablets id).map TTablet.Pending).map (AddPending k (RecordCount id rest)) := by
    rw [h id, Option.map_map]; rfl
  rw [e1, h1 id, UpdateTablet_Tablets]
  beta_reduce
  rw [RecordCount_cons]
  by_cases hid : id = record.TabletId
  · subst hid
    cases hs : s.Tablets record.TabletId with
    | none => simp
    | some tablet => simp [Pending_Increment, AddPending_add]
  · have hid' : ¬ record.TabletId = id := fun h => hid h.symm
    cases hs : s.Tablets id with
    | none => simp [hid]
    | some tablet => simp [hid, hid']

theorem PendingShift_skip {k : Bool} {s s' : TState} {record : TTransactionWriteRecord}
    {rest : List TTransactionWriteRecord} (hs : s.Tablets record.TabletId = none)
    (h : PendingShift k (fun id => RecordCount id rest) s s') :
    PendingShift k (fun id => RecordCount id (record :: rest)) s s' := by
  intro id
  rw [h id]
  beta_reduce
  rw [RecordCount_cons]
  by_cases hid : record.TabletId = id
  · subst hid; simp [hs]
  · simp [hid]

theorem PendingShift_nil (k : Bool) (s : TState) :
    PendingShift k (fun id => RecordCount id []) s s := by
  intro id
  cases s.Tablets id <;> simp [RecordCount, AddPending_zero]

theorem isSome_UpdateTablet (s : TState) (id i : TTabletId) (f : TTablet → TTablet) :
    ((s.UpdateTablet id f).Tablets i).isSome = (s.Tablets i).isSome := by
  rw [UpdateTablet_Tablets]
  split <;> simp

theorem SameLogs_refl (t : TTransaction) : SameLogs t t := ⟨rfl, rfl, rfl, rfl, rfl⟩

theorem SameLogs_trans {t1 t2 t3 : TTransaction} (h12 : SameLogs t1 t2) (h23 : SameLogs t2 t3) :
    SameLogs t1 t3 :=
  ⟨h23.1.trans h12.1, h23.2.1.trans h12.2.1, h23.2.2.1.trans h12.2.2.1,
    h23.2.2.2.1.trans h12.2.2.2.1, h23.2.2.2.2.trans h12.2.2.2.2⟩

theorem ReplayImmediateLockless_spec (env : TCollaborators) (k : Bool)
    (found : TTabletId → Bool) :
    ∀ (records : List TTransactionWriteRecord) (s : TState) (t : TTransaction),
      (∀ id, (s.Tablets id).isSome = found id) →
      (ReplayImmediateLockless env k records s t).1.WriteLogsMemoryTrackerGuard =
          s.WriteLogsMemoryTrackerGuard + FoundByteSize env found records ∧
        PendingShift k (fun id => RecordCount id records) s
          (ReplayImmediateLockless env k records s t).1 ∧
        SameLogs t (ReplayImmediateLockless env k records s t).2
  | [], s, t, _ => by
    simp only [ReplayImmediateLockless, FoundByteSize, add_zero, true_and]
    exact ⟨PendingShift_nil k s, SameLogs_refl t⟩
  | record :: rest, s, t, hfound => by
    simp only [ReplayImmediateLockless, TState.FindTablet, FoundByteSize]
    cases hs : s.Tablets record.TabletId with
    | none =>
      obtain ⟨h1, h2, h3⟩ := ReplayImmediateLockless_spec env k found rest s t hfound
      have hf : found record.TabletId = false := by rw [← hfound, hs]; rfl
      simp only [hf]
      refine ⟨by rw [h1]; simp, PendingShift_skip hs h2, h3⟩
    | some tablet =>
      have hf : found record.TabletId = true := by rw [← hfound, hs]; rfl
      simp only [hf, if_true]
      obtain ⟨h1, h2, h3⟩ := ReplayImmediateLockless_spec env k found rest
        (LockTablet (({ s with WriteLogsMemoryTrackerGuard :=
            s.WriteLogsMemoryTrackerGuard + env.GetByteSize record } : TState).UpdateTablet
          record.TabletId (fun t => IncrementTabletPendingWriteRecordCount t k 1))
          record.TabletId)
        { t with LockedTablets := t.LockedTablets ++ [record.TabletId] }
        (fun id => by
          rw [← hfound id]
          simp only [LockTablet, isSome_UpdateTablet])
      refine ⟨?_, PendingShift_step ?_ h2, SameLogs_trans ⟨rfl, rfl, rfl, rfl, rfl⟩ h3⟩
      · rw [h1]; simp only [LockTablet, UpdateTablet_Guard]; ring
      · intro id
        simp only [LockTablet, UpdateTablet_Tablets]
        by_cases hid : id = record.TabletId
        · subst hid; simp [hs, TTablet.Pending]
        · simp [hid]

theorem ReplayDelayedLockless_spec (env : TCollaborators) (k : Bool)
    (found : TTabletId → Bool) :
    ∀ (records : List TTransactionWriteRecord) (s : TState) (t : TTransaction),
      (∀ id, (s.Tablets id).isSome = found id) →
      (ReplayDelayedLockless env k records s t).1.WriteLogsMemoryTrackerGuard =
          s.WriteLogsMemoryTrackerGuard + FoundByteSize env found records ∧
        PendingShift k (fun id => RecordCount id records) s
          (ReplayDelayedLockless env k records s t).1 ∧
        SameLogs t (ReplayDelayedLockless env k records s t).2
  | [], s, t, _ => by
    simp only [ReplayDelayedLockless, FoundByteSize, add_zero, true_and]
    exact ⟨PendingShift_nil k s, SameLogs_refl t⟩
  | record :: rest, s, t, hfound => by
    simp only [ReplayDelayedLockless, TState.FindTablet, FoundByteSize]
    cases hs : s.Tablets record.TabletId with
    | none =>
      obtain ⟨h1, h2, h3⟩ := ReplayDelayedLockless_spec env k found rest s t hfound
      have hf : found record.TabletId = false := by rw [← hfound, hs]; rfl
      simp only [hf]
      refine ⟨by rw [h1]; simp, PendingShift_skip hs h2, h3⟩
    | some tablet =>
      have hf : found record.TabletId = true := by rw [← hfound, hs]; rfl
      simp only [hf, if_true]
      split
      · obtain ⟨h1, h2, h3⟩ := ReplayDelayedLockless_spec env k found rest
          ((LockTablet (({ s with WriteLogsMemoryTrackerGuard :=
              s.WriteLogsMemoryTrackerGuard + env.GetByteSize record } : TState).UpdateTablet
            record.TabletId (fun t => IncrementTabletPendingWriteRecordCount t k 1))
            record.TabletId).UpdateTablet record.TabletId (fun t =>
              { t with DelayedLocklessRowCount := t.DelayedLocklessRowCount + record.RowCount }))
          { t with LockedTablets := t.LockedTablets ++ [record.TabletId] }
          (fun id => by
            rw [← hfound id]
            simp only [LockTablet, isSome_UpdateTablet])
        refine ⟨?_, PendingShift_step ?_ h2, SameLogs_trans ⟨rfl, rfl, rfl, rfl, rfl⟩ h3⟩
        · rw [h1]; simp only [LockTablet, UpdateTablet_Guard]; ring
        · intro id
          simp only [LockTablet, UpdateTablet_Tablets]
          by_cases hid : id = record.TabletId
          · subst hid; simp [hs, TTablet.Pending]
          · simp [hid]
      · obtain ⟨h1, h2, h3⟩ := ReplayDelayedLockless_spec env k found rest
          (LockTablet (({ s with WriteLogsMemoryTrackerGuard :=
              s.WriteLogsMemoryTrackerGuard + env.GetByteSize record } : TState).UpdateTablet
            record.TabletId (fun t => IncrementTabletPendingWriteRecordCount t k 1))
            record.TabletId)
          { t with LockedTablets := t.LockedTablets ++ [record.TabletId] }
          (fun id => by
            rw [← hfound id]
            simp only [LockTablet, isSome_UpdateTablet])
        refine ⟨?_, PendingShift_step ?_ h2, SameLogs_trans ⟨rfl, rfl, rfl, rfl, rfl⟩ h3⟩
        · rw [h1]; simp only [LockTablet, UpdateTablet_Guard]; ring
        · intro id
          simp only [LockTablet, UpdateTablet_Tablets]
          by_cases hid : id = record.TabletId
          · subst hid; simp [hs, TTablet.Pending]
          · simp [hid]

theorem ReplayImmediateLocked_spec (env : TCollaborators) (k : Bool)
    (found : TTabletId → Bool) :
    ∀ (records : List TTransactionWriteRecord) (s : TState) (t : TTransaction)
      (s' : TState) (t' : TTransaction),
      (∀ id, (s.Tablets id).isSome = found id) →
      ReplayImmediateLocked env k records s t = .ok (s', t') →
      s'.WriteLogsMemoryTrackerGuard =
          s.WriteLogsMemoryTrackerGuard + FoundByteSize env found records ∧
        PendingShift k (fun id => RecordCount id records) s s' ∧ SameLogs t t'
  | [], s, t, s', t', _, h => by
    simp only [ReplayImmediateLocked, Except.ok.injEq, Prod.mk.injEq] at h
    obtain ⟨rfl, rfl⟩ := h
    simp only [FoundByteSize, add_zero, true_and]
    exact ⟨PendingShift_nil k s, SameLogs_refl t⟩
  | record :: rest, s, t, s', t', hfound, h => by
    simp only [ReplayImmediateLocked, TState.FindTablet] at h
    simp only [FoundByteSize]
    cases hs : s.Tablets record.TabletId with
    | none =>
      rw [hs] at h
      obtain ⟨h1, h2, h3⟩ := ReplayImmediateLocked_spec env k found rest s t s' t' hfound h
      have hf : found record.TabletId = false := by rw [← hfound, hs]; rfl
      simp only [hf]
      refine ⟨by rw [h1]; simp, PendingShift_skip hs h2, h3⟩
    | some tablet =>
      rw [hs] at h
      have hf : found record.TabletId = true := by rw [← hfound, hs]; rfl
      simp only [hf, if_true]
      simp only [] at h
      split at h
      · exact absurd h (by simp)
      · obtain ⟨h1, h2, h3⟩ := ReplayImmediateLocked_spec env k found rest _ _ s' t'
          (fun id => by
            rw [← hfound id]
            simp only [ExecuteWrites, TState.Record, isSome_UpdateTablet])
          h
        refine ⟨?_, PendingShift_step ?_ h2, SameLogs_trans ⟨rfl, rfl, rfl, rfl, rfl⟩ h3⟩
        · rw [h1]; simp only [ExecuteWrites, TState.Record, UpdateTablet_Guard]; ring
        · intro id
          simp only [ExecuteWrites, TState.Record, UpdateTablet_Tablets]

theorem PendingShift2_isSome {u r : TTabletId → Int} {s s' : TState}
    (h : PendingShift2 u r s s') (id : TTabletId) :
    (s'.Tablets id).isSome = (s.Tablets id).isSome := by
  have := congrArg Option.isSome (h id)
  simpa using this

theorem PendingShift2_refl (s : TState) : PendingShift2 (fun _ => 0) (fun _ => 0) s s := by
  intro id
  cases s.Tablets id <;> simp [TTablet.Pending]

theorem PendingShift2_trans {u1 r1 u2 r2 : TTabletId → Int} {s1 s2 s3 : TState}
    (h12 : PendingShift2 u1 r1 s1 s2) (h23 : PendingShift2 u2 r2 s2 s3) :
    PendingShift2 (fun id => u1 id + u2 id) (fun id => r1 id + r2 id) s1 s3 := by
  intro id
  have e12 := h12 id
  have e23 := h23 id
  cases h1 : s1.Tablets id with
  | none =>
    rw [h1] at e12
    cases h2 : s2.Tablets id with
    | none => rw [h2] at e23; simpa using e23
    | some t2 => rw [h2] at e12; simp at e12
  | some t1 =>
    rw [h1] at e12
    cases h2 : s2.Tablets id with
    | none => rw [h2] at e12; simp at e12
    | some t2 =>
      rw [h2] at e12 e23
      simp only [Option.map_some', Option.some.injEq, TTablet.Pending, Prod.mk.injEq] at e12
      rw [e23]
      simp only [Option.map_some', e12.1, e12.2, add_assoc]

theorem PendingShift_toShift2 {k : Bool} {c : TTabletId → Int} {s s' : TState}
    (h : PendingShift k c s s') :
    PendingShift2 (fun id => if k = false then c id else 0)
      (fun id => if k = true then c id else 0) s s' := by
  intro id
  rw [h id]
  cases k <;> cases s.Tablets id <;> simp [AddPending, TTablet.Pending]

theorem PendingShift_trans {k : Bool} {c1 c2 : TTabletId → Int} {s1 s2 s3 : TState}
    (h12 : PendingShift k c1 s1 s2) (h23 : PendingShift k c2 s2 s3) :
    PendingShift k (fun id => c1 id + c2 id) s1 s3 := by
  intro id
  have e12 := h12 id
  have e23 := h23 id
  cases h1 : s1.Tablets id with
  | none =>
    rw [h1] at e12
    cases h2 : s2.Tablets id with
    | none => rw [h2] at e23; simpa using e23
    | some t2 => rw [h2] at e12; simp at e12
  | some t1 =>
    rw [h1] at e12
    cases h2 : s2.Tablets id with
    | none => rw [h2] at e12; simp at e12
    | some t2 =>
      rw [h2] at e12 e23
      simp only [Option.map_some', Option.some.injEq] at e12
      rw [e23]
      simp only [Option.map_some', e12, AddPending_add]

theorem PrepareLockedRows_frame (env : TCollaborators) (s : TState) (t : TTransaction) :
    (PrepareLockedRows env s t).Tablets = s.Tablets ∧
      (PrepareLockedRows env s t).WriteLogsMemoryTrackerGuard =
        s.WriteLogsMemoryTrackerGuard := by
  have hfold : ∀ (rows : List TSortedDynamicRowRef) (st : TState),
      (rows.foldl (PrepareRow env t) st).Tablets = st.Tablets ∧
        (rows.foldl (PrepareRow env t) st).WriteLogsMemoryTrackerGuard =
          st.WriteLogsMemoryTrackerGuard := by
    intro rows
    induction rows with
    | nil => intro st; exact ⟨rfl, rfl⟩
    | cons row rest ih =>
      intro st
      simp only [List.foldl_cons]
      obtain ⟨h1, h2⟩ := ih (PrepareRow env t st row)
      rw [h1, h2]
      unfold PrepareRow
      split <;> exact ⟨rfl, rfl⟩
  unfold PrepareLockedRows
  obtain ⟨h1, h2⟩ := hfold t.PrelockedRows (t.LockedRows.foldl (PrepareRow env t) s)
  obtain ⟨h3, h4⟩ := hfold t.LockedRows s
  exact ⟨h1.trans h3, h2.trans h4⟩

theorem ReplayTransaction_spec (env : TCollaborators) (found : TTabletId → Bool)
    (s s' : TState) (t t' : TTransaction) (hfound : ∀ id, (s.Tablets id).isSome = found id)
    (h : ReplayTransaction env s t = .ok (s', t')) :
    s'.WriteLogsMemoryTrackerGuard =
        s.WriteLogsMemoryTrackerGuard + TransactionFoundByteSize env found t ∧
      PendingShift (IsReplicatorWrite env t.AuthenticationIdentity)
        (fun id => TransactionRecordCount id t) s s' ∧
      SameLogs t t' := by
  unfold ReplayTransaction at h
  split at h
  · exact absurd h (by simp)
  · cases hlocked : ReplayImmediateLocked env (IsReplicatorWrite env t.AuthenticationIdentity)
        t.ImmediateLockedWriteLog s t with
    | error e => simp only [hlocked] at h; exact absurd h (by simp)
    | ok r =>
      obtain ⟨s1, t1⟩ := r
      simp only [hlocked] at h
      obtain ⟨a1, a2, a3⟩ := ReplayImmediateLocked_spec env _ found _ s t s1 t1 hfound hlocked
      have hfound1 : ∀ id, (s1.Tablets id).isSome = found id := fun id => by
        rw [PendingShift_isSome a2, hfound]
      rw [a3.2.1] at h
      obtain ⟨b1, b2, b3⟩ := ReplayImmediateLockless_spec env
        (IsReplicatorWrite env t.AuthenticationIdentity) found t.ImmediateLocklessWriteLog
        s1 t1 hfound1
      generalize ReplayImmediateLockless env (IsReplicatorWrite env t.AuthenticationIdentity)
        t.ImmediateLocklessWriteLog s1 t1 = r2 at h b1 b2 b3
      obtain ⟨s2, t2⟩ := r2
      simp only [] at h b1 b2 b3
      have hfound2 : ∀ id, (s2.Tablets id).isSome = found id := fun id => by
        rw [PendingShift_isSome b2, hfound1]
      rw [show t2.DelayedLocklessWriteLog = t.DelayedLocklessWriteLog from
        b3.2.2.1.trans a3.2.2.1] at h
      obtain ⟨c1, c2, c3⟩ := ReplayDelayedLockless_spec env
        (IsReplicatorWrite env t.AuthenticationIdentity) found t.DelayedLocklessWriteLog
        s2 t2 hfound2
      generalize ReplayDelayedLockless env (IsReplicatorWrite env t.AuthenticationIdentity)
        t.DelayedLocklessWriteLog s2 t2 = r3 at h c1 c2 c3
      obtain ⟨s3, t3⟩ := r3
      simp only [] at h c1 c2 c3
      have hshift := PendingShift_trans (PendingShift_trans a2 b2) c2
      have hlogs := SameLogs_trans (SameLogs_trans a3 b3) c3
      have hguard := c1
      rw [b1, a1] at hguard
      obtain ⟨p1, p2⟩ := PrepareLockedRows_frame env s3 t3
      split at h
      · simp only [Except.ok.injEq, Prod.mk.injEq] at h
        obtain ⟨rfl, rfl⟩ := h
        refine ⟨?_, ?_, hlogs⟩
        · rw [p2, hguard]; simp only [TransactionFoundByteSize]; ring
        · intro id
          rw [p1, hshift id]
          simp only [TransactionRecordCount]
      · simp only [Except.ok.injEq, Prod.mk.injEq] at h
        obtain ⟨rfl, rfl⟩ := h
        refine ⟨?_, ?_, hlogs⟩
        · rw [hguard]; simp only [TransactionFoundByteSize]; ring
        · intro id
          rw [hshift id]
          simp only [TransactionRecordCount]

theorem SameLogs_byteSize {t t' : TTransaction} (h : SameLogs t t') (env : TCollaborators)
    (found : TTabletId → Bool) :
    TransactionFoundByteSize env found t' = TransactionFoundByteSize env found t := by
  simp only [TransactionFoundByteSize, h.1, h.2.1, h.2.2.1]

theorem SameLogs_recordCount {t t' : TTransaction} (h : SameLogs t t') (id : TTabletId) :
    TransactionRecordCount id t' = TransactionRecordCount id t := by
  simp only [TransactionRecordCount, h.1, h.2.1, h.2.2.1]

theorem ReplayTransactions_spec (env : TCollaborators) (found : TTabletId → Bool) :
    ∀ (tm : List TTransaction) (s s' : TState) (tm' : List TTransaction),
      (∀ id, (s.Tablets id).isSome = found id) →
      ReplayTransactions env tm s = .ok (s', tm') →
      s'.WriteLogsMemoryTrackerGuard =
          s.WriteLogsMemoryTrackerGuard + ReplayedByteSize env found tm ∧
        PendingShift2 (fun id => ReplayedRecordCount env false id tm)
          (fun id => ReplayedRecordCount env true id tm) s s' ∧
        ReplayedByteSize env found tm' = ReplayedByteSize env found tm ∧
        (∀ k id, ReplayedRecordCount env k id tm' = ReplayedRecordCount env k id tm)
  | [], s, s', tm', _, h => by
    simp only [ReplayTransactions, Except.ok.injEq, Prod.mk.injEq] at h
    obtain ⟨rfl, rfl⟩ := h
    simp only [ReplayedByteSize, add_zero, ReplayedRecordCount, true_and]
    exact ⟨PendingShift2_refl s, fun _ _ => trivial⟩
  | t :: rest, s, s', tm', hfound, h => by
    simp only [ReplayTransactions] at h
    cases h1 : ReplayTransaction env s t with
    | error e => simp only [h1] at h; exact absurd h (by simp)
    | ok r1 =>
      obtain ⟨s1, t1⟩ := r1
      simp only [h1] at h
      cases h2 : ReplayTransactions env rest s1 with
      | error e => simp only [h2] at h; exact absurd h (by simp)
      | ok r2 =>
        obtain ⟨s2, rest1⟩ := r2
        simp only [h2, Except.ok.injEq, Prod.mk.injEq] at h
        obtain ⟨rfl, rfl⟩ := h
        obtain ⟨a1, a2, a3⟩ := ReplayTransaction_spec env found s s1 t t1 hfound h1
        have hfound1 : ∀ id, (s1.Tablets id).isSome = found id := fun id => by
          rw [PendingShift_isSome a2, hfound]
        obtain ⟨b1, b2, b3, b4⟩ := ReplayTransactions_spec env found rest s1 s2 rest1 hfound1 h2
        refine ⟨?_, ?_, ?_, ?_⟩
        · rw [b1, a1]; simp only [ReplayedByteSize]; ring
        · have := PendingShift2_trans (PendingShift_toShift2 a2) b2
          intro id
          rw [this id]
          simp only [ReplayedRecordCount]
        · simp only [ReplayedByteSize, b3, SameLogs_byteSize a3]
        · intro k id
          simp only [ReplayedRecordCount, b4, SameLogs_recordCount a3, a3.2.2.2.1]

theorem LogByteSize_append (env : TCollaborators) (a b : List TTransactionWriteRecord) :
    LogByteSize env (a ++ b) = LogByteSize env a + LogByteSize env b := by
  induction a with
  | nil => simp [LogByteSize]
  | cons x rest ih => simp [LogByteSize, ih, add_assoc]

theorem DropLoop_byteSize (env : TCollaborators) (k : Bool) :
    ∀ (records : List TTransactionWriteRecord) (s : TState) (byteSize : Int),
      (DropTransactionWriteLogLoop env k records s byteSize).2 =
          byteSize + LogByteSize env records ∧
        (DropTransactionWriteLogLoop env k records s byteSize).1.WriteLogsMemoryTrackerGuard =
          s.WriteLogsMemoryTrackerGuard
  | [], s, byteSize => by simp [DropTransactionWriteLogLoop, LogByteSize]
  | record :: rest, s, byteSize => by
    simp only [DropTransactionWriteLogLoop, LogByteSize]
    cases s.FindTablet record.TabletId with
    | none =>
      obtain ⟨h1, h2⟩ := DropLoop_byteSize env k rest s (byteSize + env.GetByteSize record)
      exact ⟨by rw [h1]; ring, h2⟩
    | some tablet =>
      obtain ⟨h1, h2⟩ := DropLoop_byteSize env k rest
        (s.UpdateTablet record.TabletId
          (fun t => IncrementTabletPendingWriteRecordCount t k (-1)))
        (byteSize + env.GetByteSize record)
      exact ⟨by rw [h1]; ring, h2⟩


theorem SameDelayed_refl (s : TState) : SameDelayed s s := fun _ => rfl

theorem SameDelayed_trans {s1 s2 s3 : TState} (h12 : SameDelayed s1 s2)
    (h23 : SameDelayed s2 s3) : SameDelayed s1 s3 := fun id => (h23 id).trans (h12 id)

theorem SameDelayed_UpdateTablet (s : TState) (tabletId : TTabletId) (f : TTablet → TTablet)
    (hf : ∀ tablet, (f tablet).Delayed = tablet.Delayed) :
    SameDelayed s (s.UpdateTablet tabletId f) := by
  intro id
  rw [UpdateTablet_Tablets]
  split
  · cases s.Tablets id <;> simp [hf]
  · rfl

theorem SameDelayed_of_Tablets {s s' : TState} (h : s'.Tablets = s.Tablets) :
    SameDelayed s s' := fun id => by rw [h]

theorem SameDelayed_foldl {α : Type} (f : TState → α → TState)
    (hf : ∀ st a, SameDelayed st (f st a)) :
    ∀ (l : List α) (s : TState), SameDelayed s (l.foldl f s)
  | [], s => SameDelayed_refl s
  | a :: rest, s => SameDelayed_trans (hf s a) (SameDelayed_foldl f hf rest (f s a))

theorem FlatMapSum_FlatMapAdd {K : Type} [DecidableEq K] (key k : K) (v : Int) :
    ∀ m : List (K × Int),
      FlatMapSum key (FlatMapAdd m k v) = FlatMapSum key m + (if k = key then v else 0)
  | [] => by simp [FlatMapAdd, FlatMapSum]
  | (k', v') :: rest => by
    unfold FlatMapAdd
    by_cases h : k' = k
    · subst h
      by_cases hk : k' = key
      · simp [FlatMapSum, hk]; ring
      · simp [FlatMapSum, hk]
    · simp only [h, if_false, FlatMapSum, FlatMapSum_FlatMapAdd key k v rest]
      ring

theorem SameDelayed_LockTablet (s : TState) (id : TTabletId) : SameDelayed s (LockTablet s id) :=
  SameDelayed_UpdateTablet s id _ (fun _ => rfl)

theorem SameDelayed_UnlockTablet (s : TState) (id : TTabletId) :
    SameDelayed s (UnlockTablet s id) :=
  SameDelayed_UpdateTablet s id _ (fun _ => rfl)

theorem SameDelayed_UnlockLockedTablets (s : TState) (t : TTransaction) :
    SameDelayed s (UnlockLockedTablets s t).1 :=
  SameDelayed_foldl UnlockTablet SameDelayed_UnlockTablet _ s

theorem SameDelayed_Drop (env : TCollaborators) (s : TState) (t : TTransaction)
    (log : EWriteLog) : SameDelayed s (DropTransactionWriteLog env s t log).1 := by
  intro id
  show Option.map TTablet.Delayed ((DropTransactionWriteLog env s t log).1.Tablets id) = _
  rw [Drop_Tablets]
  cases s.Tablets id with
  | none => rfl
  | some tablet =>
    cases h : IsReplicatorWrite env t.AuthenticationIdentity <;>
      simp [IncrementTabletPendingWriteRecordCount, TTablet.Delayed]

theorem SameDelayed_FinishTabletCommit (env : TCollaborators) (s s' : TState)
    (tabletId : TTabletId) (transaction : Option TTransaction) (timestamp : TTimestamp)
    (h : FinishTabletCommit env s tabletId transaction timestamp = .ok s') :
    SameDelayed s s' := by
  unfold FinishTabletCommit at h
  split at h
  · simp only [Except.ok.injEq] at h; subst h; exact SameDelayed_refl s
  · simp only [] at h
    split at h
    · exact absurd h (by simp)
    · split at h
      · simp only [Except.ok.injEq] at h; subst h
        refine @SameDelayed_trans _
          (s.UpdateTablet tabletId (fun t => t.UpdateLastCommitTimestamp timestamp)) _ ?_ ?_
        · exact SameDelayed_UpdateTablet _ _ _ (fun _ => rfl)
        · exact SameDelayed_UpdateTablet _ _ _ (fun _ => rfl)
      · simp only [Except.ok.injEq] at h; subst h
        exact SameDelayed_UpdateTablet _ _ _ (fun _ => rfl)

theorem SameDelayed_Record (s : TState) (event : TEvent) : SameDelayed s (s.Record event) :=
  fun _ => rfl

theorem SameDelayed_ExecuteWrites (env : TCollaborators) (s : TState) (tabletId : TTabletId)
    (reader : TWireProtocolReader) (context : TWriteContext) :
    SameDelayed s (ExecuteWrites env s tabletId reader context).State := fun _ => rfl

theorem ShiftDelayed_zero (p : Int × Bool) : ShiftDelayed 0 p = p := by
  simp [ShiftDelayed]

theorem ShiftDelayed_add (a b : Int) (p : Int × Bool) :
    ShiftDelayed b (ShiftDelayed a p) = ShiftDelayed (a + b) p := by
  obtain ⟨d, r⟩ := p
  cases r <;> simp [ShiftDelayed, add_assoc]

theorem AddDelayed_fold (g : Int → Int) (id : TTabletId) :
    ∀ (m : List (TTabletId × Int)) (s : TState),
      ((m.foldl (fun st entry => AddDelayedLocklessRowCount st entry.1 (g entry.2))
          s).Tablets id).map TTablet.Delayed =
        (s.Tablets id).map (fun tablet =>
          (tablet.DelayedLocklessRowCount +
            FlatMapSum id (m.map (fun entry => (entry.1, g entry.2))), tablet.Replicated))
  | [], s => by
    simp only [List.foldl_nil, List.map_nil, FlatMapSum, add_zero]
    rfl
  | (k, v) :: rest, s => by
    simp only [List.foldl_cons]
    rw [AddDelayed_fold g id rest (AddDelayedLocklessRowCount s k (g v))]
    simp only [AddDelayedLocklessRowCount, UpdateTablet_Tablets, FlatMapSum, List.map_cons]
    by_cases hk : id = k
    · subst hk
      cases s.Tablets id with
      | none => simp
      | some tablet => simp; ring
    · have hk' : ¬ k = id := fun h => hk h.symm
      simp [hk, hk']

theorem FlatMapSum_map_id {K : Type} [DecidableEq K] (key : K) (m : List (K × Int)) :
    FlatMapSum key (m.map (fun entry => (entry.1, entry.2))) = FlatMapSum key m := by
  simp

theorem SameDelayed_AddReplicaIndex (s : TState) (tabletId : TTabletId)
    (replicaId : TTableReplicaId) (delta : Int) :
    SameDelayed s (AddCurrentReplicationRowIndex s tabletId replicaId delta) :=
  SameDelayed_UpdateTablet s tabletId _ (fun _ => rfl)

theorem PrepareRecords_spec (env : TCollaborators) (s : TState) (t : TTransaction)
    (id : TTabletId) :
    ∀ (records : List TTransactionWriteRecord)
      (r0 r : List ((TTabletId × TTableReplicaId) × Int)) (m0 m : List (TTabletId × Int)),
      PrepareRecords env s t records r0 m0 = .ok (r, m) →
      FlatMapSum id m = FlatMapSum id m0 +
        (if (s.Tablets id).map (fun tablet => tablet.Replicated) = some true then
          RowSum id records else 0)
  | [], r0, r, m0, m, h => by
    simp only [PrepareRecords, Except.ok.injEq, Prod.mk.injEq] at h
    obtain ⟨_, rfl⟩ := h
    simp [RowSum]
  | record :: rest, r0, r, m0, m, h => by
    simp only [PrepareRecords, TState.GetTabletOrThrow] at h
    cases hs : s.Tablets record.TabletId with
    | none => simp [hs] at h
    | some tablet =>
      simp only [hs] at h
      split at h
      · rename_i hrep
        rw [PrepareRecords_spec env s t id rest r0 r m0 m h]
        simp only [RowSum]
        by_cases hid : record.TabletId = id
        · subst hid
          have : tablet.Replicated = false := by simpa using hrep
          simp [hs, this]
        · simp [hid]
      · rename_i hrep
        split at h
        · exact absurd h (by simp)
        · split at h
          · exact absurd h (by simp)
          · split at h
            · exact absurd h (by simp)
            · rename_i r1 _
              rw [PrepareRecords_spec env s t id rest r1 r _ m h, FlatMapSum_FlatMapAdd]
              simp only [RowSum]
              by_cases hid : record.TabletId = id
              · subst hid
                have : tablet.Replicated = true := by simpa using hrep
                simp [hs, this]; ring
              · simp [hid]

theorem OnTransactionPrepared_spec (env : TCollaborators) (s s' : TState)
    (t t' : TTransaction)
    (h : OnTransactionPrepared env s t true = .ok (s', t')) :
    t' = { t with RowsPrepared := true } ∧
      ∀ id, (s'.Tablets id).map TTablet.Delayed =
        ((s.Tablets id).map TTablet.Delayed).map
          (ShiftDelayed (RowSum id t.DelayedLocklessWriteLog)) := by
  unfold OnTransactionPrepared at h
  simp only [Bool.not_true, Bool.false_eq_true, if_false] at h
  cases hp : PrepareRecords env (PrepareLockedRows env s t) t t.DelayedLocklessWriteLog [] [] with
  | error e => simp [hp] at h
  | ok rm =>
    obtain ⟨r, m⟩ := rm
    simp only [hp] at h
    split at h
    · exact absurd h (by simp)
    · simp only [Except.ok.injEq, Prod.mk.injEq] at h
      obtain ⟨rfl, rfl⟩ := h
      refine ⟨rfl, fun id => ?_⟩
      have hfold := AddDelayed_fold (fun x => x) id m
        (r.foldl (fun st entry =>
          AddCurrentReplicationRowIndex st entry.1.1 entry.1.2 entry.2)
          (PrepareLockedRows env s t))
      have hreplicas := SameDelayed_foldl
        (fun st (entry : (TTabletId × TTableReplicaId) × Int) =>
          AddCurrentReplicationRowIndex st entry.1.1 entry.1.2 entry.2)
        (fun st entry => SameDelayed_AddReplicaIndex st _ _ _) r (PrepareLockedRows env s t) id
      have hsum := PrepareRecords_spec env (PrepareLockedRows env s t) t id _ _ _ _ _ hp
      rw [(PrepareLockedRows_frame env s t).1] at hsum hreplicas
      simp only [FlatMapSum_map_id] at hfold
      rw [hfold, hsum]
      cases hs : s.Tablets id with
      | none => rw [hs] at hreplicas; simpa using hreplicas
      | some tablet =>
        rw [hs] at hreplicas
        cases hs1 : (List.foldl (fun st (entry : (TTabletId × TTableReplicaId) × Int) =>
            AddCurrentReplicationRowIndex st entry.1.1 entry.1.2 entry.2)
            (PrepareLockedRows env s t) r).Tablets id with
        | none => rw [hs1] at hreplicas; simp at hreplicas
        | some tablet1 =>
          rw [hs1] at hreplicas
          simp only [Option.map_some', Option.some.injEq, TTablet.Delayed, Prod.mk.injEq]
            at hreplicas
          cases hrep : tablet.Replicated <;>
            simp [TTablet.Delayed, ShiftDelayed, FlatMapSum, hreplicas.1, hreplicas.2, hrep]

theorem SerializeRecords_spec (env : TCollaborators) (t : TTransaction)
    (commitTimestamp : TTimestamp) (id : TTabletId) :
    ∀ (records : List TTransactionWriteRecord) (s s' : TState) (m0 m : List (TTabletId × Int)),
      SerializeRecords env t commitTimestamp records s m0 = .ok (s', m) →
      s'.Tablets = s.Tablets ∧
        FlatMapSum id m = FlatMapSum id m0 +
          (if (s.Tablets id).isSome then RowSum id records else 0)
  | [], s, s', m0, m, h => by
    simp only [SerializeRecords, Except.ok.injEq, Prod.mk.injEq] at h
    obtain ⟨rfl, rfl⟩ := h
    simp [RowSum]
  | record :: rest, s, s', m0, m, h => by
    simp only [SerializeRecords, TState.FindTablet] at h
    cases hs : s.Tablets record.TabletId with
    | none =>
      simp only [hs] at h
      obtain ⟨h1, h2⟩ := SerializeRecords_spec env t commitTimestamp id rest s s' m0 m h
      refine ⟨h1, ?_⟩
      rw [h2]
      simp only [RowSum]
      by_cases hid : record.TabletId = id
      · subst hid; simp [hs]
      · simp [hid]
    | some tablet =>
      simp only [hs] at h
      split at h
      · exact absurd h (by simp)
      · split at h
        · exact absurd h (by simp)
        · obtain ⟨h1, h2⟩ := SerializeRecords_spec env t commitTimestamp id rest _ s' _ m h
          refine ⟨h1, ?_⟩
          rw [h2, FlatMapSum_FlatMapAdd]
          have hT : (ExecuteWrites env s record.TabletId { Data := record.Data, Current := 0 }
              { Phase := EWritePhase.Commit, Transaction := some t.Id,
                CommitTimestamp := commitTimestamp, RowCount := 0, DataWeight := 0,
                BlockedStore := false, Error := false }).State.Tablets = s.Tablets := rfl
          rw [hT]
          simp only [RowSum]
          by_cases hid : record.TabletId = id
          · subst hid; simp [hs]; ring
          · simp [hid]

theorem SerializeTablets_spec (env : TCollaborators) (t : TTransaction)
    (commitTimestamp : TTimestamp) (id : TTabletId) :
    ∀ (entries : List (TTabletId × Int)) (s s' : TState),
      SerializeTablets env t commitTimestamp entries s = .ok s' →
      (s'.Tablets id).map TTablet.Delayed =
        ((s.Tablets id).map TTablet.Delayed).map (ShiftDelayed (-FlatMapSum id entries))
  | [], s, s', h => by
    simp only [SerializeTablets, Except.ok.injEq] at h
    subst h
    simp only [FlatMapSum, neg_zero, Option.map_map]
    cases s.Tablets id <;> simp [ShiftDelayed_zero]
  | (k, v) :: rest, s, s', h => by
    simp only [SerializeTablets] at h
    cases hf : FinishTabletCommit env s k (some t) commitTimestamp with
    | error e => simp [hf] at h
    | ok s1 =>
      simp only [hf] at h
      have hsame := SameDelayed_FinishTabletCommit env s s1 k (some t) commitTimestamp hf
      have step : ∀ s2, SerializeTablets env t commitTimestamp rest s2 = .ok s' →
          (s2.Tablets id).map TTablet.Delayed =
            ((s.Tablets id).map TTablet.Delayed).map
              (ShiftDelayed (-(if k = id then v else 0))) →
          (s'.Tablets id).map TTablet.Delayed =
            ((s.Tablets id).map TTablet.Delayed).map
              (ShiftDelayed (-FlatMapSum id ((k, v) :: rest))) := by
        intro s2 h2 e2
        rw [SerializeTablets_spec env t commitTimestamp id rest s2 s' h2, e2, Option.map_map]
        congr 1
        funext p
        simp only [Function.comp, ShiftDelayed_add, FlatMapSum]
        congr 1
        ring
      have keep : (s1.Tablets id).map TTablet.Delayed =
          ((s.Tablets id).map TTablet.Delayed).map (ShiftDelayed (-(0 : Int))) := by
        rw [hsame id]
        cases s.Tablets id <;> simp [ShiftDelayed_zero]
      cases hs1 : s1.Tablets k with
      | none =>
        simp only [hs1] at h
        refine step s1 h ?_
        by_cases hk : k = id
        · subst hk
          have := hsame k
          rw [hs1] at this
          cases hs : s.Tablets k with
          | none => simp [hs1]
          | some tablet => rw [hs] at this; simp at this
        · simpa [hk] using keep
      | some tablet =>
        simp only [hs1] at h
        split at h
        · rename_i hrep
          refine step s1 h ?_
          by_cases hk : k = id
          · subst hk
            have := hsame k
            rw [hs1] at this
            cases hs : s.Tablets k with
            | none => rw [hs] at this; simp at this
            | some tablet0 =>
              rw [hs] at this
              simp only [Option.map_some', Option.some.injEq, TTablet.Delayed,
                Prod.mk.injEq] at this
              have hr : tablet.Replicated = false := by simpa using hrep
              simp [hs1, TTablet.Delayed, ShiftDelayed, ← this.1, ← this.2, hr]
          · simpa [hk] using keep
        · rename_i hrep
          refine step _ h ?_
          rw [UpdateTablet_Tablets]
          by_cases hk : k = id
          · subst hk
            have := hsame k
            rw [hs1] at this
            cases hs : s.Tablets k with
            | none => rw [hs] at this; simp at this
            | some tablet0 =>
              rw [hs] at this
              simp only [Option.map_some', Option.some.injEq, TTablet.Delayed,
                Prod.mk.injEq] at this
              have hr : tablet.Replicated = true := by simpa using hrep
              simp [hs1, TTablet.Delayed, ShiftDelayed, ← this.1, ← this.2, hr]
              ring
          · have hk' : ¬ id = k := fun h => hk h.symm
            simpa [hk, hk'] using keep

theorem OnTransactionSerialized_spec (env : TCollaborators) (s s' : TState)
    (t t' : TTransaction) (h : OnTransactionSerialized env s t = .ok (s', t')) :
    t'.DelayedLocklessWriteLog = [] ∧
      t'.ImmediateLockedWriteLog = t.ImmediateLockedWriteLog ∧
      t'.ImmediateLocklessWriteLog = t.ImmediateLocklessWriteLog ∧
      ∀ id, (s'.Tablets id).map TTablet.Delayed =
        ((s.Tablets id).map TTablet.Delayed).map
          (ShiftDelayed (-RowSum id t.DelayedLocklessWriteLog)) := by
  unfold OnTransactionSerialized at h
  split at h
  · exact absurd h (by simp)
  · split at h
    · exact absurd h (by simp)
    · split at h
      · rename_i hempty
        simp only [Except.ok.injEq, Prod.mk.injEq] at h
        obtain ⟨rfl, rfl⟩ := h
        refine ⟨hempty, rfl, rfl, fun id => ?_⟩
        rw [hempty]
        cases s.Tablets id <;> simp [RowSum, ShiftDelayed_zero]
      · simp only [] at h
        cases hr : SerializeRecords env t t.CommitTimestamp t.DelayedLocklessWriteLog s [] with
        | error e => simp [hr] at h
        | ok sm =>
          obtain ⟨s1, m⟩ := sm
          simp only [hr] at h
          cases ht : SerializeTablets env t t.CommitTimestamp m s1 with
          | error e => simp [ht] at h
          | ok s2 =>
            simp only [ht, Except.ok.injEq] at h
            have hs' : s' = (DropTransactionWriteLog env (UnlockLockedTablets s2 t).1
                (UnlockLockedTablets s2 t).2 .DelayedLockless).1 := by rw [h]
            have ht' : t' = (DropTransactionWriteLog env (UnlockLockedTablets s2 t).1
                (UnlockLockedTablets s2 t).2 .DelayedLockless).2 := by rw [h]
            refine ⟨by rw [ht']; rfl, by rw [ht']; rfl, by rw [ht']; rfl, fun id => ?_⟩
            obtain ⟨e1, e2⟩ := SerializeRecords_spec env t t.CommitTimestamp id _ s s1 [] m hr
            have e3 := SerializeTablets_spec env t t.CommitTimestamp id m s1 s2 ht
            have e4 := SameDelayed_trans (SameDelayed_UnlockLockedTablets s2 t)
              (SameDelayed_Drop env (UnlockLockedTablets s2 t).1 (UnlockLockedTablets s2 t).2
                .DelayedLockless) id
            rw [hs', e4, e3, e1, e2]
            cases s.Tablets id <;> simp [FlatMapSum]

theorem SameDelayed_CommitLockedRows (env : TCollaborators) (t : TTransaction)
    (commitTimestamp : TTimestamp) :
    ∀ (rows : List TSortedDynamicRowRef) (s s' : TState),
      CommitLockedRows env t commitTimestamp rows s = .ok s' → SameDelayed s s'
  | [], s, s', h => by
    simp only [CommitLockedRows, Except.ok.injEq] at h
    subst h; exact SameDelayed_refl s
  | row :: rest, s, s', h => by
    simp only [CommitLockedRows, ValidateAndDiscardRowRef] at h
    split at h
    · exact SameDelayed_trans (SameDelayed_Record s _)
        (SameDelayed_CommitLockedRows env t commitTimestamp rest _ s' h)
    · cases hf : FinishTabletCommit env (s.Record (.ValidateAndDiscardRowRef row)) row.Tablet
          (some t) commitTimestamp with
      | error e => simp [hf] at h
      | ok s2 =>
        simp only [hf] at h
        exact SameDelayed_trans (SameDelayed_Record s _)
          (SameDelayed_trans (SameDelayed_FinishTabletCommit env _ s2 _ _ _ hf)
            (SameDelayed_trans (SameDelayed_Record s2 _)
              (SameDelayed_CommitLockedRows env t commitTimestamp rest _ s' h)))

theorem SameDelayed_CommitLocklessRecords (env : TCollaborators) (t : TTransaction)
    (commitTimestamp : TTimestamp) :
    ∀ (records : List TTransactionWriteRecord) (s s' : TState) (l0 l : List TTabletId),
      CommitLocklessRecords env t commitTimestamp records s l0 = .ok (s', l) → SameDelayed s s'
  | [], s, s', l0, l, h => by
    simp only [CommitLocklessRecords, Except.ok.injEq, Prod.mk.injEq] at h
    obtain ⟨rfl, _⟩ := h
    exact SameDelayed_refl s
  | record :: rest, s, s', l0, l, h => by
    simp only [CommitLocklessRecords] at h
    split at h
    · exact SameDelayed_CommitLocklessRecords env t commitTimestamp rest s s' l0 l h
    · split at h
      · exact absurd h (by simp)
      · split at h
        · exact absurd h (by simp)
        · exact SameDelayed_trans (SameDelayed_ExecuteWrites env s _ _ _)
            (SameDelayed_CommitLocklessRecords env t commitTimestamp rest _ s' _ l h)

theorem SameDelayed_FinishTabletCommits (env : TCollaborators) (t : TTransaction)
    (commitTimestamp : TTimestamp) :
    ∀ (tablets : List TTabletId) (s s' : TState),
      FinishTabletCommits env t commitTimestamp tablets s = .ok s' → SameDelayed s s'
  | [], s, s', h => by
    simp only [FinishTabletCommits, Except.ok.injEq] at h
    subst h; exact SameDelayed_refl s
  | tabletId :: rest, s, s', h => by
    simp only [FinishTabletCommits] at h
    cases hf : FinishTabletCommit env s tabletId (some t) commitTimestamp with
    | error e => simp [hf] at h
    | ok s1 =>
      simp only [hf] at h
      exact SameDelayed_trans (SameDelayed_FinishTabletCommit env s s1 _ _ _ hf)
        (SameDelayed_FinishTabletCommits env t commitTimestamp rest s1 s' h)

theorem SameDelayed_CollectSyncReplicas (commitTimestamp : TTimestamp) :
    ∀ (records : List TTransactionWriteRecord) (s : TState)
      (replicas : List (TTabletId × TTableReplicaId)) (tablets : List TTabletId),
      SameDelayed s (CollectSyncReplicas commitTimestamp records s replicas tablets).1
  | [], s, _, _ => SameDelayed_refl s
  | record :: rest, s, replicas, tablets => by
    simp only [CollectSyncReplicas]
    split
    · exact SameDelayed_CollectSyncReplicas commitTimestamp rest s replicas tablets
    · refine SameDelayed_trans ?_ (SameDelayed_CollectSyncReplicas commitTimestamp rest _ _ _)
      exact SameDelayed_UpdateTablet s _ _ (fun _ => rfl)

theorem SameDelayed_CheckIfImmediateLockedTabletsFullyUnlocked (s : TState)
    (t : TTransaction) : SameDelayed s (CheckIfImmediateLockedTabletsFullyUnlocked s t) := by
  unfold CheckIfImmediateLockedTabletsFullyUnlocked
  refine SameDelayed_foldl _ (fun st record => ?_) _ s
  split
  · exact SameDelayed_refl st
  · exact SameDelayed_Record st _

theorem OnTransactionCommitted_spec (env : TCollaborators) (s s' : TState)
    (t t' : TTransaction) (h : OnTransactionCommitted env s t = .ok (s', t')) :
    SameDelayed s s' ∧ t'.ImmediateLockedWriteLog = [] ∧ t'.ImmediateLocklessWriteLog = [] ∧
      t'.DelayedLocklessWriteLog = t.DelayedLocklessWriteLog ∧ t'.PrelockedRows = [] ∧
      t'.LockedRows = [] ∧ t'.CommitTimestamp = t.CommitTimestamp := by
  unfold OnTransactionCommitted at h
  split at h
  · exact absurd h (by simp)
  · rename_i hprelocked
    simp only [] at h
    cases h1 : CommitLockedRows env t t.CommitTimestamp t.LockedRows s with
    | error e => simp [h1] at h
    | ok s1 =>
      simp only [h1] at h
      cases h3 : CommitLocklessRecords env { t with LockedRows := [] } t.CommitTimestamp
          t.ImmediateLocklessWriteLog
          (CheckIfImmediateLockedTabletsFullyUnlocked s1 { t with LockedRows := [] }) [] with
      | error e => simp [h3] at h
      | ok r3 =>
        obtain ⟨s3, locklessTablets⟩ := r3
        simp only [h3] at h
        cases h4 : FinishTabletCommits env { t with LockedRows := [] } t.CommitTimestamp
            locklessTablets s3 with
        | error e => simp [h4] at h
        | ok s4 =>
          simp only [h4, Except.ok.injEq] at h
          have a1 := SameDelayed_CommitLockedRows env t t.CommitTimestamp _ s s1 h1
          have a2 := SameDelayed_CheckIfImmediateLockedTabletsFullyUnlocked s1
            { t with LockedRows := [] }
          have a3 := SameDelayed_CommitLocklessRecords env _ _ _ _ s3 _ _ h3
          have a4 := SameDelayed_FinishTabletCommits env _ _ _ s3 s4 h4
          have a5 := SameDelayed_CollectSyncReplicas t.CommitTimestamp
            t.DelayedLocklessWriteLog s4 [] []
          generalize CollectSyncReplicas t.CommitTimestamp t.DelayedLocklessWriteLog s4 [] [] = c
            at h a5
          obtain ⟨s5, syncReplicas, syncReplicaTablets⟩ := c
          simp only [] at h a5
          have a6 := SameDelayed_foldl
            (fun st (entry : TTabletId × TTableReplicaId) =>
              st.UpdateTablet entry.1 (fun tab => tab.UpdateReplica entry.2 (fun r =>
                { r with
                  CurrentReplicationTimestamp :=
                    max r.CurrentReplicationTimestamp t.CommitTimestamp })))
            (fun st entry => SameDelayed_UpdateTablet st _ _ (fun _ => rfl))
            syncReplicas.dedup s5
          have a7 := SameDelayed_foldl
            (fun st (tabletId : TTabletId) =>
              st.Record (.AdvanceReplicatedTrimmedRowCount tabletId t.Id))
            (fun st _ => SameDelayed_Record st _) syncReplicaTablets.dedup
            (syncReplicas.dedup.foldl
              (fun st (entry : TTabletId × TTableReplicaId) =>
                st.UpdateTablet entry.1 (fun tab => tab.UpdateReplica entry.2 (fun r =>
                  { r with
                    CurrentReplicationTimestamp :=
                      max r.CurrentReplicationTimestamp t.CommitTimestamp }))) s5)
          have a17 := SameDelayed_trans a1 (SameDelayed_trans a2 (SameDelayed_trans a3
            (SameDelayed_trans a4 (SameDelayed_trans a5 (SameDelayed_trans a6 a7)))))
          split at h
          · have hs' := congrArg Prod.fst h
            have ht' := congrArg Prod.snd h
            simp only [] at hs' ht'
            subst hs' ht'
            refine ⟨?_, rfl, rfl, rfl, ?_, rfl, rfl⟩
            · exact SameDelayed_trans a17 (SameDelayed_trans
                (SameDelayed_UnlockLockedTablets _ _)
                (SameDelayed_trans (SameDelayed_Drop env _ _ _) (SameDelayed_Drop env _ _ _)))
            · simpa using hprelocked
          · have hs' := congrArg Prod.fst h
            have ht' := congrArg Prod.snd h
            simp only [] at hs' ht'
            subst hs' ht'
            refine ⟨?_, rfl, rfl, rfl, ?_, rfl, rfl⟩
            · exact SameDelayed_trans a17
                (SameDelayed_trans (SameDelayed_Drop env _ _ _) (SameDelayed_Drop env _ _ _))
            · simpa using hprelocked

theorem ConfirmPrelockedRows_frame (env : TCollaborators) :
    ∀ (n : Nat) (s s' : TState) (t t' : TTransaction),
      ConfirmPrelockedRows env n s t = .ok (s', t') →
      s'.Tablets = s.Tablets ∧ t'.Id = t.Id ∧
        t'.ImmediateLockedWriteLog = t.ImmediateLockedWriteLog ∧
        t'.ImmediateLocklessWriteLog = t.ImmediateLocklessWriteLog ∧
        t'.DelayedLocklessWriteLog = t.DelayedLocklessWriteLog
  | 0, s, s', t, t', h => by
    simp only [ConfirmPrelockedRows, Except.ok.injEq, Prod.mk.injEq] at h
    obtain ⟨rfl, rfl⟩ := h
    exact ⟨rfl, rfl, rfl, rfl, rfl⟩
  | n + 1, s, s', t, t', h => by
    simp only [ConfirmPrelockedRows, ValidateAndDiscardRowRef, ConfirmRow] at h
    split at h
    · exact absurd h (by simp)
    · split at h
      · obtain ⟨h1, h2, h3, h4, h5⟩ := ConfirmPrelockedRows_frame env n _ s' _ t' h
        exact ⟨h1, h2, h3, h4, h5⟩
      · obtain ⟨h1, h2, h3, h4, h5⟩ := ConfirmPrelockedRows_frame env n _ s' _ t' h
        exact ⟨h1, h2, h3, h4, h5⟩

theorem SameDelayed_Enqueue (env : TCollaborators) (s : TState) (t : TTransaction)
    (tabletId : TTabletId) (log : EWriteLog) (record : TTransactionWriteRecord)
    (signature : TTransactionSignature) :
    SameDelayed s (EnqueueTransactionWriteRecord env s t tabletId log record signature).1 := by
  intro id
  rw [Enqueue_Tablets]
  split
  · cases s.Tablets id with
    | none => rfl
    | some tablet =>
      cases h : IsReplicatorWrite env t.AuthenticationIdentity <;>
        simp [IncrementTabletPendingWriteRecordCount, TTablet.Delayed]
  · rfl

theorem HydraLeaderWriteRows_full (env : TCollaborators) (s s1 : TState)
    (tm tm1 : TTransactionManager) (transactionId : TTransactionId)
    (signature : TTransactionSignature) (lockless : Bool)
    (writeRecord : TTransactionWriteRecord) (identity : TAuthenticationIdentity)
    (queue : List TTabletId) (tablet : TTablet) (t1 : TTransaction)
    (hatomicity : env.AtomicityFromTransactionId transactionId = EAtomicity.Full)
    (hqueue : s.PrelockedTablets = writeRecord.TabletId :: queue)
    (htablet : s.Tablets writeRecord.TabletId = some tablet)
    (hleader : HydraLeaderWriteRows env s tm transactionId tablet.MountRevision signature
      lockless writeRecord identity = .ok (s1, tm1))
    (hfind : tm1.Find transactionId = some t1) :
    SameDelayed s s1 ∧
      writeRecord ∈ t1.WriteLog (SpecWriteLog tablet.CommitOrdering lockless) := by
  simp only [HydraLeaderWriteRows, hqueue, htablet, hatomicity, MakeTransactionPersistent,
    ne_eq, not_true_eq_false, if_false] at hleader
  cases hF : tm.Find transactionId with
  | none => simp [hF] at hleader
  | some t0 =>
    have hid := Find_Id hF
    simp only [hF] at hleader
    have hinflight : SameDelayed s
        (({ s with PrelockedTablets := queue } : TState).UpdateTablet writeRecord.TabletId
          (fun t => IncrementTabletInFlightMutationCount t (IsReplicatorWrite env identity)
            (-1))) := by
      refine @SameDelayed_trans _ { s with PrelockedTablets := queue } _ (fun _ => rfl) ?_
      refine SameDelayed_UpdateTablet _ _ _ (fun tab => ?_)
      cases IsReplicatorWrite env identity <;> rfl
    have finish : ∀ (t3 : TTransaction) (log : EWriteLog), tm.Store t3 = tm1 →
        t3.Id = transactionId → writeRecord ∈ t3.WriteLog log → writeRecord ∈ t1.WriteLog log := by
      intro t3 log htm1 hid3 hmem
      have hstored := Find_Store t3 hF hid3
      rw [htm1, hfind] at hstored
      simp only [Option.some.injEq] at hstored
      subst hstored
      exact hmem
    have hlog : ∀ l : Bool, SpecWriteLog tablet.CommitOrdering l =
        (if (tablet.CommitOrdering == ECommitOrdering.Weak) = true then
          (if l = true then EWriteLog.ImmediateLockless else EWriteLog.ImmediateLocked)
          else EWriteLog.DelayedLockless) := by
      intro l
      cases tablet.CommitOrdering <;> cases l <;> rfl
    cases lockless with
    | true =>
      simp only [Except.ok.injEq, if_true] at hleader
      have hs1 := congrArg Prod.fst hleader
      have htm1 := congrArg Prod.snd hleader
      simp only [] at hs1 htm1
      subst hs1
      refine ⟨?_, ?_⟩
      · refine SameDelayed_trans hinflight (SameDelayed_trans (SameDelayed_LockTablet _ writeRecord.TabletId) ?_)
        exact SameDelayed_trans (SameDelayed_Enqueue env _ _ _ _ _ _)
          (SameDelayed_UnlockTablet _ _)
      · rw [hlog]
        refine finish _ _ htm1 ?_ ?_
        · rw [Enqueue_Id]; exact hid
        · simp only [if_true]
          rw [(Enqueue_WriteLog env _ _ _ _ _ _).1]
          simp
    | false =>
      simp only [Bool.false_eq_true, if_false] at hleader
      cases hc : ConfirmPrelockedRows env writeRecord.RowCount.toNat
          (({ s with PrelockedTablets := queue } : TState).UpdateTablet writeRecord.TabletId
            (fun t => IncrementTabletInFlightMutationCount t (IsReplicatorWrite env identity)
              (-1)))
          { t0 with Transient := false } with
      | error e => simp [hc] at hleader
      | ok r =>
        obtain ⟨s2, t2⟩ := r
        simp only [hc, Except.ok.injEq] at hleader
        obtain ⟨f1, f2, _, _, _⟩ := ConfirmPrelockedRows_frame env _ _ s2 _ t2 hc
        have hs1 := congrArg Prod.fst hleader
        have htm1 := congrArg Prod.snd hleader
        simp only [] at hs1 htm1
        subst hs1
        refine ⟨?_, ?_⟩
        · refine SameDelayed_trans hinflight (@SameDelayed_trans _ s2 _ (SameDelayed_of_Tablets f1) ?_)
          exact SameDelayed_trans (SameDelayed_Enqueue env _ _ _ _ _ _)
            (SameDelayed_UnlockTablet _ _)
        · rw [hlog]
          refine finish _ _ htm1 ?_ ?_
          · rw [Enqueue_Id]; exact f2.trans hid
          · simp only [Bool.false_eq_true, if_false]
            rw [(Enqueue_WriteLog env _ _ _ _ _ _).1]
            simp


theorem ActualizeTablet_prelock (args : TWriteArgs) (l : TWriteLoop) (tabletId : TTabletId)
    (hpath : PrelockPath args l)
    (h : ActualizeTablet l.State args.TabletSnapshot l.Tablet = .ok tabletId) :
    tabletId = args.TabletSnapshot.TabletId := by
  unfold ActualizeTablet at h
  cases hl : l.Tablet with
  | some id =>
    simp only [hl, Except.ok.injEq] at h
    subst h
    exact hpath.2 _ hl
  | none =>
    simp only [hl] at h
    split at h
    · exact absurd h (by simp)
    · split at h
      · exact absurd h (by simp)
      · split at h
        · exact absurd h (by simp)
        · simp only [Except.ok.injEq] at h
          exact h.symm

theorem GetOrCreateTransaction_signature (env : TCollaborators) (tm : TTransactionManager)
    (id : TTransactionId) (startTimestamp : TTimestamp) (timeout : Nat) (transient : Bool)
    (identity : TAuthenticationIdentity) :
    (GetOrCreateTransaction env tm id startTimestamp timeout transient
        identity).2.1.TransientSignature = CurrentTransientSignature env tm id ∧
      ((GetOrCreateTransaction env tm id startTimestamp timeout transient identity).2.2 = true →
        tm.Find id = none) := by
  unfold GetOrCreateTransaction CurrentTransientSignature
  cases h : tm.Find id with
  | some t => simp
  | none => simp

theorem Find_DropTransaction (tm : TTransactionManager) (t : TTransaction) :
    (DropTransaction tm t).Find t.Id = none := by
  unfold DropTransaction TTransactionManager.Find
  rw [List.find?_eq_none]
  intro x hx
  have := (List.mem_filter.mp hx).2
  simpa using this

theorem WritePrelockAndSubmit_prelock (env : TCollaborators) (args : TWriteArgs)
    (l l1 : TWriteLoop) (tabletId : TTabletId) (tablet : TTablet)
    (hatomicity : env.AtomicityFromTransactionId args.TransactionId = EAtomicity.Full)
    (hversioned : args.Versioned = false) (hpo : tablet.PhysicallyOrdered = false)
    (hrep : tablet.Replicated = false)
    (h : WritePrelockAndSubmit env args l tabletId tablet = .ok l1) :
    l1.Reader.Data = l.Reader.Data ∧
      (if l.Reader.Current ≠ l1.Reader.Current then
        ∃ m, l1.State.Mutations = l.State.Mutations ++ [m] ∧
          m.Request.signature = (if l1.Reader.IsFinished then args.Signature else 0) ∧
          m.Handler.Signature = (if l1.Reader.IsFinished then args.Signature else 0) ∧
          ∃ t1, l1.Transactions.Find args.TransactionId = some t1
      else l1.State.Mutations = l.State.Mutations) ∧
      (∀ t1, l1.Transactions.Find args.TransactionId = some t1 →
        t1.TransientSignature =
          AddSignature (CurrentTransientSignature env l.Transactions args.TransactionId)
            (if l1.Reader.IsFinished then args.Signature else 0)) ∧
      (l1.Transactions.Find args.TransactionId = none →
        CurrentTransientSignature env l.Transactions args.TransactionId =
          env.InitialTransactionSignature) ∧
      (∀ id, (l1.State.Tablets id).map TTablet.Flags = (l.State.Tablets id).map TTablet.Flags) ∧
      (∀ id, l1.Tablet = some id → id = tabletId) := by
  unfold WritePrelockAndSubmit at h
  have hlockless : (EAtomicity.Full == EAtomicity.None || false || false || false) = false :=
    rfl
  have hgFind := GetOrCreateTransaction_Find env l.Transactions args.TransactionId
    args.TransactionStartTimestamp args.TransactionTimeout true args.Identity
  obtain ⟨hgSig, hgFresh⟩ := GetOrCreateTransaction_signature env l.Transactions
    args.TransactionId args.TransactionStartTimestamp args.TransactionTimeout true args.Identity
  have hgId := Find_Id hgFind
  simp only [hatomicity, hpo, hrep, hversioned, hlockless, WriteExecute, Option.map_some',
    Bool.not_false, Bool.true_and, Bool.false_eq_true, if_false] at h
  generalize GetOrCreateTransaction env l.Transactions args.TransactionId
    args.TransactionStartTimestamp args.TransactionTimeout true args.Identity = g
    at h hgFind hgSig hgFresh hgId
  have hexData : (ExecuteWrites env l.State tabletId l.Reader
      { Phase := EWritePhase.Prelock, Transaction := some g.2.1.Id,
        CommitTimestamp := NullTimestamp, RowCount := 0, DataWeight := 0, BlockedStore := false,
        Error := false }).Reader.Data = l.Reader.Data := rfl
  have hexTablets : (ExecuteWrites env l.State tabletId l.Reader
      { Phase := EWritePhase.Prelock, Transaction := some g.2.1.Id,
        CommitTimestamp := NullTimestamp, RowCount := 0, DataWeight := 0, BlockedStore := false,
        Error := false }).State.Tablets = l.State.Tablets := rfl
  have hexMutations : (ExecuteWrites env l.State tabletId l.Reader
      { Phase := EWritePhase.Prelock, Transaction := some g.2.1.Id,
        CommitTimestamp := NullTimestamp, RowCount := 0, DataWeight := 0, BlockedStore := false,
        Error := false }).State.Mutations = l.State.Mutations := rfl
  generalize ExecuteWrites env l.State tabletId l.Reader
    { Phase := EWritePhase.Prelock, Transaction := some g.2.1.Id,
      CommitTimestamp := NullTimestamp, RowCount := 0, DataWeight := 0, BlockedStore := false,
      Error := false } = ex at h hexData hexTablets hexMutations
  have hadj : (if (!ex.Reader.IsFinished) = true then 0 else args.Signature) =
      (if ex.Reader.IsFinished = true then args.Signature else 0) := by
    cases ex.Reader.IsFinished <;> rfl
  rw [hadj] at h
  generalize ht1 : ({ g.2.1 with
    PrelockedRows := g.2.1.PrelockedRows ++ ex.RowRefs
    TransientSignature := AddSignature g.2.1.TransientSignature
      (if ex.Reader.IsFinished = true then args.Signature else 0) } : TTransaction) = t1 at h
  have ht1Id : t1.Id = args.TransactionId := by rw [← ht1]; exact hgId
  have ht1Sig : t1.TransientSignature =
      AddSignature (CurrentTransientSignature env l.Transactions args.TransactionId)
        (if ex.Reader.IsFinished = true then args.Signature else 0) := by
    rw [← ht1, ← hgSig]
  have hstore : (g.1.Store t1).Find args.TransactionId = some t1 := Find_Store t1 hgFind ht1Id
  have hdrop : (DropTransaction (g.1.Store t1) t1).Find args.TransactionId = none := by
    rw [← ht1Id]; exact Find_DropTransaction _ _
  split at h
  · exact absurd h (by simp)
  · split at h
    · exact absurd h (by simp)
    · simp only [Except.ok.injEq] at h
      subst h
      simp only []
      refine ⟨hexData, ?_, ?_, ?_, ?_, ?_⟩
      · by_cases hc : l.Reader.Current = ex.Reader.Current
        · simp only [hc, ne_eq, not_true_eq_false, if_false]
          cases ex.Context.BlockedStore <;> cases g.2.2 <;>
            simp [TState.Record, hexMutations]
        · simp only [hc, ne_eq, not_false_eq_true, if_true]
          refine ⟨MakeWriteRowsMutation env args tabletId tablet.MountRevision
            (if ex.Reader.IsFinished = true then args.Signature else 0) false
            (ex.Reader.Slice l.Reader.Current ex.Reader.Current) ex.Context, ?_, rfl, rfl,
            t1, hstore⟩
          cases ex.Context.BlockedStore <;>
            simp [TState.Record, WriteSubmit, LockTablet, hexMutations]
      · intro t1' hfind
        by_cases hc : l.Reader.Current = ex.Reader.Current
        · cases hf : g.2.2
          · simp only [hc, ne_eq, not_true_eq_false, if_false, hf, Bool.false_eq_true,
              hstore, Option.some.injEq] at hfind
            rw [← hfind]; exact ht1Sig
          · simp only [hc, ne_eq, not_true_eq_false, if_false, hf, if_true, hdrop] at hfind
            exact absurd hfind (by simp)
        · simp only [hc, ne_eq, not_false_eq_true, if_true, hstore, Option.some.injEq] at hfind
          rw [← hfind]; exact ht1Sig
      · intro hnone
        by_cases hc : l.Reader.Current = ex.Reader.Current
        · cases hf : g.2.2
          · simp only [hc, ne_eq, not_true_eq_false, if_false, hf, Bool.false_eq_true,
              hstore] at hnone
            exact absurd hnone (by simp)
          · have := hgFresh hf
            simp [CurrentTransientSignature, this]
        · simp only [hc, ne_eq, not_false_eq_true, if_true, hstore] at hnone
          exact absurd hnone (by simp)
      · intro id
        by_cases hc : l.Reader.Current = ex.Reader.Current
        · cases ex.Context.BlockedStore <;> cases g.2.2 <;>
            simp [hc, TState.Record, hexTablets]
        · cases ex.Context.BlockedStore <;>
            simp only [hc, ne_eq, not_false_eq_true, if_true, TState.Record, WriteSubmit,
              LockTablet, UpdateTablet_Tablets, hexTablets, Bool.false_eq_true, if_false] <;>
            (split
             · cases l.State.Tablets id with
               | none => rfl
               | some tab =>
                 cases IsReplicatorWrite env args.Identity <;>
                   simp [IncrementTabletInFlightMutationCount, TTablet.Flags]
             · rfl)
      · intro id hid
        cases hb : ex.Context.BlockedStore
        · simp only [hb, Bool.false_eq_true, if_false, Option.some.injEq] at hid
          exact hid.symm
        · simp only [hb, if_true] at hid
          exact absurd hid (by simp)

theorem WriteIteration_prelock (env : TCollaborators) (args : TWriteArgs)
    (l l1 : TWriteLoop)
    (hatomicity : env.AtomicityFromTransactionId args.TransactionId = EAtomicity.Full)
    (hversioned : args.Versioned = false) (hpath : PrelockPath args l)
    (h : WriteIteration env args l = .ok l1) :
    PrelockPath args l1 ∧ l1.Reader.Data = l.Reader.Data ∧
      (if l.Reader.Current ≠ l1.Reader.Current then
        ∃ m, l1.State.Mutations = l.State.Mutations ++ [m] ∧
          m.Request.signature = (if l1.Reader.IsFinished then args.Signature else 0) ∧
          m.Handler.Signature = (if l1.Reader.IsFinished then args.Signature else 0) ∧
          ∃ t1, l1.Transactions.Find args.TransactionId = some t1
      else l1.State.Mutations = l.State.Mutations) ∧
      (∀ t1, l1.Transactions.Find args.TransactionId = some t1 →
        t1.TransientSignature =
          AddSignature (CurrentTransientSignature env l.Transactions args.TransactionId)
            (if l1.Reader.IsFinished then args.Signature else 0)) ∧
      (l1.Transactions.Find args.TransactionId = none →
        CurrentTransientSignature env l.Transactions args.TransactionId =
          env.InitialTransactionSignature) := by
  unfold WriteIteration at h
  cases ha : ActualizeTablet l.State args.TabletSnapshot l.Tablet with
  | error e => simp [ha] at h
  | ok tabletId =>
    have hid := ActualizeTablet_prelock args l tabletId hpath ha
    subst hid
    simp only [ha] at h
    cases ht : l.State.Tablets args.TabletSnapshot.TabletId with
    | none => simp [ht] at h
    | some tablet =>
      obtain ⟨hpo, hrep⟩ := hpath.1 tablet ht
      simp only [ht] at h
      cases hv : ValidateTabletStoreLimit env l.State args.TabletSnapshot.TabletId tablet with
      | error e => simp [hv] at h
      | ok u =>
        simp only [hv] at h
        generalize (if env.EnableTabletDynamicMemoryLimit = true then tablet.PoolTag else none) =
          poolTag at h
        cases hm : env.ValidateMemoryLimit l.State.Trace poolTag with
        | false => simp [hm] at h
        | true =>
          simp only [hm, Bool.not_true, Bool.false_eq_true, if_false] at h
          cases hb : ValidateWriteBarrier (IsReplicatorWrite env args.Identity) tablet with
          | error e => simp [hb] at h
          | ok u' =>
            simp only [hb] at h
            obtain ⟨h1, h2, h3, h4, h5, h6⟩ := WritePrelockAndSubmit_prelock env args l l1 _
              tablet hatomicity hversioned hpo hrep h
            refine ⟨⟨fun tab htab => ?_, h6⟩, h1, h2, h3, h4⟩
            have := h5 args.TabletSnapshot.TabletId
            rw [htab, ht] at this
            simp only [Option.map_some', Option.some.injEq, TTablet.Flags, Prod.mk.injEq] at this
            exact ⟨this.1.trans hpo, this.2.trans hrep⟩

theorem WriteLoop_finished (env : TCollaborators) (args : TWriteArgs) (fuel : Nat)
    (l : TWriteLoop) (h : l.Reader.IsFinished = true) :
    WriteLoop env args fuel l = some (.ok l) := by
  cases fuel <;> simp [WriteLoop, h]

theorem WriteLoop_prelock (env : TCollaborators) (args : TWriteArgs)
    (hatomicity : env.AtomicityFromTransactionId args.TransactionId = EAtomicity.Full)
    (hversioned : args.Versioned = false) :
    ∀ (fuel : Nat) (l l' : TWriteLoop), PrelockPath args l → l.Reader.IsFinished = false →
      WriteLoop env args fuel l = some (.ok l') →
      ∃ mutations last, l'.State.Mutations = l.State.Mutations ++ mutations ++ [last] ∧
        ZeroSignatures mutations ∧ last.Request.signature = args.Signature ∧
        last.Handler.Signature = args.Signature ∧
        ∃ t', l'.Transactions.Find args.TransactionId = some t' ∧
          t'.TransientSignature =
            (CurrentTransientSignature env l.Transactions args.TransactionId +
              args.Signature) % 2 ^ 32
  | 0, l, l', _, hunfinished, h => by
    unfold WriteLoop at h
    simp [hunfinished] at h
  | fuel + 1, l, l', hpath, hunfinished, h => by
    unfold WriteLoop at h
    simp only [hunfinished, Bool.false_eq_true, if_false] at h
    cases hi : WriteIteration env args l with
    | error e => simp [hi] at h
    | ok l1 =>
      simp only [hi] at h
      obtain ⟨hpath1, hdata, hmut, hsig, hnone⟩ :=
        WriteIteration_prelock env args l l1 hatomicity hversioned hpath hi
      cases hfin : l1.Reader.IsFinished with
      | true =>
        rw [WriteLoop_finished env args fuel l1 hfin] at h
        simp only [Option.some.injEq, Except.ok.injEq] at h
        subst h
        have hadv : l.Reader.Current ≠ l1.Reader.Current := by
          intro heq
          simp only [TWireProtocolReader.IsFinished, beq_iff_eq] at hfin
          simp only [TWireProtocolReader.IsFinished, beq_eq_false_iff_ne, ne_eq] at hunfinished
          rw [hdata, ← heq] at hfin
          exact hunfinished hfin
        simp only [hadv, ne_eq, not_false_eq_true, if_true, hfin] at hmut hsig
        obtain ⟨m, hm, hreq, hhandler, t1, ht1⟩ := hmut
        refine ⟨[], m, by simp [hm], fun _ hmem => absurd hmem (by simp), hreq, hhandler,
          t1, ht1, ?_⟩
        rw [hsig t1 ht1]; rfl
      | false =>
        obtain ⟨ms, last, hms, hzero, hreq, hhandler, t', ht', hsig'⟩ :=
          WriteLoop_prelock env args hatomicity hversioned fuel l1 l' hpath1 hfin h
        simp only [hfin, Bool.false_eq_true, if_false] at hmut hsig
        have hcur : (CurrentTransientSignature env l1.Transactions args.TransactionId +
            args.Signature) % 2 ^ 32 =
            (CurrentTransientSignature env l.Transactions args.TransactionId +
              args.Signature) % 2 ^ 32 := by
          cases hf : l1.Transactions.Find args.TransactionId with
          | none =>
            rw [hnone hf]
            simp [CurrentTransientSignature, hf]
          | some t1 =>
            have := hsig t1 hf
            have hc1 : CurrentTransientSignature env l1.Transactions args.TransactionId =
                t1.TransientSignature := by
              simp [CurrentTransientSignature, hf]
            rw [hc1, this]
            simp only [AddSignature, Nat.add_zero, Nat.mod_add_mod]
        refine ⟨(if l.Reader.Current ≠ l1.Reader.Current
            then l1.State.Mutations.drop l.State.Mutations.length else []) ++ ms, last, ?_, ?_,
          hreq, hhandler, t', ht', hsig'.trans hcur⟩
        · rw [hms]
          split at hmut
          · rename_i hadv
            obtain ⟨m, hm, _⟩ := hmut
            simp [hm, hadv]
          · rename_i hadv
            simp [hmut, hadv]
        · intro m hmem
          rw [List.mem_append] at hmem
          rcases hmem with hmem | hmem
          · split at hmut
            · rename_i hadv
              obtain ⟨m0, hm, hreq0, hhandler0, _⟩ := hmut
              simp only [hadv, ne_eq, not_false_eq_true, if_true, hm,
                List.drop_left, List.mem_singleton] at hmem
              subst hmem
              exact ⟨hreq0, hhandler0⟩
            · rename_i hadv
              simp only [hadv, if_false] at hmem
              exact absurd hmem (by simp)
          · exact hzero m hmem

/-! ## Auxiliary lemmas on validators and hooks -/

theorem TState_ext {s s' : TState} (h1 : s.Tablets = s'.Tablets)
    (h2 : s.PrelockedTablets = s'.PrelockedTablets)
    (h3 : s.WriteLogsMemoryTrackerGuard = s'.WriteLogsMemoryTrackerGuard)
    (h4 : s.Mutations = s'.Mutations) (h5 : s.Trace = s'.Trace) : s = s' := by
  cases s
  cases s'
  simp only at h1 h2 h3 h4 h5
  subst h1 h2 h3 h4 h5
  rfl

theorem FinishTabletCommit_none (env : TCollaborators) (s : TState) (tabletId : TTabletId)
    (timestamp : TTimestamp) :
    FinishTabletCommit env s tabletId none timestamp =
      .ok (s.UpdateTablet tabletId (CommitBookkeeping env s.Trace tabletId timestamp)) := by
  unfold FinishTabletCommit
  cases h : s.Tablets tabletId with
  | none =>
    simp only [Except.ok.injEq]
    refine TState_ext (funext fun i => ?_) rfl rfl rfl rfl
    rw [UpdateTablet_Tablets]
    split
    · rename_i hi
      subst hi
      rw [h]
      rfl
    · rfl
  | some tablet =>
    simp only [Bool.false_and, Bool.false_eq_true, if_false]
    cases hpo : tablet.PhysicallyOrdered with
    | false =>
      simp only [Bool.false_eq_true, if_false, Except.ok.injEq]
      refine TState_ext (funext fun i => ?_) rfl rfl rfl rfl
      simp only [UpdateTablet_Tablets]
      split
      · rename_i hi
        subst hi
        simp [h, CommitBookkeeping, hpo]
      · rfl
    | true =>
      simp only [if_true, Except.ok.injEq]
      refine TState_ext (funext fun i => ?_) rfl rfl rfl rfl
      simp only [UpdateTablet_Tablets]
      split
      · rename_i hi
        subst hi
        simp [h, CommitBookkeeping, hpo, TTablet.UpdateLastCommitTimestamp]
      · rfl

theorem ExecuteWrites_Drained (env : TCollaborators) (s : TState) (tabletId : TTabletId)
    (data : TSharedRef) (context : TWriteContext)
    (h : data.length ≤
      (env.ExecuteWrites s.Trace tabletId { Data := data, Current := 0 } context).Consumed) :
    (ExecuteWrites env s tabletId { Data := data, Current := 0 } context).Drained = true := by
  simp only [ExecuteWrites, TWireProtocolReader.IsFinished, Nat.zero_add,
    Nat.min_eq_right h, beq_self_eq_true]

theorem DeclaredSync_iff (tablet : TTablet) (replicaId : TTableReplicaId) :
    DeclaredSync tablet replicaId = true ↔
      ∃ r, tablet.FindReplicaInfo replicaId = some r ∧ r.Mode = ETableReplicaMode.Sync := by
  unfold DeclaredSync
  cases h : tablet.FindReplicaInfo replicaId with
  | none => simp
  | some r => simp

theorem Declared_spec (tablet : TTablet) (ids : TSyncReplicaIdList) :
    ValidateSyncReplicaSetDeclared tablet ids =
      match ids.find? (fun replicaId => !DeclaredSync tablet replicaId) with
      | some replicaId =>
        if (tablet.FindReplicaInfo replicaId).isNone then
          .error .SyncReplicaIsNotKnown
        else
          .error .SyncReplicaIsNotInSyncMode
      | none => .ok () := by
  induction ids with
  | nil => rfl
  | cons id rest ih =>
    unfold ValidateSyncReplicaSetDeclared
    cases h : tablet.FindReplicaInfo id with
    | none => simp [List.find?, DeclaredSync, h]
    | some r =>
      by_cases hm : r.Mode = ETableReplicaMode.Sync
      · simp [List.find?, DeclaredSync, h, hm, ih]
      · have hb : (r.Mode == ETableReplicaMode.Sync) = false := beq_eq_false_iff_ne.mpr hm
        simp [List.find?, DeclaredSync, h, hm, hb]

theorem Written_spec (ids : TSyncReplicaIdList) (replicas : List TTableReplicaInfo) :
    ValidateSyncReplicaSetWritten ids replicas =
      if replicas.any (fun r => r.Mode == ETableReplicaMode.Sync && !ids.contains r.Id) then
        .error .SyncReplicaIsNotWritten
      else
        .ok () := by
  induction replicas with
  | nil => rfl
  | cons r rest ih =>
    unfold ValidateSyncReplicaSetWritten
    by_cases h : r.Mode = ETableReplicaMode.Sync ∧ r.Id ∉ ids
    · simp [h]
    · rw [if_neg h, ih]
      simp [List.any_cons, h]

theorem ValidateSyncReplicaSet_spec (tablet : TTablet) (ids : TSyncReplicaIdList) :
    ValidateSyncReplicaSet tablet ids = SpecValidateSyncReplicaSet tablet ids := by
  unfold ValidateSyncReplicaSet SpecValidateSyncReplicaSet
  rw [Declared_spec, Written_spec]
  cases h : ids.find? (fun replicaId => !DeclaredSync tablet replicaId) with
  | none => simp
  | some id =>
    by_cases hk : (tablet.FindReplicaInfo id).isNone = true
    · simp [hk]
    · simp [hk]

theorem SameOn_refl {α : Type} (f : TTablet → α) (s : TState) : SameOn f s s := fun _ => rfl

theorem SameOn_trans {α : Type} {f : TTablet → α} {s1 s2 s3 : TState} (h12 : SameOn f s1 s2)
    (h23 : SameOn f s2 s3) : SameOn f s1 s3 := fun id => (h23 id).trans (h12 id)

theorem SameOn_UpdateTablet {α : Type} (f : TTablet → α) (s : TState) (tabletId : TTabletId)
    (g : TTablet → TTablet) (hg : ∀ tablet, f (g tablet) = f tablet) :
    SameOn f s (s.UpdateTablet tabletId g) := by
  intro id
  rw [UpdateTablet_Tablets]
  split
  · cases s.Tablets id <;> simp [hg]
  · rfl

theorem SameOn_foldl {α β : Type} (f : TTablet → α) (step : TState → β → TState)
    (hstep : ∀ st b, SameOn f st (step st b)) :
    ∀ (l : List β) (s : TState), SameOn f s (l.foldl step s)
  | [], s => SameOn_refl f s
  | b :: rest, s => SameOn_trans (hstep s b) (SameOn_foldl f step hstep rest (step s b))

theorem SameOn_Record {α : Type} (f : TTablet → α) (s : TState) (event : TEvent) :
    SameOn f s (s.Record event) := fun _ => rfl

theorem SameOn_ExecuteWrites {α : Type} (f : TTablet → α) (env : TCollaborators) (s : TState)
    (tabletId : TTabletId) (reader : TWireProtocolReader) (context : TWriteContext) :
    SameOn f s (ExecuteWrites env s tabletId reader context).State := fun _ => rfl

theorem SameOn_FinishTabletCommit {α : Type} (f : TTablet → α)
    (hcommit : ∀ tablet ts, f (tablet.UpdateLastCommitTimestamp ts) = f tablet)
    (htotal : ∀ (tablet : TTablet) (n : Int), f { tablet with TotalRowCount := n } = f tablet)
    (env : TCollaborators) (s s' : TState)
    (tabletId : TTabletId) (transaction : Option TTransaction) (timestamp : TTimestamp)
    (h : FinishTabletCommit env s tabletId transaction timestamp = .ok s') :
    SameOn f s s' := by
  unfold FinishTabletCommit at h
  split at h
  · simp only [Except.ok.injEq] at h; subst h; exact SameOn_refl f s
  · simp only [] at h
    split at h
    · exact absurd h (by simp)
    · split at h
      · simp only [Except.ok.injEq] at h; subst h
        refine @SameOn_trans _ f _
          (s.UpdateTablet tabletId (fun t => t.UpdateLastCommitTimestamp timestamp)) _ ?_ ?_
        · exact SameOn_UpdateTablet f _ _ _ (fun _ => hcommit _ _)
        · exact SameOn_UpdateTablet f _ _ _ (fun _ => htotal _ _)
      · simp only [Except.ok.injEq] at h; subst h
        exact SameOn_UpdateTablet f _ _ _ (fun _ => hcommit _ _)

theorem SameOn_CommitLockedRows {α : Type} (f : TTablet → α)
    (hcommit : ∀ tablet ts, f (tablet.UpdateLastCommitTimestamp ts) = f tablet)
    (htotal : ∀ (tablet : TTablet) (n : Int), f { tablet with TotalRowCount := n } = f tablet)
    (env : TCollaborators) (t : TTransaction) (commitTimestamp : TTimestamp) :
    ∀ (rows : List TSortedDynamicRowRef) (s s' : TState),
      CommitLockedRows env t commitTimestamp rows s = .ok s' → SameOn f s s'
  | [], s, s', h => by
    simp only [CommitLockedRows, Except.ok.injEq] at h
    subst h; exact SameOn_refl f s
  | row :: rest, s, s', h => by
    simp only [CommitLockedRows, ValidateAndDiscardRowRef] at h
    split at h
    · exact SameOn_trans (SameOn_Record f s _)
        (SameOn_CommitLockedRows f hcommit htotal env t commitTimestamp rest _ s' h)
    · cases hf : FinishTabletCommit env (s.Record (.ValidateAndDiscardRowRef row)) row.Tablet
          (some t) commitTimestamp with
      | error e => simp [hf] at h
      | ok s2 =>
        simp only [hf] at h
        exact SameOn_trans (SameOn_Record f s _)
          (SameOn_trans (SameOn_FinishTabletCommit f hcommit htotal env _ s2 _ _ _ hf)
            (SameOn_trans (SameOn_Record f s2 _)
              (SameOn_CommitLockedRows f hcommit htotal env t commitTimestamp rest _ s' h)))

theorem SameOn_CommitLocklessRecords {α : Type} (f : TTablet → α) (env : TCollaborators)
    (t : TTransaction) (commitTimestamp : TTimestamp) :
    ∀ (records : List TTransactionWriteRecord) (s s' : TState) (l0 l : List TTabletId),
      CommitLocklessRecords env t commitTimestamp records s l0 = .ok (s', l) → SameOn f s s'
  | [], s, s', l0, l, h => by
    simp only [CommitLocklessRecords, Except.ok.injEq, Prod.mk.injEq] at h
    obtain ⟨rfl, _⟩ := h
    exact SameOn_refl f s
  | record :: rest, s, s', l0, l, h => by
    simp only [CommitLocklessRecords] at h
    split at h
    · exact SameOn_CommitLocklessRecords f env t commitTimestamp rest s s' l0 l h
    · split at h
      · exact absurd h (by simp)
      · split at h
        · exact absurd h (by simp)
        · exact SameOn_trans (SameOn_ExecuteWrites f env s _ _ _)
            (SameOn_CommitLocklessRecords f env t commitTimestamp rest _ s' _ l h)

theorem SameOn_FinishTabletCommits {α : Type} (f : TTablet → α)
    (hcommit : ∀ tablet ts, f (tablet.UpdateLastCommitTimestamp ts) = f tablet)
    (htotal : ∀ (tablet : TTablet) (n : Int), f { tablet with TotalRowCount := n } = f tablet)
    (env : TCollaborators) (t : TTransaction) (commitTimestamp : TTimestamp) :
    ∀ (tablets : List TTabletId) (s s' : TState),
      FinishTabletCommits env t commitTimestamp tablets s = .ok s' → SameOn f s s'
  | [], s, s', h => by
    simp only [FinishTabletCommits, Except.ok.injEq] at h
    subst h; exact SameOn_refl f s
  | tabletId :: rest, s, s', h => by
    simp only [FinishTabletCommits] at h
    cases hf : FinishTabletCommit env s tabletId (some t) commitTimestamp with
    | error e => simp [hf] at h
    | ok s1 =>
      simp only [hf] at h
      exact SameOn_trans (SameOn_FinishTabletCommit f hcommit htotal env s s1 _ _ _ hf)
        (SameOn_FinishTabletCommits f hcommit htotal env t commitTimestamp rest s1 s' h)

theorem SameOn_CollectSyncReplicas {α : Type} (f : TTablet → α)
    (hwrite : ∀ tablet ts, f (tablet.UpdateLastWriteTimestamp ts) = f tablet)
    (commitTimestamp : TTimestamp) :
    ∀ (records : List TTransactionWriteRecord) (s : TState)
      (replicas : List (TTabletId × TTableReplicaId)) (tablets : List TTabletId),
      SameOn f s (CollectSyncReplicas commitTimestamp records s replicas tablets).1
  | [], s, _, _ => SameOn_refl f s
  | record :: rest, s, replicas, tablets => by
    simp only [CollectSyncReplicas]
    split
    · exact SameOn_CollectSyncReplicas f hwrite commitTimestamp rest s replicas tablets
    · refine SameOn_trans ?_
        (SameOn_CollectSyncReplicas f hwrite commitTimestamp rest _ _ _)
      exact SameOn_UpdateTablet f s _ _ (fun _ => hwrite _ _)

theorem SameOn_CheckIf {α : Type} (f : TTablet → α) (s : TState) (t : TTransaction) :
    SameOn f s (CheckIfImmediateLockedTabletsFullyUnlocked s t) := by
  unfold CheckIfImmediateLockedTabletsFullyUnlocked
  refine SameOn_foldl f _ (fun st record => ?_) _ s
  split
  · exact SameOn_refl f st
  · exact SameOn_Record f st _

theorem SameOn_UnlockLockedTablets {α : Type} (f : TTablet → α)
    (hlock : ∀ (tablet : TTablet) (n : Int), f { tablet with TabletLockCount := n } = f tablet)
    (s : TState) (t : TTransaction) : SameOn f s (UnlockLockedTablets s t).1 :=
  SameOn_foldl f UnlockTablet
    (fun st id => SameOn_UpdateTablet f st id _ (fun _ => hlock _ _)) _ s

theorem SameOn_Drop {α : Type} (f : TTablet → α)
    (hpending : ∀ tablet k delta,
      f (IncrementTabletPendingWriteRecordCount tablet k delta) = f tablet)
    (env : TCollaborators) (s : TState) (t : TTransaction) (log : EWriteLog) :
    SameOn f s (DropTransactionWriteLog env s t log).1 := by
  intro id
  rw [Drop_Tablets]
  cases s.Tablets id with
  | none => rfl
  | some tablet => simp [hpending]

theorem Guard_FinishTabletCommit (env : TCollaborators) (s s' : TState)
    (tabletId : TTabletId) (transaction : Option TTransaction) (timestamp : TTimestamp)
    (h : FinishTabletCommit env s tabletId transaction timestamp = .ok s') :
    s'.WriteLogsMemoryTrackerGuard = s.WriteLogsMemoryTrackerGuard := by
  unfold FinishTabletCommit at h
  split at h
  · simp only [Except.ok.injEq] at h; subst h; rfl
  · simp only [] at h
    split at h
    · exact absurd h (by simp)
    · split at h <;> (simp only [Except.ok.injEq] at h; subst h; rfl)

theorem Guard_CommitLockedRows (env : TCollaborators) (t : TTransaction)
    (commitTimestamp : TTimestamp) :
    ∀ (rows : List TSortedDynamicRowRef) (s s' : TState),
      CommitLockedRows env t commitTimestamp rows s = .ok s' →
        s'.WriteLogsMemoryTrackerGuard = s.WriteLogsMemoryTrackerGuard
  | [], s, s', h => by
    simp only [CommitLockedRows, Except.ok.injEq] at h
    subst h; rfl
  | row :: rest, s, s', h => by
    simp only [CommitLockedRows, ValidateAndDiscardRowRef] at h
    split at h
    · have hrest := Guard_CommitLockedRows env t commitTimestamp rest _ s' h
      exact hrest
    · cases hf : FinishTabletCommit env (s.Record (.ValidateAndDiscardRowRef row)) row.Tablet
          (some t) commitTimestamp with
      | error e => simp [hf] at h
      | ok s2 =>
        simp only [hf] at h
        have hrest := Guard_CommitLockedRows env t commitTimestamp rest _ s' h
        have hfinish := Guard_FinishTabletCommit env _ s2 _ _ _ hf
        exact hrest.trans hfinish

theorem Guard_CommitLocklessRecords (env : TCollaborators) (t : TTransaction)
    (commitTimestamp : TTimestamp) :
    ∀ (records : List TTransactionWriteRecord) (s s' : TState) (l0 l : List TTabletId),
      CommitLocklessRecords env t commitTimestamp records s l0 = .ok (s', l) →
        s'.WriteLogsMemoryTrackerGuard = s.WriteLogsMemoryTrackerGuard
  | [], s, s', l0, l, h => by
    simp only [CommitLocklessRecords, Except.ok.injEq, Prod.mk.injEq] at h
    obtain ⟨rfl, _⟩ := h
    rfl
  | record :: rest, s, s', l0, l, h => by
    simp only [CommitLocklessRecords] at h
    split at h
    · exact Guard_CommitLocklessRecords env t commitTimestamp rest s s' l0 l h
    · split at h
      · exact absurd h (by simp)
      · split at h
        · exact absurd h (by simp)
        · have hrest := Guard_CommitLocklessRecords env t commitTimestamp rest _ s' _ l h
          exact hrest

theorem Guard_FinishTabletCommits (env : TCollaborators) (t : TTransaction)
    (commitTimestamp : TTimestamp) :
    ∀ (tablets : List TTabletId) (s s' : TState),
      FinishTabletCommits env t commitTimestamp tablets s = .ok s' →
        s'.WriteLogsMemoryTrackerGuard = s.WriteLogsMemoryTrackerGuard
  | [], s, s', h => by
    simp only [FinishTabletCommits, Except.ok.injEq] at h
    subst h; rfl
  | tabletId :: rest, s, s', h => by
    simp only [FinishTabletCommits] at h
    cases hf : FinishTabletCommit env s tabletId (some t) commitTimestamp with
    | error e => simp [hf] at h
    | ok s1 =>
      simp only [hf] at h
      exact (Guard_FinishTabletCommits env t commitTimestamp rest s1 s' h).trans
        (Guard_FinishTabletCommit env s s1 _ _ _ hf)

theorem foldl_Guard {β : Type} (step : TState → β → TState)
    (hstep : ∀ st b,
      (step st b).WriteLogsMemoryTrackerGuard = st.WriteLogsMemoryTrackerGuard) :
    ∀ (l : List β) (s : TState),
      (l.foldl step s).WriteLogsMemoryTrackerGuard = s.WriteLogsMemoryTrackerGuard
  | [], _ => rfl
  | b :: rest, s => (foldl_Guard step hstep rest (step s b)).trans (hstep s b)

theorem Guard_CheckIf (s : TState) (t : TTransaction) :
    (CheckIfImmediateLockedTabletsFullyUnlocked s t).WriteLogsMemoryTrackerGuard =
      s.WriteLogsMemoryTrackerGuard := by
  unfold CheckIfImmediateLockedTabletsFullyUnlocked
  refine foldl_Guard _ (fun st record => ?_) _ s
  split <;> rfl

/-- The decomposition of a successful `OnTransactionCommitted` into the commit loops, which
touch only the commit bookkeeping of tablets, and `CommitEpilogue`. -/
theorem OnTransactionCommitted_phases (env : TCollaborators) (s : TState) (t : TTransaction)
    (r : TState × TTransaction) (h : OnTransactionCommitted env s t = .ok r) :
    t.PrelockedRows = [] ∧
      ∃ s4, r = CommitEpilogue env { t with LockedRows := [] } s4 ∧
        s4.WriteLogsMemoryTrackerGuard = s.WriteLogsMemoryTrackerGuard ∧
        ∀ (α : Type) (f : TTablet → α),
          (∀ tablet ts, f (tablet.UpdateLastCommitTimestamp ts) = f tablet) →
          (∀ (tablet : TTablet) (n : Int), f { tablet with TotalRowCount := n } = f tablet) →
          SameOn f s s4 := by
  unfold OnTransactionCommitted at h
  split at h
  · exact absurd h (by simp)
  · rename_i hprelocked
    simp only [] at h
    cases h1 : CommitLockedRows env t t.CommitTimestamp t.LockedRows s with
    | error e => simp [h1] at h
    | ok s1 =>
      simp only [h1] at h
      cases h3 : CommitLocklessRecords env { t with LockedRows := [] } t.CommitTimestamp
          t.ImmediateLocklessWriteLog
          (CheckIfImmediateLockedTabletsFullyUnlocked s1 { t with LockedRows := [] }) [] with
      | error e => simp [h3] at h
      | ok r3 =>
        obtain ⟨s3, locklessTablets⟩ := r3
        simp only [h3] at h
        cases h4 : FinishTabletCommits env { t with LockedRows := [] } t.CommitTimestamp
            locklessTablets s3 with
        | error e => simp [h4] at h
        | ok s4 =>
          simp only [h4, Except.ok.injEq] at h
          refine ⟨by simpa using hprelocked, s4, ?_, ?_, ?_⟩
          · rw [← h]
            rfl
          · exact (Guard_FinishTabletCommits env _ _ _ s3 s4 h4).trans
              ((Guard_CommitLocklessRecords env _ _ _ _ s3 _ _ h3).trans
                ((Guard_CheckIf s1 _).trans (Guard_CommitLockedRows env t _ _ s s1 h1)))
          · intro α f hcommit htotal
            exact SameOn_trans (SameOn_CommitLockedRows f hcommit htotal env t _ _ s s1 h1)
              (SameOn_trans (SameOn_CheckIf f s1 _)
                (SameOn_trans (SameOn_CommitLocklessRecords f env _ _ _ _ s3 _ _ h3)
                  (SameOn_FinishTabletCommits f hcommit htotal env _ _ _ s3 s4 h4)))

theorem ReplicaFound_SameOn {s s' : TState} (h : SameOn TTablet.Replicas s s')
    (tabletId : TTabletId) (replicaId : TTableReplicaId) :
    ReplicaFound s' tabletId replicaId ↔ ReplicaFound s tabletId replicaId := by
  have hid := h tabletId
  unfold ReplicaFound
  cases hs : s.Tablets tabletId with
  | none =>
    cases hs' : s'.Tablets tabletId with
    | none => simp
    | some tablet' => simp [hs, hs'] at hid
  | some tablet =>
    cases hs' : s'.Tablets tabletId with
    | none => simp [hs, hs'] at hid
    | some tablet' =>
      simp only [hs, hs', Option.map_some', Option.some.injEq] at hid
      simp [TTablet.FindReplicaInfo, hid]

theorem CollectSyncReplicas_mem (commitTimestamp : TTimestamp) (tabletId : TTabletId)
    (replicaId : TTableReplicaId) :
    ∀ (records : List TTransactionWriteRecord) (s : TState)
      (replicas : List (TTabletId × TTableReplicaId)) (tablets : List TTabletId),
      (tabletId, replicaId) ∈
          (CollectSyncReplicas commitTimestamp records s replicas tablets).2.1 ↔
        (tabletId, replicaId) ∈ replicas ∨
          (DeclaredIn records tabletId replicaId = true ∧ ReplicaFound s tabletId replicaId)
  | [], s, replicas, tablets => by simp [CollectSyncReplicas, DeclaredIn]
  | record :: rest, s, replicas, tablets => by
    simp only [CollectSyncReplicas, TState.FindTablet]
    cases hs : s.Tablets record.TabletId with
    | none =>
      simp only []
      rw [CollectSyncReplicas_mem commitTimestamp tabletId replicaId rest]
      have hne : ∀ (h : ReplicaFound s tabletId replicaId), record.TabletId ≠ tabletId := by
        rintro ⟨tablet, ht, _⟩ heq
        rw [heq, ht] at hs
        cases hs
      constructor
      · rintro (h | ⟨hd, hf⟩)
        · exact Or.inl h
        · exact Or.inr ⟨by simp [DeclaredIn, List.any_cons] at hd ⊢; exact Or.inr hd, hf⟩
      · rintro (h | ⟨hd, hf⟩)
        · exact Or.inl h
        · refine Or.inr ⟨?_, hf⟩
          simp only [DeclaredIn, List.any_cons, Bool.or_eq_true, Bool.and_eq_true,
            beq_iff_eq] at hd ⊢
          rcases hd with ⟨heq, _⟩ | hd
          · exact absurd heq (hne hf)
          · exact hd
    | some tablet =>
      simp only []
      rw [CollectSyncReplicas_mem commitTimestamp tabletId replicaId rest]
      have hsame : SameOn TTablet.Replicas s
          (s.UpdateTablet record.TabletId
            (fun t => t.UpdateLastWriteTimestamp commitTimestamp)) :=
        SameOn_UpdateTablet _ s _ _ (fun _ => rfl)
      rw [ReplicaFound_SameOn hsame]
      simp only [List.mem_append, List.mem_map, List.mem_filter, Prod.mk.injEq]
      constructor
      · rintro ((h | ⟨rid, ⟨hmem, hfound⟩, heq1, heq2⟩) | ⟨hd, hf⟩)
        · exact Or.inl h
        · subst heq2
          refine Or.inr ⟨?_, tablet, heq1 ▸ hs, hfound⟩
          simp only [DeclaredIn, List.any_cons, Bool.or_eq_true, Bool.and_eq_true,
            beq_iff_eq]
          exact Or.inl ⟨heq1, by simpa using hmem⟩
        · refine Or.inr ⟨?_, hf⟩
          simp only [DeclaredIn, List.any_cons, Bool.or_eq_true] at hd ⊢
          exact Or.inr hd
      · rintro (h | ⟨hd, hf⟩)
        · exact Or.inl (Or.inl h)
        · simp only [DeclaredIn, List.any_cons, Bool.or_eq_true, Bool.and_eq_true,
            beq_iff_eq] at hd
          rcases hd with ⟨heq, hmem⟩ | hd
          · refine Or.inl (Or.inr ⟨replicaId, ⟨by simpa using hmem, ?_⟩, heq, rfl⟩)
            obtain ⟨tablet', ht', hfound⟩ := hf
            rw [← heq, hs] at ht'
            cases ht'
            exact hfound
          · exact Or.inr ⟨by simpa [DeclaredIn] using hd, hf⟩

theorem AdvanceFold_Tablets (commitTimestamp : TTimestamp) (id : TTabletId) :
    ∀ (entries : List (TTabletId × TTableReplicaId)) (s : TState),
      (entries.foldl
        (fun st entry => st.UpdateTablet entry.1 (fun t => t.UpdateReplica entry.2 (fun r =>
          { r with
            CurrentReplicationTimestamp :=
              max r.CurrentReplicationTimestamp commitTimestamp })))
        s).Tablets id =
      (s.Tablets id).map (fun t =>
        { t with
          Replicas := t.Replicas.map (fun r =>
            if (id, r.Id) ∈ entries then AdvanceReplicationTimestamp commitTimestamp r
            else r) })
  | [], s => by
    simp only [List.foldl_nil, List.not_mem_nil, if_false, List.map_id']
    cases s.Tablets id <;> rfl
  | entry :: rest, s => by
    simp only [List.foldl_cons]
    rw [AdvanceFold_Tablets commitTimestamp id rest, UpdateTablet_Tablets]
    by_cases hid : id = entry.1
    · simp only [hid, if_true]
      cases s.Tablets entry.1 with
      | none => rfl
      | some tablet =>
        simp only [Option.map_some', TTablet.UpdateReplica, List.map_map, Option.some.injEq]
        congr 1
        apply List.map_congr_left
        intro r _
        simp only [Function.comp]
        by_cases hr : r.Id = entry.2
        · have hmem : (entry.1, r.Id) ∈ entry :: rest := by
            rw [hr]
            exact List.mem_cons_self _ _
          rw [if_pos hr, if_pos hmem]
          split
          · simp [AdvanceReplicationTimestamp]
          · rfl
        · have hiff : (entry.1, r.Id) ∈ entry :: rest ↔ (entry.1, r.Id) ∈ rest := by
            simp only [List.mem_cons, or_iff_right_iff_imp]
            intro h
            exact absurd (congrArg Prod.snd h) hr
          rw [if_neg hr]
          simp only [hiff]
    · simp only [hid, if_false]
      cases s.Tablets id with
      | none => rfl
      | some tablet =>
        simp only [Option.map_some', Option.some.injEq]
        congr 1
        apply List.map_congr_left
        intro r _
        have hiff : (id, r.Id) ∈ entry :: rest ↔ (id, r.Id) ∈ rest := by
          simp only [List.mem_cons, or_iff_right_iff_imp]
          intro h
          exact absurd (congrArg Prod.fst h) hid
        simp only [hiff]

theorem AdvanceSyncReplicas_Replicas (t1 : TTransaction) (s4 : TState) (id : TTabletId) :
    ((AdvanceSyncReplicas t1 s4).Tablets id).map TTablet.Replicas =
      ((s4.Tablets id).map TTablet.Replicas).map (fun replicas =>
        replicas.map (fun r =>
          if DeclaredIn t1.DelayedLocklessWriteLog id r.Id then
            AdvanceReplicationTimestamp t1.CommitTimestamp r
          else r)) := by
  have hmem := fun rid =>
    CollectSyncReplicas_mem t1.CommitTimestamp id rid t1.DelayedLocklessWriteLog s4 [] []
  have hsame := SameOn_CollectSyncReplicas TTablet.Replicas (fun _ _ => rfl)
    t1.CommitTimestamp t1.DelayedLocklessWriteLog s4 [] []
  unfold AdvanceSyncReplicas
  simp only []
  generalize CollectSyncReplicas t1.CommitTimestamp t1.DelayedLocklessWriteLog s4 [] [] = c
    at hmem hsame ⊢
  obtain ⟨s5, syncReplicas, syncReplicaTablets⟩ := c
  simp only [] at hmem hsame ⊢
  rw [SameOn_foldl TTablet.Replicas
    (fun st (tabletId : TTabletId) =>
      st.Record (.AdvanceReplicatedTrimmedRowCount tabletId t1.Id))
    (fun st _ => SameOn_Record _ st _) syncReplicaTablets.dedup _ id,
    AdvanceFold_Tablets t1.CommitTimestamp id syncReplicas.dedup s5]
  have h45 := hsame id
  cases h5 : s5.Tablets id with
  | none =>
    cases h4 : s4.Tablets id with
    | none => rfl
    | some tablet4 => simp [h4, h5] at h45
  | some tablet5 =>
    cases h4 : s4.Tablets id with
    | none => simp [h4, h5] at h45
    | some tablet4 =>
      simp only [h4, h5, Option.map_some', Option.some.injEq] at h45
      simp only [Option.map_some', Option.some.injEq, h45]
      apply List.map_congr_left
      intro r hr
      have hfound : ReplicaFound s4 id r.Id := by
        refine ⟨tablet4, h4, ?_⟩
        simp only [TTablet.FindReplicaInfo, List.find?_isSome]
        exact ⟨r, hr, by simp⟩
      have hiff : (id, r.Id) ∈ syncReplicas.dedup ↔
          DeclaredIn t1.DelayedLocklessWriteLog id r.Id = true := by
        rw [List.mem_dedup, hmem]
        simp [hfound]
      simp only [hiff]

theorem IncrementPending_Replicas (tablet : TTablet) (k : Bool) (delta : Int) :
    (IncrementTabletPendingWriteRecordCount tablet k delta).Replicas = tablet.Replicas := by
  cases k <;> rfl

theorem SameOn_CommitUnlock {α : Type} (f : TTablet → α)
    (hlock : ∀ (tablet : TTablet) (n : Int), f { tablet with TabletLockCount := n } = f tablet)
    (t1 : TTransaction) (s7 : TState) : SameOn f s7 (CommitUnlock t1 s7).1 := by
  unfold CommitUnlock
  split
  · exact SameOn_UnlockLockedTablets f hlock s7 t1
  · exact SameOn_refl f s7

theorem CommitEpilogue_Replicas (env : TCollaborators) (t1 : TTransaction) (s4 : TState)
    (id : TTabletId) :
    ((CommitEpilogue env t1 s4).1.Tablets id).map TTablet.Replicas =
      ((s4.Tablets id).map TTablet.Replicas).map (fun replicas =>
        replicas.map (fun r =>
          if DeclaredIn t1.DelayedLocklessWriteLog id r.Id then
            AdvanceReplicationTimestamp t1.CommitTimestamp r
          else r)) := by
  unfold CommitEpilogue
  simp only []
  rw [SameOn_Drop TTablet.Replicas IncrementPending_Replicas env _ _ .ImmediateLockless id,
    SameOn_Drop TTablet.Replicas IncrementPending_Replicas env _ _ .ImmediateLocked id,
    SameOn_CommitUnlock TTablet.Replicas (fun _ _ => rfl) t1 _ id,
    AdvanceSyncReplicas_Replicas]

theorem AbortedRows_append (a b : List TEvent) :
    AbortedRows (a ++ b) = AbortedRows a ++ AbortedRows b := by
  simp [AbortedRows, List.filterMap_append]

theorem foldl_Trace {α : Type} (f : TState → α → TState)
    (hf : ∀ st a, (f st a).Trace = st.Trace) :
    ∀ (l : List α) (s : TState), (l.foldl f s).Trace = s.Trace
  | [], _ => rfl
  | a :: rest, s => (foldl_Trace f hf rest (f s a)).trans (hf s a)

theorem DropLoop_Trace (env : TCollaborators) (k : Bool) :
    ∀ (records : List TTransactionWriteRecord) (s : TState) (byteSize : Int),
      (DropTransactionWriteLogLoop env k records s byteSize).1.Trace = s.Trace
  | [], _, _ => rfl
  | record :: rest, s, byteSize => by
    simp only [DropTransactionWriteLogLoop, TState.FindTablet]
    cases s.Tablets record.TabletId with
    | none => exact DropLoop_Trace env k rest s _
    | some tablet => exact (DropLoop_Trace env k rest _ _).trans (UpdateTablet_Trace _ _ _)

theorem Drop_Trace (env : TCollaborators) (s : TState) (t : TTransaction) (log : EWriteLog) :
    (DropTransactionWriteLog env s t log).1.Trace = s.Trace := by
  simp only [DropTransactionWriteLog]
  exact DropLoop_Trace env _ _ s 0

theorem Drop_rows (env : TCollaborators) (s : TState) (t : TTransaction) (log : EWriteLog) :
    (DropTransactionWriteLog env s t log).2.LockedRows = t.LockedRows ∧
      (DropTransactionWriteLog env s t log).2.PrelockedRows = t.PrelockedRows := by
  cases log <;> exact ⟨rfl, rfl⟩

theorem AbortLockedRows_AbortedRows (env : TCollaborators) (t : TTransaction)
    (valid : TSortedDynamicRowRef → Bool)
    (hvalid : ∀ trace rowRef, env.ValidateAndDiscardRowRef trace rowRef = valid rowRef) :
    ∀ (rows : List TSortedDynamicRowRef) (s : TState),
      AbortedRows (AbortLockedRows env t rows s).Trace =
        AbortedRows s.Trace ++ (rows.filter valid).map (fun rowRef => (t.Id, rowRef))
  | [], s => by simp [AbortLockedRows]
  | rowRef :: rest, s => by
    simp only [AbortLockedRows, ValidateAndDiscardRowRef, hvalid]
    cases hv : valid rowRef with
    | false =>
      simp only [Bool.false_eq_true, if_false]
      rw [AbortLockedRows_AbortedRows env t valid hvalid rest]
      simp [TState.Record, AbortedRows_append, AbortedRows, List.filter_cons, hv]
    | true =>
      simp only [if_true]
      rw [AbortLockedRows_AbortedRows env t valid hvalid rest]
      simp [TState.Record, AbortedRows_append, AbortedRows, List.filter_cons, hv]

theorem CheckIf_AbortedRows (t : TTransaction) (s : TState) :
    AbortedRows (CheckIfImmediateLockedTabletsFullyUnlocked s t).Trace = AbortedRows s.Trace := by
  unfold CheckIfImmediateLockedTabletsFullyUnlocked
  generalize t.ImmediateLockedWriteLog = records
  induction records generalizing s with
  | nil => rfl
  | cons record rest ih =>
    simp only [List.foldl_cons]
    rw [ih]
    simp only [TState.FindTablet]
    cases s.Tablets record.TabletId with
    | none => rfl
    | some tablet => simp [TState.Record, AbortedRows_append, AbortedRows]

theorem SameOn_AdvanceSyncReplicas {α : Type} (f : TTablet → α)
    (hwrite : ∀ tablet ts, f (tablet.UpdateLastWriteTimestamp ts) = f tablet)
    (hadvance : ∀ (tablet : TTablet) replicaId (c : TTimestamp),
      f (tablet.UpdateReplica replicaId (fun r =>
        { r with CurrentReplicationTimestamp := max r.CurrentReplicationTimestamp c })) =
        f tablet)
    (t1 : TTransaction) (s4 : TState) : SameOn f s4 (AdvanceSyncReplicas t1 s4) := by
  have h1 := SameOn_CollectSyncReplicas f hwrite t1.CommitTimestamp
    t1.DelayedLocklessWriteLog s4 [] []
  have h2 := SameOn_foldl f
    (fun st (entry : TTabletId × TTableReplicaId) =>
      st.UpdateTablet entry.1 (fun t => t.UpdateReplica entry.2 (fun r =>
        { r with
          CurrentReplicationTimestamp :=
            max r.CurrentReplicationTimestamp t1.CommitTimestamp })))
    (fun st entry => SameOn_UpdateTablet f st _ _ (fun _ => hadvance _ _ _))
    (CollectSyncReplicas t1.CommitTimestamp t1.DelayedLocklessWriteLog s4 [] []).2.1.dedup
    (CollectSyncReplicas t1.CommitTimestamp t1.DelayedLocklessWriteLog s4 [] []).1
  have h3 := SameOn_foldl f
    (fun st (tabletId : TTabletId) =>
      st.Record (.AdvanceReplicatedTrimmedRowCount tabletId t1.Id))
    (fun st _ => SameOn_Record f st _)
    (CollectSyncReplicas t1.CommitTimestamp t1.DelayedLocklessWriteLog s4 [] []).2.2.dedup
    ((CollectSyncReplicas t1.CommitTimestamp t1.DelayedLocklessWriteLog s4 [] []).2.1.dedup.foldl
      (fun st (entry : TTabletId × TTableReplicaId) =>
        st.UpdateTablet entry.1 (fun t => t.UpdateReplica entry.2 (fun r =>
          { r with
            CurrentReplicationTimestamp :=
              max r.CurrentReplicationTimestamp t1.CommitTimestamp })))
      (CollectSyncReplicas t1.CommitTimestamp t1.DelayedLocklessWriteLog s4 [] []).1)
  exact SameOn_trans h1 (SameOn_trans h2 h3)

theorem Guard_CollectSyncReplicas (commitTimestamp : TTimestamp) :
    ∀ (records : List TTransactionWriteRecord) (s : TState)
      (replicas : List (TTabletId × TTableReplicaId)) (tablets : List TTabletId),
      (CollectSyncReplicas commitTimestamp records s replicas
        tablets).1.WriteLogsMemoryTrackerGuard = s.WriteLogsMemoryTrackerGuard
  | [], _, _, _ => rfl
  | record :: rest, s, replicas, tablets => by
    simp only [CollectSyncReplicas]
    split
    · exact Guard_CollectSyncReplicas commitTimestamp rest s replicas tablets
    · have hrest := Guard_CollectSyncReplicas commitTimestamp rest
        (s.UpdateTablet record.TabletId (fun t => t.UpdateLastWriteTimestamp commitTimestamp))
      exact hrest _ _

theorem Guard_AdvanceSyncReplicas (t1 : TTransaction) (s4 : TState) :
    (AdvanceSyncReplicas t1 s4).WriteLogsMemoryTrackerGuard =
      s4.WriteLogsMemoryTrackerGuard := by
  unfold AdvanceSyncReplicas
  simp only []
  rw [foldl_Guard
      (fun st (tabletId : TTabletId) =>
        st.Record (.AdvanceReplicatedTrimmedRowCount tabletId t1.Id)) (fun _ _ => rfl),
    foldl_Guard
      (fun st (entry : TTabletId × TTableReplicaId) =>
        st.UpdateTablet entry.1 (fun t => t.UpdateReplica entry.2 (fun r =>
          { r with
            CurrentReplicationTimestamp :=
              max r.CurrentReplicationTimestamp t1.CommitTimestamp })))
      (fun _ _ => rfl),
    Guard_CollectSyncReplicas]

theorem Drop_Guard (env : TCollaborators) (s : TState) (t : TTransaction) (log : EWriteLog) :
    (DropTransactionWriteLog env s t log).1.WriteLogsMemoryTrackerGuard =
      s.WriteLogsMemoryTrackerGuard - LogByteSize env (t.WriteLog log) := by
  simp only [DropTransactionWriteLog]
  obtain ⟨h1, h2⟩ := DropLoop_byteSize env
    (IsReplicatorWrite env t.AuthenticationIdentity) (t.WriteLog log) s 0
  rw [h2, h1]
  ring

theorem Drop_fields (env : TCollaborators) (s : TState) (t : TTransaction) (log : EWriteLog) :
    (DropTransactionWriteLog env s t log).2.LockedTablets = t.LockedTablets ∧
      (DropTransactionWriteLog env s t log).2.AuthenticationIdentity =
        t.AuthenticationIdentity := by
  cases log <;> exact ⟨rfl, rfl⟩

theorem UnlockFold_Tablets (id : TTabletId) :
    ∀ (tablets : List TTabletId) (s : TState),
      ((tablets.foldl UnlockTablet s).Tablets id).map (fun tab => tab.TabletLockCount) =
        ((s.Tablets id).map (fun tab => tab.TabletLockCount)).map
          (fun n => n - (tablets.count id : Int))
  | [], s => by
    simp only [List.foldl_nil, List.count_nil, Nat.cast_zero, sub_zero]
    cases s.Tablets id <;> rfl
  | tabletId :: rest, s => by
    simp only [List.foldl_cons]
    rw [UnlockFold_Tablets id rest, UnlockTablet, UpdateTablet_Tablets]
    by_cases h : id = tabletId
    · subst h
      simp only [if_true, List.count_cons_self]
      cases s.Tablets id with
      | none => rfl
      | some tab =>
        simp only [Option.map_some', Option.some.injEq]
        push_cast
        ring
    · have h' : ¬ tabletId = id := fun e => h e.symm
      simp only [h, if_false, List.count_cons, beq_iff_eq, h', add_zero]

theorem CommitUnlock_snd (t1 : TTransaction) (s7 : TState) :
    (CommitUnlock t1 s7).2.ImmediateLockedWriteLog = t1.ImmediateLockedWriteLog ∧
      (CommitUnlock t1 s7).2.ImmediateLocklessWriteLog = t1.ImmediateLocklessWriteLog ∧
      (CommitUnlock t1 s7).2.AuthenticationIdentity = t1.AuthenticationIdentity ∧
      (CommitUnlock t1 s7).2.LockedTablets =
        (if t1.DelayedLocklessWriteLog = [] then [] else t1.LockedTablets) := by
  unfold CommitUnlock
  split <;> exact ⟨rfl, rfl, rfl, rfl⟩

theorem CommitEpilogue_Pending (env : TCollaborators) (t1 : TTransaction) (s4 : TState)
    (id : TTabletId) :
    ((CommitEpilogue env t1 s4).1.Tablets id).map TTablet.Pending =
      ((s4.Tablets id).map TTablet.Pending).map
        (AddPending (IsReplicatorWrite env t1.AuthenticationIdentity)
          (-(RecordCount id t1.ImmediateLockedWriteLog +
            RecordCount id t1.ImmediateLocklessWriteLog))) := by
  obtain ⟨hlocked, hlockless, hidentity, _⟩ := CommitUnlock_snd t1 (AdvanceSyncReplicas t1 s4)
  have hsame : SameOn TTablet.Pending s4 (CommitUnlock t1 (AdvanceSyncReplicas t1 s4)).1 :=
    SameOn_trans
      (SameOn_AdvanceSyncReplicas TTablet.Pending (fun _ _ => rfl) (fun _ _ _ => rfl) t1 s4)
      (SameOn_CommitUnlock TTablet.Pending (fun _ _ => rfl) t1 _)
  unfold CommitEpilogue
  simp only []
  rw [Drop_Tablets, Drop_Tablets, (Drop_fields env _ _ _).2,
    (Drop_WriteLog env _ _ .ImmediateLocked).2 .ImmediateLockless (by decide), hidentity]
  have hl1 : (CommitUnlock t1 (AdvanceSyncReplicas t1 s4)).2.WriteLog .ImmediateLocked =
      t1.ImmediateLockedWriteLog := hlocked
  have hl2 : (CommitUnlock t1 (AdvanceSyncReplicas t1 s4)).2.WriteLog .ImmediateLockless =
      t1.ImmediateLocklessWriteLog := hlockless
  rw [hl1, hl2, ← hsame id]
  cases (CommitUnlock t1 (AdvanceSyncReplicas t1 s4)).1.Tablets id with
  | none => rfl
  | some tablet =>
    simp only [Option.map_some', Pending_Increment, AddPending_add, Option.some.injEq]
    congr 1
    ring

theorem CommitEpilogue_Guard (env : TCollaborators) (t1 : TTransaction) (s4 : TState) :
    (CommitEpilogue env t1 s4).1.WriteLogsMemoryTrackerGuard =
      s4.WriteLogsMemoryTrackerGuard -
        (LogByteSize env t1.ImmediateLockedWriteLog +
          LogByteSize env t1.ImmediateLocklessWriteLog) := by
  obtain ⟨hlocked, hlockless, _, _⟩ := CommitUnlock_snd t1 (AdvanceSyncReplicas t1 s4)
  have hl1 : (CommitUnlock t1 (AdvanceSyncReplicas t1 s4)).2.WriteLog .ImmediateLocked =
      t1.ImmediateLockedWriteLog := hlocked
  have hl2 : (CommitUnlock t1 (AdvanceSyncReplicas t1 s4)).2.WriteLog .ImmediateLockless =
      t1.ImmediateLocklessWriteLog := hlockless
  have hunlock : (CommitUnlock t1 (AdvanceSyncReplicas t1 s4)).1.WriteLogsMemoryTrackerGuard =
      s4.WriteLogsMemoryTrackerGuard := by
    unfold CommitUnlock
    split
    · simp only [UnlockLockedTablets]
      rw [foldl_Guard UnlockTablet (fun _ _ => rfl), Guard_AdvanceSyncReplicas]
    · exact Guard_AdvanceSyncReplicas t1 s4
  unfold CommitEpilogue
  simp only []
  rw [Drop_Guard, Drop_Guard,
    (Drop_WriteLog env _ _ .ImmediateLocked).2 .ImmediateLockless (by decide), hl1, hl2,
    hunlock]
  ring

theorem CommitEpilogue_Locks (env : TCollaborators) (t1 : TTransaction) (s4 : TState)
    (id : TTabletId) :
    (CommitEpilogue env t1 s4).2.LockedTablets =
        (if t1.DelayedLocklessWriteLog = [] then [] else t1.LockedTablets) ∧
      ((CommitEpilogue env t1 s4).1.Tablets id).map (fun tab => tab.TabletLockCount) =
        ((s4.Tablets id).map (fun tab => tab.TabletLockCount)).map (fun n =>
          n - (if t1.DelayedLocklessWriteLog = [] then (t1.LockedTablets.count id : Int)
            else 0)) := by
  obtain ⟨_, _, _, hlocks⟩ := CommitUnlock_snd t1 (AdvanceSyncReplicas t1 s4)
  have hpending : ∀ (tablet : TTablet) (k : Bool) (delta : Int),
      (IncrementTabletPendingWriteRecordCount tablet k delta).TabletLockCount =
        tablet.TabletLockCount := by
    intro tablet k delta
    cases k <;> rfl
  have hadv := SameOn_AdvanceSyncReplicas (fun tab : TTablet => tab.TabletLockCount)
    (fun _ _ => rfl) (fun _ _ _ => rfl) t1 s4 id
  refine ⟨?_, ?_⟩
  · unfold CommitEpilogue
    simp only []
    rw [(Drop_fields env _ _ _).1, (Drop_fields env _ _ _).1, hlocks]
  · unfold CommitEpilogue
    simp only []
    rw [SameOn_Drop (fun tab : TTablet => tab.TabletLockCount) hpending env _ _ _ id,
      SameOn_Drop (fun tab : TTablet => tab.TabletLockCount) hpending env _ _ _ id]
    unfold CommitUnlock
    split
    · simp only [UnlockLockedTablets]
      rw [UnlockFold_Tablets, hadv]
    · simp only [sub_zero]
      rw [hadv]
      cases s4.Tablets id <;> rfl

theorem Provisional_advance (tablet : TTablet) (replicaId : TTableReplicaId)
    (c : TTimestamp) :
    (tablet.UpdateReplica replicaId (fun r =>
      { r with CurrentReplicationTimestamp := max r.CurrentReplicationTimestamp c })).Provisional =
      tablet.Provisional := by
  simp only [TTablet.Provisional, TTablet.UpdateReplica, List.map_map, Prod.mk.injEq, true_and]
  apply List.map_congr_left
  intro r _
  simp only [Function.comp]
  split <;> rfl

theorem IncrementPending_Provisional (tablet : TTablet) (k : Bool) (delta : Int) :
    (IncrementTabletPendingWriteRecordCount tablet k delta).Provisional = tablet.Provisional := by
  cases k <;> rfl

theorem CommitEpilogue_Provisional (env : TCollaborators) (t1 : TTransaction) (s4 : TState) :
    SameOn TTablet.Provisional s4 (CommitEpilogue env t1 s4).1 := by
  unfold CommitEpilogue
  simp only []
  exact SameOn_trans
    (SameOn_AdvanceSyncReplicas TTablet.Provisional (fun _ _ => rfl) Provisional_advance t1 s4)
    (SameOn_trans (SameOn_CommitUnlock TTablet.Provisional (fun _ _ => rfl) t1 _)
      (SameOn_trans (SameOn_Drop TTablet.Provisional IncrementPending_Provisional env _ _ _)
        (SameOn_Drop TTablet.Provisional IncrementPending_Provisional env _ _ _)))

theorem Find_append_fresh (tm : TTransactionManager) (t : TTransaction)
    (h : tm.Find t.Id = none) : TTransactionManager.Find (tm ++ [t]) t.Id = some t := by
  unfold TTransactionManager.Find at h ⊢
  rw [List.find?_append, h]
  simp

theorem Store_append_fresh (tm : TTransactionManager) (t t1 : TTransaction)
    (hid : t1.Id = t.Id) (h : tm.Find t.Id = none) :
    TTransactionManager.Store (tm ++ [t]) t1 = tm ++ [t1] := by
  unfold TTransactionManager.Store
  rw [List.map_append]
  congr 1
  · unfold TTransactionManager.Find at h
    rw [List.find?_eq_none] at h
    conv_rhs => rw [← List.map_id tm]
    apply List.map_congr_left
    intro x hx
    have := h x hx
    simp only [beq_iff_eq] at this
    rw [hid, if_neg this]
    rfl
  · simp [hid]

/-- One iteration of `Write` on the prelocking path, when the transaction is new and the
store manager prelocks the whole batch. -/
theorem WritePrelockAndSubmit_drained (env : TCollaborators) (args : TWriteArgs)
    (s : TState) (tm : TTransactionManager) (data : TSharedRef) (tablet : TTablet)
    (hatomicity : env.AtomicityFromTransactionId args.TransactionId = EAtomicity.Full)
    (hversioned : args.Versioned = false) (hpo : tablet.PhysicallyOrdered = false)
    (hrep : tablet.Replicated = false)
    (hfresh : tm.Find args.TransactionId = none)
    (hdata : data ≠ [])
    (hconsumed : data.length ≤
      (env.ExecuteWrites s.Trace args.TabletSnapshot.TabletId { Data := data, Current := 0 }
        (PrelockContext args.TransactionId)).Consumed)
    (hblocked :
      (env.ExecuteWrites s.Trace args.TabletSnapshot.TabletId { Data := data, Current := 0 }
        (PrelockContext args.TransactionId)).BlockedStore = false)
    (herror :
      (env.ExecuteWrites s.Trace args.TabletSnapshot.TabletId { Data := data, Current := 0 }
        (PrelockContext args.TransactionId)).Error = false) :
    WritePrelockAndSubmit env args
        { State := s, Transactions := tm, Reader := { Data := data, Current := 0 },
          Tablet := some args.TabletSnapshot.TabletId }
        args.TabletSnapshot.TabletId tablet =
      .ok
        { State := WriteSubmit env args args.TabletSnapshot.TabletId tablet false args.Signature 0
            (ExecuteWrites env s args.TabletSnapshot.TabletId { Data := data, Current := 0 }
              (PrelockContext args.TransactionId))
          Transactions := tm ++
            [{ FreshTransaction env args with
                PrelockedRows :=
                  (env.ExecuteWrites s.Trace args.TabletSnapshot.TabletId
                    { Data := data, Current := 0 } (PrelockContext args.TransactionId)).RowRefs
                TransientSignature :=
                  AddSignature env.InitialTransactionSignature args.Signature }]
          Reader := { Data := data, Current := data.length }
          Tablet := some args.TabletSnapshot.TabletId } := by
  have hlockless : (EAtomicity.Full == EAtomicity.None || tablet.PhysicallyOrdered ||
      tablet.Replicated || args.Versioned) = false := by
    simp [hpo, hrep, hversioned]
  have hlen : ¬ (0 : Nat) = data.length := by
    intro h
    exact hdata (List.length_eq_zero.mp h.symm)
  have hreader : (ExecuteWrites env s args.TabletSnapshot.TabletId
      { Data := data, Current := 0 } (PrelockContext args.TransactionId)).Reader =
      { Data := data, Current := data.length } := by
    simp only [ExecuteWrites, Nat.zero_add, Nat.min_eq_right hconsumed]
  have hrefs : (ExecuteWrites env s args.TabletSnapshot.TabletId
      { Data := data, Current := 0 } (PrelockContext args.TransactionId)).RowRefs =
      (env.ExecuteWrites s.Trace args.TabletSnapshot.TabletId
        { Data := data, Current := 0 } (PrelockContext args.TransactionId)).RowRefs := rfl
  have hb : (ExecuteWrites env s args.TabletSnapshot.TabletId
      { Data := data, Current := 0 } (PrelockContext args.TransactionId)).Context.BlockedStore =
      false := hblocked
  have he : (ExecuteWrites env s args.TabletSnapshot.TabletId
      { Data := data, Current := 0 } (PrelockContext args.TransactionId)).Context.Error =
      false := herror
  unfold WritePrelockAndSubmit
  simp only [hatomicity, GetOrCreateTransaction, hfresh, ValidateTransactionActive, hlockless,
    Option.map_some', WriteExecute, Bool.false_eq_true, if_false, PrelockContext]
  simp only [PrelockContext] at hreader hrefs hb he
  generalize ExecuteWrites env s args.TabletSnapshot.TabletId { Data := data, Current := 0 }
    { Phase := EWritePhase.Prelock, Transaction := some args.TransactionId,
      CommitTimestamp := NullTimestamp, RowCount := 0, DataWeight := 0, BlockedStore := false,
      Error := false } = executed at hreader hrefs hb he ⊢
  simp only [hreader, hb, he, TWireProtocolReader.IsFinished, beq_self_eq_true, Bool.not_true,
    Bool.and_false, Bool.false_eq_true, if_false, ne_eq, hlen, not_false_eq_true, if_true,
    not_true_eq_false, hrefs, List.nil_append]
  rw [Store_append_fresh tm _ _ ?_ ?_]
  · rfl
  · rfl
  · exact hfresh

/-- The result of `Write` on the prelocking path when the transaction is new, all validations
pass and the store manager prelocks the whole batch in one call: one mutation is submitted. -/
theorem Write_drained (env : TCollaborators) (args : TWriteArgs)
    (s : TState) (tm : TTransactionManager) (data : TSharedRef) (tablet : TTablet) (fuel : Nat)
    (hatomicity : env.AtomicityFromTransactionId args.TransactionId = EAtomicity.Full)
    (hversioned : args.Versioned = false)
    (htablet : s.Tablets args.TabletSnapshot.TabletId = some tablet)
    (hrevision : tablet.MountRevision = args.TabletSnapshot.MountRevision)
    (hmounted : tablet.State = ETabletState.Mounted)
    (hpo : tablet.PhysicallyOrdered = false) (hrep : tablet.Replicated = false)
    (hconflict : env.ValidateTransactionConflict s.Trace args.TabletSnapshot.TabletId
      args.TransactionStartTimestamp = true)
    (hlimit : ValidateTabletStoreLimit env s args.TabletSnapshot.TabletId tablet = .ok ())
    (hmemory : env.ValidateMemoryLimit s.Trace
      (if env.EnableTabletDynamicMemoryLimit then tablet.PoolTag else none) = true)
    (hbarrier : ValidateWriteBarrier (IsReplicatorWrite env args.Identity) tablet = .ok ())
    (hfresh : tm.Find args.TransactionId = none)
    (hdata : data ≠ [])
    (hconsumed : data.length ≤
      (env.ExecuteWrites s.Trace args.TabletSnapshot.TabletId { Data := data, Current := 0 }
        (PrelockContext args.TransactionId)).Consumed)
    (hblocked :
      (env.ExecuteWrites s.Trace args.TabletSnapshot.TabletId { Data := data, Current := 0 }
        (PrelockContext args.TransactionId)).BlockedStore = false)
    (herror :
      (env.ExecuteWrites s.Trace args.TabletSnapshot.TabletId { Data := data, Current := 0 }
        (PrelockContext args.TransactionId)).Error = false) :
    Write env (fuel + 1) s tm args { Data := data, Current := 0 } =
      some (.ok
        { State := WriteSubmit env args args.TabletSnapshot.TabletId tablet false args.Signature 0
            (ExecuteWrites env s args.TabletSnapshot.TabletId { Data := data, Current := 0 }
              (PrelockContext args.TransactionId))
          Transactions := tm ++
            [{ FreshTransaction env args with
                PrelockedRows :=
                  (env.ExecuteWrites s.Trace args.TabletSnapshot.TabletId
                    { Data := data, Current := 0 } (PrelockContext args.TransactionId)).RowRefs
                TransientSignature :=
                  AddSignature env.InitialTransactionSignature args.Signature }]
          Reader := { Data := data, Current := data.length }
          Tablet := some args.TabletSnapshot.TabletId }) := by
  have hlen : ((0 : Nat) == data.length) = false := by
    rw [beq_eq_false_iff_ne]
    intro h
    exact hdata (List.length_eq_zero.mp h.symm)
  unfold Write
  simp only [hatomicity, ActualizeTablet, TState.GetTabletOrThrow, htablet, hrevision, hmounted,
    ne_eq, not_true_eq_false, if_false, hconflict, Bool.not_true, Bool.false_eq_true,
    and_false, reduceCtorEq]
  unfold WriteLoop
  simp only [TWireProtocolReader.IsFinished, hlen, Bool.false_eq_true, if_false]
  unfold WriteIteration
  simp only [ActualizeTablet, htablet, hlimit, hmemory, Bool.not_true, Bool.false_eq_true,
    if_false, hbarrier]
  rw [WritePrelockAndSubmit_drained env args s tm data tablet hatomicity hversioned hpo hrep
    hfresh hdata hconsumed hblocked herror]
  simp only []
  exact WriteLoop_finished env args fuel _ (by simp [TWireProtocolReader.IsFinished])

/-- The leader apply for full atomicity and a matching mount revision, in terms of the
confirmation of the prelocked rows (or the tablet lock of a lockless write) and
`EnqueueTransactionWriteRecord`. -/
theorem HydraLeaderWriteRows_Full (env : TCollaborators) (s : TState)
    (tm : TTransactionManager) (transactionId : TTransactionId)
    (signature : TTransactionSignature) (lockless : Bool)
    (writeRecord : TTransactionWriteRecord) (identity : TAuthenticationIdentity)
    (queue : List TTabletId) (tablet : TTablet) (t : TTransaction) (mountRevision : TRevision)
    (hatomicity : env.AtomicityFromTransactionId transactionId = EAtomicity.Full)
    (hqueue : s.PrelockedTablets = writeRecord.TabletId :: queue)
    (htablet : s.Tablets writeRecord.TabletId = some tablet)
    (hrevision : mountRevision = tablet.MountRevision)
    (hfind : tm.Find transactionId = some t) :
    HydraLeaderWriteRows env s tm transactionId mountRevision signature lockless
        writeRecord identity =
      match (if lockless then
          .ok (LockTablet (LeaderPopped env s queue writeRecord.TabletId identity)
              writeRecord.TabletId,
            { t with
              Transient := false
              LockedTablets := t.LockedTablets ++ [writeRecord.TabletId] })
        else
          ConfirmPrelockedRows env writeRecord.RowCount.toNat
            (LeaderPopped env s queue writeRecord.TabletId identity)
            { t with Transient := false } : Except TError (TState × TTransaction)) with
      | .error e => .error e
      | .ok confirmed =>
        .ok (UnlockTablet
            (EnqueueTransactionWriteRecord env confirmed.1 confirmed.2 writeRecord.TabletId
              (SelectWriteLog tablet lockless) writeRecord signature).1 writeRecord.TabletId,
          tm.Store
            (EnqueueTransactionWriteRecord env confirmed.1 confirmed.2 writeRecord.TabletId
              (SelectWriteLog tablet lockless) writeRecord signature).2) := by
  subst hrevision
  unfold HydraLeaderWriteRows
  simp only [hatomicity, hqueue, htablet, ne_eq, not_true_eq_false, if_false,
    MakeTransactionPersistent, hfind, LeaderPopped, SelectWriteLog]
  cases lockless with
  | true => rfl
  | false =>
    simp only [Bool.false_eq_true, if_false]
    cases ConfirmPrelockedRows env writeRecord.RowCount.toNat
        (({ s with PrelockedTablets := queue } : TState).UpdateTablet writeRecord.TabletId
          (fun t => IncrementTabletInFlightMutationCount t (IsReplicatorWrite env identity)
            (-1)))
        { t with Transient := false } with
    | error e => rfl
    | ok confirmed => rfl

theorem ConfirmPrelockedRows_single (env : TCollaborators) (s : TState) (t : TTransaction)
    (rowRef : TSortedDynamicRowRef) (hrows : t.PrelockedRows = [rowRef])
    (hvalid : ∀ trace, env.ValidateAndDiscardRowRef trace rowRef = true) :
    ConfirmPrelockedRows env 1 s t =
      .ok ((s.Record (.ValidateAndDiscardRowRef rowRef)).Record (.ConfirmRow t.Id rowRef),
        { t with PrelockedRows := [], LockedRows := t.LockedRows ++ [rowRef] }) := by
  simp only [ConfirmPrelockedRows, hrows, ValidateAndDiscardRowRef, hvalid, if_true, ConfirmRow]

theorem FinishTabletCommit_ok (env : TCollaborators) (s : TState) (tabletId : TTabletId)
    (transaction : Option TTransaction) (timestamp : TTimestamp)
    (h : ∀ tablet, s.Tablets tabletId = some tablet → tablet.UnflushedTimestamp ≤ timestamp) :
    ∃ s1, FinishTabletCommit env s tabletId transaction timestamp = .ok s1 ∧
      s1.Trace = s.Trace := by
  unfold FinishTabletCommit
  cases hs : s.Tablets tabletId with
  | none => exact ⟨s, rfl, rfl⟩
  | some tablet =>
    have hle := h tablet hs
    simp only [hle, decide_True, Bool.not_true, Bool.and_false, Bool.false_eq_true, if_false]
    split
    · exact ⟨_, rfl, rfl⟩
    · exact ⟨_, rfl, rfl⟩

theorem CheckIf_Trace_mem (s : TState) (t : TTransaction) (event : TEvent)
    (h : event ∈ s.Trace) :
    event ∈ (CheckIfImmediateLockedTabletsFullyUnlocked s t).Trace := by
  unfold CheckIfImmediateLockedTabletsFullyUnlocked
  generalize t.ImmediateLockedWriteLog = records
  induction records generalizing s with
  | nil => exact h
  | cons record rest ih =>
    simp only [List.foldl_cons]
    apply ih
    split
    · exact h
    · exact List.mem_append_left _ h

theorem AdvanceSyncReplicas_nil (t1 : TTransaction) (s4 : TState)
    (h : t1.DelayedLocklessWriteLog = []) : AdvanceSyncReplicas t1 s4 = s4 := by
  simp [AdvanceSyncReplicas, h, CollectSyncReplicas]

theorem CommitEpilogue_Trace (env : TCollaborators) (t1 : TTransaction) (s4 : TState) :
    (CommitEpilogue env t1 s4).1.Trace = (AdvanceSyncReplicas t1 s4).Trace := by
  unfold CommitEpilogue
  simp only []
  rw [Drop_Trace, Drop_Trace]
  unfold CommitUnlock
  split
  · simp only [UnlockLockedTablets]
    exact foldl_Trace UnlockTablet (fun _ _ => rfl) _ _
  · rfl

/-- The commit of a transaction that holds one locked row, which is valid, and no lockless
records. -/
theorem OnTransactionCommitted_single_row (env : TCollaborators) (s sF : TState)
    (t : TTransaction) (rowRef : TSortedDynamicRowRef)
    (hprelocked : t.PrelockedRows = []) (hrows : t.LockedRows = [rowRef])
    (hlockless : t.ImmediateLocklessWriteLog = [])
    (hvalid : ∀ trace, env.ValidateAndDiscardRowRef trace rowRef = true)
    (hfinish : FinishTabletCommit env (s.Record (.ValidateAndDiscardRowRef rowRef))
      rowRef.Tablet (some t) t.CommitTimestamp = .ok sF) :
    OnTransactionCommitted env s t =
      .ok (CommitEpilogue env { t with LockedRows := [] }
        (CheckIfImmediateLockedTabletsFullyUnlocked (sF.Record (.CommitRow t.Id rowRef))
          { t with LockedRows := [] })) := by
  unfold OnTransactionCommitted
  simp only [hprelocked, ne_eq, not_true_eq_false, if_false, hrows, CommitLockedRows,
    ValidateAndDiscardRowRef, hvalid, Bool.not_true, Bool.false_eq_true, hfinish, hlockless,
    CommitLocklessRecords, FinishTabletCommits]
  rfl

theorem WriteSubmit_fields (env : TCollaborators) (args : TWriteArgs) (tabletId : TTabletId)
    (tablet : TTablet) (lockless : Bool) (signature : TTransactionSignature)
    (readerBefore : Nat) (executed : TExecuteWritesResult) :
    (WriteSubmit env args tabletId tablet lockless signature readerBefore
        executed).PrelockedTablets = executed.State.PrelockedTablets ++ [tabletId] ∧
      (WriteSubmit env args tabletId tablet lockless signature readerBefore executed).Trace =
        executed.State.Trace ∧
      (WriteSubmit env args tabletId tablet lockless signature readerBefore
        executed).WriteLogsMemoryTrackerGuard = executed.State.WriteLogsMemoryTrackerGuard ∧
      ∀ id, (WriteSubmit env args tabletId tablet lockless signature readerBefore
          executed).Tablets id =
        if id = tabletId then
          (executed.State.Tablets id).map (fun t =>
            IncrementTabletInFlightMutationCount
              { t with TabletLockCount := t.TabletLockCount + 1 }
              (IsReplicatorWrite env args.Identity) 1)
        else executed.State.Tablets id := by
  refine ⟨rfl, rfl, rfl, fun id => ?_⟩
  simp only [WriteSubmit, LockTablet, UpdateTablet_Tablets]
  split
  · cases executed.State.Tablets id <;> rfl
  · rfl

theorem HydraLeaderWriteRows_single_row (env : TCollaborators) (s : TState)
    (tm : TTransactionManager) (t : TTransaction) (transactionId : TTransactionId)
    (mountRevision : TRevision) (signature : TTransactionSignature)
    (writeRecord : TTransactionWriteRecord) (identity : TAuthenticationIdentity)
    (tablet : TTablet) (rowRef : TSortedDynamicRowRef)
    (hatomicity : env.AtomicityFromTransactionId transactionId = EAtomicity.Full)
    (hqueue : s.PrelockedTablets = [writeRecord.TabletId])
    (htablet : s.Tablets writeRecord.TabletId = some tablet)
    (hrevision : mountRevision = tablet.MountRevision)
    (hweak : tablet.CommitOrdering = ECommitOrdering.Weak)
    (hfind : tm.Find transactionId = some t)
    (hrows : t.PrelockedRows = [rowRef]) (hcount : writeRecord.RowCount = 1)
    (hvalid : ∀ trace, env.ValidateAndDiscardRowRef trace rowRef = true) :
    ∃ s2,
      HydraLeaderWriteRows env s tm transactionId mountRevision signature false writeRecord
          identity =
        .ok (s2, tm.Store
          { t with
            Transient := false
            PrelockedRows := []
            LockedRows := t.LockedRows ++ [rowRef]
            ImmediateLockedWriteLog := t.ImmediateLockedWriteLog ++ [writeRecord]
            PersistentSignature := AddSignature t.PersistentSignature signature }) ∧
      s2.PrelockedTablets = [] ∧
      ∀ id, s2.Tablets id =
        if id = writeRecord.TabletId then
          (s.Tablets id).map (LeaderLockedEffect env identity t)
        else s.Tablets id := by
  have hconfirm := ConfirmPrelockedRows_single env
    (LeaderPopped env s [] writeRecord.TabletId identity) { t with Transient := false } rowRef
    hrows hvalid
  have hrun := HydraLeaderWriteRows_Full env s tm transactionId signature false writeRecord
    identity [] tablet t mountRevision hatomicity hqueue htablet hrevision hfind
  simp only [Bool.false_eq_true, if_false, hcount, Int.toNat_one, hconfirm, SelectWriteLog,
    hweak, beq_self_eq_true, if_true] at hrun
  refine ⟨_, hrun, rfl, fun id => ?_⟩
  simp only [UnlockTablet, UpdateTablet_Tablets, Enqueue_Tablets, TState.Record, LeaderPopped]
  split
  · cases s.Tablets id <;> rfl
  · rfl

theorem OnTransactionCommitted_tablets (env : TCollaborators) (s s1 : TState)
    (t t1 : TTransaction) (h : OnTransactionCommitted env s t = .ok (s1, t1))
    (id : TTabletId) :
    (s1.Tablets id).map TTablet.Pending =
        ((s.Tablets id).map TTablet.Pending).map
          (AddPending (IsReplicatorWrite env t.AuthenticationIdentity)
            (-(RecordCount id t.ImmediateLockedWriteLog +
              RecordCount id t.ImmediateLocklessWriteLog))) ∧
      (s1.Tablets id).map (fun tab => tab.TabletLockCount) =
        ((s.Tablets id).map (fun tab => tab.TabletLockCount)).map (fun n =>
          n - (if t.DelayedLocklessWriteLog = [] then (t.LockedTablets.count id : Int)
            else 0)) := by
  obtain ⟨_, s4, hr, _, hframe⟩ := OnTransactionCommitted_phases env s t _ h
  have hs1 : s1 = (CommitEpilogue env { t with LockedRows := [] } s4).1 :=
    congrArg Prod.fst hr
  constructor
  · rw [hs1, CommitEpilogue_Pending,
      hframe _ TTablet.Pending (fun _ _ => rfl) (fun _ _ => rfl) id]
  · rw [hs1, (CommitEpilogue_Locks env _ s4 id).2,
      hframe _ (fun tab : TTablet => tab.TabletLockCount) (fun _ _ => rfl) (fun _ _ => rfl) id]

theorem OnTransactionCommitted_single_row_ok (env : TCollaborators) (s : TState)
    (t : TTransaction) (rowRef : TSortedDynamicRowRef)
    (hprelocked : t.PrelockedRows = []) (hrows : t.LockedRows = [rowRef])
    (hlockless : t.ImmediateLocklessWriteLog = [])
    (hdelayed : t.DelayedLocklessWriteLog = [])
    (hvalid : ∀ trace, env.ValidateAndDiscardRowRef trace rowRef = true)
    (hunflushed : ∀ tablet, s.Tablets rowRef.Tablet = some tablet →
      tablet.UnflushedTimestamp ≤ t.CommitTimestamp) :
    ∃ s1 t1, OnTransactionCommitted env s t = .ok (s1, t1) ∧
      TEvent.CommitRow t.Id rowRef ∈ s1.Trace := by
  obtain ⟨sF, hfinish, htrace⟩ := FinishTabletCommit_ok env
    (s.Record (.ValidateAndDiscardRowRef rowRef)) rowRef.Tablet (some t) t.CommitTimestamp
    hunflushed
  have hrun := OnTransactionCommitted_single_row env s sF t rowRef hprelocked hrows hlockless
    hvalid hfinish
  have hmem : TEvent.CommitRow t.Id rowRef ∈
      (CommitEpilogue env { t with LockedRows := [] }
        (CheckIfImmediateLockedTabletsFullyUnlocked (sF.Record (.CommitRow t.Id rowRef))
          { t with LockedRows := [] })).1.Trace := by
    rw [CommitEpilogue_Trace, AdvanceSyncReplicas_nil { t with LockedRows := [] } _ hdelayed]
    apply CheckIf_Trace_mem
    simp [TState.Record]
  exact ⟨_, _, hrun, hmem⟩

theorem IncrementInFlight_fields (tablet : TTablet) (k : Bool) (delta : Int) :
    (IncrementTabletInFlightMutationCount tablet k delta).UnflushedTimestamp =
        tablet.UnflushedTimestamp ∧
      (IncrementTabletInFlightMutationCount tablet k delta).Pending = tablet.Pending ∧
      (IncrementTabletInFlightMutationCount tablet k delta).TabletLockCount =
        tablet.TabletLockCount := by
  cases k <;> exact ⟨rfl, rfl, rfl⟩

theorem LeaderLockedEffect_fields (env : TCollaborators) (identity : TAuthenticationIdentity)
    (transaction : TTransaction) (tablet : TTablet) :
    (LeaderLockedEffect env identity transaction tablet).UnflushedTimestamp =
        tablet.UnflushedTimestamp ∧
      (LeaderLockedEffect env identity transaction tablet).Pending =
        AddPending (IsReplicatorWrite env transaction.AuthenticationIdentity) 1
          tablet.Pending ∧
      (LeaderLockedEffect env identity transaction tablet).TabletLockCount =
        tablet.TabletLockCount - 1 := by
  unfold LeaderLockedEffect
  cases IsReplicatorWrite env identity <;>
    cases IsReplicatorWrite env transaction.AuthenticationIdentity <;> exact ⟨rfl, rfl, rfl⟩

theorem SyncCount_nodup (replicaId : TTableReplicaId) :
    ∀ (replicas : List TTableReplicaInfo), (replicas.map (fun r => r.Id)).Nodup →
      ∀ r ∈ replicas, r.Id = replicaId →
        SyncCount replicaId replicas = if r.Mode = ETableReplicaMode.Sync then 1 else 0
  | [], _, r, hr, _ => by simp at hr
  | r0 :: rest, hnodup, r, hr, hid => by
    simp only [List.map_cons, List.nodup_cons, List.mem_map, not_exists, not_and] at hnodup
    have hzero : ∀ (l : List TTableReplicaInfo), (∀ x ∈ l, ¬ x.Id = replicaId) →
        SyncCount replicaId l = 0 := by
      intro l
      induction l with
      | nil => intro _; rfl
      | cons x l ih =>
        intro hl
        have hx : ¬ x.Id = replicaId := hl x (List.mem_cons_self _ _)
        simp only [SyncCount, hx, and_false, if_false, zero_add]
        exact ih (fun y hy => hl y (List.mem_cons_of_mem _ hy))
    rcases List.mem_cons.mp hr with rfl | hmem
    · have hrest : SyncCount replicaId rest = 0 :=
        hzero rest (fun x hx hxid => hnodup.1 x hx (hxid.trans hid.symm))
      simp only [SyncCount, hid, and_true, hrest, add_zero]
    · have hne : ¬ r0.Id = replicaId := fun h0 => hnodup.1 r hmem (hid.trans h0.symm)
      simp only [SyncCount, hne, and_false, if_false, zero_add]
      exact SyncCount_nodup replicaId rest hnodup.2 r hmem hid

theorem PrepareReplicas_sum (env : TCollaborators) (tabletId : TTabletId) (tablet : TTablet)
    (rowCount : Int) (key : TTabletId × TTableReplicaId) :
    ∀ (replicas : List TTableReplicaInfo) (r0 r : List ((TTabletId × TTableReplicaId) × Int)),
      PrepareReplicas env tabletId tablet rowCount replicas r0 = .ok r →
      FlatMapSum key r = FlatMapSum key r0 +
        (if tabletId = key.1 then SyncCount key.2 replicas * rowCount else 0)
  | [], r0, r, h => by
    simp only [PrepareReplicas, Except.ok.injEq] at h
    subst h
    simp [SyncCount]
  | replica :: rest, r0, r, h => by
    simp only [PrepareReplicas] at h
    split at h
    · exact absurd h (by simp)
    · split at h
      · rename_i hmode
        rw [PrepareReplicas_sum env tabletId tablet rowCount key rest _ r h,
          FlatMapSum_FlatMapAdd]
        obtain ⟨k1, k2⟩ := key
        by_cases h1 : tabletId = k1
        · by_cases h2 : replica.Id = k2
          · simp [SyncCount, hmode, h1, h2]; ring
          · simp [SyncCount, hmode, h1, h2]
        · simp [h1]
      · rename_i hmode
        rw [PrepareReplicas_sum env tabletId tablet rowCount key rest _ r h]
        simp [SyncCount, hmode]

theorem PrepareRecords_replica_sum (env : TCollaborators) (s : TState) (t : TTransaction)
    (id : TTabletId) (replicaId : TTableReplicaId) (tablet : TTablet)
    (hs : s.Tablets id = some tablet) :
    ∀ (records : List TTransactionWriteRecord)
      (r0 r : List ((TTabletId × TTableReplicaId) × Int)) (m0 m : List (TTabletId × Int)),
      PrepareRecords env s t records r0 m0 = .ok (r, m) →
      FlatMapSum (id, replicaId) r = FlatMapSum (id, replicaId) r0 +
        (if tablet.Replicated then SyncCount replicaId tablet.Replicas * RowSum id records
          else 0)
  | [], r0, r, m0, m, h => by
    simp only [PrepareRecords, Except.ok.injEq, Prod.mk.injEq] at h
    obtain ⟨rfl, _⟩ := h
    simp [RowSum]
  | record :: rest, r0, r, m0, m, h => by
    simp only [PrepareRecords, TState.GetTabletOrThrow] at h
    cases hs1 : s.Tablets record.TabletId with
    | none => simp [hs1] at h
    | some tablet1 =>
      simp only [hs1] at h
      split at h
      · rename_i hrep
        rw [PrepareRecords_replica_sum env s t id replicaId tablet hs rest r0 r m0 m h]
        simp only [RowSum]
        by_cases hid : record.TabletId = id
        · subst hid
          have ht : tablet1 = tablet := Option.some.inj (hs1.symm.trans hs)
          subst ht
          have : tablet1.Replicated = false := by simpa using hrep
          simp [this]
        · simp [hid]
      · rename_i hrep
        split at h
        · exact absurd h (by simp)
        · split at h
          · exact absurd h (by simp)
          · split at h
            · exact absurd h (by simp)
            · rename_i r1 hr1
              rw [PrepareRecords_replica_sum env s t id replicaId tablet hs rest r1 r _ m h,
                PrepareReplicas_sum env _ _ _ (id, replicaId) _ _ _ hr1]
              simp only [RowSum]
              by_cases hid : record.TabletId = id
              · subst hid
                have ht : tablet1 = tablet := Option.some.inj (hs1.symm.trans hs)
                subst ht
                have : tablet1.Replicated = true := by simpa using hrep
                simp [this]; ring
              · simp [hid]

theorem AddReplicaIndex_fold (id : TTabletId) :
    ∀ (m : List ((TTabletId × TTableReplicaId) × Int)) (s : TState),
      (m.foldl (fun st entry => AddCurrentReplicationRowIndex st entry.1.1 entry.1.2 entry.2)
          s).Tablets id =
        (s.Tablets id).map (fun tablet =>
          { tablet with
            Replicas := tablet.Replicas.map (fun r =>
              { r with
                CurrentReplicationRowIndex :=
                  r.CurrentReplicationRowIndex + FlatMapSum (id, r.Id) m }) })
  | [], s => by
    simp only [List.foldl_nil, FlatMapSum, add_zero]
    cases s.Tablets id with
    | none => rfl
    | some tablet => simp
  | ((k1, k2), v) :: rest, s => by
    simp only [List.foldl_cons]
    rw [AddReplicaIndex_fold id rest (AddCurrentReplicationRowIndex s k1 k2 v)]
    simp only [AddCurrentReplicationRowIndex, UpdateTablet_Tablets, FlatMapSum]
    by_cases hk : id = k1
    · subst hk
      cases s.Tablets id with
      | none => simp
      | some tablet =>
        simp only [if_true, Option.map_some', TTablet.UpdateReplica, List.map_map,
          Option.some.injEq]
        congr 1
        apply List.map_congr_left
        intro r _
        by_cases hr : r.Id = k2
        · simp [hr]; ring
        · have hr' : ¬ (id = id ∧ k2 = r.Id) := fun h => hr h.2.symm
          simp [hr, Prod.mk.injEq]
          intro h; exact absurd h.symm hr
    · have hk' : ¬ k1 = id := fun h => hk h.symm
      simp [hk, hk', Prod.mk.injEq]

theorem AddDelayed_fold_tablet (id : TTabletId) :
    ∀ (m : List (TTabletId × Int)) (s : TState),
      ((m.foldl (fun st entry => AddDelayedLocklessRowCount st entry.1 entry.2)
          s).Tablets id) =
        (s.Tablets id).map (fun tablet =>
          { tablet with
            DelayedLocklessRowCount := tablet.DelayedLocklessRowCount + FlatMapSum id m })
  | [], s => by
    simp only [List.foldl_nil, FlatMapSum, add_zero]
    cases s.Tablets id with
    | none => rfl
    | some tablet => simp
  | (k, v) :: rest, s => by
    simp only [List.foldl_cons]
    rw [AddDelayed_fold_tablet id rest (AddDelayedLocklessRowCount s k v)]
    simp only [AddDelayedLocklessRowCount, UpdateTablet_Tablets, FlatMapSum]
    by_cases hk : id = k
    · subst hk
      cases s.Tablets id with
      | none => simp
      | some tablet => simp; ring
    · have hk' : ¬ k = id := fun h => hk h.symm
      simp [hk, hk']

theorem RowSum_untargeted (id : TTabletId) :
    ∀ (records : List TTransactionWriteRecord),
      (∀ record ∈ records, record.TabletId ≠ id) → RowSum id records = 0
  | [], _ => rfl
  | record :: rest, h => by
    have h0 : ¬ record.TabletId = id := h record (List.mem_cons_self _ _)
    simp only [RowSum, h0, if_false, zero_add]
    exact RowSum_untargeted id rest (fun x hx => h x (List.mem_cons_of_mem _ hx))

theorem Replica_add_zero (x : TTableReplicaInfo) :
    { x with CurrentReplicationRowIndex := x.CurrentReplicationRowIndex + 0 } = x := by
  cases x
  simp

theorem Prepared_zero (tablet : TTablet) : tablet.Prepared 0 = tablet := by
  cases tablet
  simp [TTablet.Prepared]

theorem Prepared_plain (tablet : TTablet) (n : Int) (h : tablet.Replicated = false) :
    tablet.Prepared n = tablet := by
  cases tablet
  simp only at h
  simp [TTablet.Prepared, h]

theorem OnTransactionPreparedEffects_result (env : TCollaborators) (s : TState)
    (t : TTransaction) (persistent : Bool) :
    OnTransactionPrepared env s t persistent =
      (OnTransactionPreparedEffects env s t persistent).2.map
        (fun _ => (OnTransactionPreparedEffects env s t persistent).1) := by
  unfold OnTransactionPrepared OnTransactionPreparedEffects
  cases persistent
  · rfl
  · simp only [Bool.not_true, Bool.false_eq_true, if_false]
    cases PrepareRecords env (PrepareLockedRows env s t) t t.DelayedLocklessWriteLog [] [] with
    | error e => rfl
    | ok rm =>
      obtain ⟨r, m⟩ := rm
      simp only []
      split <;> rfl

theorem DelayedShift_of_SameDelayed {s s' : TState} (h : SameDelayed s s') :
    DelayedShift (fun _ => 0) s s' := by
  intro id
  rw [h id]
  cases s.Tablets id <;> simp [ShiftDelayed_zero]

theorem DelayedShift_trans {d1 d2 : TTabletId → Int} {s1 s2 s3 : TState}
    (h12 : DelayedShift d1 s1 s2) (h23 : DelayedShift d2 s2 s3) :
    DelayedShift (fun id => d1 id + d2 id) s1 s3 := by
  intro id
  rw [h23 id, h12 id]
  cases s1.Tablets id <;> simp [ShiftDelayed_add]

theorem DelayedShift_congr {d d' : TTabletId → Int} {s s' : TState} (h : DelayedShift d s s')
    (hd : ∀ id, d id = d' id) : DelayedShift d' s s' := by
  intro id
  rw [h id, hd id]

theorem DelayedCountInvariant_shift {s s' : TState} {tm tm' : List TTransaction}
    (delta : TTabletId → Int) (hshift : DelayedShift delta s s')
    (hsum : ∀ id tablet, s.Tablets id = some tablet → tablet.Replicated = true →
      PreparedRowSum id tm' = PreparedRowSum id tm + delta id)
    (hinv : DelayedCountInvariant s tm) : DelayedCountInvariant s' tm' := by
  intro id tablet1 hs1 hrep1
  have h := hshift id
  rw [hs1] at h
  cases hs : s.Tablets id with
  | none => rw [hs] at h; simp at h
  | some tablet =>
    rw [hs] at h
    simp only [Option.map_some', Option.some.injEq, TTablet.Delayed, ShiftDelayed,
      Prod.mk.injEq] at h
    have hrep : tablet.Replicated = true := by rw [← h.2]; exact hrep1
    rw [h.1, hrep, hsum id tablet hs hrep, hinv id tablet hs hrep]
    simp

theorem Store_absent (t1 : TTransaction) :
    ∀ (tm : List TTransaction), (∀ x ∈ tm, x.Id ≠ t1.Id) →
      TTransactionManager.Store tm t1 = tm
  | [], _ => rfl
  | x :: rest, h => by
    have hx : ¬ x.Id = t1.Id := h x (List.mem_cons_self _ _)
    have hrest := Store_absent t1 rest (fun y hy => h y (List.mem_cons_of_mem _ hy))
    simp only [TTransactionManager.Store, List.map_cons, hx, if_false] at hrest ⊢
    rw [hrest]

theorem PreparedRowSum_Store (id : TTabletId) (t1 : TTransaction) :
    ∀ (tm : List TTransaction) (t : TTransaction), (tm.map (fun x => x.Id)).Nodup →
      TTransactionManager.Find tm t1.Id = some t →
      PreparedRowSum id (TTransactionManager.Store tm t1) =
        PreparedRowSum id tm -
          (if t.RowsPrepared then RowSum id t.DelayedLocklessWriteLog else 0) +
          (if t1.RowsPrepared then RowSum id t1.DelayedLocklessWriteLog else 0)
  | [], t, _, h => by simp [TTransactionManager.Find] at h
  | x :: rest, t, hnodup, h => by
    simp only [List.map_cons, List.nodup_cons, List.mem_map, not_exists, not_and] at hnodup
    simp only [TTransactionManager.Find, List.find?_cons] at h
    by_cases hx : x.Id = t1.Id
    · have hb : (x.Id == t1.Id) = true := by simpa using hx
      rw [hb] at h
      simp only [Option.some.injEq] at h
      subst h
      have hrest : TTransactionManager.Store rest t1 = rest :=
        Store_absent t1 rest (fun y hy hyid => hnodup.1 y hy (hyid.trans hx.symm))
      have hstore : TTransactionManager.Store (x :: rest) t1 =
          t1 :: TTransactionManager.Store rest t1 := by
        simp [TTransactionManager.Store, hx]
      rw [hstore, hrest]
      simp only [PreparedRowSum]
      ring
    · have hb : (x.Id == t1.Id) = false := by simpa using hx
      rw [hb] at h
      have ih := PreparedRowSum_Store id t1 rest t hnodup.2 h
      have hstore : TTransactionManager.Store (x :: rest) t1 =
          x :: TTransactionManager.Store rest t1 := by
        simp [TTransactionManager.Store, hx]
      rw [hstore]
      simp only [PreparedRowSum, ih]
      ring

theorem OnTransactionPrepared_flag (env : TCollaborators) (s s' : TState)
    (t t' : TTransaction) (h : OnTransactionPrepared env s t true = .ok (s', t')) :
    t.RowsPrepared = false := by
  unfold OnTransactionPrepared at h
  simp only [Bool.not_true, Bool.false_eq_true, if_false] at h
  cases hp : PrepareRecords env (PrepareLockedRows env s t) t t.DelayedLocklessWriteLog [] [] with
  | error e => simp [hp] at h
  | ok rm =>
    obtain ⟨r, m⟩ := rm
    simp only [hp] at h
    split at h
    · exact absurd h (by simp)
    · rename_i hflag
      simpa using hflag

theorem Drop_Id (env : TCollaborators) (s : TState) (t : TTransaction) (log : EWriteLog) :
    (DropTransactionWriteLog env s t log).2.Id = t.Id ∧
      (DropTransactionWriteLog env s t log).2.RowsPrepared = t.RowsPrepared := by
  cases log <;> exact ⟨rfl, rfl⟩

theorem OnTransactionSerialized_Id (env : TCollaborators) (s s' : TState)
    (t t' : TTransaction) (h : OnTransactionSerialized env s t = .ok (s', t')) :
    t'.Id = t.Id := by
  unfold OnTransactionSerialized at h
  split at h
  · exact absurd h (by simp)
  · split at h
    · exact absurd h (by simp)
    · split at h
      · simp only [Except.ok.injEq, Prod.mk.injEq] at h
        rw [← h.2]
      · simp only [] at h
        cases hr : SerializeRecords env t t.CommitTimestamp t.DelayedLocklessWriteLog s [] with
        | error e => simp [hr] at h
        | ok sm =>
          obtain ⟨s1, m⟩ := sm
          simp only [hr] at h
          cases ht : SerializeTablets env t t.CommitTimestamp m s1 with
          | error e => simp [ht] at h
          | ok s2 =>
            simp only [ht, Except.ok.injEq] at h
            have ht' : t' = (DropTransactionWriteLog env (UnlockLockedTablets s2 t).1
                (UnlockLockedTablets s2 t).2 .DelayedLockless).2 := by rw [h]
            rw [ht', (Drop_Id env _ _ _).1]
            rfl

theorem AbortLockedRows_Tablets (env : TCollaborators) (t : TTransaction) :
    ∀ (rows : List TSortedDynamicRowRef) (s : TState),
      (AbortLockedRows env t rows s).Tablets = s.Tablets
  | [], _ => rfl
  | rowRef :: rest, s => by
    simp only [AbortLockedRows, ValidateAndDiscardRowRef]
    split
    · rw [AbortLockedRows_Tablets env t rest]; rfl
    · rw [AbortLockedRows_Tablets env t rest]; rfl

theorem AbortRecords_sum (s : TState) (id : TTabletId) :
    ∀ (records : List TTransactionWriteRecord)
      (r0 : List ((TTabletId × TTableReplicaId) × Int)) (m0 : List (TTabletId × Int)),
      FlatMapSum id (AbortRecords s records r0 m0).2 = FlatMapSum id m0 +
        (if (s.Tablets id).map (fun tablet => tablet.Replicated) = some true then
          RowSum id records else 0)
  | [], r0, m0 => by simp [AbortRecords, RowSum]
  | record :: rest, r0, m0 => by
    simp only [AbortRecords, TState.FindTablet]
    cases hs : s.Tablets record.TabletId with
    | none =>
      simp only []
      rw [AbortRecords_sum s id rest r0 m0]
      simp only [RowSum]
      by_cases hid : record.TabletId = id
      · subst hid; simp [hs]
      · simp [hid]
    | some tablet =>
      simp only []
      split
      · rename_i hrep
        rw [AbortRecords_sum s id rest r0 m0]
        simp only [RowSum]
        by_cases hid : record.TabletId = id
        · subst hid
          have : tablet.Replicated = false := by simpa using hrep
          simp [hs, this]
        · simp [hid]
      · rename_i hrep
        rw [AbortRecords_sum s id rest _ _, FlatMapSum_FlatMapAdd]
        simp only [RowSum]
        by_cases hid : record.TabletId = id
        · subst hid
          have : tablet.Replicated = true := by simpa using hrep
          simp [hs, this]; ring
        · simp [hid]

theorem FlatMapSum_neg {K : Type} [DecidableEq K] (key : K) :
    ∀ m : List (K × Int),
      FlatMapSum key (m.map (fun entry => (entry.1, -entry.2))) = -FlatMapSum key m
  | [] => by simp [FlatMapSum]
  | (k, v) :: rest => by
    simp only [List.map_cons, FlatMapSum, FlatMapSum_neg key rest]
    split <;> ring

theorem AbortPrepared_shift (s3 : TState) (t2 : TTransaction) :
    DelayedShift
      (fun id => if t2.RowsPrepared then -RowSum id t2.DelayedLocklessWriteLog else 0)
      s3 (AbortPrepared s3 t2) := by
  unfold AbortPrepared
  cases hflag : t2.RowsPrepared with
  | false =>
    simp only [Bool.false_eq_true, if_false]
    exact DelayedShift_of_SameDelayed (SameDelayed_refl s3)
  | true =>
    simp only [if_true]
    intro id
    have hfold := AddDelayed_fold (fun x => -x) id
      (AbortRecords s3 t2.DelayedLocklessWriteLog [] []).2
      ((AbortRecords s3 t2.DelayedLocklessWriteLog [] []).1.foldl
        (fun st entry => AddCurrentReplicationRowIndex st entry.1.1 entry.1.2 (-entry.2)) s3)
    have hreplicas := SameDelayed_foldl
      (fun st (entry : (TTabletId × TTableReplicaId) × Int) =>
        AddCurrentReplicationRowIndex st entry.1.1 entry.1.2 (-entry.2))
      (fun st entry => SameDelayed_AddReplicaIndex st _ _ _)
      (AbortRecords s3 t2.DelayedLocklessWriteLog [] []).1 s3 id
    have hsum := AbortRecords_sum s3 id t2.DelayedLocklessWriteLog [] []
    rw [hfold, FlatMapSum_neg, hsum]
    cases hs : s3.Tablets id with
    | none => rw [hs] at hreplicas; simpa using hreplicas
    | some tablet =>
      rw [hs] at hreplicas
      cases hs1 : (List.foldl (fun st (entry : (TTabletId × TTableReplicaId) × Int) =>
          AddCurrentReplicationRowIndex st entry.1.1 entry.1.2 (-entry.2)) s3
          (AbortRecords s3 t2.DelayedLocklessWriteLog [] []).1).Tablets id with
      | none => rw [hs1] at hreplicas; simp at hreplicas
      | some tablet1 =>
        rw [hs1] at hreplicas
        simp only [Option.map_some', Option.some.injEq, TTablet.Delayed, Prod.mk.injEq]
          at hreplicas
        simp only [Option.map_some', Option.some.injEq, TTablet.Delayed, ShiftDelayed,
          FlatMapSum, zero_add, hreplicas.1, hreplicas.2, Prod.mk.injEq, and_true]
        cases tablet.Replicated <;> simp

theorem OnTransactionAborted_delayed (env : TCollaborators) (s s' : TState)
    (t t' : TTransaction) (h : OnTransactionAborted env s t = .ok (s', t')) :
    t'.DelayedLocklessWriteLog = [] ∧ t'.Id = t.Id ∧
      DelayedShift
        (fun id => if t.RowsPrepared then -RowSum id t.DelayedLocklessWriteLog else 0) s s' := by
  unfold OnTransactionAborted at h
  split at h
  · exact absurd h (by simp)
  · simp only [Except.ok.injEq] at h
    have key : ∀ (s3 : TState) (t2 : TTransaction),
        s3 = (UnlockLockedTablets
          (CheckIfImmediateLockedTabletsFullyUnlocked
            (AbortLockedRows env t t.LockedRows.reverse s) { t with LockedRows := [] })
          { t with LockedRows := [] }).1 →
        t2 = (UnlockLockedTablets
          (CheckIfImmediateLockedTabletsFullyUnlocked
            (AbortLockedRows env t t.LockedRows.reverse s) { t with LockedRows := [] })
          { t with LockedRows := [] }).2 →
        (s', t') = DropTransactionWriteLog env
          (DropTransactionWriteLog env
            (DropTransactionWriteLog env (AbortPrepared s3 t2) t2 .ImmediateLocked).1
            (DropTransactionWriteLog env (AbortPrepared s3 t2) t2 .ImmediateLocked).2
            .ImmediateLockless).1
          (DropTransactionWriteLog env
            (DropTransactionWriteLog env (AbortPrepared s3 t2) t2 .ImmediateLocked).1
            (DropTransactionWriteLog env (AbortPrepared s3 t2) t2 .ImmediateLocked).2
            .ImmediateLockless).2 .DelayedLockless := by
      intro s3 t2 hs3 ht2
      subst hs3 ht2
      exact h.symm
    have hkey := key _ _ rfl rfl
    generalize hs3 : (UnlockLockedTablets
          (CheckIfImmediateLockedTabletsFullyUnlocked
            (AbortLockedRows env t t.LockedRows.reverse s) { t with LockedRows := [] })
          { t with LockedRows := [] }).1 = s3 at hkey
    have ht2log : (UnlockLockedTablets
          (CheckIfImmediateLockedTabletsFullyUnlocked
            (AbortLockedRows env t t.LockedRows.reverse s) { t with LockedRows := [] })
          { t with LockedRows := [] }).2.DelayedLocklessWriteLog = t.DelayedLocklessWriteLog ∧
        (UnlockLockedTablets
          (CheckIfImmediateLockedTabletsFullyUnlocked
            (AbortLockedRows env t t.LockedRows.reverse s) { t with LockedRows := [] })
          { t with LockedRows := [] }).2.RowsPrepared = t.RowsPrepared ∧
        (UnlockLockedTablets
          (CheckIfImmediateLockedTabletsFullyUnlocked
            (AbortLockedRows env t t.LockedRows.reverse s) { t with LockedRows := [] })
          { t with LockedRows := [] }).2.Id = t.Id := ⟨rfl, rfl, rfl⟩
    generalize (UnlockLockedTablets
          (CheckIfImmediateLockedTabletsFullyUnlocked
            (AbortLockedRows env t t.LockedRows.reverse s) { t with LockedRows := [] })
          { t with LockedRows := [] }).2 = t2 at hkey ht2log
    obtain ⟨hlog, hflag, hid⟩ := ht2log
    have hs3same : SameDelayed s s3 := by
      rw [← hs3]
      have h1 : SameDelayed s (AbortLockedRows env t t.LockedRows.reverse s) :=
        SameDelayed_of_Tablets (AbortLockedRows_Tablets env t _ s)
      have h2 := SameDelayed_CheckIfImmediateLockedTabletsFullyUnlocked
        (AbortLockedRows env t t.LockedRows.reverse s) { t with LockedRows := [] }
      have h3 := SameDelayed_UnlockLockedTablets
        (CheckIfImmediateLockedTabletsFullyUnlocked
          (AbortLockedRows env t t.LockedRows.reverse s) { t with LockedRows := [] })
        { t with LockedRows := [] }
      exact SameDelayed_trans (SameDelayed_trans h1 h2) h3
    have hs' : s' = (DropTransactionWriteLog env
          (DropTransactionWriteLog env
            (DropTransactionWriteLog env (AbortPrepared s3 t2) t2 .ImmediateLocked).1
            (DropTransactionWriteLog env (AbortPrepared s3 t2) t2 .ImmediateLocked).2
            .ImmediateLockless).1
          (DropTransactionWriteLog env
            (DropTransactionWriteLog env (AbortPrepared s3 t2) t2 .ImmediateLocked).1
            (DropTransactionWriteLog env (AbortPrepared s3 t2) t2 .ImmediateLocked).2
            .ImmediateLockless).2 .DelayedLockless).1 := congrArg Prod.fst hkey
    have ht' : t' = (DropTransactionWriteLog env
          (DropTransactionWriteLog env
            (DropTransactionWriteLog env (AbortPrepared s3 t2) t2 .ImmediateLocked).1
            (DropTransactionWriteLog env (AbortPrepared s3 t2) t2 .ImmediateLocked).2
            .ImmediateLockless).1
          (DropTransactionWriteLog env
            (DropTransactionWriteLog env (AbortPrepared s3 t2) t2 .ImmediateLocked).1
            (DropTransactionWriteLog env (AbortPrepared s3 t2) t2 .ImmediateLocked).2
            .ImmediateLockless).2 .DelayedLockless).2 := congrArg Prod.snd hkey
    refine ⟨by rw [ht']; rfl, ?_, ?_⟩
    · rw [ht', (Drop_Id env _ _ _).1, (Drop_Id env _ _ _).1, (Drop_Id env _ _ _).1, hid]
    · have hdrops : SameDelayed (AbortPrepared s3 t2) s' := by
        rw [hs']
        have d1 := SameDelayed_Drop env (AbortPrepared s3 t2) t2 .ImmediateLocked
        have d2 := SameDelayed_Drop env
          (DropTransactionWriteLog env (AbortPrepared s3 t2) t2 .ImmediateLocked).1
          (DropTransactionWriteLog env (AbortPrepared s3 t2) t2 .ImmediateLocked).2
          .ImmediateLockless
        have d3 := SameDelayed_Drop env
          (DropTransactionWriteLog env
            (DropTransactionWriteLog env (AbortPrepared s3 t2) t2 .ImmediateLocked).1
            (DropTransactionWriteLog env (AbortPrepared s3 t2) t2 .ImmediateLocked).2
            .ImmediateLockless).1
          (DropTransactionWriteLog env
            (DropTransactionWriteLog env (AbortPrepared s3 t2) t2 .ImmediateLocked).1
            (DropTransactionWriteLog env (AbortPrepared s3 t2) t2 .ImmediateLocked).2
            .ImmediateLockless).2 .DelayedLockless
        exact SameDelayed_trans (SameDelayed_trans d1 d2) d3
      have hall := DelayedShift_trans
        (DelayedShift_trans (DelayedShift_of_SameDelayed hs3same) (AbortPrepared_shift s3 t2))
        (DelayedShift_of_SameDelayed hdrops)
      refine DelayedShift_congr hall (fun id => ?_)
      rw [hlog, hflag]
      simp

theorem DelayedShift_congr_found {d d1 : TTabletId → Int} {s s' : TState}
    (h : DelayedShift d s s')
    (hd : ∀ id tablet, s.Tablets id = some tablet → d id = d1 id) : DelayedShift d1 s s' := by
  intro id
  rw [h id]
  cases hs : s.Tablets id with
  | none => rfl
  | some tablet => rw [hd id tablet hs]

theorem ReplayImmediateLocked_delayed (env : TCollaborators) (k : Bool) :
    ∀ (records : List TTransactionWriteRecord) (s s' : TState) (t t' : TTransaction),
      ReplayImmediateLocked env k records s t = .ok (s', t') →
      SameDelayed s s' ∧ t'.RowsPrepared = t.RowsPrepared ∧
        t'.DelayedLocklessWriteLog = t.DelayedLocklessWriteLog ∧
        t'.ImmediateLocklessWriteLog = t.ImmediateLocklessWriteLog ∧
        t'.AuthenticationIdentity = t.AuthenticationIdentity
  | [], s, s', t, t', h => by
    simp only [ReplayImmediateLocked, Except.ok.injEq, Prod.mk.injEq] at h
    obtain ⟨rfl, rfl⟩ := h
    exact ⟨SameDelayed_refl s, rfl, rfl, rfl, rfl⟩
  | record :: rest, s, s', t, t', h => by
    simp only [ReplayImmediateLocked, TState.FindTablet] at h
    cases hs : s.Tablets record.TabletId with
    | none =>
      rw [hs] at h
      exact ReplayImmediateLocked_delayed env k rest s s' t t' h
    | some tablet =>
      rw [hs] at h
      simp only [] at h
      split at h
      · exact absurd h (by simp)
      · obtain ⟨h1, h2, h3, h4, h5⟩ := ReplayImmediateLocked_delayed env k rest _ s' _ t' h
        refine ⟨SameDelayed_trans ?_ h1, h2, h3, h4, h5⟩
        have a1 : SameDelayed s
            (({ s with WriteLogsMemoryTrackerGuard :=
              s.WriteLogsMemoryTrackerGuard + env.GetByteSize record } : TState).UpdateTablet
              record.TabletId (fun t => IncrementTabletPendingWriteRecordCount t k 1)) := by
          intro id
          simp only [UpdateTablet_Tablets]
          split
          · cases s.Tablets id with
            | none => rfl
            | some tab => cases k <;> rfl
          · rfl
        exact SameDelayed_trans a1 (SameDelayed_ExecuteWrites env _ _ _ _)

theorem ReplayImmediateLockless_delayed (env : TCollaborators) (k : Bool) :
    ∀ (records : List TTransactionWriteRecord) (s : TState) (t : TTransaction),
      SameDelayed s (ReplayImmediateLockless env k records s t).1 ∧
        (ReplayImmediateLockless env k records s t).2.RowsPrepared = t.RowsPrepared ∧
        (ReplayImmediateLockless env k records s t).2.DelayedLocklessWriteLog =
          t.DelayedLocklessWriteLog ∧
        (ReplayImmediateLockless env k records s t).2.AuthenticationIdentity =
          t.AuthenticationIdentity
  | [], s, t => ⟨SameDelayed_refl s, rfl, rfl, rfl⟩
  | record :: rest, s, t => by
    simp only [ReplayImmediateLockless, TState.FindTablet]
    cases hs : s.Tablets record.TabletId with
    | none => exact ReplayImmediateLockless_delayed env k rest s t
    | some tablet =>
      simp only []
      obtain ⟨h1, h2, h3, h4⟩ := ReplayImmediateLockless_delayed env k rest
        (LockTablet (({ s with WriteLogsMemoryTrackerGuard :=
            s.WriteLogsMemoryTrackerGuard + env.GetByteSize record } : TState).UpdateTablet
          record.TabletId (fun t => IncrementTabletPendingWriteRecordCount t k 1))
          record.TabletId)
        { t with LockedTablets := t.LockedTablets ++ [record.TabletId] }
      refine ⟨SameDelayed_trans ?_ h1, h2, h3, h4⟩
      have a1 : SameDelayed s
          (({ s with WriteLogsMemoryTrackerGuard :=
            s.WriteLogsMemoryTrackerGuard + env.GetByteSize record } : TState).UpdateTablet
            record.TabletId (fun t => IncrementTabletPendingWriteRecordCount t k 1)) := by
        intro id
        simp only [UpdateTablet_Tablets]
        split
        · cases s.Tablets id with
          | none => rfl
          | some tab => cases k <;> rfl
        · rfl
      exact SameDelayed_trans a1 (SameDelayed_LockTablet _ _)

theorem ReplayDelayedLockless_delayed (env : TCollaborators) (k : Bool) :
    ∀ (records : List TTransactionWriteRecord) (s : TState) (t : TTransaction),
      DelayedShift (fun id => if t.RowsPrepared then RowSum id records else 0) s
          (ReplayDelayedLockless env k records s t).1 ∧
        (ReplayDelayedLockless env k records s t).2.RowsPrepared = t.RowsPrepared ∧
        (ReplayDelayedLockless env k records s t).2.DelayedLocklessWriteLog =
          t.DelayedLocklessWriteLog ∧
        (ReplayDelayedLockless env k records s t).2.State = t.State
  | [], s, t => by
    refine ⟨?_, rfl, rfl, rfl⟩
    refine DelayedShift_congr (DelayedShift_of_SameDelayed (SameDelayed_refl s)) (fun id => ?_)
    simp [RowSum]
  | record :: rest, s, t => by
    simp only [ReplayDelayedLockless, TState.FindTablet]
    cases hs : s.Tablets record.TabletId with
    | none =>
      simp only []
      obtain ⟨h1, h2, h3, h4⟩ := ReplayDelayedLockless_delayed env k rest s t
      refine ⟨DelayedShift_congr_found h1 (fun id tablet hid => ?_), h2, h3, h4⟩
      have hne : ¬ record.TabletId = id := fun e => by rw [e, hid] at hs; simp at hs
      simp [RowSum, hne]
    | some tablet =>
      simp only []
      have a1 : SameDelayed s
          (LockTablet (({ s with WriteLogsMemoryTrackerGuard :=
            s.WriteLogsMemoryTrackerGuard + env.GetByteSize record } : TState).UpdateTablet
            record.TabletId (fun t => IncrementTabletPendingWriteRecordCount t k 1))
            record.TabletId) := by
        refine SameDelayed_trans ?_ (SameDelayed_LockTablet _ _)
        intro id
        simp only [UpdateTablet_Tablets]
        split
        · cases s.Tablets id with
          | none => rfl
          | some tab => cases k <;> rfl
        · rfl
      generalize hs3 : LockTablet (({ s with WriteLogsMemoryTrackerGuard :=
            s.WriteLogsMemoryTrackerGuard + env.GetByteSize record } : TState).UpdateTablet
            record.TabletId (fun t => IncrementTabletPendingWriteRecordCount t k 1))
            record.TabletId = s3 at a1
      have hstep : DelayedShift
          (fun id => if id = record.TabletId then
            (if t.RowsPrepared then record.RowCount else 0) else 0) s
          (if (tablet.Replicated && t.RowsPrepared) = true then
            s3.UpdateTablet record.TabletId (fun t =>
              { t with DelayedLocklessRowCount := t.DelayedLocklessRowCount + record.RowCount })
          else s3) := by
        intro id
        have a := a1 id
        by_cases hid : id = record.TabletId
        · subst hid
          rw [hs] at a ⊢
          cases hs3i : s3.Tablets record.TabletId with
          | none => rw [hs3i] at a; simp at a
          | some tab3 =>
            rw [hs3i] at a
            simp only [Option.map_some', Option.some.injEq, TTablet.Delayed,
              Prod.mk.injEq] at a
            cases hrep : tablet.Replicated <;> cases hflag : t.RowsPrepared <;>
              simp [UpdateTablet_Tablets, hs3i, TTablet.Delayed, ShiftDelayed, a.1, a.2, hrep]
        · have hsame : (if (tablet.Replicated && t.RowsPrepared) = true then
              s3.UpdateTablet record.TabletId (fun t =>
                { t with
                  DelayedLocklessRowCount := t.DelayedLocklessRowCount + record.RowCount })
              else s3).Tablets id = s3.Tablets id := by
            split
            · simp [UpdateTablet_Tablets, hid]
            · rfl
          rw [hsame, a]
          simp only [hid, if_false]
          cases s.Tablets id <;> simp [ShiftDelayed_zero]
      obtain ⟨h1, h2, h3, h4⟩ := ReplayDelayedLockless_delayed env k rest
        (if (tablet.Replicated && t.RowsPrepared) = true then
          s3.UpdateTablet record.TabletId (fun t =>
            { t with DelayedLocklessRowCount := t.DelayedLocklessRowCount + record.RowCount })
        else s3)
        { t with LockedTablets := t.LockedTablets ++ [record.TabletId] }
      refine ⟨DelayedShift_congr (DelayedShift_trans hstep h1) (fun id => ?_), h2, h3, h4⟩
      simp only [RowSum]
      by_cases hid : id = record.TabletId
      · subst hid
        cases t.RowsPrepared <;> simp
      · have hne : ¬ record.TabletId = id := fun e => hid e.symm
        cases t.RowsPrepared <;> simp [hid, hne]

theorem ReplayTransaction_delayed (env : TCollaborators) (s s' : TState)
    (t t' : TTransaction) (h : ReplayTransaction env s t = .ok (s', t')) :
    DelayedShift
        (fun id => if t.RowsPrepared then RowSum id t.DelayedLocklessWriteLog else 0) s s' ∧
      t'.RowsPrepared = t.RowsPrepared ∧
      t'.DelayedLocklessWriteLog = t.DelayedLocklessWriteLog := by
  unfold ReplayTransaction at h
  split at h
  · exact absurd h (by simp)
  · cases hlocked : ReplayImmediateLocked env (IsReplicatorWrite env t.AuthenticationIdentity)
        t.ImmediateLockedWriteLog s t with
    | error e => simp only [hlocked] at h; exact absurd h (by simp)
    | ok r =>
      obtain ⟨s1, t1⟩ := r
      simp only [hlocked] at h
      obtain ⟨a1, a2, a3, _, _⟩ := ReplayImmediateLocked_delayed env _ _ s s1 t t1 hlocked
      obtain ⟨b1, b2, b3, _⟩ := ReplayImmediateLockless_delayed env
        (IsReplicatorWrite env t.AuthenticationIdentity) t1.ImmediateLocklessWriteLog s1 t1
      generalize ReplayImmediateLockless env (IsReplicatorWrite env t.AuthenticationIdentity)
        t1.ImmediateLocklessWriteLog s1 t1 = r2 at h b1 b2 b3
      obtain ⟨s2, t2⟩ := r2
      simp only [] at h b1 b2 b3
      obtain ⟨c1, c2, c3, _⟩ := ReplayDelayedLockless_delayed env
        (IsReplicatorWrite env t.AuthenticationIdentity) t2.DelayedLocklessWriteLog s2 t2
      generalize ReplayDelayedLockless env (IsReplicatorWrite env t.AuthenticationIdentity)
        t2.DelayedLocklessWriteLog s2 t2 = r3 at h c1 c2 c3
      obtain ⟨s3, t3⟩ := r3
      simp only [] at h c1 c2 c3
      have hshift : DelayedShift
          (fun id => if t.RowsPrepared then RowSum id t.DelayedLocklessWriteLog else 0)
          s s3 := by
        have hall := DelayedShift_trans
          (DelayedShift_of_SameDelayed (SameDelayed_trans a1 b1)) c1
        refine DelayedShift_congr hall (fun id => ?_)
        rw [b2, a2, b3, a3]
        simp
      split at h
      · simp only [Except.ok.injEq, Prod.mk.injEq] at h
        obtain ⟨rfl, rfl⟩ := h
        refine ⟨?_, by rw [c2, b2, a2], by rw [c3, b3, a3]⟩
        have hp : SameDelayed s3 (PrepareLockedRows env s3 t3) :=
          SameDelayed_of_Tablets (PrepareLockedRows_frame env s3 t3).1
        refine DelayedShift_congr
          (DelayedShift_trans hshift (DelayedShift_of_SameDelayed hp)) (fun id => ?_)
        simp
      · simp only [Except.ok.injEq, Prod.mk.injEq] at h
        obtain ⟨rfl, rfl⟩ := h
        exact ⟨hshift, by rw [c2, b2, a2], by rw [c3, b3, a3]⟩

theorem ReplayTransactions_delayed (env : TCollaborators) :
    ∀ (tm : List TTransaction) (s s' : TState) (tm' : List TTransaction),
      ReplayTransactions env tm s = .ok (s', tm') →
      DelayedShift (fun id => PreparedRowSum id tm) s s' ∧
        ∀ id, PreparedRowSum id tm' = PreparedRowSum id tm
  | [], s, s', tm', h => by
    simp only [ReplayTransactions, Except.ok.injEq, Prod.mk.injEq] at h
    obtain ⟨rfl, rfl⟩ := h
    exact ⟨DelayedShift_of_SameDelayed (SameDelayed_refl s), fun _ => rfl⟩
  | t :: rest, s, s', tm', h => by
    simp only [ReplayTransactions] at h
    cases h1 : ReplayTransaction env s t with
    | error e => simp only [h1] at h; exact absurd h (by simp)
    | ok r1 =>
      obtain ⟨s1, t1⟩ := r1
      simp only [h1] at h
      cases h2 : ReplayTransactions env rest s1 with
      | error e => simp only [h2] at h; exact absurd h (by simp)
      | ok r2 =>
        obtain ⟨s2, rest1⟩ := r2
        simp only [h2, Except.ok.injEq, Prod.mk.injEq] at h
        obtain ⟨rfl, rfl⟩ := h
        obtain ⟨a1, a2, a3⟩ := ReplayTransaction_delayed env s s1 t t1 h1
        obtain ⟨b1, b2⟩ := ReplayTransactions_delayed env rest s1 s2 rest1 h2
        refine ⟨DelayedShift_congr (DelayedShift_trans a1 b1) (fun id => ?_), fun id => ?_⟩
        · simp only [PreparedRowSum]
        · simp only [PreparedRowSum, a2, a3, b2 id]

theorem PreparedRowSum_nonneg (id : TTabletId) :
    ∀ (tm : List TTransaction),
      (∀ t ∈ tm, ∀ record ∈ t.DelayedLocklessWriteLog, 0 ≤ record.RowCount) →
      0 ≤ PreparedRowSum id tm
  | [], _ => le_refl _
  | t :: rest, h => by
    have hrows : ∀ (records : List TTransactionWriteRecord),
        (∀ record ∈ records, 0 ≤ record.RowCount) → 0 ≤ RowSum id records := by
      intro records
      induction records with
      | nil => intro _; exact le_refl _
      | cons record more ih =>
        intro hr
        have h0 := hr record (List.mem_cons_self _ _)
        have h1 := ih (fun x hx => hr x (List.mem_cons_of_mem _ hx))
        simp only [RowSum]
        split <;> omega
    have ht := hrows t.DelayedLocklessWriteLog (h t (List.mem_cons_self _ _))
    have hrest := PreparedRowSum_nonneg id rest (fun x hx => h x (List.mem_cons_of_mem _ hx))
    simp only [PreparedRowSum]
    split <;> omega

theorem ConfirmedRows_append (a b : List TEvent) :
    ConfirmedRows (a ++ b) = ConfirmedRows a ++ ConfirmedRows b := by
  simp [ConfirmedRows, List.filterMap_append]

theorem ValidatedRows_append (a b : List TEvent) :
    ValidatedRows (a ++ b) = ValidatedRows a ++ ValidatedRows b := by
  simp [ValidatedRows, List.filterMap_append]

theorem ValidatedRows_ConfirmEvents (valid : TSortedDynamicRowRef → Bool)
    (transactionId : TTransactionId) :
    ∀ rows, ValidatedRows (ConfirmEvents valid transactionId rows) = rows
  | [] => rfl
  | rowRef :: rest => by
    have ih := ValidatedRows_ConfirmEvents valid transactionId rest
    unfold ConfirmEvents
    rw [ValidatedRows_append, ih]
    cases valid rowRef <;> simp [ValidatedRows]

theorem ConfirmedRows_ConfirmEvents (valid : TSortedDynamicRowRef → Bool)
    (transactionId : TTransactionId) :
    ∀ rows, ConfirmedRows (ConfirmEvents valid transactionId rows) =
      (rows.filter valid).map (fun rowRef => (transactionId, rowRef))
  | [] => rfl
  | rowRef :: rest => by
    have ih := ConfirmedRows_ConfirmEvents valid transactionId rest
    unfold ConfirmEvents
    rw [ConfirmedRows_append, ih]
    cases hv : valid rowRef <;> simp [ConfirmedRows, hv]

theorem ConfirmPrelockedRows_exact (env : TCollaborators)
    (valid : TSortedDynamicRowRef → Bool)
    (hvalid : ∀ trace rowRef, env.ValidateAndDiscardRowRef trace rowRef = valid rowRef) :
    ∀ (n : Nat) (s : TState) (t : TTransaction), n ≤ t.PrelockedRows.length →
      ConfirmPrelockedRows env n s t =
        .ok ({ s with Trace := s.Trace ++ ConfirmEvents valid t.Id (t.PrelockedRows.take n) },
          { t with
            PrelockedRows := t.PrelockedRows.drop n
            LockedRows := t.LockedRows ++ (t.PrelockedRows.take n).filter valid })
  | 0, s, t, _ => by simp [ConfirmPrelockedRows, ConfirmEvents]
  | n + 1, s, t, h => by
    cases hp : t.PrelockedRows with
    | nil => simp [hp] at h
    | cons rowRef rest =>
      have hlen : n ≤ rest.length := by simpa [hp] using h
      simp only [ConfirmPrelockedRows, hp, ValidateAndDiscardRowRef, ConfirmRow, TState.Record,
        hvalid]
      cases hv : valid rowRef
      · simp only [Bool.false_eq_true, if_false]
        rw [ConfirmPrelockedRows_exact env valid hvalid n _ _ hlen]
        simp [ConfirmEvents, hv, List.take, List.drop]
      · simp only [if_true]
        rw [ConfirmPrelockedRows_exact env valid hvalid n _ _ hlen]
        simp [ConfirmEvents, hv, List.take, List.drop]

theorem UnlockTablet_Trace (s : TState) (tabletId : TTabletId) :
    (UnlockTablet s tabletId).Trace = s.Trace := rfl

theorem Enqueue_rows (env : TCollaborators) (s : TState) (t : TTransaction)
    (tabletId : TTabletId) (log : EWriteLog) (record : TTransactionWriteRecord)
    (signature : TTransactionSignature) :
    (EnqueueTransactionWriteRecord env s t tabletId log record signature).2.PrelockedRows =
        t.PrelockedRows ∧
      (EnqueueTransactionWriteRecord env s t tabletId log record signature).2.LockedRows =
        t.LockedRows ∧
      (EnqueueTransactionWriteRecord env s t tabletId log record signature).2.LockedTablets =
        t.LockedTablets ∧
      (EnqueueTransactionWriteRecord env s t tabletId log record signature).1.Trace =
        s.Trace ∧
      (EnqueueTransactionWriteRecord env s t tabletId log record signature).1.PrelockedTablets =
        s.PrelockedTablets := by
  cases log <;> exact ⟨rfl, rfl, rfl, rfl, rfl⟩

theorem LockShift_of_SameOn {s s' : TState}
    (h : SameOn (fun tablet : TTablet => tablet.TabletLockCount) s s') :
    LockShift (fun _ => 0) s s' := by
  intro id
  rw [h id]
  cases s.Tablets id <;> simp

theorem LockShift_trans {d1 d2 : TTabletId → Int} {s1 s2 s3 : TState}
    (h12 : LockShift d1 s1 s2) (h23 : LockShift d2 s2 s3) :
    LockShift (fun id => d1 id + d2 id) s1 s3 := by
  intro id
  have a := h12 id
  have b := h23 id
  cases h1 : s1.Tablets id with
  | none =>
    rw [h1] at a
    cases h2 : s2.Tablets id with
    | none => rw [h2] at b; rw [b]; rfl
    | some t2 => rw [h2] at a; simp at a
  | some t1 =>
    rw [h1] at a
    cases h2 : s2.Tablets id with
    | none => rw [h2] at a; simp at a
    | some t2 =>
      rw [h2] at a b
      simp only [Option.map_some', Option.some.injEq] at a
      rw [b]
      simp only [Option.map_some', Option.some.injEq, a]
      ring

theorem LockShift_congr {d d' : TTabletId → Int} {s s' : TState} (h : LockShift d s s')
    (hd : ∀ id, d id = d' id) : LockShift d' s s' := by
  intro id
  rw [h id, hd id]

theorem LockShift_LockTablet (s : TState) (tabletId : TTabletId) :
    LockShift (fun id => if id = tabletId then 1 else 0) s (LockTablet s tabletId) := by
  intro id
  simp only [LockTablet, UpdateTablet_Tablets]
  by_cases h : id = tabletId
  · simp only [h, if_true]
    cases s.Tablets tabletId <;> simp
  · simp only [h, if_false]
    cases s.Tablets id <;> simp

theorem LockShift_UnlockTablet (s : TState) (tabletId : TTabletId) :
    LockShift (fun id => if id = tabletId then -1 else 0) s (UnlockTablet s tabletId) := by
  intro id
  simp only [UnlockTablet, UpdateTablet_Tablets]
  by_cases h : id = tabletId
  · simp only [h, if_true]
    cases s.Tablets tabletId <;> simp
    ring
  · simp only [h, if_false]
    cases s.Tablets id <;> simp

theorem LockShift_UnlockFold :
    ∀ (tablets : List TTabletId) (s : TState),
      LockShift (fun id => -(tablets.count id : Int)) s (tablets.foldl UnlockTablet s)
  | [], s => by
    simp only [List.foldl_nil, List.count_nil, Nat.cast_zero, neg_zero]
    exact LockShift_of_SameOn (SameOn_refl _ s)
  | tabletId :: rest, s => by
    simp only [List.foldl_cons]
    refine LockShift_congr
      (LockShift_trans (LockShift_UnlockTablet s tabletId)
        (LockShift_UnlockFold rest (UnlockTablet s tabletId))) (fun id => ?_)
    by_cases h : id = tabletId
    · subst h
      simp only [if_true, List.count_cons_self, Nat.cast_add, Nat.cast_one]
      ring
    · have h1 : ¬ tabletId = id := fun e => h e.symm
      simp only [h, if_false, zero_add, List.count_cons, beq_iff_eq, h1, add_zero]

theorem LockShift_LeaderPopped (env : TCollaborators) (s : TState) (queue : List TTabletId)
    (tabletId : TTabletId) (identity : TAuthenticationIdentity) :
    LockShift (fun _ => 0) s (LeaderPopped env s queue tabletId identity) := by
  apply LockShift_of_SameOn
  unfold LeaderPopped
  refine @SameOn_trans _ _ s ({ s with PrelockedTablets := queue } : TState) _ (fun _ => rfl) ?_
  exact SameOn_UpdateTablet _ _ _ _ (fun tablet => (IncrementInFlight_fields tablet _ _).2.2)

theorem LockShift_Enqueue (env : TCollaborators) (s : TState) (t : TTransaction)
    (tabletId : TTabletId) (log : EWriteLog) (record : TTransactionWriteRecord)
    (signature : TTransactionSignature) :
    LockShift (fun _ => 0) s
      (EnqueueTransactionWriteRecord env s t tabletId log record signature).1 := by
  apply LockShift_of_SameOn
  intro id
  rw [Enqueue_Tablets]
  by_cases h : id = tabletId
  · simp only [h, if_true]
    cases s.Tablets tabletId with
    | none => rfl
    | some tablet =>
      cases hk : IsReplicatorWrite env t.AuthenticationIdentity <;>
        simp [IncrementTabletPendingWriteRecordCount]
  · simp only [h, if_false]

theorem ConfirmPrelockedRows_fields (env : TCollaborators) :
    ∀ (n : Nat) (s s' : TState) (t t' : TTransaction),
      ConfirmPrelockedRows env n s t = .ok (s', t') →
      s'.Tablets = s.Tablets ∧ s'.PrelockedTablets = s.PrelockedTablets ∧
        t'.LockedTablets = t.LockedTablets ∧ t'.Id = t.Id
  | 0, s, s', t, t', h => by
    simp only [ConfirmPrelockedRows, Except.ok.injEq, Prod.mk.injEq] at h
    obtain ⟨rfl, rfl⟩ := h
    exact ⟨rfl, rfl, rfl, rfl⟩
  | n + 1, s, s', t, t', h => by
    simp only [ConfirmPrelockedRows, ValidateAndDiscardRowRef, ConfirmRow] at h
    split at h
    · exact absurd h (by simp)
    · split at h
      · obtain ⟨h1, h2, h3, h4⟩ := ConfirmPrelockedRows_fields env n _ s' _ t' h
        exact ⟨h1, h2, h3, h4⟩
      · obtain ⟨h1, h2, h3, h4⟩ := ConfirmPrelockedRows_fields env n _ s' _ t' h
        exact ⟨h1, h2, h3, h4⟩

theorem Enqueue_PrelockedTablets (env : TCollaborators) (s : TState) (t : TTransaction)
    (tabletId : TTabletId) (log : EWriteLog) (record : TTransactionWriteRecord)
    (signature : TTransactionSignature) :
    (EnqueueTransactionWriteRecord env s t tabletId log record signature).1.PrelockedTablets =
      s.PrelockedTablets := by
  cases log <;> rfl

theorem Enqueue_LockedTablets (env : TCollaborators) (s : TState) (t : TTransaction)
    (tabletId : TTabletId) (log : EWriteLog) (record : TTransactionWriteRecord)
    (signature : TTransactionSignature) :
    (EnqueueTransactionWriteRecord env s t tabletId log record signature).2.LockedTablets =
      t.LockedTablets := by
  cases log <;> rfl

theorem UnlockTablet_PrelockedTablets (s : TState) (tabletId : TTabletId) :
    (UnlockTablet s tabletId).PrelockedTablets = s.PrelockedTablets := rfl

theorem FinishTabletCommit_PrelockedTablets (env : TCollaborators) (s s' : TState)
    (tabletId : TTabletId) (transaction : Option TTransaction) (timestamp : TTimestamp)
    (h : FinishTabletCommit env s tabletId transaction timestamp = .ok s') :
    s'.PrelockedTablets = s.PrelockedTablets := by
  unfold FinishTabletCommit at h
  split at h
  · simp only [Except.ok.injEq] at h; subst h; rfl
  · simp only [] at h
    split at h
    · exact absurd h (by simp)
    · split at h
      · simp only [Except.ok.injEq] at h; subst h; rfl
      · simp only [Except.ok.injEq] at h; subst h; rfl

theorem HydraLeaderWriteRows_locks (env : TCollaborators) (s s1 : TState)
    (tm tm1 : TTransactionManager) (transactionId : TTransactionId) (mountRevision : TRevision)
    (signature : TTransactionSignature) (lockless : Bool)
    (writeRecord : TTransactionWriteRecord) (identity : TAuthenticationIdentity)
    (h : HydraLeaderWriteRows env s tm transactionId mountRevision signature lockless
      writeRecord identity = .ok (s1, tm1)) :
    ∃ queue tablet,
      s.PrelockedTablets = writeRecord.TabletId :: queue ∧ s1.PrelockedTablets = queue ∧
      s.Tablets writeRecord.TabletId = some tablet ∧
      LockShift (fun id =>
        if id = writeRecord.TabletId then
          (if env.AtomicityFromTransactionId transactionId = EAtomicity.Full ∧
              lockless = true ∧ mountRevision = tablet.MountRevision then 1 else 0) - 1
        else 0) s s1 ∧
      (tm1.Find transactionId).map (fun t => t.LockedTablets) =
        (tm.Find transactionId).map (fun t => t.LockedTablets ++
          (if env.AtomicityFromTransactionId transactionId = EAtomicity.Full ∧
              lockless = true ∧ mountRevision = tablet.MountRevision then
            [writeRecord.TabletId] else [])) := by
  have hunlock : ∀ (d : Int) (s0 : TState), LockShift (fun _ => 0) s s0 →
      (d = 0 → LockShift (fun id => if id = writeRecord.TabletId then d - 1 else 0) s
        (UnlockTablet s0 writeRecord.TabletId)) := by
    intro d s0 h0 hd
    subst hd
    refine LockShift_congr (LockShift_trans h0 (LockShift_UnlockTablet s0 _)) (fun id => ?_)
    by_cases hid : id = writeRecord.TabletId <;> simp [hid]
  cases hq : s.PrelockedTablets with
  | nil => simp [HydraLeaderWriteRows, hq] at h
  | cons tabletId queue =>
    cases hs : s.Tablets tabletId with
    | none => simp [HydraLeaderWriteRows, hq, hs] at h
    | some tablet =>
      by_cases hid : tabletId = writeRecord.TabletId
      swap
      · simp [HydraLeaderWriteRows, hq, hs, hid] at h
      subst hid
      refine ⟨queue, tablet, rfl, ?_⟩
      by_cases hrev : mountRevision = tablet.MountRevision
      · cases hatom : env.AtomicityFromTransactionId transactionId with
        | Full =>
          cases hfind : tm.Find transactionId with
          | none =>
            simp [HydraLeaderWriteRows, hq, hs, hrev, hatom, MakeTransactionPersistent,
              hfind] at h
          | some t =>
            have hfull := HydraLeaderWriteRows_Full env s tm transactionId signature lockless
              writeRecord identity queue tablet t mountRevision hatom hq hs hrev hfind
            rw [hfull] at h
            have htid : t.Id = transactionId := Find_Id hfind
            cases lockless with
            | true =>
              simp only [if_true, Except.ok.injEq, Prod.mk.injEq] at h
              obtain ⟨rfl, rfl⟩ := h
              refine ⟨?_, hs, ?_, ?_⟩
              · rw [UnlockTablet_PrelockedTablets, Enqueue_PrelockedTablets]
                rfl
              · refine LockShift_congr
                  (LockShift_trans
                    (LockShift_trans
                      (LockShift_trans (LockShift_LeaderPopped env s queue _ identity)
                        (LockShift_LockTablet _ writeRecord.TabletId))
                      (LockShift_Enqueue env _ _ _ _ _ _))
                    (LockShift_UnlockTablet _ writeRecord.TabletId)) (fun id => ?_)
                by_cases hid : id = writeRecord.TabletId <;> simp [hid, hrev]
              · rw [Find_Store _ hfind (by rw [Enqueue_Id]; exact htid)]
                simp only [Option.map_some', Enqueue_LockedTablets, hrev,
                  and_self, if_true]
            | false =>
              simp only [Bool.false_eq_true, if_false] at h
              cases hc : ConfirmPrelockedRows env writeRecord.RowCount.toNat
                  (LeaderPopped env s queue writeRecord.TabletId identity)
                  { t with Transient := false } with
              | error e => simp [hc] at h
              | ok c =>
                obtain ⟨s2, t2⟩ := c
                simp only [hc, Except.ok.injEq, Prod.mk.injEq] at h
                obtain ⟨rfl, rfl⟩ := h
                obtain ⟨c1, c2, c3, c4⟩ := ConfirmPrelockedRows_fields env _ _ _ _ _ hc
                refine ⟨?_, hs, ?_, ?_⟩
                · rw [UnlockTablet_PrelockedTablets, Enqueue_PrelockedTablets, c2]
                  rfl
                · have hs2 : LockShift (fun _ => 0) s s2 := by
                    intro id
                    rw [c1]
                    exact LockShift_LeaderPopped env s queue _ identity id
                  refine LockShift_congr
                    (LockShift_trans
                      (LockShift_trans hs2 (LockShift_Enqueue env _ _ _ _ _ _))
                      (LockShift_UnlockTablet _ writeRecord.TabletId)) (fun id => ?_)
                  by_cases hid : id = writeRecord.TabletId <;> simp [hid]
                · rw [Find_Store _ hfind (by rw [Enqueue_Id, c4]; exact htid)]
                  simp only [Option.map_some', Enqueue_LockedTablets, c3,
                    Bool.false_eq_true, false_and, and_false, if_false, List.append_nil]
        | None =>
          have hpopped := LockShift_LeaderPopped env s queue writeRecord.TabletId identity
          unfold LeaderPopped at hpopped
          simp only [HydraLeaderWriteRows, hq, hs, hrev, hatom, ne_eq, not_true_eq_false,
            if_false] at h
          split at h
          · simp only [Except.ok.injEq, Prod.mk.injEq] at h
            obtain ⟨rfl, rfl⟩ := h
            refine ⟨rfl, hs, ?_, ?_⟩
            · have := hunlock 0 _ hpopped rfl
              refine LockShift_congr this (fun id => ?_)
              by_cases hid : id = writeRecord.TabletId <;> simp [hid]
            · cases tm.Find transactionId <;> simp
          · split at h
            · exact absurd h (by simp)
            · split at h
              · exact absurd h (by simp)
              · split at h
                · exact absurd h (by simp)
                · rename_i s2 hfinish
                  simp only [Except.ok.injEq, Prod.mk.injEq] at h
                  obtain ⟨rfl, rfl⟩ := h
                  refine ⟨?_, hs, ?_, ?_⟩
                  · rw [UnlockTablet_PrelockedTablets,
                      FinishTabletCommit_PrelockedTablets env _ _ _ _ _ hfinish]
                    rfl
                  · have hfin := LockShift_of_SameOn
                      (SameOn_FinishTabletCommit (fun tablet : TTablet => tablet.TabletLockCount)
                        (fun _ _ => rfl) (fun _ _ => rfl) env _ _ _ _ _ hfinish)
                    have hexec : LockShift (fun _ => 0) s
                        (ExecuteWrites env
                          (({ s with PrelockedTablets := queue } : TState).UpdateTablet
                            writeRecord.TabletId
                            (fun t => IncrementTabletInFlightMutationCount t
                              (IsReplicatorWrite env identity) (-1)))
                          writeRecord.TabletId { Data := writeRecord.Data, Current := 0 }
                          { Phase := .Commit
                            Transaction := none
                            CommitTimestamp := env.TimestampFromTransactionId transactionId
                            RowCount := 0
                            DataWeight := 0
                            BlockedStore := false
                            Error := false }).State := fun id => hpopped id
                    have hall := LockShift_trans hexec hfin
                    have := hunlock 0 _ (LockShift_congr hall (fun _ => by simp)) rfl
                    refine LockShift_congr this (fun id => ?_)
                    by_cases hid : id = writeRecord.TabletId <;> simp [hid]
                  · cases tm.Find transactionId <;> simp
      · have hpopped := LockShift_LeaderPopped env s queue writeRecord.TabletId identity
        unfold LeaderPopped at hpopped
        simp only [HydraLeaderWriteRows, hq, hs, hrev, ne_eq, not_true_eq_false, if_false,
          not_false_eq_true, if_true, Except.ok.injEq, Prod.mk.injEq] at h
        obtain ⟨rfl, rfl⟩ := h
        refine ⟨rfl, hs, ?_, ?_⟩
        · have := hunlock 0 _ hpopped rfl
          refine LockShift_congr this (fun id => ?_)
          by_cases hid : id = writeRecord.TabletId <;> simp [hid, hrev]
        · cases tm.Find transactionId <;> simp [hrev]

theorem LockShift_WriteSubmit (env : TCollaborators) (args : TWriteArgs)
    (tabletId : TTabletId) (tablet : TTablet) (lockless : Bool)
    (signature : TTransactionSignature) (readerBefore : Nat) (executed : TExecuteWritesResult) :
    LockShift (fun id => if id = tabletId then 1 else 0) executed.State
      (WriteSubmit env args tabletId tablet lockless signature readerBefore executed) := by
  unfold WriteSubmit
  have h1 : LockShift (fun id => if id = tabletId then 1 else 0) executed.State
      (LockTablet
        ({ executed.State with
          PrelockedTablets := executed.State.PrelockedTablets ++ [tabletId] } : TState)
        tabletId) := fun id => LockShift_LockTablet _ tabletId id
  have h2 := LockShift_of_SameOn
    (SameOn_UpdateTablet (fun tablet : TTablet => tablet.TabletLockCount)
      (LockTablet
        ({ executed.State with
          PrelockedTablets := executed.State.PrelockedTablets ++ [tabletId] } : TState)
        tabletId) tabletId
      (fun t => IncrementTabletInFlightMutationCount t (IsReplicatorWrite env args.Identity) 1)
      (fun tablet => (IncrementInFlight_fields tablet _ _).2.2))
  intro id
  have := LockShift_trans h1 h2 id
  simpa using this

theorem SameOn_Enqueue {α : Type} (f : TTablet → α)
    (hpending : ∀ (tablet : TTablet) (k : Bool) (delta : Int),
      f (IncrementTabletPendingWriteRecordCount tablet k delta) = f tablet)
    (env : TCollaborators) (s : TState) (t : TTransaction)
    (tabletId : TTabletId) (log : EWriteLog) (record : TTransactionWriteRecord)
    (signature : TTransactionSignature) :
    SameOn f s (EnqueueTransactionWriteRecord env s t tabletId log record signature).1 := by
  intro id
  rw [Enqueue_Tablets]
  split
  · cases s.Tablets id <;> simp [hpending]
  · rfl

theorem HydraLeaderWriteRows_frame {α : Type} (f : TTablet → α)
    (hlock : ∀ (tablet : TTablet) (n : Int), f { tablet with TabletLockCount := n } = f tablet)
    (hpending : ∀ (tablet : TTablet) (k : Bool) (delta : Int),
      f (IncrementTabletPendingWriteRecordCount tablet k delta) = f tablet)
    (hcommit : ∀ (tablet : TTablet) ts, f (tablet.UpdateLastCommitTimestamp ts) = f tablet)
    (htotal : ∀ (tablet : TTablet) (n : Int), f { tablet with TotalRowCount := n } = f tablet)
    (env : TCollaborators) (s s1 : TState)
    (tm tm1 : TTransactionManager) (transactionId : TTransactionId) (mountRevision : TRevision)
    (signature : TTransactionSignature) (lockless : Bool)
    (writeRecord : TTransactionWriteRecord) (identity : TAuthenticationIdentity)
    (h : HydraLeaderWriteRows env s tm transactionId mountRevision signature lockless
      writeRecord identity = .ok (s1, tm1)) :
    ∃ queue tablet,
      s.PrelockedTablets = writeRecord.TabletId :: queue ∧ s1.PrelockedTablets = queue ∧
      s.Tablets writeRecord.TabletId = some tablet ∧
      SameOn f (LeaderPopped env s queue writeRecord.TabletId identity) s1 := by
  have hunlock : ∀ s0 : TState, SameOn f s0 (UnlockTablet s0 writeRecord.TabletId) :=
    fun s0 => SameOn_UpdateTablet f s0 _ _ (fun _ => hlock _ _)
  have hlocked : ∀ s0 : TState, SameOn f s0 (LockTablet s0 writeRecord.TabletId) :=
    fun s0 => SameOn_UpdateTablet f s0 _ _ (fun _ => hlock _ _)
  cases hq : s.PrelockedTablets with
  | nil => simp [HydraLeaderWriteRows, hq] at h
  | cons tabletId queue =>
    cases hs : s.Tablets tabletId with
    | none => simp [HydraLeaderWriteRows, hq, hs] at h
    | some tablet =>
      by_cases hid : tabletId = writeRecord.TabletId
      swap
      · simp [HydraLeaderWriteRows, hq, hs, hid] at h
      subst hid
      refine ⟨queue, tablet, rfl, ?_⟩
      by_cases hrev : mountRevision = tablet.MountRevision
      · cases hatom : env.AtomicityFromTransactionId transactionId with
        | Full =>
          cases hfind : tm.Find transactionId with
          | none =>
            simp [HydraLeaderWriteRows, hq, hs, hrev, hatom, MakeTransactionPersistent,
              hfind] at h
          | some t =>
            have hfull := HydraLeaderWriteRows_Full env s tm transactionId signature lockless
              writeRecord identity queue tablet t mountRevision hatom hq hs hrev hfind
            rw [hfull] at h
            cases lockless with
            | true =>
              simp only [if_true, Except.ok.injEq, Prod.mk.injEq] at h
              obtain ⟨rfl, rfl⟩ := h
              refine ⟨?_, hs, ?_⟩
              · rw [UnlockTablet_PrelockedTablets, Enqueue_PrelockedTablets]
                rfl
              · exact SameOn_trans (hlocked _)
                  (SameOn_trans (SameOn_Enqueue f hpending env _ _ _ _ _ _) (hunlock _))
            | false =>
              simp only [Bool.false_eq_true, if_false] at h
              cases hc : ConfirmPrelockedRows env writeRecord.RowCount.toNat
                  (LeaderPopped env s queue writeRecord.TabletId identity)
                  { t with Transient := false } with
              | error e => simp [hc] at h
              | ok c =>
                obtain ⟨s2, t2⟩ := c
                simp only [hc, Except.ok.injEq, Prod.mk.injEq] at h
                obtain ⟨rfl, rfl⟩ := h
                obtain ⟨c1, c2, _, _⟩ := ConfirmPrelockedRows_fields env _ _ _ _ _ hc
                refine ⟨?_, hs, ?_⟩
                · rw [UnlockTablet_PrelockedTablets, Enqueue_PrelockedTablets, c2]
                  rfl
                · have hs2 : SameOn f (LeaderPopped env s queue writeRecord.TabletId identity)
                      s2 := by
                    intro id
                    rw [c1]
                  exact SameOn_trans hs2
                    (SameOn_trans (SameOn_Enqueue f hpending env _ _ _ _ _ _) (hunlock _))
        | None =>
          simp only [HydraLeaderWriteRows, hq, hs, hrev, hatom, ne_eq, not_true_eq_false,
            if_false] at h
          split at h
          · simp only [Except.ok.injEq, Prod.mk.injEq] at h
            obtain ⟨rfl, rfl⟩ := h
            exact ⟨rfl, hs, hunlock _⟩
          · split at h
            · exact absurd h (by simp)
            · split at h
              · exact absurd h (by simp)
              · split at h
                · exact absurd h (by simp)
                · rename_i s2 hfinish
                  simp only [Except.ok.injEq, Prod.mk.injEq] at h
                  obtain ⟨rfl, rfl⟩ := h
                  refine ⟨?_, hs, ?_⟩
                  · rw [UnlockTablet_PrelockedTablets,
                      FinishTabletCommit_PrelockedTablets env _ _ _ _ _ hfinish]
                    rfl
                  · have hfin := SameOn_FinishTabletCommit f hcommit htotal env _ _ _ _ _
                      hfinish
                    have hexec : SameOn f
                        (LeaderPopped env s queue writeRecord.TabletId identity)
                        (ExecuteWrites env
                          (({ s with PrelockedTablets := queue } : TState).UpdateTablet
                            writeRecord.TabletId
                            (fun t => IncrementTabletInFlightMutationCount t
                              (IsReplicatorWrite env identity) (-1)))
                          writeRecord.TabletId { Data := writeRecord.Data, Current := 0 }
                          { Phase := .Commit
                            Transaction := none
                            CommitTimestamp := env.TimestampFromTransactionId transactionId
                            RowCount := 0
                            DataWeight := 0
                            BlockedStore := false
                            Error := false }).State := fun _ => rfl
                    exact SameOn_trans hexec (SameOn_trans hfin (hunlock _))
      · simp only [HydraLeaderWriteRows, hq, hs, hrev, ne_eq, not_true_eq_false, if_false,
          not_false_eq_true, if_true, Except.ok.injEq, Prod.mk.injEq] at h
        obtain ⟨rfl, rfl⟩ := h
        exact ⟨rfl, hs, hunlock _⟩

theorem InFlight_Increment (tablet : TTablet) (k : Bool) (delta : Int) :
    (IncrementTabletInFlightMutationCount tablet k delta).InFlightMutationCount =
      tablet.InFlightMutationCount + delta := by
  cases k <;>
    simp only [IncrementTabletInFlightMutationCount, TTablet.InFlightMutationCount,
      Bool.false_eq_true, if_false, if_true] <;> ring

theorem InFlight_Pending (tablet : TTablet) (k : Bool) (delta : Int) :
    (IncrementTabletPendingWriteRecordCount tablet k delta).InFlightMutationCount =
      tablet.InFlightMutationCount := by
  cases k <;> rfl

theorem PinnedCount_cons (s : TState) (tabletId : TTabletId) (queue : List TTabletId)
    (h : s.PrelockedTablets = tabletId :: queue) (id : TTabletId) :
    s.PinnedCount id = (queue.count id : Int) + if id = tabletId then 1 else 0 := by
  unfold TState.PinnedCount
  rw [h]
  by_cases hid : id = tabletId
  · subst hid
    simp
  · have h1 : ¬ tabletId = id := fun e => hid e.symm
    simp [List.count_cons, hid, h1]

theorem InFlightInvariant_HydraLeaderWriteRows (env : TCollaborators) (s s1 : TState)
    (tm tm1 : TTransactionManager) (transactionId : TTransactionId) (mountRevision : TRevision)
    (signature : TTransactionSignature) (lockless : Bool)
    (writeRecord : TTransactionWriteRecord) (identity : TAuthenticationIdentity)
    (h : HydraLeaderWriteRows env s tm transactionId mountRevision signature lockless
      writeRecord identity = .ok (s1, tm1))
    (hinv : InFlightInvariant s) : InFlightInvariant s1 := by
  obtain ⟨queue, tablet, hq, hq1, _, hframe⟩ :=
    HydraLeaderWriteRows_frame TTablet.InFlightMutationCount (fun _ _ => rfl) InFlight_Pending
      (fun _ _ => rfl) (fun _ _ => rfl) env s s1 tm tm1 transactionId mountRevision signature
      lockless writeRecord identity h
  intro id tablet1 h1
  have hf := hframe id
  rw [h1] at hf
  simp only [LeaderPopped, UpdateTablet_Tablets, Option.map_some'] at hf
  have hcount := PinnedCount_cons s _ queue hq id
  have hpinned : s1.PinnedCount id = (queue.count id : Int) := by
    unfold TState.PinnedCount
    rw [hq1]
  cases h0 : s.Tablets id with
  | none =>
    rw [h0] at hf
    split at hf <;> simp at hf
  | some tablet0 =>
    have hi := hinv id tablet0 h0
    rw [h0] at hf
    by_cases hid : id = writeRecord.TabletId
    · simp only [hid, if_true, Option.map_some', Option.some.injEq, InFlight_Increment] at hf
      rw [hf, hpinned]
      simp only [hid, if_true] at hcount
      rw [hid] at hi
      rw [hi, hcount, hid]
      ring
    · simp only [hid, if_false, Option.map_some', Option.some.injEq] at hf
      simp only [hid, if_false, add_zero] at hcount
      rw [hf, hpinned, hi, hcount]

theorem InFlightInvariant_WriteSubmit (env : TCollaborators) (args : TWriteArgs)
    (tabletId : TTabletId) (tablet : TTablet) (lockless : Bool)
    (signature : TTransactionSignature) (readerBefore : Nat) (executed : TExecuteWritesResult)
    (hinv : InFlightInvariant executed.State) :
    InFlightInvariant
      (WriteSubmit env args tabletId tablet lockless signature readerBefore executed) := by
  obtain ⟨hq, _, _, htab⟩ :=
    WriteSubmit_fields env args tabletId tablet lockless signature readerBefore executed
  intro id tablet1 h1
  rw [htab id] at h1
  have hpinned : (WriteSubmit env args tabletId tablet lockless signature readerBefore
      executed).PinnedCount id =
      executed.State.PinnedCount id + if id = tabletId then 1 else 0 := by
    unfold TState.PinnedCount
    rw [hq, List.count_append]
    by_cases hid : id = tabletId
    · subst hid
      simp
    · have h2 : ¬ tabletId = id := fun e => hid e.symm
      simp [List.count_cons, hid, h2]
  rw [hpinned]
  by_cases hid : id = tabletId
  · simp only [hid, if_true] at h1 ⊢
    cases h0 : executed.State.Tablets tabletId with
    | none => rw [h0] at h1; simp at h1
    | some tablet0 =>
      rw [h0] at h1
      simp only [Option.map_some', Option.some.injEq] at h1
      rw [← h1, InFlight_Increment, ← hinv tabletId tablet0 h0]
      rfl
  · simp only [hid, if_false, add_zero] at h1 ⊢
    exact hinv id tablet1 h1

theorem SameOn_OnStopLeading {α : Type} (f : TTablet → α)
    (hlock : ∀ (tablet : TTablet) (n : Int), f { tablet with TabletLockCount := n } = f tablet)
    (s : TState) : SameOn f s (OnStopLeading s) := by
  have h := SameOn_foldl f UnlockTablet
    (fun st id => SameOn_UpdateTablet f st id _ (fun _ => hlock _ _)) s.PrelockedTablets s
  exact fun id => h id

theorem RecordData_append (a b : List TMutation) :
    RecordData (a ++ b) = RecordData a ++ RecordData b := by
  induction a with
  | nil => rfl
  | cons m rest ih => simp [RecordData, ih]

theorem Slice_append_drop (data : TSharedRef) (first last : Nat) (h : first ≤ last) :
    (data.drop first).take (last - first) ++ data.drop last = data.drop first := by
  have h1 := List.take_append_drop (last - first) (data.drop first)
  rw [List.drop_drop] at h1
  have h2 : first + (last - first) = last := by omega
  rw [h2] at h1
  exact h1

theorem WriteExecute_reader (env : TCollaborators) (args : TWriteArgs) (l : TWriteLoop)
    (tabletId : TTabletId) (lockless : Bool) (context : TWriteContext)
    (hcur : l.Reader.Current ≤ l.Reader.Data.length) :
    (WriteExecute env args l tabletId lockless context).Reader.Data = l.Reader.Data ∧
      l.Reader.Current ≤ (WriteExecute env args l tabletId lockless context).Reader.Current ∧
      (WriteExecute env args l tabletId lockless context).Reader.Current ≤
        l.Reader.Data.length ∧
      (WriteExecute env args l tabletId lockless context).State.Mutations =
        l.State.Mutations ∧
      (lockless = true →
        (WriteExecute env args l tabletId lockless context).Reader.Current =
            l.Reader.Data.length ∧
          (WriteExecute env args l tabletId lockless context).Context.RowCount =
            args.RowCount ∧
          (WriteExecute env args l tabletId lockless context).Context.DataWeight =
            args.DataWeight ∧
          (WriteExecute env args l tabletId lockless context).Context.BlockedStore =
            context.BlockedStore) := by
  cases lockless with
  | true =>
    simp [WriteExecute, TWireProtocolReader.GetEnd, hcur]
  | false =>
    simp [WriteExecute, ExecuteWrites, TState.Record, hcur]

theorem WriteExecute_Mutations (env : TCollaborators) (args : TWriteArgs) (l : TWriteLoop)
    (tabletId : TTabletId) (lockless : Bool) (context : TWriteContext) :
    (WriteExecute env args l tabletId lockless context).State.Mutations = l.State.Mutations := by
  cases lockless <;> rfl

theorem WriteSubmit_Mutations (env : TCollaborators) (args : TWriteArgs) (tabletId : TTabletId)
    (tablet : TTablet) (lockless : Bool) (signature : TTransactionSignature)
    (readerBefore : Nat) (executed : TExecuteWritesResult) :
    (WriteSubmit env args tabletId tablet lockless signature readerBefore executed).Mutations =
      executed.State.Mutations ++
        [MakeWriteRowsMutation env args tabletId tablet.MountRevision signature lockless
          (executed.Reader.Slice readerBefore executed.Reader.Current) executed.Context] := rfl

theorem WritePrelockAndSubmit_shape (env : TCollaborators) (args : TWriteArgs)
    (l l1 : TWriteLoop) (tabletId : TTabletId) (tablet : TTablet)
    (h : WritePrelockAndSubmit env args l tabletId tablet = .ok l1) :
    ∃ context,
      l1.Reader =
          (WriteExecute env args l tabletId (IsLockless env args tablet) context).Reader ∧
        l1.State.Mutations =
          (if l.Reader.Current ≠
              (WriteExecute env args l tabletId (IsLockless env args tablet)
                context).Reader.Current then
            l.State.Mutations ++
              [MakeWriteRowsMutation env args tabletId tablet.MountRevision
                (if (!IsLockless env args tablet &&
                    !(WriteExecute env args l tabletId (IsLockless env args tablet)
                      context).Reader.IsFinished) then 0 else args.Signature)
                (IsLockless env args tablet)
                ((WriteExecute env args l tabletId (IsLockless env args tablet)
                  context).Reader.Slice l.Reader.Current
                  (WriteExecute env args l tabletId (IsLockless env args tablet)
                    context).Reader.Current)
                (WriteExecute env args l tabletId (IsLockless env args tablet)
                  context).Context]
          else l.State.Mutations) := by
  unfold WritePrelockAndSubmit at h
  simp only [] at h
  split at h
  · exact absurd h (by simp)
  · split at h
    · exact absurd h (by simp)
    · simp only [Except.ok.injEq] at h
      subst h
      refine ⟨_, rfl, ?_⟩
      simp only [IsLockless]
      split
      · rename_i hblocked
        split
        · rename_i hadv
          simp only [hadv, if_true, TState.Record, WriteSubmit_Mutations,
            WriteExecute_Mutations]
        · rename_i hadv
          simp only [hadv, if_false, TState.Record]
          split
          · split <;> simp only [WriteExecute_Mutations]
          · simp only [WriteExecute_Mutations]
      · split
        · rename_i hadv
          simp only [hadv, if_true, WriteSubmit_Mutations, WriteExecute_Mutations]
        · rename_i hadv
          simp only [hadv, if_false]
          split
          · split <;> simp only [WriteExecute_Mutations]
          · simp only [WriteExecute_Mutations]

theorem WritePrelockAndSubmit_data (env : TCollaborators) (args : TWriteArgs)
    (l l1 : TWriteLoop) (tabletId : TTabletId) (tablet : TTablet)
    (hcur : l.Reader.Current ≤ l.Reader.Data.length)
    (h : WritePrelockAndSubmit env args l tabletId tablet = .ok l1) :
    l1.Reader.Data = l.Reader.Data ∧ l.Reader.Current ≤ l1.Reader.Current ∧
      l1.Reader.Current ≤ l.Reader.Data.length ∧
      (IsLockless env args tablet = true → l1.Reader.Current = l.Reader.Data.length) ∧
      ((l1.Reader.Current = l.Reader.Current ∧ l1.State.Mutations = l.State.Mutations) ∨
        (l.Reader.Current < l1.Reader.Current ∧
          ∃ m, l1.State.Mutations = l.State.Mutations ++ [m] ∧
            m.Handler.WriteRecord.Data =
              l.Reader.Slice l.Reader.Current l1.Reader.Current ∧
            m.Request.compressed_data =
              env.Compress env.ChangelogCodec m.Handler.WriteRecord.Data ∧
            m.Request.codec = env.ChangelogCodec ∧
            m.Handler.Lockless = IsLockless env args tablet ∧
            m.Request.lockless = IsLockless env args tablet ∧
            (IsLockless env args tablet = true →
              m.Handler.WriteRecord.RowCount = args.RowCount ∧
                m.Handler.WriteRecord.DataWeight = args.DataWeight ∧
                m.Request.row_count = args.RowCount ∧
                m.Request.data_weight = args.DataWeight))) := by
  obtain ⟨context, hreader, hmut⟩ := WritePrelockAndSubmit_shape env args l l1 tabletId tablet h
  obtain ⟨hdata, hle, hlen, _, hlockless⟩ :=
    WriteExecute_reader env args l tabletId (IsLockless env args tablet) context hcur
  generalize WriteExecute env args l tabletId (IsLockless env args tablet) context = ex
    at hreader hmut hdata hle hlen hlockless
  rw [hreader]
  refine ⟨hdata, hle, hlen, fun hl => (hlockless hl).1, ?_⟩
  by_cases hadv : l.Reader.Current = ex.Reader.Current
  · left
    rw [if_neg (by simpa using hadv)] at hmut
    exact ⟨hadv.symm, hmut⟩
  · right
    rw [if_pos hadv] at hmut
    refine ⟨lt_of_le_of_ne hle hadv, _, hmut, ?_, rfl, rfl, rfl, rfl, fun hl => ?_⟩
    · simp only [MakeWriteRowsMutation, TWireProtocolReader.Slice, hdata]
    · obtain ⟨_, h2, h3, _⟩ := hlockless hl
      exact ⟨h2, h3, h2, h3⟩

theorem WriteIteration_data (env : TCollaborators) (args : TWriteArgs) (l l1 : TWriteLoop)
    (h : WriteIteration env args l = .ok l1) :
    ∃ tabletId tablet,
      ActualizeTablet l.State args.TabletSnapshot l.Tablet = .ok tabletId ∧
        l.State.Tablets tabletId = some tablet ∧
        WritePrelockAndSubmit env args l tabletId tablet = .ok l1 := by
  unfold WriteIteration at h
  cases ha : ActualizeTablet l.State args.TabletSnapshot l.Tablet with
  | error e => simp [ha] at h
  | ok tabletId =>
    simp only [ha] at h
    cases ht : l.State.Tablets tabletId with
    | none => simp [ht] at h
    | some tablet =>
      simp only [ht] at h
      cases hv : ValidateTabletStoreLimit env l.State tabletId tablet with
      | error e => simp [hv] at h
      | ok u =>
        simp only [hv] at h
        generalize (if env.EnableTabletDynamicMemoryLimit = true then tablet.PoolTag else none) =
          poolTag at h
        cases hm : env.ValidateMemoryLimit l.State.Trace poolTag with
        | false => simp [hm] at h
        | true =>
          simp only [hm, Bool.not_true, Bool.false_eq_true, if_false] at h
          cases hb : ValidateWriteBarrier (IsReplicatorWrite env args.Identity) tablet with
          | error e => simp [hb] at h
          | ok u1 =>
            simp only [hb] at h
            exact ⟨tabletId, tablet, rfl, ht, h⟩

theorem WriteLoop_data (env : TCollaborators) (args : TWriteArgs) :
    ∀ (fuel : Nat) (l l1 : TWriteLoop), l.Reader.Current ≤ l.Reader.Data.length →
      WriteLoop env args fuel l = some (.ok l1) →
      l1.Reader.Data = l.Reader.Data ∧ l1.Reader.Current = l.Reader.Data.length ∧
        ∃ submitted, l1.State.Mutations = l.State.Mutations ++ submitted ∧
          RecordData submitted = l.Reader.Data.drop l.Reader.Current ∧
          ∀ m ∈ submitted,
            m.Request.compressed_data =
                env.Compress env.ChangelogCodec m.Handler.WriteRecord.Data ∧
              m.Request.codec = env.ChangelogCodec
  | 0, l, l1, _, h => by
    simp only [WriteLoop] at h
    split at h
    · rename_i hfin
      simp only [Option.some.injEq, Except.ok.injEq] at h
      subst h
      have hlen : l.Reader.Current = l.Reader.Data.length := by
        simpa [TWireProtocolReader.IsFinished] using hfin
      exact ⟨rfl, hlen, [], by simp, by simp [RecordData, hlen], by simp⟩
    · exact absurd h (by simp)
  | fuel + 1, l, l1, hcur, h => by
    simp only [WriteLoop] at h
    split at h
    · rename_i hfin
      simp only [Option.some.injEq, Except.ok.injEq] at h
      subst h
      have hlen : l.Reader.Current = l.Reader.Data.length := by
        simpa [TWireProtocolReader.IsFinished] using hfin
      exact ⟨rfl, hlen, [], by simp, by simp [RecordData, hlen], by simp⟩
    · cases hit : WriteIteration env args l with
      | error e => simp [hit] at h
      | ok l2 =>
        simp only [hit] at h
        obtain ⟨tabletId, tablet, _, _, hwps⟩ := WriteIteration_data env args l l2 hit
        obtain ⟨hdata, hle, hlen, _, hstep⟩ :=
          WritePrelockAndSubmit_data env args l l2 tabletId tablet hcur hwps
        have hcur2 : l2.Reader.Current ≤ l2.Reader.Data.length := by rw [hdata]; exact hlen
        obtain ⟨hd, hc, submitted, hm, hrec, hall⟩ := WriteLoop_data env args fuel l2 l1 hcur2 h
        rw [hdata] at hd hc hrec
        refine ⟨hd, hc, ?_⟩
        rcases hstep with ⟨hsame, hmut⟩ | ⟨hlt, m, hmut, hslice, hcompressed, hcodec, _⟩
        · refine ⟨submitted, by rw [hm, hmut], ?_, hall⟩
          rw [hrec, hsame]
        · refine ⟨m :: submitted, by rw [hm, hmut]; simp, ?_, ?_⟩
          · simp only [RecordData, hslice, hrec, TWireProtocolReader.Slice]
            exact Slice_append_drop _ _ _ hle
          · intro x hx
            rcases List.mem_cons.mp hx with rfl | hx
            · exact ⟨hcompressed, hcodec⟩
            · exact hall x hx

theorem Write_loop (env : TCollaborators) (fuel : Nat) (s : TState) (tm : TTransactionManager)
    (args : TWriteArgs) (reader : TWireProtocolReader) (l1 : TWriteLoop)
    (h : Write env fuel s tm args reader = some (.ok l1)) :
    ∃ tablet, s.Tablets args.TabletSnapshot.TabletId = some tablet ∧
      WriteLoop env args fuel
        { State := s, Transactions := tm, Reader := reader,
          Tablet := some args.TabletSnapshot.TabletId } = some (.ok l1) := by
  unfold Write at h
  simp only [] at h
  split at h
  · exact absurd h (by simp)
  · cases ha : ActualizeTablet s args.TabletSnapshot none with
    | error e => simp [ha] at h
    | ok tabletId =>
      simp only [ha] at h
      simp only [ActualizeTablet, TState.GetTabletOrThrow] at ha
      cases hs : s.Tablets args.TabletSnapshot.TabletId with
      | none => simp [hs] at ha
      | some tablet =>
        simp only [hs] at ha
        split at ha
        · exact absurd ha (by simp)
        · split at ha
          · exact absurd ha (by simp)
          · simp only [Except.ok.injEq] at ha
            subst ha
            split at h
            · exact absurd h (by simp)
            · exact ⟨tablet, rfl, h⟩

theorem WriteLoop_lockless (env : TCollaborators) (args : TWriteArgs) (fuel : Nat)
    (l : TWriteLoop) (tabletId : TTabletId) (tablet : TTablet)
    (hcur : l.Reader.Current ≤ l.Reader.Data.length)
    (htablet : l.Tablet = some tabletId) (hs : l.State.Tablets tabletId = some tablet)
    (hlockless : IsLockless env args tablet = true) :
    WriteLoop env args (fuel + 1) l ≠ none ∧
      ∀ l1, l.Reader.Current < l.Reader.Data.length →
        WriteLoop env args (fuel + 1) l = some (.ok l1) →
        ∃ m, l1.State.Mutations = l.State.Mutations ++ [m] ∧
          m.Handler.WriteRecord.Data = l.Reader.Data.drop l.Reader.Current ∧
          m.Handler.WriteRecord.RowCount = args.RowCount ∧
          m.Handler.WriteRecord.DataWeight = args.DataWeight ∧
          m.Request.row_count = args.RowCount ∧
          m.Request.data_weight = args.DataWeight ∧
          m.Handler.Lockless = true ∧ m.Request.lockless = true := by
  have hstep : ∀ l2, WriteIteration env args l = .ok l2 →
      WriteLoop env args fuel l2 = some (.ok l2) ∧
        (l.Reader.Current < l.Reader.Data.length →
          ∃ m, l2.State.Mutations = l.State.Mutations ++ [m] ∧
            m.Handler.WriteRecord.Data = l.Reader.Data.drop l.Reader.Current ∧
            m.Handler.WriteRecord.RowCount = args.RowCount ∧
            m.Handler.WriteRecord.DataWeight = args.DataWeight ∧
            m.Request.row_count = args.RowCount ∧
            m.Request.data_weight = args.DataWeight ∧
            m.Handler.Lockless = true ∧ m.Request.lockless = true) := by
    intro l2 hit
    obtain ⟨tabletId1, tablet1, ha, hs1, hwps⟩ := WriteIteration_data env args l l2 hit
    simp only [htablet, ActualizeTablet, Except.ok.injEq] at ha
    subst ha
    have ht : tablet = tablet1 := Option.some.inj (hs.symm.trans hs1)
    subst ht
    obtain ⟨hdata, _, _, hend, hmut⟩ :=
      WritePrelockAndSubmit_data env args l l2 tabletId tablet hcur hwps
    have hfinished : l2.Reader.IsFinished = true := by
      simp [TWireProtocolReader.IsFinished, hend hlockless, hdata]
    refine ⟨WriteLoop_finished env args fuel l2 hfinished, fun hlt => ?_⟩
    rcases hmut with ⟨hsame, _⟩ | ⟨_, m, hm, hslice, _, _, hl1, hl2, hcounts⟩
    · rw [hend hlockless] at hsame
      omega
    · obtain ⟨c1, c2, c3, c4⟩ := hcounts hlockless
      refine ⟨m, hm, ?_, c1, c2, c3, c4, hl1.trans hlockless, hl2.trans hlockless⟩
      rw [hslice, hend hlockless]
      simp only [TWireProtocolReader.Slice]
      apply List.take_of_length_le
      simp
  have hloop : WriteLoop env args (fuel + 1) l =
      if l.Reader.IsFinished then some (.ok l)
      else
        match WriteIteration env args l with
        | .error e => some (.error e)
        | .ok l2 => WriteLoop env args fuel l2 := rfl
  refine ⟨?_, fun l1 hlt h => ?_⟩
  · rw [hloop]
    split
    · simp
    · cases hit : WriteIteration env args l with
      | error e => simp
      | ok l2 => simp only [(hstep l2 hit).1]; simp
  · rw [hloop] at h
    have hnot : l.Reader.IsFinished = false := by
      simp only [TWireProtocolReader.IsFinished, beq_eq_false_iff_ne, ne_eq]
      omega
    simp only [hnot, Bool.false_eq_true, if_false] at h
    cases hit : WriteIteration env args l with
    | error e => simp [hit] at h
    | ok l2 =>
      simp only [hit, (hstep l2 hit).1, Option.some.injEq, Except.ok.injEq] at h
      subst h
      exact (hstep l2 hit).2 hlt

/-! ## Leader and follower apply -/

/-- Claim C1. Let a mutation be built by `Write` for a transaction id of full atomicity. If the
leader applies it with a matching mount revision (the pinned tablet is the record's tablet,
the transaction exists and, for a write that is not lockless, holds enough prelocked rows),
and a follower applies the serialized request on a tablet with the same mount revision and
commit ordering (its store manager draining the record in `Lock` phase), then both calls
return, both append one record to the same write log `log` of the transaction and leave the
other two logs as they were, and the appended record is the same on both sides: tablet id,
data, row count, data weight and sync replica ids of the record built by `Write`.  The codec
is assumed to satisfy `Decompress (Compress data) = data`. -/
theorem leader_follower_same_placement (env : TCollaborators) (args : TWriteArgs)
    (tabletId : TTabletId) (mountRevision : TRevision)
    (adjustedSignature : TTransactionSignature) (lockless : Bool) (recordData : TSharedRef)
    (context : TWriteContext) (sL sF : TState) (tmL tmF : TTransactionManager)
    (queue : List TTabletId) (tabletL tabletF : TTablet) (transactionL : TTransaction)
    (hcodec : ∀ data,
      env.Decompress env.ChangelogCodec (env.Compress env.ChangelogCodec data) = data)
    (hatomicity : env.AtomicityFromTransactionId args.TransactionId = EAtomicity.Full)
    (hqueue : sL.PrelockedTablets = tabletId :: queue)
    (htabletL : sL.Tablets tabletId = some tabletL)
    (hrevisionL : tabletL.MountRevision = mountRevision)
    (hfind : tmL.Find args.TransactionId = some transactionL)
    (hrows : lockless = false → context.RowCount.toNat ≤ transactionL.PrelockedRows.length)
    (htabletF : sF.Tablets tabletId = some tabletF)
    (hrevisionF : tabletF.MountRevision = mountRevision)
    (hordering : tabletF.CommitOrdering = tabletL.CommitOrdering)
    (hdrain : ∀ trace reader ctx, ctx.Phase = EWritePhase.Lock →
      reader.Data.length ≤ reader.Current + (env.ExecuteWrites trace tabletId reader ctx).Consumed) :
    ∃ log record sL' tmL' transactionL' sF' tmF' transactionF',
      HydraLeaderWriteRows env sL tmL
          (MakeWriteRowsMutation env args tabletId mountRevision adjustedSignature lockless
            recordData context).Handler.TransactionId
          (MakeWriteRowsMutation env args tabletId mountRevision adjustedSignature lockless
            recordData context).Handler.MountRevision
          (MakeWriteRowsMutation env args tabletId mountRevision adjustedSignature lockless
            recordData context).Handler.Signature
          (MakeWriteRowsMutation env args tabletId mountRevision adjustedSignature lockless
            recordData context).Handler.Lockless
          (MakeWriteRowsMutation env args tabletId mountRevision adjustedSignature lockless
            recordData context).Handler.WriteRecord
          (MakeWriteRowsMutation env args tabletId mountRevision adjustedSignature lockless
            recordData context).Handler.Identity = .ok (sL', tmL') ∧
        HydraFollowerWriteRows env sF tmF
          (MakeWriteRowsMutation env args tabletId mountRevision adjustedSignature lockless
            recordData context).Request = .ok (sF', tmF') ∧
        tmL'.Find args.TransactionId = some transactionL' ∧
        tmF'.Find args.TransactionId = some transactionF' ∧
        transactionL'.WriteLog log = transactionL.WriteLog log ++ [record] ∧
        transactionF'.WriteLog log =
          ((tmF.Find args.TransactionId).map (fun t => t.WriteLog log)).getD [] ++ [record] ∧
        (∀ other, other ≠ log → transactionL'.WriteLog other = transactionL.WriteLog other) ∧
        (∀ other, other ≠ log → transactionF'.WriteLog other =
          ((tmF.Find args.TransactionId).map (fun t => t.WriteLog other)).getD []) ∧
        record =
          { TabletId := tabletId
            Data := recordData
            RowCount := context.RowCount
            DataWeight := context.DataWeight
            SyncReplicaIds := args.SyncReplicaIds } := by
  have hid := Find_Id hfind
  have hdrained : ∀ (st : TState) (ctx : TWriteContext), ctx.Phase = EWritePhase.Lock →
      (ExecuteWrites env st tabletId { Data := recordData, Current := 0 } ctx).Drained = true := by
    intro st ctx hctx
    have := hdrain st.Trace { Data := recordData, Current := 0 } ctx hctx
    simp only [ExecuteWrites, TWireProtocolReader.IsFinished, beq_iff_eq]
    simp only [Nat.zero_add] at this ⊢
    omega
  have hfindF := GetOrCreateTransaction_Find env tmF args.TransactionId
    args.TransactionStartTimestamp args.TransactionTimeout false args.Identity
  have hidF := Find_Id hfindF
  have hlogF := GetOrCreateTransaction_WriteLog env tmF args.TransactionId
    args.TransactionStartTimestamp args.TransactionTimeout false args.Identity
  cases lockless with
  | true =>
    cases hco : tabletL.CommitOrdering with
    | Weak =>
      refine ⟨EWriteLog.ImmediateLockless, (MakeWriteRowsMutation env args tabletId mountRevision adjustedSignature
        true recordData context).Handler.WriteRecord, ?_⟩
      simp only [HydraLeaderWriteRows, HydraFollowerWriteRows, MakeWriteRowsMutation, hqueue,
        htabletL, htabletF, hatomicity, MakeTransactionPersistent, hfind, hrevisionL, hrevisionF,
        TState.FindTablet, hcodec, ne_eq, not_true_eq_false, if_false, hordering, hco,
        beq_self_eq_true, if_true, Bool.not_true, Bool.and_false, Bool.false_eq_true]
      refine ⟨_, _, _, _, _, _, rfl, rfl, Find_Store _ hfind hid, Find_Store _ hfindF hidF,
        rfl, ?_, ?_, ?_, trivial⟩
      · rw [← hlogF]; rfl
      · intro other ho; cases other <;> first | rfl | exact absurd rfl ho
      · intro other ho; rw [← hlogF]; cases other <;> first | rfl | exact absurd rfl ho
    | Strong =>
      refine ⟨EWriteLog.DelayedLockless, (MakeWriteRowsMutation env args tabletId mountRevision adjustedSignature
        true recordData context).Handler.WriteRecord, ?_⟩
      simp only [HydraLeaderWriteRows, HydraFollowerWriteRows, MakeWriteRowsMutation, hqueue,
        htabletL, htabletF, hatomicity, MakeTransactionPersistent, hfind, hrevisionL, hrevisionF,
        TState.FindTablet, hcodec, ne_eq, not_true_eq_false, if_false, hordering, hco,
        if_true, Bool.not_true, Bool.and_false, Bool.false_eq_true,
        show (ECommitOrdering.Strong == ECommitOrdering.Weak) = false from rfl]
      refine ⟨_, _, _, _, _, _, rfl, rfl, Find_Store _ hfind hid, Find_Store _ hfindF hidF,
        rfl, ?_, ?_, ?_, trivial⟩
      · rw [← hlogF]; rfl
      · intro other ho; cases other <;> first | rfl | exact absurd rfl ho
      · intro other ho; rw [← hlogF]; cases other <;> first | rfl | exact absurd rfl ho
  | false =>
    obtain ⟨events, confirmed, hc⟩ := ConfirmPrelockedRows_ok env context.RowCount.toNat
      (({ sL with PrelockedTablets := queue } : TState).UpdateTablet tabletId
        (fun t => IncrementTabletInFlightMutationCount t
          (IsReplicatorWrite env args.Identity) (-1)))
      { transactionL with Transient := false } (hrows rfl)
    cases hco : tabletL.CommitOrdering with
    | Weak =>
      refine ⟨EWriteLog.ImmediateLocked, (MakeWriteRowsMutation env args tabletId mountRevision adjustedSignature
        false recordData context).Handler.WriteRecord, ?_⟩
      simp only [HydraLeaderWriteRows, HydraFollowerWriteRows, MakeWriteRowsMutation, hqueue,
        htabletL, htabletF, hatomicity, MakeTransactionPersistent, hfind, hrevisionL, hrevisionF,
        TState.FindTablet, hcodec, ne_eq, not_true_eq_false, if_false, hordering, hco, hc,
        beq_self_eq_true, if_true, Bool.not_false, Bool.and_true, Bool.false_eq_true,
        hdrained, Bool.not_true]
      refine ⟨_, _, _, _, _, _, rfl, rfl, Find_Store _ hfind hid, Find_Store _ hfindF hidF,
        rfl, ?_, ?_, ?_, trivial⟩
      · rw [← hlogF]; rfl
      · intro other ho; cases other <;> first | rfl | exact absurd rfl ho
      · intro other ho; rw [← hlogF]; cases other <;> first | rfl | exact absurd rfl ho
    | Strong =>
      refine ⟨EWriteLog.DelayedLockless, (MakeWriteRowsMutation env args tabletId mountRevision adjustedSignature
        false recordData context).Handler.WriteRecord, ?_⟩
      simp only [HydraLeaderWriteRows, HydraFollowerWriteRows, MakeWriteRowsMutation, hqueue,
        htabletL, htabletF, hatomicity, MakeTransactionPersistent, hfind, hrevisionL, hrevisionF,
        TState.FindTablet, hcodec, ne_eq, not_true_eq_false, if_false, hordering, hco, hc,
        if_true, Bool.not_false, Bool.and_true, Bool.false_eq_true,
        show (ECommitOrdering.Strong == ECommitOrdering.Weak) = false from rfl]
      refine ⟨_, _, _, _, _, _, rfl, rfl, Find_Store _ hfind hid, Find_Store _ hfindF hidF,
        rfl, ?_, ?_, ?_, trivial⟩
      · rw [← hlogF]; rfl
      · intro other ho; cases other <;> first | rfl | exact absurd rfl ho
      · intro other ho; rw [← hlogF]; cases other <;> first | rfl | exact absurd rfl ho

theorem leader_follower_same_placement_witness :
    ∃ log record sL' tmL' transactionL' sF' tmF' transactionF',
      HydraLeaderWriteRows SampleCollaborators SampleState [SampleTransaction]
          (MakeWriteRowsMutation SampleCollaborators SampleWriteArgs 7 1 1 false [1, 2, 3]
            { Phase := .Prelock, Transaction := some 2, CommitTimestamp := 0, RowCount := 1,
              DataWeight := 3, BlockedStore := false, Error := false }).Handler.TransactionId
          (MakeWriteRowsMutation SampleCollaborators SampleWriteArgs 7 1 1 false [1, 2, 3]
            { Phase := .Prelock, Transaction := some 2, CommitTimestamp := 0, RowCount := 1,
              DataWeight := 3, BlockedStore := false, Error := false }).Handler.MountRevision
          (MakeWriteRowsMutation SampleCollaborators SampleWriteArgs 7 1 1 false [1, 2, 3]
            { Phase := .Prelock, Transaction := some 2, CommitTimestamp := 0, RowCount := 1,
              DataWeight := 3, BlockedStore := false, Error := false }).Handler.Signature
          (MakeWriteRowsMutation SampleCollaborators SampleWriteArgs 7 1 1 false [1, 2, 3]
            { Phase := .Prelock, Transaction := some 2, CommitTimestamp := 0, RowCount := 1,
              DataWeight := 3, BlockedStore := false, Error := false }).Handler.Lockless
          (MakeWriteRowsMutation SampleCollaborators SampleWriteArgs 7 1 1 false [1, 2, 3]
            { Phase := .Prelock, Transaction := some 2, CommitTimestamp := 0, RowCount := 1,
              DataWeight := 3, BlockedStore := false, Error := false }).Handler.WriteRecord
          (MakeWriteRowsMutation SampleCollaborators SampleWriteArgs 7 1 1 false [1, 2, 3]
            { Phase := .Prelock, Transaction := some 2, CommitTimestamp := 0, RowCount := 1,
              DataWeight := 3, BlockedStore := false, Error := false }).Handler.Identity =
          .ok (sL', tmL') ∧
        HydraFollowerWriteRows SampleCollaborators SampleState []
          (MakeWriteRowsMutation SampleCollaborators SampleWriteArgs 7 1 1 false [1, 2, 3]
            { Phase := .Prelock, Transaction := some 2, CommitTimestamp := 0, RowCount := 1,
              DataWeight := 3, BlockedStore := false, Error := false }).Request =
          .ok (sF', tmF') ∧
        tmL'.Find SampleWriteArgs.TransactionId = some transactionL' ∧
        tmF'.Find SampleWriteArgs.TransactionId = some transactionF' ∧
        transactionL'.WriteLog log = SampleTransaction.WriteLog log ++ [record] ∧
        transactionF'.WriteLog log =
          ((TTransactionManager.Find [] SampleWriteArgs.TransactionId).map
            (fun t => t.WriteLog log)).getD [] ++ [record] ∧
        (∀ other, other ≠ log →
          transactionL'.WriteLog other = SampleTransaction.WriteLog other) ∧
        (∀ other, other ≠ log → transactionF'.WriteLog other =
          ((TTransactionManager.Find [] SampleWriteArgs.TransactionId).map
            (fun t => t.WriteLog other)).getD []) ∧
        record =
          { TabletId := 7
            Data := [1, 2, 3]
            RowCount := 1
            DataWeight := 3
            SyncReplicaIds := SampleWriteArgs.SyncReplicaIds } :=
  leader_follower_same_placement SampleCollaborators SampleWriteArgs 7 1 1 false [1, 2, 3]
    { Phase := .Prelock, Transaction := some 2, CommitTimestamp := 0, RowCount := 1,
      DataWeight := 3, BlockedStore := false, Error := false }
    SampleState SampleState [SampleTransaction] [] [] SampleTablet SampleTablet
    SampleTransaction (fun _ => rfl) rfl rfl rfl rfl rfl (fun _ => by decide) rfl rfl rfl
    (fun _ reader _ _ => by simp only [SampleCollaborators]; omega)

/-- Claim C2. In `HydraLeaderWriteRows` with full atomicity and a matching mount revision (the
pinned tablet is the record's tablet, the transaction exists and, for a write that is not
lockless, holds enough prelocked rows) the call returns and the record is appended to exactly
the write log named by the specification (`SpecWriteLog`): `ImmediateLocked` for `Weak`
ordering and a locked write, `ImmediateLockless` for `Weak` ordering and a lockless write,
`DelayedLockless` for `Strong` ordering.  The other two logs are unchanged. -/
theorem leader_selects_write_log (env : TCollaborators) (s : TState)
    (tm : TTransactionManager) (transactionId : TTransactionId)
    (signature : TTransactionSignature) (lockless : Bool)
    (writeRecord : TTransactionWriteRecord) (identity : TAuthenticationIdentity)
    (queue : List TTabletId) (tablet : TTablet) (transaction : TTransaction)
    (hatomicity : env.AtomicityFromTransactionId transactionId = EAtomicity.Full)
    (hqueue : s.PrelockedTablets = writeRecord.TabletId :: queue)
    (htablet : s.Tablets writeRecord.TabletId = some tablet)
    (hfind : tm.Find transactionId = some transaction)
    (hrows : lockless = false →
      writeRecord.RowCount.toNat ≤ transaction.PrelockedRows.length) :
    ∃ s' tm' transaction',
      HydraLeaderWriteRows env s tm transactionId tablet.MountRevision signature lockless
          writeRecord identity = .ok (s', tm') ∧
        tm'.Find transactionId = some transaction' ∧
        transaction'.WriteLog (SpecWriteLog tablet.CommitOrdering lockless) =
          transaction.WriteLog (SpecWriteLog tablet.CommitOrdering lockless) ++ [writeRecord] ∧
        ∀ other, other ≠ SpecWriteLog tablet.CommitOrdering lockless →
          transaction'.WriteLog other = transaction.WriteLog other := by
  have hid := Find_Id hfind
  cases lockless with
  | true =>
    simp only [HydraLeaderWriteRows, hqueue, htablet, hatomicity, MakeTransactionPersistent,
      hfind, ne_eq, not_true_eq_false, if_false, if_true]
    refine ⟨_, _, _, rfl, Find_Store _ hfind ?_, ?_⟩
    · rw [Enqueue_Id]; exact hid
    · cases hco : tablet.CommitOrdering <;>
        simpa [SpecWriteLog, hco] using Enqueue_WriteLog env _ _ _ _ writeRecord signature
  | false =>
    obtain ⟨events, confirmed, hc⟩ := ConfirmPrelockedRows_ok env writeRecord.RowCount.toNat
      ((({ s with PrelockedTablets := queue } : TState).UpdateTablet writeRecord.TabletId
        (fun t => IncrementTabletInFlightMutationCount t (IsReplicatorWrite env identity) (-1))))
      { transaction with Transient := false } (hrows rfl)
    simp only [HydraLeaderWriteRows, hqueue, htablet, hatomicity, MakeTransactionPersistent,
      hfind, ne_eq, not_true_eq_false, if_false, hc]
    refine ⟨_, _, _, rfl, Find_Store _ hfind ?_, ?_⟩
    · rw [Enqueue_Id]; exact hid
    · cases hco : tablet.CommitOrdering <;>
        simpa [SpecWriteLog, hco] using Enqueue_WriteLog env _ _ _ _ writeRecord signature


theorem leader_selects_write_log_witness :
    ∃ s' tm' transaction',
      HydraLeaderWriteRows SampleCollaborators SampleState [SampleTransaction] 2
          SampleTablet.MountRevision 0 false SampleRecord SampleIdentity = .ok (s', tm') ∧
        TTransactionManager.Find tm' 2 = some transaction' ∧
        transaction'.WriteLog (SpecWriteLog SampleTablet.CommitOrdering false) =
          SampleTransaction.WriteLog (SpecWriteLog SampleTablet.CommitOrdering false) ++
            [SampleRecord] ∧
        ∀ other, other ≠ SpecWriteLog SampleTablet.CommitOrdering false →
          transaction'.WriteLog other = SampleTransaction.WriteLog other :=
  leader_selects_write_log SampleCollaborators SampleState [SampleTransaction] 2 0 false
    SampleRecord SampleIdentity [] SampleTablet SampleTransaction rfl rfl rfl rfl
    (fun _ => by decide)

/-- Claim C5, as amended. When `HydraLeaderWriteRows` is applied with a recorded mount revision
that differs from the tablet's current one, the call returns without touching the transaction
manager, the memory guard or any other tablet; the tablet's pending user and replicator
write-record counters are unchanged; its in-flight counter of the kind of the write
(replicator or user, by the identity) is decremented by one, undoing the increment made at
submission, and its other in-flight counter is unchanged. -/
theorem leader_mount_revision_mismatch (env : TCollaborators) (s : TState)
    (tm : TTransactionManager) (transactionId : TTransactionId) (mountRevision : TRevision)
    (signature : TTransactionSignature) (lockless : Bool)
    (writeRecord : TTransactionWriteRecord) (identity : TAuthenticationIdentity)
    (queue : List TTabletId) (tablet : TTablet)
    (hqueue : s.PrelockedTablets = writeRecord.TabletId :: queue)
    (htablet : s.Tablets writeRecord.TabletId = some tablet)
    (hrevision : mountRevision ≠ tablet.MountRevision) :
    ∃ s' tablet',
      HydraLeaderWriteRows env s tm transactionId mountRevision signature lockless writeRecord
          identity = .ok (s', tm) ∧
        s'.Tablets writeRecord.TabletId = some tablet' ∧
        tablet'.PendingUserWriteRecordCount = tablet.PendingUserWriteRecordCount ∧
        tablet'.PendingReplicatorWriteRecordCount = tablet.PendingReplicatorWriteRecordCount ∧
        tablet'.InFlightUserMutationCount =
          tablet.InFlightUserMutationCount - (if IsReplicatorWrite env identity then 0 else 1) ∧
        tablet'.InFlightReplicatorMutationCount =
          tablet.InFlightReplicatorMutationCount -
            (if IsReplicatorWrite env identity then 1 else 0) ∧
        (∀ other, other ≠ writeRecord.TabletId → s'.Tablets other = s.Tablets other) ∧
        s'.WriteLogsMemoryTrackerGuard = s.WriteLogsMemoryTrackerGuard := by
  simp only [HydraLeaderWriteRows, hqueue, htablet, ne_eq, not_true_eq_false, if_false,
    hrevision, not_false_eq_true, if_true]
  refine ⟨_,
    { IncrementTabletInFlightMutationCount tablet (IsReplicatorWrite env identity) (-1) with
      TabletLockCount :=
        (IncrementTabletInFlightMutationCount tablet (IsReplicatorWrite env identity)
          (-1)).TabletLockCount - 1 }, rfl, ?_, ?_, ?_, ?_, ?_, ?_, rfl⟩
  · simp [UnlockTablet, htablet]
  · cases hr : IsReplicatorWrite env identity <;> simp [IncrementTabletInFlightMutationCount]
  · cases hr : IsReplicatorWrite env identity <;> simp [IncrementTabletInFlightMutationCount]
  · cases hr : IsReplicatorWrite env identity with
    | false => simp [IncrementTabletInFlightMutationCount]; ring
    | true => simp [IncrementTabletInFlightMutationCount]
  · cases hr : IsReplicatorWrite env identity with
    | false => simp [IncrementTabletInFlightMutationCount]
    | true => simp [IncrementTabletInFlightMutationCount]; ring
  · intro other ho
    simp [UnlockTablet, ho]

theorem leader_mount_revision_mismatch_witness :
    ∃ s' tablet',
      HydraLeaderWriteRows SampleCollaborators SampleState [] 2 0 0 false SampleRecord
          SampleIdentity = .ok (s', []) ∧
        s'.Tablets SampleRecord.TabletId = some tablet' ∧
        tablet'.PendingUserWriteRecordCount = SampleTablet.PendingUserWriteRecordCount ∧
        tablet'.PendingReplicatorWriteRecordCount =
          SampleTablet.PendingReplicatorWriteRecordCount ∧
        tablet'.InFlightUserMutationCount =
          SampleTablet.InFlightUserMutationCount -
            (if IsReplicatorWrite SampleCollaborators SampleIdentity then 0 else 1) ∧
        tablet'.InFlightReplicatorMutationCount =
          SampleTablet.InFlightReplicatorMutationCount -
            (if IsReplicatorWrite SampleCollaborators SampleIdentity then 1 else 0) ∧
        (∀ other, other ≠ SampleRecord.TabletId → s'.Tablets other = SampleState.Tablets other) ∧
        s'.WriteLogsMemoryTrackerGuard = SampleState.WriteLogsMemoryTrackerGuard :=
  leader_mount_revision_mismatch SampleCollaborators SampleState [] 2 0 0 false SampleRecord
    SampleIdentity [] SampleTablet rfl rfl (by decide)

/-- Claim C5, counterexample. A leader apply with mount revision `0` on a tablet whose mount
revision is `1` returns, and the tablet's in-flight user mutation count is `0` after the call
while it was `1` before it. -/
theorem leader_mount_revision_mismatch_decrements_in_flight :
    ∃ s',
      HydraLeaderWriteRows SampleCollaborators SampleState [] 2 0 0 false SampleRecord
          SampleIdentity = .ok (s', []) ∧
        (s'.Tablets 7).map (fun t => t.InFlightUserMutationCount) = some 0 ∧
        (SampleState.Tablets 7).map (fun t => t.InFlightUserMutationCount) = some 1 := by
  refine ⟨_, rfl, ?_, ?_⟩ <;> decide

/-- Claim C6. `HydraFollowerWriteRows` drops the mutation when the tablet id of the request is
not found or when the mount revision of the request differs from the tablet's current one: it
returns without error and the whole state (tablets with their counters and lock counts,
memory guard, queue, trace) and the transaction manager (no transaction created, no log
changed) are exactly what they were. -/
theorem follower_drops_silently (env : TCollaborators) (s : TState)
    (tm : TTransactionManager) (request : TReqWriteRows)
    (h : s.FindTablet request.tablet_id = none ∨
      ∃ tablet, s.FindTablet request.tablet_id = some tablet ∧
        request.mount_revision ≠ tablet.MountRevision) :
    HydraFollowerWriteRows env s tm request = .ok (s, tm) := by
  rcases h with h | ⟨tablet, h, hrevision⟩
  · simp [HydraFollowerWriteRows, h]
  · simp [HydraFollowerWriteRows, h, hrevision]


theorem follower_drops_silently_witness :
    HydraFollowerWriteRows SampleCollaborators SampleState [SampleTransaction]
        (MakeWriteRowsMutation SampleCollaborators SampleWriteArgs 7 0 1 false [1, 2, 3]
          { Phase := .Prelock, Transaction := some 2, CommitTimestamp := 0, RowCount := 1,
            DataWeight := 3, BlockedStore := false, Error := false }).Request =
      .ok (SampleState, [SampleTransaction]) :=
  follower_drops_silently SampleCollaborators SampleState [SampleTransaction] _
    (Or.inr ⟨SampleTablet, rfl, by decide⟩)

/-! ## Accounting of pending write records and of write-log memory -/

/-- Claim C7. Pending write-record accounting has no double counting.
(1) `EnqueueTransactionWriteRecord` for a record of a found tablet adds one to exactly one
pending counter of that tablet: the replicator counter if the transaction's identity is the
replicator user, the user counter otherwise; the other counter is unchanged.
(2) `DropTransactionWriteLog` subtracts from that same counter of a found tablet the number
of records of the log that name it, and leaves the other counter unchanged.
(3) Starting from an empty log, enqueueing any sequence of records and then dropping the log
(tablets may be removed in between; the pending counters of the remaining ones are kept)
returns both pending counters of every tablet that still exists to their initial values, and
the log is empty. -/
theorem pending_write_record_accounting (env : TCollaborators) (s s2 : TState)
    (transaction : TTransaction) (writeLog : EWriteLog)
    (records : List (TTransactionWriteRecord × TTransactionSignature))
    (hempty : transaction.WriteLog writeLog = [])
    (hkept : ∀ id tablet2, s2.Tablets id = some tablet2 →
      ∃ tablet1, (EnqueueRecords env writeLog records s transaction).1.Tablets id = some tablet1 ∧
        tablet2.PendingUserWriteRecordCount = tablet1.PendingUserWriteRecordCount ∧
        tablet2.PendingReplicatorWriteRecordCount = tablet1.PendingReplicatorWriteRecordCount) :
    (∀ (st : TState) (t : TTransaction) (record : TTransactionWriteRecord)
        (signature : TTransactionSignature) (tablet : TTablet),
        st.Tablets record.TabletId = some tablet →
        ∃ tablet',
          (EnqueueTransactionWriteRecord env st t record.TabletId writeLog record
            signature).1.Tablets record.TabletId = some tablet' ∧
          tablet'.PendingReplicatorWriteRecordCount =
            tablet.PendingReplicatorWriteRecordCount +
              (if IsReplicatorWrite env t.AuthenticationIdentity then 1 else 0) ∧
          tablet'.PendingUserWriteRecordCount =
            tablet.PendingUserWriteRecordCount +
              (if IsReplicatorWrite env t.AuthenticationIdentity then 0 else 1)) ∧
      (∀ (st : TState) (t : TTransaction) (id : TTabletId) (tablet : TTablet),
        st.Tablets id = some tablet →
        ∃ tablet',
          (DropTransactionWriteLog env st t writeLog).1.Tablets id = some tablet' ∧
          tablet'.PendingReplicatorWriteRecordCount =
            tablet.PendingReplicatorWriteRecordCount -
              (if IsReplicatorWrite env t.AuthenticationIdentity then
                RecordCount id (t.WriteLog writeLog) else 0) ∧
          tablet'.PendingUserWriteRecordCount =
            tablet.PendingUserWriteRecordCount -
              (if IsReplicatorWrite env t.AuthenticationIdentity then 0
                else RecordCount id (t.WriteLog writeLog))) ∧
      (∀ id tablet3,
        (DropTransactionWriteLog env s2 (EnqueueRecords env writeLog records s transaction).2
          writeLog).1.Tablets id = some tablet3 →
        ∃ tablet0, s.Tablets id = some tablet0 ∧
          tablet3.PendingUserWriteRecordCount = tablet0.PendingUserWriteRecordCount ∧
          tablet3.PendingReplicatorWriteRecordCount =
            tablet0.PendingReplicatorWriteRecordCount) ∧
      (DropTransactionWriteLog env s2 (EnqueueRecords env writeLog records s transaction).2
        writeLog).2.WriteLog writeLog = [] := by
  obtain ⟨hlog, hidentity, htablets⟩ := EnqueueRecords_spec env writeLog records s transaction
  refine ⟨?_, ?_, ?_, (Drop_WriteLog env _ _ writeLog).1⟩
  · intro st t record signature tablet hst
    refine ⟨_, ?_, (IncrementPending_counts tablet _ 1).1, (IncrementPending_counts tablet _ 1).2⟩
    rw [Enqueue_Tablets]; simp [hst]
  · intro st t id tablet hst
    refine ⟨IncrementTabletPendingWriteRecordCount tablet
      (IsReplicatorWrite env t.AuthenticationIdentity) (-RecordCount id (t.WriteLog writeLog)),
      ?_, ?_, ?_⟩
    · rw [Drop_Tablets, hst]; rfl
    · rw [(IncrementPending_counts tablet _ _).1]
      cases IsReplicatorWrite env t.AuthenticationIdentity with
      | false => simp
      | true => simp; ring
    · rw [(IncrementPending_counts tablet _ _).2]
      cases IsReplicatorWrite env t.AuthenticationIdentity with
      | false => simp; ring
      | true => simp
  · intro id tablet3 h3
    rw [Drop_Tablets, hidentity, hlog, hempty, List.nil_append] at h3
    cases h2 : s2.Tablets id with
    | none => simp [h2] at h3
    | some tablet2 =>
      obtain ⟨tablet1, h1, hu, hr⟩ := hkept id tablet2 h2
      rw [htablets id] at h1
      cases h0 : s.Tablets id with
      | none => simp [h0] at h1
      | some tablet0 =>
        refine ⟨tablet0, rfl, ?_, ?_⟩
        · simp only [h2, Option.map_some', Option.some.injEq] at h3
          simp only [h0, Option.map_some', Option.some.injEq] at h1
          subst h3 h1
          rw [(IncrementPending_counts _ _ _).2, hu, (IncrementPending_counts _ _ _).2]
          cases IsReplicatorWrite env transaction.AuthenticationIdentity <;> simp
        · simp only [h2, Option.map_some', Option.some.injEq] at h3
          simp only [h0, Option.map_some', Option.some.injEq] at h1
          subst h3 h1
          rw [(IncrementPending_counts _ _ _).1, hr, (IncrementPending_counts _ _ _).1]
          cases IsReplicatorWrite env transaction.AuthenticationIdentity <;> simp

theorem pending_write_record_accounting_witness :
    (∀ id tablet3,
        (DropTransactionWriteLog SampleCollaborators
          (EnqueueRecords SampleCollaborators .ImmediateLockless [(SampleRecord, 1)] SampleState
            SampleTransaction).1
          (EnqueueRecords SampleCollaborators .ImmediateLockless [(SampleRecord, 1)] SampleState
            SampleTransaction).2
          .ImmediateLockless).1.Tablets id = some tablet3 →
        ∃ tablet0, SampleState.Tablets id = some tablet0 ∧
          tablet3.PendingUserWriteRecordCount = tablet0.PendingUserWriteRecordCount ∧
          tablet3.PendingReplicatorWriteRecordCount =
            tablet0.PendingReplicatorWriteRecordCount) ∧
      (DropTransactionWriteLog SampleCollaborators
        (EnqueueRecords SampleCollaborators .ImmediateLockless [(SampleRecord, 1)] SampleState
          SampleTransaction).1
        (EnqueueRecords SampleCollaborators .ImmediateLockless [(SampleRecord, 1)] SampleState
          SampleTransaction).2
        .ImmediateLockless).2.WriteLog .ImmediateLockless = [] :=
  (pending_write_record_accounting SampleCollaborators SampleState
    (EnqueueRecords SampleCollaborators .ImmediateLockless [(SampleRecord, 1)] SampleState
      SampleTransaction).1
    SampleTransaction .ImmediateLockless
    [(SampleRecord, 1)] rfl (fun _ tablet2 h => ⟨tablet2, h, rfl, rfl⟩)).2.2

/-- The memory guard follows the byte size of the logs under `EnqueueTransactionWriteRecord`
and `DropTransactionWriteLog`, and `Clear` resets it to zero. -/
theorem memory_guard_enqueue_drop_clear (env : TCollaborators) (s : TState) (t : TTransaction)
    (tabletId : TTabletId) (log : EWriteLog) (record : TTransactionWriteRecord)
    (signature : TTransactionSignature) :
    ((EnqueueTransactionWriteRecord env s t tabletId log record signature).1
          |>.WriteLogsMemoryTrackerGuard) =
        s.WriteLogsMemoryTrackerGuard + env.GetByteSize record ∧
      TransactionByteSize env
          (EnqueueTransactionWriteRecord env s t tabletId log record signature).2 =
        TransactionByteSize env t + env.GetByteSize record ∧
      (DropTransactionWriteLog env s t log).1.WriteLogsMemoryTrackerGuard =
        s.WriteLogsMemoryTrackerGuard - LogByteSize env (t.WriteLog log) ∧
      TransactionByteSize env (DropTransactionWriteLog env s t log).2 =
        TransactionByteSize env t - LogByteSize env (t.WriteLog log) ∧
      (Clear s).WriteLogsMemoryTrackerGuard = 0 := by
  refine ⟨rfl, ?_, ?_, ?_, rfl⟩
  · cases log <;>
      simp only [EnqueueTransactionWriteRecord, TransactionByteSize, TTransaction.SetWriteLog,
        TTransaction.WriteLog, LogByteSize_append, LogByteSize] <;> ring
  · obtain ⟨h1, h2⟩ := DropLoop_byteSize env (IsReplicatorWrite env t.AuthenticationIdentity)
      (t.WriteLog log) s 0
    simp only [DropTransactionWriteLog]
    rw [h1, h2]; ring
  · cases log <;>
      simp only [DropTransactionWriteLog, TransactionByteSize, TTransaction.SetWriteLog,
        TTransaction.WriteLog, LogByteSize] <;> ring

/-- Claim C8, evaluated at the failing input. A snapshot holds a transaction whose immediate
lockless log has one record (byte size `4`) of a tablet that has been removed.  After `Clear`
and `OnAfterSnapshotLoaded` the guard's size is `0` while the logs hold `4` bytes, and a later
`DropTransactionWriteLog` of that log takes the guard's size to `-4`. -/
theorem snapshot_replay_skips_guard_for_missing_tablet :
    ∃ s1 t1,
      OnAfterSnapshotLoaded SampleCollaborators (Clear SampleState) [SampleOrphanTransaction] =
          .ok (s1, [t1]) ∧
        s1.WriteLogsMemoryTrackerGuard = 0 ∧
        WriteLogsByteSize SampleCollaborators [t1] = 4 ∧
        (DropTransactionWriteLog SampleCollaborators s1 t1
          .ImmediateLockless).1.WriteLogsMemoryTrackerGuard = -4 := by
  refine ⟨_, _, rfl, ?_, ?_, ?_⟩ <;> decide

/-- Claim C9, counterexample. A snapshot holds one transaction with one record of a found
tablet.  After one run of `OnAfterSnapshotLoaded` from a cleared guard the guard's size is `4`
and the tablet's pending user counter is `1`; after a second run they are `8` and `2`. -/
theorem snapshot_replay_twice_double_counts :
    ∃ s1 tm1 s2 tm2,
      OnAfterSnapshotLoaded SampleCollaborators (Clear SampleState) [SampleSnapshotTransaction] =
          .ok (s1, tm1) ∧
        OnAfterSnapshotLoaded SampleCollaborators s1 tm1 = .ok (s2, tm2) ∧
        s1.WriteLogsMemoryTrackerGuard = 4 ∧
        s2.WriteLogsMemoryTrackerGuard = 8 ∧
        (s1.Tablets 7).map (fun t => t.PendingUserWriteRecordCount) = some 1 ∧
        (s2.Tablets 7).map (fun t => t.PendingUserWriteRecordCount) = some 2 := by
  refine ⟨_, _, _, _, rfl, rfl, ?_, ?_, ?_, ?_⟩ <;> decide

/-- Claim C9, as amended. `OnAfterSnapshotLoaded` is additive, not idempotent: every run that
returns adds to the memory guard the byte size of every record, in any log of any
transaction, whose tablet is found, and adds to each tablet's pending user (replicator)
counter the number of records naming it in the logs of the user (replicator) transactions.
The logs and the set of tablets are not changed by a run, so after two runs in a row the
guard and the pending counters have grown by twice the amounts of a single run. -/
theorem snapshot_replay_accumulates (env : TCollaborators) (s s1 s2 : TState)
    (tm tm1 tm2 : TTransactionManager)
    (h1 : OnAfterSnapshotLoaded env s tm = .ok (s1, tm1))
    (h2 : OnAfterSnapshotLoaded env s1 tm1 = .ok (s2, tm2)) :
    s1.WriteLogsMemoryTrackerGuard =
        s.WriteLogsMemoryTrackerGuard +
          ReplayedByteSize env (fun id => (s.Tablets id).isSome) tm ∧
      s2.WriteLogsMemoryTrackerGuard =
        s.WriteLogsMemoryTrackerGuard +
          2 * ReplayedByteSize env (fun id => (s.Tablets id).isSome) tm ∧
      ∀ id tablet, s.Tablets id = some tablet →
        ∃ tablet1 tablet2, s1.Tablets id = some tablet1 ∧ s2.Tablets id = some tablet2 ∧
          tablet1.PendingUserWriteRecordCount =
            tablet.PendingUserWriteRecordCount + ReplayedRecordCount env false id tm ∧
          tablet2.PendingUserWriteRecordCount =
            tablet.PendingUserWriteRecordCount + 2 * ReplayedRecordCount env false id tm ∧
          tablet1.PendingReplicatorWriteRecordCount =
            tablet.PendingReplicatorWriteRecordCount + ReplayedRecordCount env true id tm ∧
          tablet2.PendingReplicatorWriteRecordCount =
            tablet.PendingReplicatorWriteRecordCount +
              2 * ReplayedRecordCount env true id tm := by
  obtain ⟨a1, a2, a3, a4⟩ := ReplayTransactions_spec env (fun id => (s.Tablets id).isSome)
    tm s s1 tm1 (fun _ => rfl) h1
  obtain ⟨b1, b2, _, _⟩ := ReplayTransactions_spec env (fun id => (s.Tablets id).isSome)
    tm1 s1 s2 tm2 (fun id => PendingShift2_isSome a2 id) h2
  refine ⟨a1, ?_, ?_⟩
  · rw [b1, a1, a3]; ring
  · intro id tablet hs
    have e1 := a2 id
    have e2 := b2 id
    rw [hs] at e1
    cases hs1 : s1.Tablets id with
    | none => rw [hs1] at e1; simp at e1
    | some tablet1 =>
      rw [hs1] at e1 e2
      cases hs2 : s2.Tablets id with
      | none => rw [hs2] at e2; simp at e2
      | some tablet2 =>
        rw [hs2] at e2
        simp only [Option.map_some', Option.some.injEq, TTablet.Pending, Prod.mk.injEq] at e1 e2
        refine ⟨tablet1, tablet2, rfl, rfl, e1.1, ?_, e1.2, ?_⟩
        · rw [e2.1, e1.1, a4]; ring
        · rw [e2.2, e1.2, a4]; ring

theorem snapshot_replay_accumulates_witness :
    ∃ s1 s2 : TState,
      s1.WriteLogsMemoryTrackerGuard =
          (Clear SampleState).WriteLogsMemoryTrackerGuard +
            ReplayedByteSize SampleCollaborators
              (fun id => ((Clear SampleState).Tablets id).isSome) [SampleSnapshotTransaction] ∧
        s2.WriteLogsMemoryTrackerGuard =
          (Clear SampleState).WriteLogsMemoryTrackerGuard +
            2 * ReplayedByteSize SampleCollaborators
              (fun id => ((Clear SampleState).Tablets id).isSome) [SampleSnapshotTransaction] ∧
        ∀ id tablet, (Clear SampleState).Tablets id = some tablet →
          ∃ tablet1 tablet2, s1.Tablets id = some tablet1 ∧ s2.Tablets id = some tablet2 ∧
            tablet1.PendingUserWriteRecordCount =
              tablet.PendingUserWriteRecordCount +
                ReplayedRecordCount SampleCollaborators false id [SampleSnapshotTransaction] ∧
            tablet2.PendingUserWriteRecordCount =
              tablet.PendingUserWriteRecordCount +
                2 * ReplayedRecordCount SampleCollaborators false id
                  [SampleSnapshotTransaction] ∧
            tablet1.PendingReplicatorWriteRecordCount =
              tablet.PendingReplicatorWriteRecordCount +
                ReplayedRecordCount SampleCollaborators true id [SampleSnapshotTransaction] ∧
            tablet2.PendingReplicatorWriteRecordCount =
              tablet.PendingReplicatorWriteRecordCount +
                2 * ReplayedRecordCount SampleCollaborators true id
                  [SampleSnapshotTransaction] :=
  ⟨_, _, snapshot_replay_accumulates SampleCollaborators (Clear SampleState) _ _
    [SampleSnapshotTransaction] _ _ rfl rfl⟩

/-! ## Transaction lifecycle -/

/-- Claim C3, evaluated at the failing input. A replicated tablet has one synchronous replica
(current replication row index `0`) and delayed lockless row count `0`; the transaction's
delayed lockless log holds one record of one row whose `SyncReplicaIds` names that replica
twice.  Persistent `OnTransactionPrepared` accepts the list and takes the replica's index to
`1` and the tablet's delayed lockless row count to `1`; the subsequent `OnTransactionAborted`
restores the delayed lockless row count to `0` but takes the replica's index to `-1`. -/
theorem prepare_abort_duplicate_sync_replica :
    ∃ s1 t1 s2 t2 tablet0 tablet1 tablet2,
      OnTransactionPrepared SampleCollaborators SampleReplicatedState
          { SamplePlainTransaction with DelayedLocklessWriteLog := [SampleDuplicateRecord] }
          true = .ok (s1, t1) ∧
        OnTransactionAborted SampleCollaborators s1 t1 = .ok (s2, t2) ∧
        SampleReplicatedState.Tablets 8 = some tablet0 ∧
        s1.Tablets 8 = some tablet1 ∧ s2.Tablets 8 = some tablet2 ∧
        tablet0.Replicas.map (fun r => r.CurrentReplicationRowIndex) = [0] ∧
        tablet1.Replicas.map (fun r => r.CurrentReplicationRowIndex) = [1] ∧
        tablet2.Replicas.map (fun r => r.CurrentReplicationRowIndex) = [-1] ∧
        tablet0.DelayedLocklessRowCount = 0 ∧ tablet1.DelayedLocklessRowCount = 1 ∧
        tablet2.DelayedLocklessRowCount = 0 := by
  refine ⟨_, _, _, _, _, _, _, rfl, rfl, rfl, rfl, rfl, ?_, ?_, ?_, ?_, ?_, ?_⟩ <;> decide

/-- The same prepare-then-abort run with the replica declared once: the replica's current
replication row index goes `0`, `1`, `0` and the delayed lockless row count goes `0`, `1`,
`0`, so both return to their values before `OnTransactionPrepared`. -/
theorem prepare_abort_single_sync_replica :
    ∃ s1 t1 s2 t2 tablet0 tablet1 tablet2,
      OnTransactionPrepared SampleCollaborators SampleReplicatedState
          { SamplePlainTransaction with DelayedLocklessWriteLog := [SampleReplicatedRecord] }
          true = .ok (s1, t1) ∧
        OnTransactionAborted SampleCollaborators s1 t1 = .ok (s2, t2) ∧
        SampleReplicatedState.Tablets 8 = some tablet0 ∧
        s1.Tablets 8 = some tablet1 ∧ s2.Tablets 8 = some tablet2 ∧
        tablet0.Replicas.map (fun r => r.CurrentReplicationRowIndex) = [0] ∧
        tablet1.Replicas.map (fun r => r.CurrentReplicationRowIndex) = [1] ∧
        tablet2.Replicas.map (fun r => r.CurrentReplicationRowIndex) = [0] ∧
        tablet0.DelayedLocklessRowCount = 0 ∧ tablet1.DelayedLocklessRowCount = 1 ∧
        tablet2.DelayedLocklessRowCount = 0 := by
  refine ⟨_, _, _, _, _, _, _, rfl, rfl, rfl, rfl, rfl, ?_, ?_, ?_, ?_, ?_, ?_⟩ <;> decide

/-- Claim C4. A write to a tablet with `Strong` commit ordering is applied by the leader (full
atomicity, matching mount revision) and lands in the transaction's delayed lockless log.
If persistent `OnTransactionPrepared`, `OnTransactionCommitted` and `OnTransactionSerialized`
then run in sequence and return, the tablet's delayed lockless row count (and that of every
other tablet) equals its value before the write, and the delayed lockless log and both
immediate logs of the transaction are empty. -/
theorem strong_ordering_prepare_commit_serialize (env : TCollaborators)
    (s0 s1 s2 s3 s4 : TState) (tm0 tm1 : TTransactionManager) (t1 t2 t3 t4 : TTransaction)
    (transactionId : TTransactionId) (signature : TTransactionSignature) (lockless : Bool)
    (writeRecord : TTransactionWriteRecord) (identity : TAuthenticationIdentity)
    (queue : List TTabletId) (tablet : TTablet) (prepareTimestamp commitTimestamp : TTimestamp)
    (hatomicity : env.AtomicityFromTransactionId transactionId = EAtomicity.Full)
    (hqueue : s0.PrelockedTablets = writeRecord.TabletId :: queue)
    (htablet : s0.Tablets writeRecord.TabletId = some tablet)
    (hstrong : tablet.CommitOrdering = ECommitOrdering.Strong)
    (hleader : HydraLeaderWriteRows env s0 tm0 transactionId tablet.MountRevision signature
      lockless writeRecord identity = .ok (s1, tm1))
    (hfind : tm1.Find transactionId = some t1)
    (hprepared : OnTransactionPrepared env s1
      { t1 with State := .Prepared, PrepareTimestamp := prepareTimestamp } true = .ok (s2, t2))
    (hcommitted : OnTransactionCommitted env s2
      { t2 with State := .Committed, CommitTimestamp := commitTimestamp } = .ok (s3, t3))
    (hserialized : OnTransactionSerialized env s3 t3 = .ok (s4, t4)) :
    writeRecord ∈ t1.DelayedLocklessWriteLog ∧
      (∃ tablet4, s4.Tablets writeRecord.TabletId = some tablet4 ∧
        tablet4.DelayedLocklessRowCount = tablet.DelayedLocklessRowCount) ∧
      (∀ id, (s4.Tablets id).map (fun tab => tab.DelayedLocklessRowCount) =
        (s0.Tablets id).map (fun tab => tab.DelayedLocklessRowCount)) ∧
      t4.DelayedLocklessWriteLog = [] ∧ t4.ImmediateLockedWriteLog = [] ∧
      t4.ImmediateLocklessWriteLog = [] := by
  obtain ⟨l1, l2⟩ := HydraLeaderWriteRows_full env s0 s1 tm0 tm1 transactionId signature
    lockless writeRecord identity queue tablet t1 hatomicity hqueue htablet hleader hfind
  obtain ⟨p1, p2⟩ := OnTransactionPrepared_spec env s1 s2 _ t2 hprepared
  obtain ⟨c1, c2, c3, c4, _, _, _⟩ := OnTransactionCommitted_spec env s2 s3 _ t3 hcommitted
  obtain ⟨z1, z2, z3, z4⟩ := OnTransactionSerialized_spec env s3 s4 t3 t4 hserialized
  have hlogs : t3.DelayedLocklessWriteLog = t1.DelayedLocklessWriteLog := by
    rw [c4, p1]
  have hall : ∀ id, (s4.Tablets id).map TTablet.Delayed = (s0.Tablets id).map TTablet.Delayed := by
    intro id
    rw [z4 id, c1 id, p2 id, l1 id, hlogs, Option.map_map, Option.map_map]
    cases s0.Tablets id with
    | none => rfl
    | some tab => simp [ShiftDelayed_add, ShiftDelayed_zero]
  have hcount : ∀ id, (s4.Tablets id).map (fun tab => tab.DelayedLocklessRowCount) =
      (s0.Tablets id).map (fun tab => tab.DelayedLocklessRowCount) := by
    intro id
    have := congrArg (Option.map Prod.fst) (hall id)
    simpa [Option.map_map, Function.comp, TTablet.Delayed] using this
  refine ⟨?_, ?_, hcount, z1, by rw [z2, c2], by rw [z3, c3]⟩
  · simpa [SpecWriteLog, hstrong, TTransaction.WriteLog] using l2
  · have := hcount writeRecord.TabletId
    rw [htablet] at this
    cases h4 : s4.Tablets writeRecord.TabletId with
    | none => rw [h4] at this; simp at this
    | some tablet4 =>
      rw [h4] at this
      exact ⟨tablet4, rfl, by simpa using this⟩

theorem strong_ordering_prepare_commit_serialize_witness :
    ∃ (t1 : TTransaction) (s4 : TState) (t4 : TTransaction),
      SampleReplicatedRecord ∈ t1.DelayedLocklessWriteLog ∧
        (∃ tablet4, s4.Tablets SampleReplicatedRecord.TabletId = some tablet4 ∧
          tablet4.DelayedLocklessRowCount = SampleReplicatedTablet.DelayedLocklessRowCount) ∧
        (∀ id, (s4.Tablets id).map (fun tab => tab.DelayedLocklessRowCount) =
          (SampleReplicatedState.Tablets id).map (fun tab => tab.DelayedLocklessRowCount)) ∧
        t4.DelayedLocklessWriteLog = [] ∧ t4.ImmediateLockedWriteLog = [] ∧
        t4.ImmediateLocklessWriteLog = [] :=
  ⟨_, _, _, strong_ordering_prepare_commit_serialize SampleCollaborators SampleReplicatedState
    _ _ _ _ [SamplePlainTransaction] _ _ _ _ _ 2 1 true SampleReplicatedRecord SampleIdentity []
    SampleReplicatedTablet 5 6 rfl rfl rfl rfl rfl rfl rfl rfl rfl⟩

/-! ## Write intake -/

/-- Claim C10. On the prelocking path of `Write` (full atomicity, tablet neither physically
ordered nor replicated, write not versioned):
(1) in each iteration that completes, the signature recorded in the submitted mutation (if a
slice was consumed) and added to the transient signature of the transaction is `0` if the
store manager left the reader unfinished and the caller's signature otherwise;
(2) for every call on a non-empty input that returns normally, the mutations it submitted
are a list of mutations with signature `0` followed by one last mutation carrying the
caller's signature, and the transient signature of the transaction has grown by the caller's
signature (modulo `2^32`) from its value before the call, or from the initial signature if
the transaction did not exist. -/
theorem write_prelock_signature_split (env : TCollaborators) (args : TWriteArgs) (s : TState)
    (tm : TTransactionManager) (reader : TWireProtocolReader) (fuel : Nat) (l' : TWriteLoop)
    (hatomicity : env.AtomicityFromTransactionId args.TransactionId = EAtomicity.Full)
    (hversioned : args.Versioned = false)
    (htablet : ∀ tablet, s.Tablets args.TabletSnapshot.TabletId = some tablet →
      tablet.PhysicallyOrdered = false ∧ tablet.Replicated = false)
    (hnonempty : reader.IsFinished = false)
    (hwrite : Write env fuel s tm args reader = some (.ok l')) :
    (∀ l l1, PrelockPath args l → WriteIteration env args l = .ok l1 →
        (if l.Reader.Current ≠ l1.Reader.Current then
          ∃ m, l1.State.Mutations = l.State.Mutations ++ [m] ∧
            m.Request.signature = (if l1.Reader.IsFinished then args.Signature else 0) ∧
            m.Handler.Signature = (if l1.Reader.IsFinished then args.Signature else 0)
        else l1.State.Mutations = l.State.Mutations) ∧
        ∀ t1, l1.Transactions.Find args.TransactionId = some t1 →
          t1.TransientSignature =
            AddSignature (CurrentTransientSignature env l.Transactions args.TransactionId)
              (if l1.Reader.IsFinished then args.Signature else 0)) ∧
      ∃ mutations last, l'.State.Mutations = s.Mutations ++ mutations ++ [last] ∧
        ZeroSignatures mutations ∧ last.Request.signature = args.Signature ∧
        last.Handler.Signature = args.Signature ∧
        ∃ t', l'.Transactions.Find args.TransactionId = some t' ∧
          t'.TransientSignature =
            (CurrentTransientSignature env tm args.TransactionId + args.Signature) % 2 ^ 32 := by
  refine ⟨fun l l1 hpath hi => ?_, ?_⟩
  · obtain ⟨_, _, hmut, hsig, _⟩ :=
      WriteIteration_prelock env args l l1 hatomicity hversioned hpath hi
    refine ⟨?_, hsig⟩
    split at hmut
    · rename_i hadv
      obtain ⟨m, hm, hreq, hhandler, _⟩ := hmut
      simp only [hadv, ne_eq, not_false_eq_true, if_true]
      exact ⟨m, hm, hreq, hhandler⟩
    · rename_i hadv
      simp only [hadv, if_false]
      exact hmut
  · unfold Write at hwrite
    simp only [hatomicity, reduceCtorEq, if_false, true_and] at hwrite
    cases ha : ActualizeTablet s args.TabletSnapshot none with
    | error e => simp [ha] at hwrite
    | ok tabletId =>
      simp only [ha] at hwrite
      split at hwrite
      · exact absurd hwrite (by simp)
      · have hid : tabletId = args.TabletSnapshot.TabletId :=
          ActualizeTablet_prelock args
            { State := s, Transactions := tm, Reader := reader, Tablet := none } tabletId
            ⟨htablet, fun _ h => absurd h (by simp)⟩ ha
        subst hid
        exact WriteLoop_prelock env args hatomicity hversioned fuel
          { State := s, Transactions := tm, Reader := reader,
            Tablet := some args.TabletSnapshot.TabletId } l'
          ⟨htablet, fun _ h => by simpa using h.symm⟩ hnonempty hwrite

theorem write_prelock_signature_split_witness :
    ∃ (l' : TWriteLoop) (mutations : List TMutation) (last : TMutation),
      Write SampleBlockingCollaborators 5 SampleState [] SampleWriteArgs
          { Data := [1, 2, 3], Current := 0 } = some (.ok l') ∧
        l'.State.Mutations = SampleState.Mutations ++ mutations ++ [last] ∧
        mutations.length = 1 ∧
        ZeroSignatures mutations ∧ last.Request.signature = SampleWriteArgs.Signature ∧
        last.Handler.Signature = SampleWriteArgs.Signature ∧
        ∃ t', l'.Transactions.Find SampleWriteArgs.TransactionId = some t' ∧
          t'.TransientSignature =
            (CurrentTransientSignature SampleBlockingCollaborators []
              SampleWriteArgs.TransactionId + SampleWriteArgs.Signature) % 2 ^ 32 := by
  have hrun : (match Write SampleBlockingCollaborators 5 SampleState [] SampleWriteArgs
      { Data := [1, 2, 3], Current := 0 } with
      | some (.ok l) => l.State.Mutations.length
      | _ => 0) = 2 := by decide
  cases hw : Write SampleBlockingCollaborators 5 SampleState [] SampleWriteArgs
      { Data := [1, 2, 3], Current := 0 } with
  | none => rw [hw] at hrun; exact absurd hrun (by decide)
  | some r =>
    cases r with
    | error e => rw [hw] at hrun; simp at hrun
    | ok l' =>
      rw [hw] at hrun
      obtain ⟨mutations, last, hm, hrest⟩ :=
        (write_prelock_signature_split SampleBlockingCollaborators SampleWriteArgs SampleState
          [] { Data := [1, 2, 3], Current := 0 } 5 l' rfl rfl
          (fun tablet h => by
            have : tablet = SampleTablet := by
              simpa [SampleState, SampleWriteArgs] using h.symm
            subst this
            exact ⟨rfl, rfl⟩)
          rfl hw).2
      refine ⟨l', mutations, last, rfl, hm, ?_, hrest⟩
      change l'.State.Mutations.length = 2 at hrun
      simp only [hm, List.length_append, List.length_singleton] at hrun
      have : SampleState.Mutations.length = 0 := rfl
      omega

/-! ## End-to-end scenarios -/

/-- Claim C12. `HydraLeaderWriteRows` is applied for a transaction id of atomicity `None` with
the tablet's mount revision, the tablet is not orphaned, and the store manager drains the
batch and reports the record's row count.  Then the call returns; the batch has been executed
against the store manager once, in phase `Commit`, without a transaction and with the
timestamp embedded in the transaction id as commit timestamp; the transaction manager is
returned as it was, whatever it holds; the memory guard and the tablet's pending write record
counts are unchanged; the tablet's last commit timestamp is the embedded timestamp; and the
total row count is refreshed if the tablet is physically ordered and unchanged otherwise. -/
theorem none_atomicity_leader_commit (env : TCollaborators) (s : TState)
    (transactionId : TTransactionId) (signature : TTransactionSignature) (lockless : Bool)
    (writeRecord : TTransactionWriteRecord) (identity : TAuthenticationIdentity)
    (queue : List TTabletId) (tablet : TTablet)
    (hatomicity : env.AtomicityFromTransactionId transactionId = EAtomicity.None)
    (hqueue : s.PrelockedTablets = writeRecord.TabletId :: queue)
    (htablet : s.Tablets writeRecord.TabletId = some tablet)
    (horphaned : tablet.State ≠ ETabletState.Orphaned)
    (hdrained : writeRecord.Data.length ≤
      (env.ExecuteWrites s.Trace writeRecord.TabletId { Data := writeRecord.Data, Current := 0 }
        (NonAtomicCommitContext env transactionId)).Consumed)
    (hrows :
      (env.ExecuteWrites s.Trace writeRecord.TabletId { Data := writeRecord.Data, Current := 0 }
        (NonAtomicCommitContext env transactionId)).RowCount = writeRecord.RowCount) :
    ∃ s1 tablet1,
      (∀ tm, HydraLeaderWriteRows env s tm transactionId tablet.MountRevision signature
        lockless writeRecord identity = .ok (s1, tm)) ∧
      s1.Trace = s.Trace ++
        [.ExecuteWrites writeRecord.TabletId (NonAtomicCommitContext env transactionId)
          { Data := writeRecord.Data, Current := 0 }] ∧
      s1.WriteLogsMemoryTrackerGuard = s.WriteLogsMemoryTrackerGuard ∧
      s1.Tablets writeRecord.TabletId = some tablet1 ∧
      tablet1.Pending = tablet.Pending ∧
      tablet1.LastCommitTimestamp = env.TimestampFromTransactionId transactionId ∧
      tablet1.TotalRowCount =
        (if tablet.PhysicallyOrdered then
          env.ComputeTotalRowCount s1.Trace writeRecord.TabletId
        else tablet.TotalRowCount) ∧
      ∀ id, id ≠ writeRecord.TabletId → s1.Tablets id = s.Tablets id := by
  have hD := ExecuteWrites_Drained env
    (({ s with PrelockedTablets := queue } : TState).UpdateTablet writeRecord.TabletId
      (fun t => IncrementTabletInFlightMutationCount t (IsReplicatorWrite env identity) (-1)))
    writeRecord.TabletId writeRecord.Data (NonAtomicCommitContext env transactionId) hdrained
  have hrun : ∀ tm, HydraLeaderWriteRows env s tm transactionId tablet.MountRevision signature
      lockless writeRecord identity =
      .ok (UnlockTablet
        ((((({ s with PrelockedTablets := queue } : TState).UpdateTablet writeRecord.TabletId
          (fun t => IncrementTabletInFlightMutationCount t (IsReplicatorWrite env identity)
            (-1))).Record
          (.ExecuteWrites writeRecord.TabletId (NonAtomicCommitContext env transactionId)
            { Data := writeRecord.Data, Current := 0 }))).UpdateTablet writeRecord.TabletId
          (CommitBookkeeping env
            (s.Trace ++ [.ExecuteWrites writeRecord.TabletId
              (NonAtomicCommitContext env transactionId)
              { Data := writeRecord.Data, Current := 0 }])
            writeRecord.TabletId (env.TimestampFromTransactionId transactionId)))
        writeRecord.TabletId, tm) := by
    intro tm
    unfold HydraLeaderWriteRows
    simp only [hatomicity, hqueue, htablet, ne_eq, not_true_eq_false, if_false, horphaned]
    simp only [NonAtomicCommitContext] at hD hrows
    simp only [hD, Bool.not_true, Bool.false_eq_true, if_false]
    have hR : writeRecord.RowCount =
        (ExecuteWrites env
          (({ s with PrelockedTablets := queue } : TState).UpdateTablet writeRecord.TabletId
            (fun t => IncrementTabletInFlightMutationCount t (IsReplicatorWrite env identity)
              (-1)))
          writeRecord.TabletId { Data := writeRecord.Data, Current := 0 }
          { Phase := .Commit
            Transaction := none
            CommitTimestamp := env.TimestampFromTransactionId transactionId
            RowCount := 0
            DataWeight := 0
            BlockedStore := false
            Error := false }).Context.RowCount := hrows.symm
    rw [if_neg (not_not.mpr hR), FinishTabletCommit_none]
    rfl
  refine ⟨_,
    (fun t : TTablet => { t with TabletLockCount := t.TabletLockCount - 1 })
      (CommitBookkeeping env
        (s.Trace ++ [.ExecuteWrites writeRecord.TabletId
          (NonAtomicCommitContext env transactionId)
          { Data := writeRecord.Data, Current := 0 }])
        writeRecord.TabletId (env.TimestampFromTransactionId transactionId)
        (IncrementTabletInFlightMutationCount tablet (IsReplicatorWrite env identity) (-1))),
    hrun, rfl, rfl, ?_, ?_, ?_, ?_, ?_⟩
  · simp only [UnlockTablet, UpdateTablet_Tablets, if_true, TState.Record, htablet, Option.map]
  · cases hk : IsReplicatorWrite env identity <;> cases hpo : tablet.PhysicallyOrdered <;>
      simp [CommitBookkeeping, IncrementTabletInFlightMutationCount, TTablet.Pending,
        TTablet.UpdateLastCommitTimestamp, hpo]
  · cases hk : IsReplicatorWrite env identity <;> cases hpo : tablet.PhysicallyOrdered <;>
      simp [CommitBookkeeping, IncrementTabletInFlightMutationCount,
        TTablet.UpdateLastCommitTimestamp, hpo]
  · cases hk : IsReplicatorWrite env identity <;> cases hpo : tablet.PhysicallyOrdered <;>
      simp [CommitBookkeeping, IncrementTabletInFlightMutationCount,
        TTablet.UpdateLastCommitTimestamp, hpo, UnlockTablet, TState.Record]
  · intro id hid
    simp [UnlockTablet, TState.Record, hid]

theorem none_atomicity_leader_commit_witness :
    SampleCollaborators.AtomicityFromTransactionId 3 = EAtomicity.None ∧
      ∃ s1 tablet1,
        (∀ tm, HydraLeaderWriteRows SampleCollaborators SampleState tm 3 1 1 true SampleRecord
          SampleIdentity = .ok (s1, tm)) ∧
        s1.Tablets 7 = some tablet1 ∧ tablet1.LastCommitTimestamp = 3 ∧
        tablet1.TotalRowCount = 0 := by
  obtain ⟨s1, tablet1, h1, _, _, h4, _, h6, h7, _⟩ :=
    none_atomicity_leader_commit SampleCollaborators SampleState 3 1 true SampleRecord
      SampleIdentity [] SampleTablet rfl rfl rfl (by decide) (by decide) rfl
  exact ⟨rfl, s1, tablet1, h1, h4, h6, h7⟩

/-- Claim C11. A full-atomicity write of one row goes to a mounted tablet that is sorted, not
replicated and has `Weak` commit ordering; the transaction is new, no mutation is in flight,
the validations of `Write` pass, and the store manager prelocks the whole batch as one row,
which stays valid. Then `Write` returns having submitted one mutation; its leader apply
returns and leaves the record in the transaction's immediate locked write log and nothing in
the other two logs; and `OnTransactionCommitted` (with any commit timestamp the tablet's
unflushed timestamp does not exceed) returns, has invoked `CommitRow` on the locked row,
leaves all three logs empty, and leaves the tablet's pending write record counts and its lock
count at their values before the write. -/
theorem scenario_full_weak_single_row (env : TCollaborators) (args : TWriteArgs)
    (s : TState) (tm : TTransactionManager) (data : TSharedRef) (tablet : TTablet)
    (rowRef : TSortedDynamicRowRef) (fuel : Nat)
    (hatomicity : env.AtomicityFromTransactionId args.TransactionId = EAtomicity.Full)
    (hversioned : args.Versioned = false)
    (hqueue : s.PrelockedTablets = [])
    (htablet : s.Tablets args.TabletSnapshot.TabletId = some tablet)
    (hrevision : tablet.MountRevision = args.TabletSnapshot.MountRevision)
    (hmounted : tablet.State = ETabletState.Mounted)
    (hpo : tablet.PhysicallyOrdered = false) (hrep : tablet.Replicated = false)
    (hweak : tablet.CommitOrdering = ECommitOrdering.Weak)
    (hconflict : env.ValidateTransactionConflict s.Trace args.TabletSnapshot.TabletId
      args.TransactionStartTimestamp = true)
    (hlimit : ValidateTabletStoreLimit env s args.TabletSnapshot.TabletId tablet = .ok ())
    (hmemory : env.ValidateMemoryLimit s.Trace
      (if env.EnableTabletDynamicMemoryLimit then tablet.PoolTag else none) = true)
    (hbarrier : ValidateWriteBarrier (IsReplicatorWrite env args.Identity) tablet = .ok ())
    (hfresh : tm.Find args.TransactionId = none)
    (hdata : data ≠ [])
    (hconsumed : data.length ≤
      (env.ExecuteWrites s.Trace args.TabletSnapshot.TabletId { Data := data, Current := 0 }
        (PrelockContext args.TransactionId)).Consumed)
    (hblocked :
      (env.ExecuteWrites s.Trace args.TabletSnapshot.TabletId { Data := data, Current := 0 }
        (PrelockContext args.TransactionId)).BlockedStore = false)
    (herror :
      (env.ExecuteWrites s.Trace args.TabletSnapshot.TabletId { Data := data, Current := 0 }
        (PrelockContext args.TransactionId)).Error = false)
    (hrowCount :
      (env.ExecuteWrites s.Trace args.TabletSnapshot.TabletId { Data := data, Current := 0 }
        (PrelockContext args.TransactionId)).RowCount = 1)
    (hrowRefs :
      (env.ExecuteWrites s.Trace args.TabletSnapshot.TabletId { Data := data, Current := 0 }
        (PrelockContext args.TransactionId)).RowRefs = [rowRef])
    (hrowTablet : rowRef.Tablet = args.TabletSnapshot.TabletId)
    (hvalid : ∀ trace, env.ValidateAndDiscardRowRef trace rowRef = true) :
    ∃ l m s2 tm2 t2,
      Write env (fuel + 1) s tm args { Data := data, Current := 0 } = some (.ok l) ∧
      l.State.Mutations = s.Mutations ++ [m] ∧
      ApplyLeader env l.State l.Transactions m = .ok (s2, tm2) ∧
      tm2.Find args.TransactionId = some t2 ∧
      t2.ImmediateLockedWriteLog = [m.Handler.WriteRecord] ∧
      m.Handler.WriteRecord.Data = data ∧ m.Handler.WriteRecord.RowCount = 1 ∧
      t2.ImmediateLocklessWriteLog = [] ∧ t2.DelayedLocklessWriteLog = [] ∧
      ∀ commitTimestamp prepareTimestamp, tablet.UnflushedTimestamp ≤ commitTimestamp →
        ∃ s3 t3 tablet3,
          OnTransactionCommitted env s2
            { t2 with
              State := .Committed
              PrepareTimestamp := prepareTimestamp
              CommitTimestamp := commitTimestamp } = .ok (s3, t3) ∧
          TEvent.CommitRow args.TransactionId rowRef ∈ s3.Trace ∧
          t3.ImmediateLockedWriteLog = [] ∧ t3.ImmediateLocklessWriteLog = [] ∧
          t3.DelayedLocklessWriteLog = [] ∧
          s3.Tablets args.TabletSnapshot.TabletId = some tablet3 ∧
          tablet3.Pending = tablet.Pending ∧
          tablet3.TabletLockCount = tablet.TabletLockCount := by
  have hW := Write_drained env args s tm data tablet fuel hatomicity hversioned htablet
    hrevision hmounted hpo hrep hconflict hlimit hmemory hbarrier hfresh hdata hconsumed
    hblocked herror
  obtain ⟨hq1, _, _, htab1⟩ := WriteSubmit_fields env args args.TabletSnapshot.TabletId tablet
    false args.Signature 0
    (ExecuteWrites env s args.TabletSnapshot.TabletId { Data := data, Current := 0 }
      (PrelockContext args.TransactionId))
  have hreader : (ExecuteWrites env s args.TabletSnapshot.TabletId
      { Data := data, Current := 0 } (PrelockContext args.TransactionId)).Reader =
      { Data := data, Current := data.length } := by
    simp only [ExecuteWrites, Nat.zero_add, Nat.min_eq_right hconsumed]
  have hfind1 := Find_append_fresh tm
    { FreshTransaction env args with
      PrelockedRows :=
        (env.ExecuteWrites s.Trace args.TabletSnapshot.TabletId
          { Data := data, Current := 0 } (PrelockContext args.TransactionId)).RowRefs
      TransientSignature := AddSignature env.InitialTransactionSignature args.Signature }
    hfresh
  have htablet1 := htab1 args.TabletSnapshot.TabletId
  rw [if_pos rfl] at htablet1
  have hstate : (ExecuteWrites env s args.TabletSnapshot.TabletId
      { Data := data, Current := 0 } (PrelockContext args.TransactionId)).State.Tablets
        args.TabletSnapshot.TabletId = some tablet := htablet
  rw [hstate, Option.map_some'] at htablet1
  have hq1' : (WriteSubmit env args args.TabletSnapshot.TabletId tablet false args.Signature 0
      (ExecuteWrites env s args.TabletSnapshot.TabletId { Data := data, Current := 0 }
        (PrelockContext args.TransactionId))).PrelockedTablets =
      [args.TabletSnapshot.TabletId] := by
    rw [hq1]
    show s.PrelockedTablets ++ _ = _
    rw [hqueue]
    rfl
  have hrev1 : tablet.MountRevision =
      (IncrementTabletInFlightMutationCount
        { tablet with TabletLockCount := tablet.TabletLockCount + 1 }
        (IsReplicatorWrite env args.Identity) 1).MountRevision := by
    cases IsReplicatorWrite env args.Identity <;> rfl
  have hweak1 : (IncrementTabletInFlightMutationCount
        { tablet with TabletLockCount := tablet.TabletLockCount + 1 }
        (IsReplicatorWrite env args.Identity) 1).CommitOrdering = ECommitOrdering.Weak := by
    cases IsReplicatorWrite env args.Identity <;> exact hweak
  have hslice : (ExecuteWrites env s args.TabletSnapshot.TabletId
      { Data := data, Current := 0 } (PrelockContext args.TransactionId)).Reader.Slice 0
      (ExecuteWrites env s args.TabletSnapshot.TabletId
        { Data := data, Current := 0 } (PrelockContext args.TransactionId)).Reader.Current =
      data := by
    rw [hreader]
    simp [TWireProtocolReader.Slice]
  obtain ⟨s2, hlead, _, htab2⟩ := HydraLeaderWriteRows_single_row env
    (WriteSubmit env args args.TabletSnapshot.TabletId tablet false args.Signature 0
      (ExecuteWrites env s args.TabletSnapshot.TabletId { Data := data, Current := 0 }
        (PrelockContext args.TransactionId)))
    _ _ args.TransactionId tablet.MountRevision args.Signature
    (MakeWriteRowsMutation env args args.TabletSnapshot.TabletId tablet.MountRevision
      args.Signature false
      ((ExecuteWrites env s args.TabletSnapshot.TabletId
        { Data := data, Current := 0 } (PrelockContext args.TransactionId)).Reader.Slice 0
        (ExecuteWrites env s args.TabletSnapshot.TabletId
          { Data := data, Current := 0 } (PrelockContext args.TransactionId)).Reader.Current)
      (ExecuteWrites env s args.TabletSnapshot.TabletId
        { Data := data, Current := 0 } (PrelockContext args.TransactionId)).Context).Handler.WriteRecord
    args.Identity _ rowRef hatomicity hq1' htablet1 hrev1 hweak1 hfind1 hrowRefs hrowCount
    hvalid
  have htablet2 := htab2 args.TabletSnapshot.TabletId
  simp only [MakeWriteRowsMutation, if_true, htablet1, Option.map_some'] at htablet2
  refine ⟨_, _, s2, _, _, hW, rfl, hlead, Find_Store _ hfind1 rfl, rfl, hslice, hrowCount,
    rfl, rfl, fun commitTimestamp prepareTimestamp hunflushed => ?_⟩
  obtain ⟨hu1, hp1, hl1⟩ := IncrementInFlight_fields
    { tablet with TabletLockCount := tablet.TabletLockCount + 1 }
    (IsReplicatorWrite env args.Identity) 1
  obtain ⟨hu2, hp2, hl2⟩ := LeaderLockedEffect_fields env args.Identity
    { FreshTransaction env args with
      PrelockedRows :=
        (env.ExecuteWrites s.Trace args.TabletSnapshot.TabletId
          { Data := data, Current := 0 } (PrelockContext args.TransactionId)).RowRefs
      TransientSignature := AddSignature env.InitialTransactionSignature args.Signature }
    (IncrementTabletInFlightMutationCount
      { tablet with TabletLockCount := tablet.TabletLockCount + 1 }
      (IsReplicatorWrite env args.Identity) 1)
  rw [hu1] at hu2
  rw [hp1] at hp2
  rw [hl1] at hl2
  generalize LeaderLockedEffect env args.Identity
    { FreshTransaction env args with
      PrelockedRows :=
        (env.ExecuteWrites s.Trace args.TabletSnapshot.TabletId
          { Data := data, Current := 0 } (PrelockContext args.TransactionId)).RowRefs
      TransientSignature := AddSignature env.InitialTransactionSignature args.Signature }
    (IncrementTabletInFlightMutationCount
      { tablet with TabletLockCount := tablet.TabletLockCount + 1 }
      (IsReplicatorWrite env args.Identity) 1) = tablet2 at htablet2 hu2 hp2 hl2
  have hunfl : ∀ tab, s2.Tablets rowRef.Tablet = some tab →
      tab.UnflushedTimestamp ≤ commitTimestamp := by
    intro tab htab
    rw [hrowTablet, htablet2] at htab
    cases htab
    rw [hu2]
    exact hunflushed
  have key : ∀ tc : TTransaction, tc.PrelockedRows = [] → tc.LockedRows = [rowRef] →
      tc.ImmediateLocklessWriteLog = [] → tc.DelayedLocklessWriteLog = [] →
      tc.LockedTablets = [] → tc.CommitTimestamp = commitTimestamp →
      tc.Id = args.TransactionId → tc.AuthenticationIdentity = args.Identity →
      RecordCount args.TabletSnapshot.TabletId tc.ImmediateLockedWriteLog = 1 →
      ∃ s3 t3 tablet3,
        OnTransactionCommitted env s2 tc = .ok (s3, t3) ∧
        TEvent.CommitRow args.TransactionId rowRef ∈ s3.Trace ∧
        t3.ImmediateLockedWriteLog = [] ∧ t3.ImmediateLocklessWriteLog = [] ∧
        t3.DelayedLocklessWriteLog = [] ∧
        s3.Tablets args.TabletSnapshot.TabletId = some tablet3 ∧
        tablet3.Pending = tablet.Pending ∧
        tablet3.TabletLockCount = tablet.TabletLockCount := by
    intro tc hc1 hc2 hc3 hc4 hc5 hc6 hc7 hc8 hc9
    obtain ⟨s3, t3, hcommit, hmem⟩ := OnTransactionCommitted_single_row_ok env s2 tc rowRef
      hc1 hc2 hc3 hc4 hvalid (hc6 ▸ hunfl)
    obtain ⟨_, hlog1, hlog2, hlog3, _⟩ := OnTransactionCommitted_spec env s2 s3 tc t3 hcommit
    obtain ⟨hpending, hlocks⟩ :=
      OnTransactionCommitted_tablets env s2 s3 tc t3 hcommit args.TabletSnapshot.TabletId
    have hzero : RecordCount args.TabletSnapshot.TabletId [] = 0 := rfl
    rw [htablet2, hc8, hc9, hc3, hzero] at hpending
    rw [htablet2, hc4, hc5] at hlocks
    cases h3 : s3.Tablets args.TabletSnapshot.TabletId with
    | none => simp [h3] at hpending
    | some tablet3 =>
      simp only [h3, Option.map_some', Option.some.injEq] at hpending hlocks
      refine ⟨s3, t3, tablet3, hcommit, hc7 ▸ hmem, hlog1, hlog2, hlog3.trans hc4, h3, ?_, ?_⟩
      · rw [hpending, hp2]
        simp only [FreshTransaction]
        rw [AddPending_add]
        simp [AddPending_zero]
        rfl
      · rw [hlocks, hl2]
        simp
  refine key _ rfl rfl rfl rfl rfl rfl rfl rfl ?_
  simp [RecordCount, MakeWriteRowsMutation, FreshTransaction]

theorem scenario_full_weak_single_row_witness :
    ∃ l m s2 tm2 t2 s3 t3 tablet3,
      Write SamplePrelockingCollaborators 1 SampleIdleState [] SampleWriteArgs
        { Data := [1, 2, 3], Current := 0 } = some (.ok l) ∧
      l.State.Mutations = [m] ∧
      ApplyLeader SamplePrelockingCollaborators l.State l.Transactions m = .ok (s2, tm2) ∧
      tm2.Find 2 = some t2 ∧
      t2.ImmediateLockedWriteLog = [m.Handler.WriteRecord] ∧
      OnTransactionCommitted SamplePrelockingCollaborators s2
        { t2 with State := .Committed, PrepareTimestamp := 0, CommitTimestamp := 5 } =
        .ok (s3, t3) ∧
      t3.ImmediateLockedWriteLog = [] ∧
      s3.Tablets 7 = some tablet3 ∧ tablet3.TabletLockCount = 0 := by
  obtain ⟨l, m, s2, tm2, t2, h1, h2, h3, h4, h5, _, _, _, _, h10⟩ :=
    scenario_full_weak_single_row SamplePrelockingCollaborators SampleWriteArgs SampleIdleState
      [] [1, 2, 3] SampleIdleTablet { Store := 1, Row := 1, Tablet := 7 } 0
      rfl rfl rfl rfl rfl rfl rfl rfl rfl rfl rfl rfl rfl rfl (by decide) (by decide) rfl rfl
      rfl rfl rfl (fun _ => rfl)
  obtain ⟨s3, t3, tablet3, h11, _, h13, _, _, h16, _, h18⟩ := h10 5 0 (by decide)
  exact ⟨l, m, s2, tm2, t2, s3, t3, tablet3, h1, h2, h3, h4, h5, h11, h13, h16, h18⟩

/-! ## Validators -/

/-- Claim C14. `ValidateSyncReplicaSet` returns normally exactly when every declared id names
a replica of the tablet in `Sync` mode and every `Sync` replica of the tablet is declared.
Its result is the one the specification describes: the first declared id that is unknown or
not in `Sync` mode gives `SyncReplicaIsNotKnown` (unknown) or `SyncReplicaIsNotInSyncMode`
(known, other mode), and `SyncReplicaIsNotWritten` is raised exactly when all declared ids
are valid and some `Sync` replica of the tablet is not declared. -/
theorem validate_sync_replica_set_exact (tablet : TTablet) (ids : TSyncReplicaIdList) :
    (ValidateSyncReplicaSet tablet ids = .ok () ↔
      (∀ id ∈ ids, ∃ r, tablet.FindReplicaInfo id = some r ∧ r.Mode = ETableReplicaMode.Sync) ∧
        ∀ r ∈ tablet.Replicas, r.Mode = ETableReplicaMode.Sync → r.Id ∈ ids) ∧
      ValidateSyncReplicaSet tablet ids = SpecValidateSyncReplicaSet tablet ids ∧
      (ValidateSyncReplicaSet tablet ids = .error .SyncReplicaIsNotWritten ↔
        (∀ id ∈ ids, ∃ r, tablet.FindReplicaInfo id = some r ∧
            r.Mode = ETableReplicaMode.Sync) ∧
          ∃ r ∈ tablet.Replicas, r.Mode = ETableReplicaMode.Sync ∧ r.Id ∉ ids) := by
  have hvalid : ids.find? (fun replicaId => !DeclaredSync tablet replicaId) = none ↔
      ∀ id ∈ ids, ∃ r, tablet.FindReplicaInfo id = some r ∧
        r.Mode = ETableReplicaMode.Sync := by
    rw [List.find?_eq_none]
    constructor
    · intro h id hid
      have := h id hid
      simp only [Bool.not_eq_true', Bool.not_eq_false, Bool.not_eq_true] at this
      exact (DeclaredSync_iff tablet id).mp (by simpa using this)
    · intro h id hid
      have := (DeclaredSync_iff tablet id).mpr (h id hid)
      simp [this]
  have hany : tablet.Replicas.any
      (fun r => r.Mode == ETableReplicaMode.Sync && !ids.contains r.Id) = true ↔
      ∃ r ∈ tablet.Replicas, r.Mode = ETableReplicaMode.Sync ∧ r.Id ∉ ids := by
    simp [List.any_eq_true]
  refine ⟨?_, ValidateSyncReplicaSet_spec tablet ids, ?_⟩
  · rw [ValidateSyncReplicaSet_spec]
    unfold SpecValidateSyncReplicaSet
    cases hf : ids.find? (fun replicaId => !DeclaredSync tablet replicaId) with
    | some id =>
      have hne : ¬ ∀ id ∈ ids, ∃ r, tablet.FindReplicaInfo id = some r ∧
          r.Mode = ETableReplicaMode.Sync := fun h => by
        rw [hvalid.mpr h] at hf
        cases hf
      constructor
      · intro h
        by_cases hk : (tablet.FindReplicaInfo id).isNone = true
        · simp [hk] at h
        · simp [hk] at h
      · intro h
        exact absurd h.1 hne
    | none =>
      have hall := hvalid.mp hf
      by_cases ha : tablet.Replicas.any
          (fun r => r.Mode == ETableReplicaMode.Sync && !ids.contains r.Id) = true
      · simp only [ha, if_true]
        constructor
        · intro h
          cases h
        · intro h
          obtain ⟨r, hr, hm, hn⟩ := hany.mp ha
          exact absurd (h.2 r hr hm) hn
      · simp only [ha]
        constructor
        · intro _
          refine ⟨hall, fun r hr hm => ?_⟩
          by_contra hn
          exact ha (hany.mpr ⟨r, hr, hm, hn⟩)
        · intro _
          trivial
  · rw [ValidateSyncReplicaSet_spec]
    unfold SpecValidateSyncReplicaSet
    cases hf : ids.find? (fun replicaId => !DeclaredSync tablet replicaId) with
    | some id =>
      have hne : ¬ ∀ id ∈ ids, ∃ r, tablet.FindReplicaInfo id = some r ∧
          r.Mode = ETableReplicaMode.Sync := fun h => by
        rw [hvalid.mpr h] at hf
        cases hf
      constructor
      · intro h
        by_cases hk : (tablet.FindReplicaInfo id).isNone = true
        · simp [hk] at h
        · simp [hk] at h
      · intro h
        exact absurd h.1 hne
    | none =>
      have hall := hvalid.mp hf
      by_cases ha : tablet.Replicas.any
          (fun r => r.Mode == ETableReplicaMode.Sync && !ids.contains r.Id) = true
      · simp only [ha, if_true]
        exact ⟨fun _ => ⟨hall, hany.mp ha⟩, fun _ => trivial⟩
      · simp only [ha]
        constructor
        · intro h
          simp at h
        · intro h
          exact absurd (hany.mpr h.2) ha

theorem validate_sync_replica_set_exact_witness :
    ValidateSyncReplicaSet SampleReplicatedTablet [1] = .ok () ∧
      ValidateSyncReplicaSet SampleReplicatedTablet [1, 1] = .ok () ∧
      ValidateSyncReplicaSet SampleReplicatedTablet [2, 3] = .error .SyncReplicaIsNotKnown ∧
      ValidateSyncReplicaSet SampleReplicatedTablet [] = .error .SyncReplicaIsNotWritten :=
  ⟨(validate_sync_replica_set_exact SampleReplicatedTablet [1]).1.mpr
      ⟨fun id hid => ⟨SampleReplica, by
        simp only [List.mem_singleton] at hid
        subst hid
        exact ⟨rfl, rfl⟩⟩, by decide⟩,
    (validate_sync_replica_set_exact SampleReplicatedTablet [1, 1]).2.1.trans rfl,
    (validate_sync_replica_set_exact SampleReplicatedTablet [2, 3]).2.1.trans rfl,
    (validate_sync_replica_set_exact SampleReplicatedTablet []).2.2.mpr
      ⟨by simp, SampleReplica, by decide, rfl, by simp⟩⟩

/-- Claim C15. `ValidateWriteBarrier` rejects a replicator write, with
`ReplicatorWriteBlockedByUser`, exactly when the tablet's in-flight user mutation count or
its pending user write record count is positive, and accepts it otherwise; it rejects a user
write, with `UserWriteBlockedByReplicator`, exactly when the in-flight replicator mutation
count or the pending replicator write record count is positive, and accepts it otherwise.
The counters of the write's own kind do not enter the result. -/
theorem write_barrier_exact (tablet : TTablet) :
    (ValidateWriteBarrier true tablet = .error .ReplicatorWriteBlockedByUser ↔
        tablet.InFlightUserMutationCount > 0 ∨ tablet.PendingUserWriteRecordCount > 0) ∧
      (ValidateWriteBarrier true tablet = .ok () ↔
        ¬ (tablet.InFlightUserMutationCount > 0 ∨ tablet.PendingUserWriteRecordCount > 0)) ∧
      (ValidateWriteBarrier false tablet = .error .UserWriteBlockedByReplicator ↔
        tablet.InFlightReplicatorMutationCount > 0 ∨
          tablet.PendingReplicatorWriteRecordCount > 0) ∧
      (ValidateWriteBarrier false tablet = .ok () ↔
        ¬ (tablet.InFlightReplicatorMutationCount > 0 ∨
          tablet.PendingReplicatorWriteRecordCount > 0)) ∧
      (∀ inFlight pending : Int,
        ValidateWriteBarrier true
            { tablet with
              InFlightReplicatorMutationCount := inFlight
              PendingReplicatorWriteRecordCount := pending } =
          ValidateWriteBarrier true tablet) ∧
      (∀ inFlight pending : Int,
        ValidateWriteBarrier false
            { tablet with
              InFlightUserMutationCount := inFlight
              PendingUserWriteRecordCount := pending } =
          ValidateWriteBarrier false tablet) := by
  refine ⟨?_, ?_, ?_, ?_, fun _ _ => rfl, fun _ _ => rfl⟩
  · unfold ValidateWriteBarrier
    by_cases h1 : tablet.InFlightUserMutationCount > 0
    · simp [h1]
    · by_cases h2 : tablet.PendingUserWriteRecordCount > 0
      · simp [h1, h2]
      · simp [h1, h2]
  · unfold ValidateWriteBarrier
    by_cases h1 : tablet.InFlightUserMutationCount > 0
    · simp [h1]
    · by_cases h2 : tablet.PendingUserWriteRecordCount > 0
      · simp [h1, h2]
      · simp [h1, h2]
  · unfold ValidateWriteBarrier
    by_cases h1 : tablet.InFlightReplicatorMutationCount > 0
    · simp [h1]
    · by_cases h2 : tablet.PendingReplicatorWriteRecordCount > 0
      · simp [h1, h2]
      · simp [h1, h2]
  · unfold ValidateWriteBarrier
    by_cases h1 : tablet.InFlightReplicatorMutationCount > 0
    · simp [h1]
    · by_cases h2 : tablet.PendingReplicatorWriteRecordCount > 0
      · simp [h1, h2]
      · simp [h1, h2]

theorem write_barrier_exact_witness :
    (SampleTablet.InFlightUserMutationCount > 0 ∨ SampleTablet.PendingUserWriteRecordCount > 0) ∧
      ValidateWriteBarrier true SampleTablet = .error .ReplicatorWriteBlockedByUser ∧
      ValidateWriteBarrier false SampleTablet = .ok () :=
  ⟨Or.inl (by decide), (write_barrier_exact SampleTablet).1.mpr (Or.inl (by decide)),
    (write_barrier_exact SampleTablet).2.2.2.1.mpr (by decide)⟩

/-- Claim C17. `ValidateTabletStoreLimit` accepts a tablet exactly when its store count, its
overlapping store count and its eden store count are strictly below `MaxStoresPerTablet`,
`MaxOverlappingStoreCount` and `MaxEdenStoresPerTablet`, and the store manager's
`CheckOverflow` is OK.  Every error it raises has the code `AllWritesDisabled`, and the error
is that of the first violated condition in this order; in particular a count equal to its
limit is rejected. -/
theorem validate_tablet_store_limit_exact (env : TCollaborators) (s : TState)
    (tabletId : TTabletId) (tablet : TTablet) :
    (ValidateTabletStoreLimit env s tabletId tablet = .ok () ↔
        tablet.StoreCount < tablet.MaxStoresPerTablet ∧
          tablet.OverlappingStoreCount < tablet.MaxOverlappingStoreCount ∧
          tablet.EdenStoreCount < tablet.MaxEdenStoresPerTablet ∧
          env.CheckOverflow s.Trace tabletId = true) ∧
      (∀ e, ValidateTabletStoreLimit env s tabletId tablet = .error e →
        e.IsAllWritesDisabled = true) ∧
      (tablet.StoreCount ≥ tablet.MaxStoresPerTablet →
        ValidateTabletStoreLimit env s tabletId tablet = .error .AllWritesDisabledStores) ∧
      (tablet.StoreCount < tablet.MaxStoresPerTablet →
        tablet.OverlappingStoreCount ≥ tablet.MaxOverlappingStoreCount →
        ValidateTabletStoreLimit env s tabletId tablet =
          .error .AllWritesDisabledOverlappingStores) ∧
      (tablet.StoreCount < tablet.MaxStoresPerTablet →
        tablet.OverlappingStoreCount < tablet.MaxOverlappingStoreCount →
        tablet.EdenStoreCount ≥ tablet.MaxEdenStoresPerTablet →
        ValidateTabletStoreLimit env s tabletId tablet = .error .AllWritesDisabledEdenStores) ∧
      (tablet.StoreCount < tablet.MaxStoresPerTablet →
        tablet.OverlappingStoreCount < tablet.MaxOverlappingStoreCount →
        tablet.EdenStoreCount < tablet.MaxEdenStoresPerTablet →
        env.CheckOverflow s.Trace tabletId = false →
        ValidateTabletStoreLimit env s tabletId tablet = .error .AllWritesDisabledOverflow) := by
  unfold ValidateTabletStoreLimit
  by_cases h1 : tablet.StoreCount ≥ tablet.MaxStoresPerTablet
  · have h1' : ¬ tablet.StoreCount < tablet.MaxStoresPerTablet := by omega
    simp [h1, h1', TError.IsAllWritesDisabled]
  · have h1' : tablet.StoreCount < tablet.MaxStoresPerTablet := by omega
    by_cases h2 : tablet.OverlappingStoreCount ≥ tablet.MaxOverlappingStoreCount
    · have h2' : ¬ tablet.OverlappingStoreCount < tablet.MaxOverlappingStoreCount := by omega
      simp [h1, h1', h2, h2', TError.IsAllWritesDisabled]
    · have h2' : tablet.OverlappingStoreCount < tablet.MaxOverlappingStoreCount := by omega
      by_cases h3 : tablet.EdenStoreCount ≥ tablet.MaxEdenStoresPerTablet
      · have h3' : ¬ tablet.EdenStoreCount < tablet.MaxEdenStoresPerTablet := by omega
        simp [h1, h1', h2, h2', h3, h3', TError.IsAllWritesDisabled]
      · have h3' : tablet.EdenStoreCount < tablet.MaxEdenStoresPerTablet := by omega
        cases h4 : env.CheckOverflow s.Trace tabletId with
        | false => simp [h1, h1', h2, h2', h3, h3', h4, TError.IsAllWritesDisabled]
        | true => simp [h1, h1', h2, h2', h3, h3', h4]

theorem validate_tablet_store_limit_exact_witness :
    ({ SampleTablet with StoreCount := 10 } : TTablet).StoreCount ≥
        ({ SampleTablet with StoreCount := 10 } : TTablet).MaxStoresPerTablet ∧
      ValidateTabletStoreLimit SampleCollaborators SampleState 7
          { SampleTablet with StoreCount := 10 } = .error .AllWritesDisabledStores ∧
      ValidateTabletStoreLimit SampleCollaborators SampleState 7 SampleTablet = .ok () :=
  ⟨by decide,
    (validate_tablet_store_limit_exact SampleCollaborators SampleState 7
      { SampleTablet with StoreCount := 10 }).2.2.1 (by decide),
    (validate_tablet_store_limit_exact SampleCollaborators SampleState 7 SampleTablet).1.mpr
      (by decide)⟩

/-- Claim C16, evaluated at a failing input. The transaction id has atomicity `None` and its
timestamp is outside the clock-skew threshold. With a stale mount revision in the snapshot,
and also with a current mount revision and an unmounted tablet, `Write` raises the clock-skew
error `TimestampOffLimits`, although resolving the tablet alone raises
`InvalidMountRevision`, respectively `TabletNotMounted`. -/
theorem write_reports_clock_skew_before_mount_revision :
    SampleCollaborators.AtomicityFromTransactionId 2001 = EAtomicity.None ∧
      ActualizeTablet SampleState SampleSkewedStaleArgs.TabletSnapshot none =
        .error .InvalidMountRevision ∧
      Write SampleCollaborators 3 SampleState [] SampleSkewedStaleArgs
        { Data := [1, 2, 3], Current := 0 } = some (.error .TimestampOffLimits) ∧
      ActualizeTablet SampleUnmountedState
          { SampleWriteArgs with TransactionId := 2001 }.TabletSnapshot none =
        .error .TabletNotMounted ∧
      Write SampleCollaborators 3 SampleUnmountedState []
        { SampleWriteArgs with TransactionId := 2001 }
        { Data := [1, 2, 3], Current := 0 } = some (.error .TimestampOffLimits) :=
  ⟨rfl, rfl, rfl, rfl, rfl⟩

/-- Claim C16, as amended. `Write` fails fast in this order: for a transaction id of
atomicity `None` the clock-skew validation comes first, and its error `TimestampOffLimits` is
the one raised whatever the tablet's mount revision and state; once it has passed (or the
atomicity is `Full`), a missing tablet gives `NoSuchTablet`, then a mount revision different
from the snapshot's gives `InvalidMountRevision`, then a tablet that is not mounted gives
`TabletNotMounted`. -/
theorem write_validation_order (env : TCollaborators) (fuel : Nat) (s : TState)
    (tm : TTransactionManager) (args : TWriteArgs) (reader : TWireProtocolReader) :
    (env.AtomicityFromTransactionId args.TransactionId = EAtomicity.None →
        ∀ e, ValidateClientTimestamp env args.TransactionId = .error e →
          e = TError.TimestampOffLimits ∧
            Write env fuel s tm args reader = some (.error .TimestampOffLimits)) ∧
      ((env.AtomicityFromTransactionId args.TransactionId = EAtomicity.Full ∨
          ValidateClientTimestamp env args.TransactionId = .ok ()) →
        (s.Tablets args.TabletSnapshot.TabletId = none →
          Write env fuel s tm args reader = some (.error .NoSuchTablet)) ∧
        (∀ tablet, s.Tablets args.TabletSnapshot.TabletId = some tablet →
          (tablet.MountRevision ≠ args.TabletSnapshot.MountRevision →
            Write env fuel s tm args reader = some (.error .InvalidMountRevision)) ∧
          (tablet.MountRevision = args.TabletSnapshot.MountRevision →
            tablet.State ≠ ETabletState.Mounted →
            Write env fuel s tm args reader = some (.error .TabletNotMounted)))) := by
  constructor
  · intro hnone e hv
    have he : e = TError.TimestampOffLimits := by
      unfold ValidateClientTimestamp at hv
      simp only at hv
      split at hv
      · cases hv
        rfl
      · cases hv
    subst he
    refine ⟨rfl, ?_⟩
    unfold Write
    simp only [hnone, if_true, hv]
  · intro hpass
    have hvalidated :
        (if env.AtomicityFromTransactionId args.TransactionId = EAtomicity.None then
          ValidateClientTimestamp env args.TransactionId else .ok ()) = .ok () := by
      rcases hpass with hfull | hok
      · simp [hfull]
      · split
        · exact hok
        · rfl
    refine ⟨fun hmissing => ?_, fun tablet hfound => ⟨fun hrev => ?_, fun hrev hstate => ?_⟩⟩
    · unfold Write
      simp only [hvalidated, ActualizeTablet, TState.GetTabletOrThrow, hmissing]
    · unfold Write
      simp only [hvalidated, ActualizeTablet, TState.GetTabletOrThrow, hfound]
      simp [hrev]
    · unfold Write
      simp only [hvalidated, ActualizeTablet, TState.GetTabletOrThrow, hfound]
      simp [hrev, hstate]

theorem write_validation_order_witness :
    SampleCollaborators.AtomicityFromTransactionId SampleSkewedStaleArgs.TransactionId =
        EAtomicity.None ∧
      ValidateClientTimestamp SampleCollaborators SampleSkewedStaleArgs.TransactionId =
        .error .TimestampOffLimits ∧
      Write SampleCollaborators 3 SampleState [] SampleSkewedStaleArgs
        { Data := [1, 2, 3], Current := 0 } = some (.error .TimestampOffLimits) ∧
      Write SampleCollaborators 3 SampleState []
        { SampleWriteArgs with TabletSnapshot := { TabletId := 7, MountRevision := 5 } }
        { Data := [1, 2, 3], Current := 0 } = some (.error .InvalidMountRevision) :=
  ⟨rfl, rfl,
    ((write_validation_order SampleCollaborators 3 SampleState [] SampleSkewedStaleArgs
      { Data := [1, 2, 3], Current := 0 }).1 rfl _ rfl).2,
    ((write_validation_order SampleCollaborators 3 SampleState []
      { SampleWriteArgs with TabletSnapshot := { TabletId := 7, MountRevision := 5 } }
      { Data := [1, 2, 3], Current := 0 }).2 (Or.inl rfl)).2 SampleTablet rfl |>.1 (by decide)⟩

/-- Claim C24. Under a reign that is not older than `ReplicationBarrier_YT_14346`,
`ValidateReplicaWritable` throws for a synchronous replica exactly when its current replication
row index is below the tablet's total row count plus delayed lockless row count or its state
is not `Enabled`; a synchronous replica whose index is above that sum reaches the alert and is
not rejected for it (with state `Enabled` and no prepared replication transaction the call
returns); for an asynchronous replica it throws exactly when the index is above the total row
count, and returns otherwise. The only other outcome is the failed `YT_VERIFY` on a
synchronous replica that passed both checks and has a prepared replication transaction. -/
theorem validate_replica_writable_exact (env : TCollaborators) (tablet : TTablet)
    (replicaInfo : TTableReplicaInfo) (hreign : ¬ env.Reign < env.ReplicationBarrier_YT_14346) :
    (replicaInfo.Mode = ETableReplicaMode.Sync →
      ((ValidateReplicaWritable env tablet replicaInfo = .error .ReplicaNotWritable ↔
          replicaInfo.CurrentReplicationRowIndex <
              tablet.TotalRowCount + tablet.DelayedLocklessRowCount ∨
            replicaInfo.State ≠ ETableReplicaState.Enabled) ∧
        (replicaInfo.CurrentReplicationRowIndex >
            tablet.TotalRowCount + tablet.DelayedLocklessRowCount →
          ReplicationRowIndexAlert env tablet replicaInfo = true ∧
            (replicaInfo.State = ETableReplicaState.Enabled →
              replicaInfo.PreparedReplicationTransactionId = none →
              ValidateReplicaWritable env tablet replicaInfo = .ok ())) ∧
        (ValidateReplicaWritable env tablet replicaInfo = .error .Fatal ↔
          ¬ replicaInfo.CurrentReplicationRowIndex <
              tablet.TotalRowCount + tablet.DelayedLocklessRowCount ∧
            replicaInfo.State = ETableReplicaState.Enabled ∧
            replicaInfo.PreparedReplicationTransactionId.isSome = true))) ∧
      (replicaInfo.Mode = ETableReplicaMode.Async →
        ((ValidateReplicaWritable env tablet replicaInfo = .error .ReplicaNotWritable ↔
            replicaInfo.CurrentReplicationRowIndex > tablet.TotalRowCount) ∧
          (¬ replicaInfo.CurrentReplicationRowIndex > tablet.TotalRowCount →
            ValidateReplicaWritable env tablet replicaInfo = .ok ()) ∧
          ReplicationRowIndexAlert env tablet replicaInfo = false)) ∧
      ∀ e, ValidateReplicaWritable env tablet replicaInfo = .error e →
        e = .ReplicaNotWritable ∨ e = .Fatal := by
  refine ⟨fun hmode => ?_, fun hmode => ?_, fun e he => ?_⟩
  · simp only [ValidateReplicaWritable, ReplicationRowIndexAlert, hmode, hreign, if_false]
    by_cases hlow : replicaInfo.CurrentReplicationRowIndex <
        tablet.TotalRowCount + tablet.DelayedLocklessRowCount
    · have hnot : ¬ replicaInfo.CurrentReplicationRowIndex >
          tablet.TotalRowCount + tablet.DelayedLocklessRowCount := by omega
      simp [hlow, hnot]
    · by_cases hstate : replicaInfo.State = ETableReplicaState.Enabled
      · cases hprepared : replicaInfo.PreparedReplicationTransactionId <;>
          simp [hlow, hstate]
      · simp [hlow, hstate]
  · simp only [ValidateReplicaWritable, ReplicationRowIndexAlert, hmode]
    by_cases hhigh : replicaInfo.CurrentReplicationRowIndex > tablet.TotalRowCount
    · simp [hhigh]
    · simp [hhigh]
  · unfold ValidateReplicaWritable at he
    cases hmode : replicaInfo.Mode
    · simp only [hmode, hreign, if_false] at he
      split at he
      · rename_i e1 hb
        split at hb
        · simp only [Except.error.injEq] at hb he
          exact Or.inl (he.symm.trans hb.symm)
        · exact absurd hb (by simp)
      · split at he
        · simp only [Except.error.injEq] at he; exact Or.inl he.symm
        · split at he
          · simp only [Except.error.injEq] at he; exact Or.inr he.symm
          · exact absurd he (by simp)
    · simp only [hmode] at he
      split at he
      · simp only [Except.error.injEq] at he; exact Or.inl he.symm
      · exact absurd he (by simp)

theorem validate_replica_writable_exact_witness :
    ValidateReplicaWritable SampleCollaborators SampleReplicatedTablet
        { SampleReplica with CurrentReplicationRowIndex := 3 } = .ok () ∧
      ReplicationRowIndexAlert SampleCollaborators SampleReplicatedTablet
        { SampleReplica with CurrentReplicationRowIndex := 3 } = true :=
  ⟨(((validate_replica_writable_exact SampleCollaborators SampleReplicatedTablet
      { SampleReplica with CurrentReplicationRowIndex := 3 } (by decide)).1 rfl).2.1
      (by decide)).2 rfl rfl,
    (((validate_replica_writable_exact SampleCollaborators SampleReplicatedTablet
      { SampleReplica with CurrentReplicationRowIndex := 3 } (by decide)).1 rfl).2.1
      (by decide)).1⟩

/-! ## Commit, abort and prepare hooks -/

/-- Claim C18. Let `OnTransactionCommitted` return for a transaction with commit timestamp
`c`. For every tablet of the host, each replica whose id is listed in the `SyncReplicaIds` of
some delayed lockless record of the transaction that targets the tablet has its current
replication timestamp set to the maximum of its old value and `c`, however many records list
it; every other replica is as it was. So no replication timestamp decreases. -/
theorem commit_advances_replication_timestamps (env : TCollaborators) (s s1 : TState)
    (t t1 : TTransaction) (h : OnTransactionCommitted env s t = .ok (s1, t1))
    (id : TTabletId) (tablet : TTablet) (htablet : s.Tablets id = some tablet) :
    ∃ tablet1, s1.Tablets id = some tablet1 ∧
      tablet1.Replicas = tablet.Replicas.map (fun r =>
        if DeclaredIn t.DelayedLocklessWriteLog id r.Id then
          { r with
            CurrentReplicationTimestamp := max r.CurrentReplicationTimestamp t.CommitTimestamp }
        else r) ∧
      List.Forall₂
        (fun r r1 => r1.Id = r.Id ∧
          r.CurrentReplicationTimestamp ≤ r1.CurrentReplicationTimestamp)
        tablet.Replicas tablet1.Replicas := by
  obtain ⟨_, s4, hr, _, hframe⟩ := OnTransactionCommitted_phases env s t _ h
  have h4 := hframe _ TTablet.Replicas (fun _ _ => rfl) (fun _ _ => rfl) id
  have hs1 : s1 = (CommitEpilogue env { t with LockedRows := [] } s4).1 :=
    congrArg Prod.fst hr
  have hrep := CommitEpilogue_Replicas env { t with LockedRows := [] } s4 id
  rw [← hs1, h4, htablet] at hrep
  cases h1 : s1.Tablets id with
  | none => simp [h1] at hrep
  | some tablet1 =>
    simp only [h1, Option.map_some', Option.some.injEq] at hrep
    refine ⟨tablet1, rfl, hrep, ?_⟩
    rw [hrep, List.forall₂_map_right_iff, List.forall₂_same]
    intro r _
    split
    · exact ⟨rfl, le_max_left _ _⟩
    · exact ⟨rfl, le_refl _⟩

theorem commit_advances_replication_timestamps_witness :
    ∃ s1 t1 tablet1,
      OnTransactionCommitted SampleCollaborators SampleReplicatedState
        SampleCommittedTransaction = .ok (s1, t1) ∧
      s1.Tablets 8 = some tablet1 ∧
      tablet1.Replicas = [{ SampleReplica with CurrentReplicationTimestamp := 5 }] := by
  obtain ⟨tablet1, h1, h2, _⟩ :=
    commit_advances_replication_timestamps SampleCollaborators SampleReplicatedState _
      SampleCommittedTransaction _ rfl 8 SampleReplicatedTablet rfl
  exact ⟨_, _, tablet1, rfl, h1, h2.trans (by decide)⟩

/-- Claim C19, evaluated at a failing input. A transaction with one prelocked row and no
locked rows is aborted: `OnTransactionAborted` fails its `YT_VERIFY` on the prelocked-row
queue instead of completing. -/
theorem abort_with_prelocked_rows_is_fatal :
    SampleTransaction.PrelockedRows = [{ Store := 1, Row := 1, Tablet := 7 }] ∧
      OnTransactionAborted SampleCollaborators SampleState SampleTransaction =
        .error .Fatal :=
  ⟨rfl, rfl⟩

/-- Claim C19, as amended. `OnTransactionAborted` requires an empty prelocked-row queue: with
a non-empty one it fails fatally. With an empty one it completes, has invoked `AbortRow` on
each valid locked row from the last to the first and on nothing else, and leaves the
locked-row list and the prelocked-row queue empty. Prelocked rows are aborted by
`OnTransactionTransientReset`, which invokes `AbortRow` on each valid one from the first to
the last and leaves the queue empty. Validity is what `ValidateAndDiscardRowRef` answers. -/
theorem abort_rows_in_order (env : TCollaborators) (s : TState) (transaction : TTransaction)
    (valid : TSortedDynamicRowRef → Bool)
    (hvalid : ∀ trace rowRef, env.ValidateAndDiscardRowRef trace rowRef = valid rowRef) :
    (transaction.PrelockedRows ≠ [] →
        OnTransactionAborted env s transaction = .error .Fatal) ∧
      (transaction.PrelockedRows = [] →
        ∃ s1 t1, OnTransactionAborted env s transaction = .ok (s1, t1) ∧
          t1.LockedRows = [] ∧ t1.PrelockedRows = [] ∧
          AbortedRows s1.Trace =
            AbortedRows s.Trace ++
              (transaction.LockedRows.reverse.filter valid).map
                (fun rowRef => (transaction.Id, rowRef))) ∧
      (OnTransactionTransientReset env s transaction).2.PrelockedRows = [] ∧
      AbortedRows (OnTransactionTransientReset env s transaction).1.Trace =
        AbortedRows s.Trace ++
          (transaction.PrelockedRows.filter valid).map
            (fun rowRef => (transaction.Id, rowRef)) := by
  refine ⟨fun hne => ?_, fun hempty => ?_, rfl, ?_⟩
  · unfold OnTransactionAborted
    rw [if_pos hne]
  · have hne : ¬ transaction.PrelockedRows ≠ [] := not_not.mpr hempty
    cases h : OnTransactionAborted env s transaction with
    | error e =>
      unfold OnTransactionAborted at h
      rw [if_neg hne] at h
      exact absurd h (by simp)
    | ok r =>
      obtain ⟨s1, t1⟩ := r
      unfold OnTransactionAborted at h
      rw [if_neg hne] at h
      simp only [Except.ok.injEq] at h
      have hs := congrArg Prod.fst h
      have ht := congrArg Prod.snd h
      simp only [] at hs ht
      subst hs ht
      refine ⟨_, _, rfl, ?_, ?_, ?_⟩
      · simp only [(Drop_rows env _ _ _).1]
        rfl
      · simp only [(Drop_rows env _ _ _).2]
        exact hempty
      · clear h
        simp only [Drop_Trace]
        split
        · rw [foldl_Trace
              (fun st (entry : TTabletId × Int) =>
                AddDelayedLocklessRowCount st entry.1 (-entry.2)) (fun _ _ => rfl),
            foldl_Trace
              (fun st (entry : (TTabletId × TTableReplicaId) × Int) =>
                AddCurrentReplicationRowIndex st entry.1.1 entry.1.2 (-entry.2))
              (fun _ _ => rfl)]
          simp only [UnlockLockedTablets]
          rw [foldl_Trace UnlockTablet (fun _ _ => rfl), CheckIf_AbortedRows,
            AbortLockedRows_AbortedRows env _ valid hvalid]
        · simp only [UnlockLockedTablets]
          rw [foldl_Trace UnlockTablet (fun _ _ => rfl), CheckIf_AbortedRows,
            AbortLockedRows_AbortedRows env _ valid hvalid]
  · exact AbortLockedRows_AbortedRows env transaction valid hvalid _ s

theorem abort_rows_in_order_witness :
    (∀ trace rowRef, SampleCollaborators.ValidateAndDiscardRowRef trace rowRef = true) ∧
      OnTransactionAborted SampleCollaborators SampleState SampleTransaction = .error .Fatal ∧
      AbortedRows (OnTransactionTransientReset SampleCollaborators SampleState
        SampleTransaction).1.Trace = [(2, { Store := 1, Row := 1, Tablet := 7 })] :=
  ⟨fun _ _ => rfl,
    (abort_rows_in_order SampleCollaborators SampleState SampleTransaction (fun _ => true)
      (fun _ _ => rfl)).1 (by decide),
    (abort_rows_in_order SampleCollaborators SampleState SampleTransaction (fun _ => true)
      (fun _ _ => rfl)).2.2.2⟩

/-- Claim C20. A persistent `OnTransactionPrepared` on a transaction whose rows-prepared flag
is set does not return normally, and fails fatally once the validations of the delayed
lockless records have passed.  A persistent `OnTransactionPrepared` that returns normally
leaves the flag set.  A non-persistent `OnTransactionPrepared` returns the transaction as it
was, flag included, and leaves every tablet of the host as it was, so no delayed lockless row
count and no current replication row index changes. -/
theorem rows_prepared_is_one_shot (env : TCollaborators) (s : TState)
    (transaction : TTransaction) :
    (transaction.RowsPrepared = true →
        (∀ r, OnTransactionPrepared env s transaction true ≠ .ok r) ∧
          ∀ maps, PrepareRecords env (PrepareLockedRows env s transaction) transaction
              transaction.DelayedLocklessWriteLog [] [] = .ok maps →
            OnTransactionPrepared env s transaction true = .error .Fatal) ∧
      (∀ s1 t1, OnTransactionPrepared env s transaction true = .ok (s1, t1) →
        t1.RowsPrepared = true) ∧
      ∃ s1, OnTransactionPrepared env s transaction false = .ok (s1, transaction) ∧
        s1.Tablets = s.Tablets := by
  refine ⟨fun hflag => ⟨fun r h => ?_, fun maps hmaps => ?_⟩, fun s1 t1 h => ?_, ?_⟩
  · unfold OnTransactionPrepared at h
    simp only [Bool.not_true, Bool.false_eq_true, if_false] at h
    cases hm : PrepareRecords env (PrepareLockedRows env s transaction) transaction
        transaction.DelayedLocklessWriteLog [] [] with
    | error e => simp [hm] at h
    | ok maps => simp [hm, hflag] at h
  · unfold OnTransactionPrepared
    simp only [Bool.not_true, Bool.false_eq_true, if_false, hmaps, hflag, if_true]
  · exact congrArg TTransaction.RowsPrepared (OnTransactionPrepared_spec env s s1 _ t1 h).1
  · exact ⟨PrepareLockedRows env s transaction, rfl, (PrepareLockedRows_frame env s _).1⟩

theorem rows_prepared_is_one_shot_witness :
    SamplePreparedTransaction.RowsPrepared = true ∧
      OnTransactionPrepared SampleCollaborators SampleState SamplePreparedTransaction true =
        .error .Fatal ∧
      ∃ s1 t1, OnTransactionPrepared SampleCollaborators SampleState SamplePlainTransaction
          true = .ok (s1, t1) ∧ t1.RowsPrepared = true :=
  ⟨rfl,
    ((rows_prepared_is_one_shot SampleCollaborators SampleState SamplePreparedTransaction).1
      rfl).2 _ rfl,
    _, _, rfl,
    (rows_prepared_is_one_shot SampleCollaborators SampleState SamplePlainTransaction).2.1
      _ _ rfl⟩

/-- Claim C22. When `OnTransactionCommitted` returns, the immediate locked and the immediate
lockless write log of the transaction are empty and its delayed lockless write log is as it
was; every tablet's pending write record count of the transaction's kind has gone down by the
number of records of the two immediate logs that name the tablet, and the memory guard by the
byte size of the two logs; if the delayed lockless log is empty, the transaction's list of
locked tablets is empty and every tablet's lock count has gone down by its multiplicity in
that list, otherwise the list and all lock counts are as they were; and no tablet's delayed
lockless row count and no replica's current replication row index has changed. -/
theorem commit_drops_immediate_logs (env : TCollaborators) (s s1 : TState)
    (t t1 : TTransaction) (h : OnTransactionCommitted env s t = .ok (s1, t1)) :
    t1.ImmediateLockedWriteLog = [] ∧ t1.ImmediateLocklessWriteLog = [] ∧
      t1.DelayedLocklessWriteLog = t.DelayedLocklessWriteLog ∧
      (∀ id, (s1.Tablets id).map TTablet.Pending =
        ((s.Tablets id).map TTablet.Pending).map
          (AddPending (IsReplicatorWrite env t.AuthenticationIdentity)
            (-(RecordCount id t.ImmediateLockedWriteLog +
              RecordCount id t.ImmediateLocklessWriteLog)))) ∧
      s1.WriteLogsMemoryTrackerGuard =
        s.WriteLogsMemoryTrackerGuard -
          (LogByteSize env t.ImmediateLockedWriteLog +
            LogByteSize env t.ImmediateLocklessWriteLog) ∧
      t1.LockedTablets = (if t.DelayedLocklessWriteLog = [] then [] else t.LockedTablets) ∧
      (∀ id, (s1.Tablets id).map (fun tab => tab.TabletLockCount) =
        ((s.Tablets id).map (fun tab => tab.TabletLockCount)).map (fun n =>
          n - (if t.DelayedLocklessWriteLog = [] then (t.LockedTablets.count id : Int)
            else 0))) ∧
      ∀ id, (s1.Tablets id).map TTablet.Provisional =
        (s.Tablets id).map TTablet.Provisional := by
  obtain ⟨_, hlocked, hlockless, hdelayed, _, _, _⟩ :=
    OnTransactionCommitted_spec env s s1 t t1 h
  obtain ⟨_, s4, hr, hguard, hframe⟩ := OnTransactionCommitted_phases env s t _ h
  have hs1 : s1 = (CommitEpilogue env { t with LockedRows := [] } s4).1 :=
    congrArg Prod.fst hr
  have ht1 : t1 = (CommitEpilogue env { t with LockedRows := [] } s4).2 :=
    congrArg Prod.snd hr
  refine ⟨hlocked, hlockless, hdelayed, fun id => ?_, ?_, ?_, fun id => ?_, fun id => ?_⟩
  · rw [hs1, CommitEpilogue_Pending,
      hframe _ TTablet.Pending (fun _ _ => rfl) (fun _ _ => rfl) id]
  · rw [hs1, CommitEpilogue_Guard, hguard]
  · rw [ht1, (CommitEpilogue_Locks env _ s4 0).1]
  · rw [hs1, (CommitEpilogue_Locks env _ s4 id).2,
      hframe _ (fun tab : TTablet => tab.TabletLockCount) (fun _ _ => rfl) (fun _ _ => rfl) id]
  · rw [hs1, CommitEpilogue_Provisional env _ s4 id,
      hframe _ TTablet.Provisional (fun _ _ => rfl) (fun _ _ => rfl) id]

theorem commit_drops_immediate_logs_witness :
    ∃ s1 t1,
      SampleLoggedTransaction.ImmediateLockedWriteLog = [SampleRecord] ∧
      SampleLoggedTransaction.ImmediateLocklessWriteLog = [SampleRecord] ∧
      SampleLoggedTransaction.LockedTablets = [7] ∧
      (SampleLoggedState.Tablets 7).map TTablet.Pending = some (2, 0) ∧
      (SampleLoggedState.Tablets 7).map (fun tab => tab.TabletLockCount) = some 3 ∧
      SampleLoggedState.WriteLogsMemoryTrackerGuard = 8 ∧
      OnTransactionCommitted SampleCollaborators SampleLoggedState
        SampleLoggedTransaction = .ok (s1, t1) ∧
      t1.ImmediateLockedWriteLog = [] ∧ t1.ImmediateLocklessWriteLog = [] ∧
      t1.DelayedLocklessWriteLog = [] ∧
      (s1.Tablets 7).map TTablet.Pending = some (0, 0) ∧
      s1.WriteLogsMemoryTrackerGuard = 0 ∧
      t1.LockedTablets = [] ∧
      (s1.Tablets 7).map (fun tab => tab.TabletLockCount) = some 2 ∧
      (s1.Tablets 7).map TTablet.Provisional =
        (SampleLoggedState.Tablets 7).map TTablet.Provisional :=
  ⟨_, _, rfl, rfl, rfl, rfl, rfl, rfl, rfl,
    (commit_drops_immediate_logs SampleCollaborators SampleLoggedState _
      SampleLoggedTransaction _ rfl).1,
    (commit_drops_immediate_logs SampleCollaborators SampleLoggedState _
      SampleLoggedTransaction _ rfl).2.1,
    (commit_drops_immediate_logs SampleCollaborators SampleLoggedState _
      SampleLoggedTransaction _ rfl).2.2.1,
    ((commit_drops_immediate_logs SampleCollaborators SampleLoggedState _
      SampleLoggedTransaction _ rfl).2.2.2.1 7).trans (by decide),
    (commit_drops_immediate_logs SampleCollaborators SampleLoggedState _
      SampleLoggedTransaction _ rfl).2.2.2.2.1.trans (by decide),
    (commit_drops_immediate_logs SampleCollaborators SampleLoggedState _
      SampleLoggedTransaction _ rfl).2.2.2.2.2.1.trans (by decide),
    ((commit_drops_immediate_logs SampleCollaborators SampleLoggedState _
      SampleLoggedTransaction _ rfl).2.2.2.2.2.2.1 7).trans (by decide),
    (commit_drops_immediate_logs SampleCollaborators SampleLoggedState _
      SampleLoggedTransaction _ rfl).2.2.2.2.2.2.2 7⟩

/-- Claim C21. After a persistent `OnTransactionPrepared` that returns normally, every tablet
of the host (its replica ids being distinct, as in the source's replica map) is the old one
with, if it is replicated, its delayed lockless row count and the current replication row
index of each of its synchronous replicas raised by the total row count of the transaction's
delayed lockless records that target it, whatever the records list as their synchronous
replica ids; asynchronous replicas keep their index, and a tablet that is not replicated or
that no delayed lockless record targets is unchanged. -/
theorem prepare_advances_provisional_counters (env : TCollaborators) (s s1 : TState)
    (t t1 : TTransaction) (h : OnTransactionPrepared env s t true = .ok (s1, t1))
    (id : TTabletId) (tablet : TTablet) (hs : s.Tablets id = some tablet)
    (hunique : (tablet.Replicas.map (fun r => r.Id)).Nodup) :
    s1.Tablets id = some (tablet.Prepared (RowSum id t.DelayedLocklessWriteLog)) ∧
      (tablet.Prepared (RowSum id t.DelayedLocklessWriteLog)).Replicas.map
          (fun r => (r.Id, r.Mode)) = tablet.Replicas.map (fun r => (r.Id, r.Mode)) ∧
      (∀ r ∈ tablet.Replicas, r.Mode = ETableReplicaMode.Async →
        r ∈ (tablet.Prepared (RowSum id t.DelayedLocklessWriteLog)).Replicas) ∧
      (tablet.Replicated = false ∨
          (∀ record ∈ t.DelayedLocklessWriteLog, record.TabletId ≠ id) →
        s1.Tablets id = some tablet) := by
  have hmain : s1.Tablets id = some (tablet.Prepared (RowSum id t.DelayedLocklessWriteLog)) := by
    unfold OnTransactionPrepared at h
    simp only [Bool.not_true, Bool.false_eq_true, if_false] at h
    cases hp : PrepareRecords env (PrepareLockedRows env s t) t t.DelayedLocklessWriteLog [] []
      with
    | error e => simp [hp] at h
    | ok rm =>
      obtain ⟨r, m⟩ := rm
      simp only [hp] at h
      split at h
      · exact absurd h (by simp)
      · simp only [Except.ok.injEq, Prod.mk.injEq] at h
        obtain ⟨rfl, _⟩ := h
        have hs0 : (PrepareLockedRows env s t).Tablets id = some tablet := by
          rw [(PrepareLockedRows_frame env s t).1]; exact hs
        have hm := PrepareRecords_spec env (PrepareLockedRows env s t) t id _ _ _ _ _ hp
        have hr : ∀ replicaId, FlatMapSum (id, replicaId) r =
            (if tablet.Replicated then
              SyncCount replicaId tablet.Replicas * RowSum id t.DelayedLocklessWriteLog
            else 0) := by
          intro replicaId
          have := PrepareRecords_replica_sum env (PrepareLockedRows env s t) t id replicaId
            tablet hs0 _ _ _ _ _ hp
          simpa [FlatMapSum] using this
        rw [AddDelayed_fold_tablet, AddReplicaIndex_fold, hs0, hm, hs0]
        simp only [Option.map_some', FlatMapSum, zero_add, Option.some.injEq,
          TTablet.Prepared]
        have hreplicas : tablet.Replicas.map (fun x =>
            { x with
              CurrentReplicationRowIndex :=
                x.CurrentReplicationRowIndex + FlatMapSum (id, x.Id) r }) =
            tablet.Replicas.map (fun x =>
              if tablet.Replicated ∧ x.Mode = ETableReplicaMode.Sync then
                { x with
                  CurrentReplicationRowIndex :=
                    x.CurrentReplicationRowIndex + RowSum id t.DelayedLocklessWriteLog }
              else x) := by
          apply List.map_congr_left
          intro x hx
          rw [hr x.Id, SyncCount_nodup x.Id tablet.Replicas hunique x hx rfl]
          by_cases hrep : tablet.Replicated = true
          · by_cases hmode : x.Mode = ETableReplicaMode.Sync
            · simp [hrep, hmode]
            · simp only [hrep, hmode, if_true, if_false, and_false, zero_mul]
              exact Replica_add_zero x
          · simp only [hrep, if_false, false_and]
            exact Replica_add_zero x
        rw [hreplicas]
  refine ⟨hmain, ?_, ?_, ?_⟩
  · simp only [TTablet.Prepared, List.map_map]
    apply List.map_congr_left
    intro r _
    simp only [Function.comp]
    split <;> rfl
  · intro r hr hmode
    simp only [TTablet.Prepared, List.mem_map]
    exact ⟨r, hr, by simp [hmode]⟩
  · rintro (hplain | huntargeted)
    · rw [hmain, Prepared_plain _ _ hplain]
    · rw [hmain, RowSum_untargeted id _ huntargeted, Prepared_zero]

theorem prepare_advances_provisional_counters_witness :
    ∃ s1 t1,
      OnTransactionPrepared SampleCollaborators SampleMixedState SampleDelayedTransaction
        true = .ok (s1, t1) ∧
      s1.Tablets 8 = some (SampleMixedTablet.Prepared 2) ∧
      s1.Tablets 7 = some SampleTablet :=
  ⟨_, _, rfl,
    (prepare_advances_provisional_counters SampleCollaborators SampleMixedState _
      SampleDelayedTransaction _ rfl 8 SampleMixedTablet rfl (by decide)).1,
    (prepare_advances_provisional_counters SampleCollaborators SampleMixedState _
      SampleDelayedTransaction _ rfl 7 SampleTablet rfl (by decide)).2.2.2
      (Or.inr (by decide))⟩

/-- Claim C25. When a persistent `OnTransactionPrepared` exits by an exception (a missing
tablet, a transaction conflict, an invalid synchronous replica set or a replica that is not
writable, at whichever record of the delayed lockless log), every tablet of the host is as
it was before the call (so no delayed lockless row count and no current replication row
index has changed) and so is the transaction, its rows-prepared flag included. -/
theorem prepare_error_leaves_counters (env : TCollaborators) (s : TState) (t : TTransaction)
    (e : TError) (h : OnTransactionPrepared env s t true = .error e) (hthrown : e ≠ .Fatal) :
    (OnTransactionPreparedEffects env s t true).2 = .error e ∧
      (OnTransactionPreparedEffects env s t true).1.1.Tablets = s.Tablets ∧
      (∀ id, ((OnTransactionPreparedEffects env s t true).1.1.Tablets id).map
        TTablet.Provisional = (s.Tablets id).map TTablet.Provisional) ∧
      (OnTransactionPreparedEffects env s t true).1.2 = t := by
  have key : (OnTransactionPreparedEffects env s t true).2 = .error e ∧
      (OnTransactionPreparedEffects env s t true).1.1.Tablets = s.Tablets ∧
      (OnTransactionPreparedEffects env s t true).1.2 = t := by
    unfold OnTransactionPrepared at h
    unfold OnTransactionPreparedEffects
    simp only [Bool.not_true, Bool.false_eq_true, if_false] at h ⊢
    cases hp : PrepareRecords env (PrepareLockedRows env s t) t t.DelayedLocklessWriteLog [] []
      with
    | error e1 =>
      simp only [hp, Except.error.injEq] at h
      subst h
      exact ⟨rfl, (PrepareLockedRows_frame env s t).1, rfl⟩
    | ok rm =>
      obtain ⟨r, m⟩ := rm
      simp only [hp] at h
      split at h
      · simp only [Except.error.injEq] at h
        exact absurd h.symm hthrown
      · exact absurd h (by simp)
  refine ⟨key.1, key.2.1, fun id => ?_, key.2.2⟩
  rw [key.2.1]

theorem prepare_error_leaves_counters_witness :
    OnTransactionPrepared SampleCollaborators SampleReplicatedState SampleHalfValidTransaction
        true = .error .NoSuchTablet ∧
      (OnTransactionPreparedEffects SampleCollaborators SampleReplicatedState
        SampleHalfValidTransaction true).1.1.Tablets = SampleReplicatedState.Tablets ∧
      (OnTransactionPreparedEffects SampleCollaborators SampleReplicatedState
        SampleHalfValidTransaction true).1.2.RowsPrepared = false :=
  ⟨rfl,
    (prepare_error_leaves_counters SampleCollaborators SampleReplicatedState
      SampleHalfValidTransaction .NoSuchTablet rfl (by decide)).2.1,
    (congrArg TTransaction.RowsPrepared
      (prepare_error_leaves_counters SampleCollaborators SampleReplicatedState
        SampleHalfValidTransaction .NoSuchTablet rfl (by decide)).2.2.2).trans rfl⟩

/-- Claim C27, evaluated at the failing input. A transaction with one delayed lockless record
of one row for the replicated tablet `8` was never persistently prepared; the tablet's delayed
lockless row count is `0`, equal to the sum over the prepared transactions.
`OnTransactionSerialized` returns and leaves the count at `-1`, while the sum over the prepared
transactions is still `0`; `OnTransactionAborted` on the same transaction leaves the count at
`0`, and so does serializing it after a persistent prepare. -/
theorem serialize_unprepared_breaks_delayed_count :
    (SampleReplicatedState.Tablets 8).map (fun tablet => tablet.DelayedLocklessRowCount) =
        some (PreparedRowSum 8 [SampleUnpreparedTransaction]) ∧
      PreparedRowSum 8 [SampleUnpreparedTransaction] = 0 ∧
      (∃ s1 t1,
        OnTransactionSerialized SampleCollaborators SampleReplicatedState
          SampleUnpreparedTransaction = .ok (s1, t1) ∧
        (s1.Tablets 8).map (fun tablet => (tablet.Replicated, tablet.DelayedLocklessRowCount)) =
          some (true, -1) ∧
        PreparedRowSum 8 [t1] = 0) ∧
      (∃ s2 t2,
        OnTransactionAborted SampleCollaborators SampleReplicatedState
          SampleUnpreparedTransaction = .ok (s2, t2) ∧
        (s2.Tablets 8).map (fun tablet => tablet.DelayedLocklessRowCount) =
          some (PreparedRowSum 8 [t2]) ∧
        PreparedRowSum 8 [t2] = 0) ∧
      ∃ s3 t3 s4 t4,
        OnTransactionPrepared SampleCollaborators SampleReplicatedState
          SampleUnpreparedTransaction true = .ok (s3, t3) ∧
        (s3.Tablets 8).map (fun tablet => tablet.DelayedLocklessRowCount) =
          some (PreparedRowSum 8 [t3]) ∧
        PreparedRowSum 8 [t3] = 1 ∧
        OnTransactionSerialized SampleCollaborators s3 t3 = .ok (s4, t4) ∧
        (s4.Tablets 8).map (fun tablet => tablet.DelayedLocklessRowCount) =
          some (PreparedRowSum 8 [t4]) ∧
        PreparedRowSum 8 [t4] = 0 :=
  ⟨rfl, rfl, ⟨_, _, rfl, rfl, rfl⟩, ⟨_, _, rfl, rfl, rfl⟩,
    ⟨_, _, _, _, rfl, rfl, rfl, rfl, rfl, rfl⟩⟩

/-- Claim C27, as amended. The equality of each replicated tablet's delayed lockless row count
with the sum of the row counts of the delayed lockless records targeting it in the prepared
transactions (1) holds after `OnAfterSnapshotLoaded` has run on tablets whose delayed
lockless row counts are `0`; (2) is preserved by a persistent `OnTransactionPrepared` that
returns; (3) is preserved by `OnTransactionSerialized` on a transaction whose rows-prepared
flag is set, or whose delayed lockless records bring no rows to a replicated tablet; (4) is
preserved by `OnTransactionAborted` on every transaction, whatever its flag; and (5) under
it no replicated tablet has a negative delayed lockless row count, the row counts of the
records being non-negative. The hooks act on a transaction of the transaction manager, whose
transactions have distinct ids. -/
theorem delayed_count_invariant (env : TCollaborators) :
    (∀ (s s1 : TState) (tm tm1 : TTransactionManager),
      (∀ id tablet, s.Tablets id = some tablet → tablet.DelayedLocklessRowCount = 0) →
      OnAfterSnapshotLoaded env s tm = .ok (s1, tm1) → DelayedCountInvariant s1 tm1) ∧
    (∀ (s s1 : TState) (tm : TTransactionManager) (t t1 : TTransaction),
      DelayedCountInvariant s tm → (tm.map (fun x => x.Id)).Nodup →
      tm.Find t.Id = some t →
      OnTransactionPrepared env s t true = .ok (s1, t1) →
      DelayedCountInvariant s1 (tm.Store t1)) ∧
    (∀ (s s1 : TState) (tm : TTransactionManager) (t t1 : TTransaction),
      DelayedCountInvariant s tm → (tm.map (fun x => x.Id)).Nodup →
      tm.Find t.Id = some t →
      (t.RowsPrepared = true ∨
        ∀ id tablet, s.Tablets id = some tablet → tablet.Replicated = true →
          RowSum id t.DelayedLocklessWriteLog = 0) →
      OnTransactionSerialized env s t = .ok (s1, t1) →
      DelayedCountInvariant s1 (tm.Store t1)) ∧
    (∀ (s s1 : TState) (tm : TTransactionManager) (t t1 : TTransaction),
      DelayedCountInvariant s tm → (tm.map (fun x => x.Id)).Nodup →
      tm.Find t.Id = some t →
      OnTransactionAborted env s t = .ok (s1, t1) →
      DelayedCountInvariant s1 (tm.Store t1)) ∧
    ∀ (s : TState) (tm : TTransactionManager), DelayedCountInvariant s tm →
      (∀ t ∈ tm, ∀ record ∈ t.DelayedLocklessWriteLog, 0 ≤ record.RowCount) →
      ∀ id tablet, s.Tablets id = some tablet → tablet.Replicated = true →
        0 ≤ tablet.DelayedLocklessRowCount := by
  refine ⟨?_, ?_, ?_, ?_, ?_⟩
  · intro s s1 tm tm1 hzero h
    obtain ⟨hshift, hsum⟩ := ReplayTransactions_delayed env tm s s1 tm1 h
    intro id tablet1 hs1 hrep1
    have hid := hshift id
    rw [hs1] at hid
    cases hs : s.Tablets id with
    | none => rw [hs] at hid; simp at hid
    | some tablet =>
      rw [hs] at hid
      simp only [Option.map_some', Option.some.injEq, TTablet.Delayed, ShiftDelayed,
        Prod.mk.injEq] at hid
      have hrep : tablet.Replicated = true := by rw [← hid.2]; exact hrep1
      rw [hid.1, hzero id tablet hs, hrep, hsum id]
      simp
  · intro s s1 tm t t1 hinv hnodup hfind h
    obtain ⟨ht1, hshift⟩ := OnTransactionPrepared_spec env s s1 t t1 h
    have hflag := OnTransactionPrepared_flag env s s1 t t1 h
    have hfind1 : tm.Find t1.Id = some t := by rw [ht1]; exact hfind
    refine DelayedCountInvariant_shift (fun id => RowSum id t.DelayedLocklessWriteLog)
      hshift (fun id tablet _ _ => ?_) hinv
    rw [PreparedRowSum_Store id t1 tm t hnodup hfind1, hflag, ht1]
    simp
  · intro s s1 tm t t1 hinv hnodup hfind hprepared h
    obtain ⟨hlog, _, _, hshift⟩ := OnTransactionSerialized_spec env s s1 t t1 h
    have hid := OnTransactionSerialized_Id env s s1 t t1 h
    have hfind1 : tm.Find t1.Id = some t := by rw [hid]; exact hfind
    refine DelayedCountInvariant_shift (fun id => -RowSum id t.DelayedLocklessWriteLog)
      hshift (fun id tablet hs hrep => ?_) hinv
    rw [PreparedRowSum_Store id t1 tm t hnodup hfind1, hlog]
    rcases hprepared with hflag | hzero
    · simp [hflag, RowSum]
      ring
    · have hz := hzero id tablet hs hrep
      simp [hz, RowSum]
  · intro s s1 tm t t1 hinv hnodup hfind h
    obtain ⟨hlog, hid, hshift⟩ := OnTransactionAborted_delayed env s s1 t t1 h
    have hfind1 : tm.Find t1.Id = some t := by rw [hid]; exact hfind
    refine DelayedCountInvariant_shift _ hshift (fun id tablet _ _ => ?_) hinv
    rw [PreparedRowSum_Store id t1 tm t hnodup hfind1, hlog]
    cases t.RowsPrepared <;> simp [RowSum]
    ring
  · intro s tm hinv hrows id tablet hs hrep
    rw [hinv id tablet hs hrep]
    exact PreparedRowSum_nonneg id tm hrows

theorem delayed_count_invariant_witness :
    ∃ s1 t1,
      OnTransactionPrepared SampleCollaborators SampleReplicatedState
        SampleUnpreparedTransaction true = .ok (s1, t1) ∧
      DelayedCountInvariant s1
        (TTransactionManager.Store [SampleUnpreparedTransaction] t1) ∧
      (s1.Tablets 8).map (fun tablet => tablet.DelayedLocklessRowCount) = some 1 ∧
      PreparedRowSum 8 (TTransactionManager.Store [SampleUnpreparedTransaction] t1) = 1 := by
  have hinv : DelayedCountInvariant SampleReplicatedState [SampleUnpreparedTransaction] := by
    intro id tablet hs hrep
    by_cases hid : id = 8
    · subst hid
      have ht : SampleReplicatedTablet = tablet := Option.some.inj hs
      subst ht
      rfl
    · simp [SampleReplicatedState, hid] at hs
  exact ⟨_, _, rfl,
    (delayed_count_invariant SampleCollaborators).2.1 SampleReplicatedState _
      [SampleUnpreparedTransaction] SampleUnpreparedTransaction _ hinv (by decide) rfl rfl,
    rfl, rfl⟩

/-! ## Invariants of the write path -/

/-- Claim C23. `HydraLeaderWriteRows` applies a full-atomicity mutation with matching mount
revision whose record has row count `k`, for a transaction whose prelocked-row queue holds at
least `k` references, `ValidateAndDiscardRowRef` answering `valid`. The call returns. If the
write is not lockless, the queue afterwards is the old queue without its first `k` elements,
`ValidateAndDiscardRowRef` has been called on exactly the first `k` references in queue order,
`ConfirmRow` has been called, in that order, on exactly those of them that are valid, and they
have been appended to the locked rows. If the write is lockless, the queue and the locked rows
are as before and no call is made. -/
theorem leader_confirms_prelocked_rows_fifo (env : TCollaborators) (s : TState)
    (tm : TTransactionManager) (transactionId : TTransactionId)
    (signature : TTransactionSignature) (lockless : Bool)
    (writeRecord : TTransactionWriteRecord) (identity : TAuthenticationIdentity)
    (queue : List TTabletId) (tablet : TTablet) (t : TTransaction)
    (valid : TSortedDynamicRowRef → Bool)
    (hatomicity : env.AtomicityFromTransactionId transactionId = EAtomicity.Full)
    (hqueue : s.PrelockedTablets = writeRecord.TabletId :: queue)
    (htablet : s.Tablets writeRecord.TabletId = some tablet)
    (hfind : tm.Find transactionId = some t)
    (hvalid : ∀ trace rowRef, env.ValidateAndDiscardRowRef trace rowRef = valid rowRef)
    (hrows : writeRecord.RowCount.toNat ≤ t.PrelockedRows.length) :
    ∃ s1 tm1 t1,
      HydraLeaderWriteRows env s tm transactionId tablet.MountRevision signature lockless
        writeRecord identity = .ok (s1, tm1) ∧
      tm1.Find transactionId = some t1 ∧
      (lockless = false →
        t1.PrelockedRows = t.PrelockedRows.drop writeRecord.RowCount.toNat ∧
          t1.LockedRows = t.LockedRows ++
            (t.PrelockedRows.take writeRecord.RowCount.toNat).filter valid ∧
          s1.Trace = s.Trace ++
            ConfirmEvents valid transactionId
              (t.PrelockedRows.take writeRecord.RowCount.toNat) ∧
          ValidatedRows s1.Trace = ValidatedRows s.Trace ++
            t.PrelockedRows.take writeRecord.RowCount.toNat ∧
          ConfirmedRows s1.Trace = ConfirmedRows s.Trace ++
            ((t.PrelockedRows.take writeRecord.RowCount.toNat).filter valid).map
              (fun rowRef => (transactionId, rowRef))) ∧
      (lockless = true →
        t1.PrelockedRows = t.PrelockedRows ∧ t1.LockedRows = t.LockedRows ∧
          s1.Trace = s.Trace) := by
  have hid : t.Id = transactionId := Find_Id hfind
  have hfull := HydraLeaderWriteRows_Full env s tm transactionId signature lockless writeRecord
    identity queue tablet t tablet.MountRevision hatomicity hqueue htablet rfl hfind
  cases lockless with
  | true =>
    simp only [if_true] at hfull
    refine ⟨_, _, _, hfull, Find_Store _ hfind ?_, fun h => absurd h (by simp), fun _ => ?_⟩
    · rw [Enqueue_Id]; exact hid
    · have hrowsE := Enqueue_rows env
        (LockTablet (LeaderPopped env s queue writeRecord.TabletId identity)
          writeRecord.TabletId)
        { t with
          Transient := false
          LockedTablets := t.LockedTablets ++ [writeRecord.TabletId] }
        writeRecord.TabletId (SelectWriteLog tablet true) writeRecord signature
      refine ⟨hrowsE.1, hrowsE.2.1, ?_⟩
      rw [UnlockTablet_Trace, hrowsE.2.2.2.1]
      rfl
  | false =>
    have hconfirm := ConfirmPrelockedRows_exact env valid hvalid writeRecord.RowCount.toNat
      (LeaderPopped env s queue writeRecord.TabletId identity)
      { t with Transient := false } hrows
    simp only [Bool.false_eq_true, if_false] at hfull
    rw [hconfirm] at hfull
    simp only [] at hfull
    refine ⟨_, _, _, hfull, Find_Store _ hfind ?_, fun _ => ?_, fun h => absurd h (by simp)⟩
    · rw [Enqueue_Id]; exact hid
    · have hrowsE := Enqueue_rows env
        { LeaderPopped env s queue writeRecord.TabletId identity with
          Trace := (LeaderPopped env s queue writeRecord.TabletId identity).Trace ++
            ConfirmEvents valid t.Id (t.PrelockedRows.take writeRecord.RowCount.toNat) }
        { t with
          Transient := false
          PrelockedRows := t.PrelockedRows.drop writeRecord.RowCount.toNat
          LockedRows := t.LockedRows ++
            (t.PrelockedRows.take writeRecord.RowCount.toNat).filter valid }
        writeRecord.TabletId (SelectWriteLog tablet false) writeRecord signature
      have htrace : (UnlockTablet (EnqueueTransactionWriteRecord env
            { LeaderPopped env s queue writeRecord.TabletId identity with
              Trace := (LeaderPopped env s queue writeRecord.TabletId identity).Trace ++
                ConfirmEvents valid t.Id (t.PrelockedRows.take writeRecord.RowCount.toNat) }
            { t with
              Transient := false
              PrelockedRows := t.PrelockedRows.drop writeRecord.RowCount.toNat
              LockedRows := t.LockedRows ++
                (t.PrelockedRows.take writeRecord.RowCount.toNat).filter valid }
            writeRecord.TabletId (SelectWriteLog tablet false) writeRecord signature).1
            writeRecord.TabletId).Trace =
          s.Trace ++ ConfirmEvents valid transactionId
            (t.PrelockedRows.take writeRecord.RowCount.toNat) := by
        rw [UnlockTablet_Trace, hrowsE.2.2.2.1, hid]
        rfl
      refine ⟨hrowsE.1, hrowsE.2.1, htrace, ?_, ?_⟩
      · rw [htrace, ValidatedRows_append, ValidatedRows_ConfirmEvents]
      · rw [htrace, ConfirmedRows_append, ConfirmedRows_ConfirmEvents]

theorem leader_confirms_prelocked_rows_fifo_witness :
    ∃ s1 tm1 t1,
      HydraLeaderWriteRows SampleDiscardingCollaborators SampleState [SampleQueuedTransaction]
        2 1 1 false SampleTwoRowRecord SampleIdentity = .ok (s1, tm1) ∧
      tm1.Find 2 = some t1 ∧
      t1.PrelockedRows = [{ Store := 1, Row := 3, Tablet := 7 }] ∧
      t1.LockedRows = [{ Store := 1, Row := 1, Tablet := 7 }] ∧
      ConfirmedRows s1.Trace = [(2, { Store := 1, Row := 1, Tablet := 7 })] := by
  obtain ⟨s1, tm1, t1, hrun, hfind, hlocked, _⟩ :=
    leader_confirms_prelocked_rows_fifo SampleDiscardingCollaborators SampleState
      [SampleQueuedTransaction] 2 1 false SampleTwoRowRecord SampleIdentity [] SampleTablet
      SampleQueuedTransaction (fun rowRef => decide (rowRef.Store ≠ 2)) rfl rfl rfl rfl
      (fun _ _ => rfl) (by decide)
  obtain ⟨h1, h2, _, _, h5⟩ := hlocked rfl
  exact ⟨s1, tm1, t1, hrun, hfind, h1.trans rfl, h2.trans rfl, h5.trans rfl⟩

/-- Claim C29. (1) A mutation submission in `Write` appends the tablet to the queue of pinned
tablets and raises its lock count by one, leaving the other lock counts alone.
(2) Whenever `HydraLeaderWriteRows` returns (mount revision mismatch, orphaned tablet or
commit under atomicity `None`, atomicity `Full`), it has popped the head of the queue, which is
the tablet of the record, and that tablet's lock count has gone down by one, or stayed the
same if the atomicity is `Full`, the write is lockless and the mount revision matches, in
which case the tablet has been appended once to the transaction's list of locked tablets;
otherwise that list is unchanged; the other lock counts are unchanged.
(3) `OnStopLeading` empties the queue and lowers each tablet's lock count by the number of
queue entries naming it.
(4) Over one submission to an empty queue followed by the leader apply of a record for that
tablet, the lock count of the tablet grows by one if the atomicity is `Full`, the write is
lockless and the mount revision matches, and is unchanged otherwise. -/
theorem write_pin_released_once (env : TCollaborators) :
    (∀ (args : TWriteArgs) (tabletId : TTabletId) (tablet : TTablet) (lockless : Bool)
        (signature : TTransactionSignature) (readerBefore : Nat)
        (executed : TExecuteWritesResult),
      (WriteSubmit env args tabletId tablet lockless signature readerBefore
          executed).PrelockedTablets = executed.State.PrelockedTablets ++ [tabletId] ∧
        LockShift (fun id => if id = tabletId then 1 else 0) executed.State
          (WriteSubmit env args tabletId tablet lockless signature readerBefore executed)) ∧
      (∀ (s s1 : TState) (tm tm1 : TTransactionManager) (transactionId : TTransactionId)
          (mountRevision : TRevision) (signature : TTransactionSignature) (lockless : Bool)
          (writeRecord : TTransactionWriteRecord) (identity : TAuthenticationIdentity),
        HydraLeaderWriteRows env s tm transactionId mountRevision signature lockless
            writeRecord identity = .ok (s1, tm1) →
          ∃ queue tablet,
            s.PrelockedTablets = writeRecord.TabletId :: queue ∧
            s1.PrelockedTablets = queue ∧
            s.Tablets writeRecord.TabletId = some tablet ∧
            LockShift (fun id =>
              if id = writeRecord.TabletId then
                (if env.AtomicityFromTransactionId transactionId = EAtomicity.Full ∧
                    lockless = true ∧ mountRevision = tablet.MountRevision then 1 else 0) - 1
              else 0) s s1 ∧
            (tm1.Find transactionId).map (fun t => t.LockedTablets) =
              (tm.Find transactionId).map (fun t => t.LockedTablets ++
                (if env.AtomicityFromTransactionId transactionId = EAtomicity.Full ∧
                    lockless = true ∧ mountRevision = tablet.MountRevision then
                  [writeRecord.TabletId] else []))) ∧
      (∀ s : TState,
        (OnStopLeading s).PrelockedTablets = [] ∧
          LockShift (fun id => -(s.PrelockedTablets.count id : Int)) s (OnStopLeading s)) ∧
      ∀ (args : TWriteArgs) (tablet : TTablet) (locklessSubmitted : Bool)
          (signatureSubmitted : TTransactionSignature) (readerBefore : Nat)
          (executed : TExecuteWritesResult)
          (s1 : TState) (tm tm1 : TTransactionManager) (transactionId : TTransactionId)
          (mountRevision : TRevision) (signature : TTransactionSignature) (lockless : Bool)
          (writeRecord : TTransactionWriteRecord) (identity : TAuthenticationIdentity),
        executed.State.PrelockedTablets = [] →
        HydraLeaderWriteRows env
            (WriteSubmit env args writeRecord.TabletId tablet locklessSubmitted
              signatureSubmitted readerBefore executed)
            tm transactionId mountRevision signature lockless writeRecord identity =
          .ok (s1, tm1) →
        ∃ current, executed.State.Tablets writeRecord.TabletId = some current ∧
          s1.PrelockedTablets = [] ∧
          LockShift (fun id =>
            if id = writeRecord.TabletId ∧
                env.AtomicityFromTransactionId transactionId = EAtomicity.Full ∧
                lockless = true ∧ mountRevision = current.MountRevision then 1 else 0)
            executed.State s1 := by
  refine ⟨fun args tabletId tablet lockless signature readerBefore executed =>
      ⟨(WriteSubmit_fields env args tabletId tablet lockless signature readerBefore
        executed).1, LockShift_WriteSubmit env args tabletId tablet lockless signature
        readerBefore executed⟩,
    fun s s1 tm tm1 transactionId mountRevision signature lockless writeRecord identity h =>
      HydraLeaderWriteRows_locks env s s1 tm tm1 transactionId mountRevision signature
        lockless writeRecord identity h,
    fun s => ⟨rfl, fun id => LockShift_UnlockFold s.PrelockedTablets s id⟩, ?_⟩
  intro args tablet locklessSubmitted signatureSubmitted readerBefore executed s1 tm tm1
    transactionId mountRevision signature lockless writeRecord identity hempty h
  obtain ⟨queue, submitted, hq, hq1, hs, hshift, _⟩ :=
    HydraLeaderWriteRows_locks env _ s1 tm tm1 transactionId mountRevision signature
      lockless writeRecord identity h
  have hfields := WriteSubmit_fields env args writeRecord.TabletId tablet locklessSubmitted
    signatureSubmitted readerBefore executed
  rw [hfields.1, hempty] at hq
  simp only [List.nil_append, List.cons.injEq, true_and] at hq
  have htab := hfields.2.2.2 writeRecord.TabletId
  rw [hs] at htab
  simp only [if_true] at htab
  cases hcur : executed.State.Tablets writeRecord.TabletId with
  | none => rw [hcur] at htab; simp at htab
  | some current =>
    rw [hcur] at htab
    simp only [Option.map_some', Option.some.injEq] at htab
    have hrevision : submitted.MountRevision = current.MountRevision := by
      rw [htab]
      cases IsReplicatorWrite env args.Identity <;> rfl
    refine ⟨current, rfl, by rw [hq1, ← hq], ?_⟩
    refine LockShift_congr
      (LockShift_trans
        (LockShift_WriteSubmit env args writeRecord.TabletId tablet locklessSubmitted
          signatureSubmitted readerBefore executed) hshift) (fun id => ?_)
    rw [hrevision]
    by_cases hid : id = writeRecord.TabletId
    · simp only [hid, if_true, true_and]
      ring
    · simp [hid]

theorem write_pin_released_once_witness :
    ∃ s1 tm1,
      HydraLeaderWriteRows SampleCollaborators SampleState [SamplePlainTransaction] 2 1 1 true
        SampleRecord SampleIdentity = .ok (s1, tm1) ∧
      s1.PrelockedTablets = [] ∧
      (s1.Tablets 7).map (fun tablet => tablet.TabletLockCount) = some 1 ∧
      (tm1.Find 2).map (fun t => t.LockedTablets) = some [7] := by
  refine ⟨_, _, rfl, ?_⟩
  obtain ⟨queue, tablet, hq, hq1, hs, hshift, hlocked⟩ :=
    (write_pin_released_once SampleCollaborators).2.1 SampleState _ [SamplePlainTransaction] _
      2 1 1 true SampleRecord SampleIdentity rfl
  have ht : SampleTablet = tablet := Option.some.inj hs
  subst ht
  exact ⟨rfl, (hshift 7).trans rfl, hlocked.trans rfl⟩

/-- Claim C28, counterexample. Tablet `7` has no mutation in flight and the
queue of pinned tablets is empty. `Write` submits one mutation: the queue holds the tablet
once and its in-flight count is `1`. `OnStopLeading` then empties the queue and leaves the
in-flight count at `1`, so that a replicator write to the tablet is rejected by the write
barrier; `HydraLeaderWriteRows` on the same state pops the entry and takes the count back to
`0`. -/
theorem stop_leading_keeps_in_flight_counts :
    ∃ l m tablet0 tablet1 tablet2 s3 tm3 tablet3,
      SampleIdleState.Tablets 7 = some tablet0 ∧
      tablet0.InFlightMutationCount = SampleIdleState.PinnedCount 7 ∧
      Write SamplePrelockingCollaborators 1 SampleIdleState [] SampleWriteArgs
        { Data := [1, 2, 3], Current := 0 } = some (.ok l) ∧
      l.State.Mutations = [m] ∧
      l.State.Tablets 7 = some tablet1 ∧
      l.State.PinnedCount 7 = 1 ∧ tablet1.InFlightMutationCount = 1 ∧
      (OnStopLeading l.State).Tablets 7 = some tablet2 ∧
      (OnStopLeading l.State).PrelockedTablets = [] ∧
      (OnStopLeading l.State).PinnedCount 7 = 0 ∧
      tablet2.InFlightMutationCount = 1 ∧
      tablet2.TabletLockCount = 0 ∧
      ValidateWriteBarrier true tablet2 = .error .ReplicatorWriteBlockedByUser ∧
      ApplyLeader SamplePrelockingCollaborators l.State l.Transactions m = .ok (s3, tm3) ∧
      s3.Tablets 7 = some tablet3 ∧
      s3.PinnedCount 7 = 0 ∧ tablet3.InFlightMutationCount = 0 :=
  ⟨_, _, _, _, _, _, _, _, rfl, rfl, rfl, rfl, rfl, rfl, rfl, rfl, rfl, rfl, rfl, rfl, rfl,
    rfl, rfl, rfl, rfl⟩

/-- Claim C28, as amended. For every tablet, the sum of the in-flight user and in-flight
replicator mutation counts equals the number of entries of the queue of pinned tablets that
name it: (1) this holds when the queue is empty and all counts are zero; (2) it is preserved
by a mutation submission in `Write`; (3) it is preserved by `HydraLeaderWriteRows` whenever
it returns.  (4) `OnStopLeading` empties the queue and leaves both in-flight counts of every
tablet as they were; so, on a state that satisfies the equality, it holds afterwards if and
only if no tablet had an entry in the queue. -/
theorem in_flight_counts_match_pinned_queue (env : TCollaborators) :
    (∀ s : TState, s.PrelockedTablets = [] →
        (∀ id tablet, s.Tablets id = some tablet →
          tablet.InFlightUserMutationCount = 0 ∧ tablet.InFlightReplicatorMutationCount = 0) →
        InFlightInvariant s) ∧
      (∀ (args : TWriteArgs) (tabletId : TTabletId) (tablet : TTablet) (lockless : Bool)
          (signature : TTransactionSignature) (readerBefore : Nat)
          (executed : TExecuteWritesResult),
        InFlightInvariant executed.State →
          InFlightInvariant
            (WriteSubmit env args tabletId tablet lockless signature readerBefore executed)) ∧
      (∀ (s s1 : TState) (tm tm1 : TTransactionManager) (transactionId : TTransactionId)
          (mountRevision : TRevision) (signature : TTransactionSignature) (lockless : Bool)
          (writeRecord : TTransactionWriteRecord) (identity : TAuthenticationIdentity),
        HydraLeaderWriteRows env s tm transactionId mountRevision signature lockless
            writeRecord identity = .ok (s1, tm1) →
          InFlightInvariant s → InFlightInvariant s1) ∧
      ∀ s : TState,
        (OnStopLeading s).PrelockedTablets = [] ∧
          SameOn (fun tablet : TTablet =>
            (tablet.InFlightUserMutationCount, tablet.InFlightReplicatorMutationCount))
            s (OnStopLeading s) ∧
          (InFlightInvariant s →
            (InFlightInvariant (OnStopLeading s) ↔
              ∀ id tablet, s.Tablets id = some tablet → s.PinnedCount id = 0)) := by
  refine ⟨fun s hq hzero id tablet h => ?_,
    fun args tabletId tablet lockless signature readerBefore executed hinv =>
      InFlightInvariant_WriteSubmit env args tabletId tablet lockless signature readerBefore
        executed hinv,
    fun s s1 tm tm1 transactionId mountRevision signature lockless writeRecord identity h hinv =>
      InFlightInvariant_HydraLeaderWriteRows env s s1 tm tm1 transactionId mountRevision
        signature lockless writeRecord identity h hinv,
    fun s => ⟨rfl,
      SameOn_OnStopLeading
        (fun tablet : TTablet =>
          (tablet.InFlightUserMutationCount, tablet.InFlightReplicatorMutationCount))
        (fun _ _ => rfl) s,
      fun hinv => ?_⟩⟩
  · obtain ⟨h1, h2⟩ := hzero id tablet h
    simp [TTablet.InFlightMutationCount, TState.PinnedCount, h1, h2, hq]
  · have hsame := SameOn_OnStopLeading TTablet.InFlightMutationCount (fun _ _ => rfl) s
    have hpinned : ∀ id, (OnStopLeading s).PinnedCount id = 0 := fun id => by
      simp [TState.PinnedCount, OnStopLeading]
    constructor
    · intro hafter id tablet h
      have hs := hsame id
      rw [h] at hs
      cases h1 : (OnStopLeading s).Tablets id with
      | none => rw [h1] at hs; simp at hs
      | some tablet1 =>
        rw [h1] at hs
        simp only [Option.map_some', Option.some.injEq] at hs
        rw [← hinv id tablet h, ← hs, hafter id tablet1 h1, hpinned]
    · intro hnone id tablet1 h1
      have hs := hsame id
      rw [h1] at hs
      cases h0 : s.Tablets id with
      | none => rw [h0] at hs; simp at hs
      | some tablet =>
        rw [h0] at hs
        simp only [Option.map_some', Option.some.injEq] at hs
        rw [hs, hinv id tablet h0, hnone id tablet h0, hpinned]

theorem in_flight_counts_match_pinned_queue_witness :
    ∃ s1 tm1 tablet1,
      InFlightInvariant SampleState ∧ SampleState.PinnedCount 7 = 1 ∧
      HydraLeaderWriteRows SampleCollaborators SampleState [SamplePlainTransaction] 2 1 1 true
        SampleRecord SampleIdentity = .ok (s1, tm1) ∧
      InFlightInvariant s1 ∧
      s1.Tablets 7 = some tablet1 ∧ s1.PinnedCount 7 = 0 ∧
      tablet1.InFlightMutationCount = 0 ∧
      ¬ InFlightInvariant (OnStopLeading SampleState) := by
  have hinv : InFlightInvariant SampleState := by
    intro id tablet h
    by_cases hid : id = 7
    · subst hid
      have ht : SampleTablet = tablet := Option.some.inj h
      subst ht
      decide
    · simp [SampleState, hid] at h
  refine ⟨_, _, _, hinv, by decide, rfl,
    (in_flight_counts_match_pinned_queue SampleCollaborators).2.2.1 SampleState _
      [SamplePlainTransaction] _ 2 1 1 true SampleRecord SampleIdentity rfl hinv,
    rfl, by decide, by decide, fun hafter => ?_⟩
  have h := (((in_flight_counts_match_pinned_queue SampleCollaborators).2.2.2
    SampleState).2.2 hinv).1 hafter 7 SampleTablet rfl
  exact absurd h (by decide)

/-- Claim C30. (1) Every call of `Write` that returns normally, on a reader positioned inside
its data, has submitted mutations whose record data, concatenated in submission order, are
the bytes of the reader from its initial position to its end; the reader is left at its end,
and every submitted mutation carries the compressed form of its record data with the codec
used. (2) An iteration of the loop that completes either leaves the reader position and the
list of submitted mutations unchanged, or advances the position and submits exactly one
mutation, whose record data is the slice between the two positions. (3) On the lockless path
(atomicity `None`, or a physically ordered or replicated tablet, or a versioned write) a call
with fuel for one iteration does not run out of fuel, and if it returns normally on an
unfinished reader it has submitted exactly one mutation, flagged lockless, that carries the
whole remaining input with the caller's row count and data weight. -/
theorem write_submits_input_exactly (env : TCollaborators) (s : TState)
    (tm : TTransactionManager) (args : TWriteArgs) (reader : TWireProtocolReader)
    (hcur : reader.Current ≤ reader.Data.length) :
    (∀ fuel l1, Write env fuel s tm args reader = some (.ok l1) →
      l1.Reader.Current = reader.Data.length ∧
        ∃ submitted, l1.State.Mutations = s.Mutations ++ submitted ∧
          RecordData submitted = reader.Data.drop reader.Current ∧
          ∀ m ∈ submitted,
            m.Request.compressed_data =
                env.Compress env.ChangelogCodec m.Handler.WriteRecord.Data ∧
              m.Request.codec = env.ChangelogCodec) ∧
      (∀ l l1 : TWriteLoop, l.Reader.Current ≤ l.Reader.Data.length →
        WriteIteration env args l = .ok l1 →
        (l1.Reader.Current = l.Reader.Current ∧ l1.State.Mutations = l.State.Mutations) ∨
          (l.Reader.Current < l1.Reader.Current ∧
            ∃ m, l1.State.Mutations = l.State.Mutations ++ [m] ∧
              m.Handler.WriteRecord.Data =
                l.Reader.Slice l.Reader.Current l1.Reader.Current)) ∧
      ∀ tablet, s.Tablets args.TabletSnapshot.TabletId = some tablet →
        IsLockless env args tablet = true →
        (∀ fuel, Write env (fuel + 1) s tm args reader ≠ none) ∧
          ∀ fuel l1, reader.Current < reader.Data.length →
            Write env fuel s tm args reader = some (.ok l1) →
            ∃ m, l1.State.Mutations = s.Mutations ++ [m] ∧
              m.Handler.WriteRecord.Data = reader.Data.drop reader.Current ∧
              m.Handler.WriteRecord.RowCount = args.RowCount ∧
              m.Handler.WriteRecord.DataWeight = args.DataWeight ∧
              m.Request.row_count = args.RowCount ∧
              m.Request.data_weight = args.DataWeight ∧
              m.Handler.Lockless = true ∧ m.Request.lockless = true := by
  refine ⟨fun fuel l1 h => ?_, fun l l1 hc h => ?_,
    fun tablet hs hl => ⟨fun fuel => ?_, fun fuel l1 hlt h => ?_⟩⟩
  · obtain ⟨_, _, hloop⟩ := Write_loop env fuel s tm args reader l1 h
    obtain ⟨_, hend, submitted, hm, hrec, hall⟩ := WriteLoop_data env args fuel _ l1 hcur hloop
    exact ⟨hend, submitted, hm, hrec, hall⟩
  · obtain ⟨tabletId, tablet, _, _, hwps⟩ := WriteIteration_data env args l l1 h
    obtain ⟨_, _, _, _, hstep⟩ :=
      WritePrelockAndSubmit_data env args l l1 tabletId tablet hc hwps
    rcases hstep with hsame | ⟨hlt, m, hm, hslice, _⟩
    · exact Or.inl hsame
    · exact Or.inr ⟨hlt, m, hm, hslice⟩
  · have htotal := (WriteLoop_lockless env args fuel
      { State := s, Transactions := tm, Reader := reader,
        Tablet := some args.TabletSnapshot.TabletId }
      args.TabletSnapshot.TabletId tablet hcur rfl hs hl).1
    unfold Write
    simp only []
    split
    · simp
    · cases ha : ActualizeTablet s args.TabletSnapshot none with
      | error e => simp
      | ok tabletId =>
        have hid : tabletId = args.TabletSnapshot.TabletId := by
          simp only [ActualizeTablet, TState.GetTabletOrThrow, hs] at ha
          split at ha
          · exact absurd ha (by simp)
          · split at ha
            · exact absurd ha (by simp)
            · simp only [Except.ok.injEq] at ha
              exact ha.symm
        subst hid
        simp only []
        split
        · simp
        · exact htotal
  · obtain ⟨_, _, hloop⟩ := Write_loop env fuel s tm args reader l1 h
    cases fuel with
    | zero =>
      simp only [WriteLoop] at hloop
      split at hloop
      · rename_i hfin
        simp only [TWireProtocolReader.IsFinished, beq_iff_eq] at hfin
        omega
      · exact absurd hloop (by simp)
    | succ fuel =>
      exact (WriteLoop_lockless env args fuel
        { State := s, Transactions := tm, Reader := reader,
          Tablet := some args.TabletSnapshot.TabletId }
        args.TabletSnapshot.TabletId tablet hcur rfl hs hl).2 l1 hlt hloop

theorem write_submits_input_exactly_witness :
    ∃ l1,
      Write SamplePrelockingCollaborators 1 SampleIdleState [] SampleWriteArgs
        { Data := [1, 2, 3], Current := 0 } = some (.ok l1) ∧
      l1.Reader.Current = 3 ∧
      ∃ submitted, l1.State.Mutations = SampleIdleState.Mutations ++ submitted ∧
        RecordData submitted = [1, 2, 3] := by
  obtain ⟨hend, submitted, hm, hrec, _⟩ :=
    (write_submits_input_exactly SamplePrelockingCollaborators SampleIdleState []
      SampleWriteArgs { Data := [1, 2, 3], Current := 0 } (by decide)).1 1 _ rfl
  exact ⟨_, rfl, hend, submitted, hm, hrec⟩


end NTabletNode
